import Mathlib

/-!
Brotli encoder primitives: block splitter (distance alphabet) and hashers H4, H5, H10

A shallow embedding of `block_splitter_distance.go`, `h4.go`, `h5.go` and `h10.go`.

Conventions of the embedding

* Go's `uint` is 64 bits wide.  Machine integers are natural numbers; a conversion or an
  operation that can wrap is written with an explicit `% 2 ^ w` (`u8`, `u16`, `u32`, `u64`,
  `usub`).
* A slice handed in by the caller and only read (`data`, `block_ids`, `distance_cache`) is a
  total map from index to value: the caller owns its bounds.  Where the code slices `data` at
  a computed position (`data[pos:]` in the seeding and the sampling of the block splitter), the
  length `data_len` of the slice is a parameter, and a slice expression or a read outside the
  slice ends the run.
* An array the code allocates and indexes with computed values is a `List`; an access outside
  it, like a failed `assert`, ends the run: the function returns `none`.
* The hash tables of the hashers (`buckets_`, `num`, `buckets`, `forest`) are total maps from
  slot to value; the claims about slot ranges are stated on the computed indices.
* Floating point costs are values of an abstract type `κ` whose operations are collaborators.
-/

namespace Brotli

/-! ## Machine integers -/

/-- Conversion to `byte`. -/
def u8 (n : Nat) : Nat := n % 2 ^ 8

/-- Conversion to `uint16`. -/
def u16 (n : Nat) : Nat := n % 2 ^ 16

/-- Conversion to `uint32`. -/
def u32 (n : Nat) : Nat := n % 2 ^ 32

/-- Conversion to `uint` (64 bits). -/
def u64 (n : Nat) : Nat := n % 2 ^ 64

/-- Subtraction `a - b` on `uint`: it wraps around below zero. -/
def usub (a b : Nat) : Nat := (a % 2 ^ 64 + (2 ^ 64 - b % 2 ^ 64)) % 2 ^ 64

/-! ## Loops and arrays -/

/-- The loop `for i = lo; i < lo + n; i++ { body }` over a state `s`; a failing body ends it. -/
def forLoop {σ : Type} (body : Nat → σ → Option σ) : Nat → Nat → σ → Option σ
  | _, 0, s => some s
  | i, n + 1, s => (body i s).bind (forLoop body (i + 1) n)

/-- The assignment `xs[i] = v`, failing outside the array. -/
def setAt {α : Type} (xs : List α) (i : Nat) (v : α) : Option (List α) :=
  if i < xs.length then some (xs.set i v) else none

/-- The statement `assert(c)`. -/
def assert (c : Bool) : Option Unit := if c then some () else none

/-! ## Constants of the Brotli reference encoder -/

/-- Modelled from the spec: `HISTOGRAMS_PER_BATCH` is not declared in the sources; the value
of the Brotli reference encoder. -/
def HISTOGRAMS_PER_BATCH : Nat := 64

/-- Modelled from the spec: `CLUSTERS_PER_BATCH` is not declared in the sources; the value of
the Brotli reference encoder. -/
def CLUSTERS_PER_BATCH : Nat := 16

/-- Modelled from the spec: `BROTLI_MAX_NUMBER_OF_BLOCK_TYPES` is not declared in the sources;
the value of the Brotli reference encoder. -/
def BROTLI_MAX_NUMBER_OF_BLOCK_TYPES : Nat := 256

/-- Modelled from the spec: `kMinLengthForBlockSplitting` is not declared in the sources; the
value of the Brotli reference encoder. -/
def kMinLengthForBlockSplitting : Nat := 128

/-- Modelled from the spec: `kIterMulForRefining` is not declared in the sources; the value of
the Brotli reference encoder. -/
def kIterMulForRefining : Nat := 2

/-- Modelled from the spec: `kMinItersForRefining` is not declared in the sources; the value
of the Brotli reference encoder. -/
def kMinItersForRefining : Nat := 100

/-- Modelled from the spec: `HQ_ZOPFLIFICATION_QUALITY` is not declared in the sources; the
value of the Brotli reference encoder. -/
def HQ_ZOPFLIFICATION_QUALITY : Nat := 11

/-- Modelled from the spec: `BROTLI_UINT32_MAX` is not declared in the sources. -/
def BROTLI_UINT32_MAX : Nat := 2 ^ 32 - 1

/-! ## Histograms -/

/-- Modelled from the spec: the type `HistogramDistance` is not declared in the sources.  A
histogram is a tally of counters per symbol, a `total_count_` and a cached `bit_cost_`. -/
structure HistogramDistance (κ : Type) where
  data_ : Nat → Nat
  total_count_ : Nat
  bit_cost_ : κ

/-- Modelled from the spec: `HistogramClearDistance` is not among the sources: "zero all
counters and totals"; the cached cost is reset to the collaborator's initial value. -/
def HistogramClearDistance {κ : Type} (huge : κ) : HistogramDistance κ :=
  { data_ := fun _ => 0, total_count_ := 0, bit_cost_ := huge }

/-- Modelled from the spec: `HistogramAddDistance` is not among the sources:
"`counter[s] += 1; total += 1`". -/
def HistogramAddDistance {κ : Type} (h : HistogramDistance κ) (s : Nat) : HistogramDistance κ :=
  { h with data_ := fun t => if t = s then h.data_ t + 1 else h.data_ t,
           total_count_ := h.total_count_ + 1 }

/-- Modelled from the spec: `HistogramAddVectorDistance` is not among the sources: the bulk
version of `HistogramAddDistance`, adding `p[0 .. n)`. -/
def HistogramAddVectorDistance {κ : Type} (h : HistogramDistance κ) (p : Nat → Nat) :
    Nat → HistogramDistance κ
  | 0 => h
  | n + 1 => HistogramAddDistance (HistogramAddVectorDistance h p n) (p n)

/-- Modelled from the spec: `HistogramAddHistogramDistance` is not among the sources:
"elementwise sum; totals sum". -/
def HistogramAddHistogramDistance {κ : Type} (dst src : HistogramDistance κ) :
    HistogramDistance κ :=
  { dst with data_ := fun t => dst.data_ t + src.data_ t,
             total_count_ := dst.total_count_ + src.total_count_ }

/-! ## Block splits -/

/-- The record `BlockSplit`.  `types_alloc_size` and `lengths_alloc_size` are the lengths of
the two lists. -/
structure BlockSplit where
  num_types : Nat
  num_blocks : Nat
  types : List Nat
  lengths : List Nat
deriving DecidableEq, Repr

/-- The loop `for new_size < r { new_size *= 2 }`, run for at most `fuel` rounds. -/
def doubleUntil (r : Nat) : Nat → Nat → Nat
  | 0, n => n
  | fuel + 1, n => if n < r then doubleUntil r fuel (2 * n) else n

/-- Modelled from the spec: `brotli_ensure_capacity_uint8_t` and
`brotli_ensure_capacity_uint32_t` are not among the sources.  An array of fewer than `r`
entries is replaced by one of its size doubled until it holds `r` (of `r` entries when it was
empty); the old entries are copied, the new ones are zero. -/
def brotli_ensure_capacity (a : List Nat) (r : Nat) : List Nat :=
  if a.length < r then
    a ++ List.replicate
      ((if a.length = 0 then r else doubleUntil r r a.length) - a.length) 0
  else a

/-! ## Collaborators of the block splitter -/

/-- What `BrotliHistogramCombineDistance` leaves behind: the four arrays it rewrites in place
and the number of clusters it returns. -/
structure CombineResult (κ : Type) where
  out : List (HistogramDistance κ)
  cluster_size : List Nat
  symbols : List Nat
  clusters : List Nat
  ret : Nat

/-- The collaborators of `ClusterBlocksDistance`, none of them among the sources.  Costs are
values of `κ`; `lt` is the comparison `<` of two costs, `zero` the cost `0` of a fresh record
and `huge` the cost a cleared histogram carries.  `BrotliHistogramCombineDistance` receives
`out, cluster_size, symbols, clusters, num_clusters, symbol_size, max_clusters,
max_num_pairs`; its scratch array `pairs` carries nothing between calls. -/
structure ClusterCollab (κ : Type) where
  zero : κ
  huge : κ
  lt : κ → κ → Bool
  BrotliPopulationCostDistance : HistogramDistance κ → κ
  BrotliHistogramBitCostDistanceDistance : HistogramDistance κ → HistogramDistance κ → κ
  BrotliHistogramCombineDistance : List (HistogramDistance κ) → List Nat → List Nat →
    List Nat → Nat → Nat → Nat → Nat → CombineResult κ

/-! ## `ClusterBlocksDistance` -/

/-- `ClusterBlocksDistance_kInvalidIndex`. -/
def ClusterBlocksDistance_kInvalidIndex : Nat := BROTLI_UINT32_MAX

/-- The body of the loop of lines 219-225 on `(block_lengths, block_idx)`. -/
def countBlockLengthsStep (block_ids : Nat → Nat) (length num_blocks : Nat) (i : Nat)
    (st : List Nat × Nat) : Option (List Nat × Nat) :=
  if st.2 < num_blocks then
    match st.1[st.2]? with
    | none => none
    | some v =>
      some (st.1.set st.2 (u32 (v + 1)),
        if i + 1 = length ∨ block_ids i ≠ block_ids (i + 1) then st.2 + 1 else st.2)
  else none

/-- Lines 214-228: the lengths of the runs of `block_ids`, with both assertions. -/
def countBlockLengths (block_ids : Nat → Nat) (length num_blocks : Nat) : Option (List Nat) :=
  (forLoop (countBlockLengthsStep block_ids length num_blocks) 0 length
    (List.replicate num_blocks 0, 0)).bind
    fun st => if st.2 = num_blocks then some st.1 else none

/-- The histogram of `data[pos .. pos + n)`: `HistogramClearDistance` followed by the loop
that adds `data[pos]` and advances `pos`, `n` times. -/
def histogramOfRun {κ : Type} (huge : κ) (data : Nat → Nat) (pos n : Nat) :
    HistogramDistance κ :=
  HistogramAddVectorDistance (HistogramClearDistance huge) (fun k => data (pos + k)) n

/-- The local arrays and counters of `ClusterBlocksDistance` that the batch loop updates. -/
structure ClusterState (κ : Type) where
  histograms : List (HistogramDistance κ)
  sizes : List Nat
  new_clusters : List Nat
  symbols : List Nat
  remap : List Nat
  all_histograms : List (HistogramDistance κ)
  all_histograms_size : Nat
  cluster_size : List Nat
  cluster_size_size : Nat
  histogram_symbols : List Nat
  num_clusters : Nat
  pos : Nat

/-- Lines 234-246: block `i + j` of the batch becomes histogram `j`, a cluster of its own. -/
def batchFillStep {κ : Type} (C : ClusterCollab κ) (data : Nat → Nat)
    (block_lengths : List Nat) (i j : Nat) (s : ClusterState κ) : Option (ClusterState κ) :=
  (block_lengths[i + j]?).bind fun len =>
  let h0 : HistogramDistance κ := histogramOfRun C.huge data s.pos len
  (setAt s.histograms j { h0 with bit_cost_ := C.BrotliPopulationCostDistance h0 }).bind
    fun histograms =>
  (setAt s.new_clusters j (u32 j)).bind fun new_clusters =>
  (setAt s.symbols j (u32 j)).bind fun symbols =>
  (setAt s.sizes j 1).bind fun sizes =>
  some { s with histograms := histograms, new_clusters := new_clusters, symbols := symbols,
                sizes := sizes, pos := s.pos + len }

/-- Lines 249-267: `all_histograms` grown to hold `need` entries. -/
def growHistograms {κ : Type} (zero : κ) (a : List (HistogramDistance κ)) (need : Nat) :
    List (HistogramDistance κ) :=
  if a.length < need then
    a ++ List.replicate
      ((if a.length = 0 then need else doubleUntil need need a.length) - a.length)
      { data_ := fun _ => 0, total_count_ := 0, bit_cost_ := zero }
  else a

/-- Lines 270-276: cluster `j` of the batch is appended to the pool. -/
def batchAppendStep {κ : Type} (j : Nat) (s : ClusterState κ) : Option (ClusterState κ) :=
  (s.new_clusters[j]?).bind fun c =>
  (s.histograms[c]?).bind fun h =>
  (setAt s.all_histograms s.all_histograms_size h).bind fun all_histograms =>
  (s.sizes[c]?).bind fun sz =>
  (setAt s.cluster_size s.cluster_size_size sz).bind fun cluster_size =>
  (setAt s.remap c (u32 j)).bind fun remap =>
  some { s with all_histograms := all_histograms,
                all_histograms_size := s.all_histograms_size + 1,
                cluster_size := cluster_size,
                cluster_size_size := s.cluster_size_size + 1,
                remap := remap }

/-- Lines 278-280: the symbol of block `i + j` in the numbering of the pool. -/
def batchSymbolStep {κ : Type} (i j : Nat) (s : ClusterState κ) : Option (ClusterState κ) :=
  (s.symbols[j]?).bind fun sy =>
  (s.remap[sy]?).bind fun r =>
  (setAt s.histogram_symbols (i + j) (u32 (u32 s.num_clusters + r))).bind fun hs =>
  some { s with histogram_symbols := hs }

/-- Lines 231-284: the batch that starts at block `i = HISTOGRAMS_PER_BATCH * b`. -/
def batchStep {κ : Type} (C : ClusterCollab κ) (data : Nat → Nat) (block_lengths : List Nat)
    (num_blocks max_num_pairs : Nat) (b : Nat) (s : ClusterState κ) :
    Option (ClusterState κ) :=
  let i := HISTOGRAMS_PER_BATCH * b
  let num_to_combine := min (num_blocks - i) HISTOGRAMS_PER_BATCH
  (forLoop (batchFillStep C data block_lengths i) 0 num_to_combine s).bind fun s1 =>
  let r := C.BrotliHistogramCombineDistance s1.histograms s1.sizes s1.symbols s1.new_clusters
    num_to_combine num_to_combine HISTOGRAMS_PER_BATCH max_num_pairs
  let num_new_clusters := r.ret
  let s2 : ClusterState κ :=
    { s1 with histograms := r.out, sizes := r.cluster_size, symbols := r.symbols,
              new_clusters := r.clusters,
              all_histograms :=
                growHistograms C.zero s1.all_histograms (s1.all_histograms_size + r.ret),
              cluster_size :=
                brotli_ensure_capacity s1.cluster_size (s1.cluster_size_size + r.ret) }
  (forLoop batchAppendStep 0 num_new_clusters s2).bind fun s3 =>
  (forLoop (batchSymbolStep i) 0 num_to_combine s3).bind fun s4 =>
  let s5 : ClusterState κ := { s4 with num_clusters := s4.num_clusters + num_new_clusters }
  (assert (s5.num_clusters = s5.cluster_size_size)).bind fun _ =>
  (assert (s5.num_clusters = s5.all_histograms_size)).bind fun _ =>
  some s5

/-- What the loop of lines 311-341 updates. -/
structure RefineState where
  histogram_symbols : List Nat
  new_index : List Nat
  next_index : Nat
  pos : Nat

/-- Lines 328-334: candidate `j` of the final clusters against the best so far. -/
def refineCandidateStep {κ : Type} (C : ClusterCollab κ) (histo : HistogramDistance κ)
    (all_histograms : List (HistogramDistance κ)) (clusters : List Nat) (j : Nat)
    (best : Nat × κ) : Option (Nat × κ) :=
  (clusters[j]?).bind fun c =>
  (all_histograms[c]?).bind fun hc =>
  let cur_bits := C.BrotliHistogramBitCostDistanceDistance histo hc
  some (if C.lt cur_bits best.2 then (c, cur_bits) else best)

/-- Lines 312-340: block `i` is given the cheapest cluster, which is numbered on its first
use. -/
def refineStep {κ : Type} (C : ClusterCollab κ) (data : Nat → Nat) (block_lengths : List Nat)
    (all_histograms : List (HistogramDistance κ)) (clusters : List Nat)
    (num_final_clusters : Nat) (i : Nat) (s : RefineState) : Option RefineState :=
  (block_lengths[i]?).bind fun len =>
  let histo : HistogramDistance κ := histogramOfRun C.huge data s.pos len
  (s.histogram_symbols[if i = 0 then 0 else i - 1]?).bind fun best_out0 =>
  (all_histograms[best_out0]?).bind fun h0 =>
  (forLoop (refineCandidateStep C histo all_histograms clusters) 0 num_final_clusters
    (best_out0, C.BrotliHistogramBitCostDistanceDistance histo h0)).bind fun best =>
  let best_out := best.1
  (setAt s.histogram_symbols i best_out).bind fun hs =>
  (s.new_index[best_out]?).bind fun ni =>
  if ni = ClusterBlocksDistance_kInvalidIndex then
    (setAt s.new_index best_out s.next_index).bind fun new_index =>
    some { histogram_symbols := hs, new_index := new_index,
           next_index := u32 (s.next_index + 1), pos := s.pos + len }
  else
    some { histogram_symbols := hs, new_index := s.new_index,
           next_index := s.next_index, pos := s.pos + len }

/-- What the loop of lines 352-362 updates. -/
structure EmitState where
  types : List Nat
  lengths : List Nat
  cur_length : Nat
  block_idx : Nat
  max_type : Nat

/-- Lines 353-361: block `i` joins the current run, which is written out when it ends. -/
def emitStep (num_blocks : Nat) (block_lengths histogram_symbols new_index : List Nat)
    (i : Nat) (s : EmitState) : Option EmitState :=
  (block_lengths[i]?).bind fun bl =>
  let cur_length := u32 (s.cur_length + bl)
  (histogram_symbols[i]?).bind fun hi =>
  (if i + 1 = num_blocks then some true
    else (histogram_symbols[i + 1]?).map fun hn => decide (hi ≠ hn)).bind fun boundary =>
  if boundary then
    (new_index[hi]?).bind fun ni =>
    let id := u8 ni
    (setAt s.types s.block_idx id).bind fun types =>
    (setAt s.lengths s.block_idx cur_length).bind fun lengths =>
    some { types := types, lengths := lengths, cur_length := 0,
           block_idx := s.block_idx + 1, max_type := max s.max_type id }
  else
    some { s with cur_length := cur_length }

/-- Lines 191-300 of `ClusterBlocksDistance`: the lengths of the blocks, the number of
clusters of the pool after the batches, and the answer of the second
`BrotliHistogramCombineDistance`, which is handed the pool. -/
def clusterBlocksCombined {κ : Type} (C : ClusterCollab κ) (data : Nat → Nat) (length : Nat)
    (num_blocks : Nat) (block_ids : Nat → Nat) : Option (List Nat × Nat × CombineResult κ) :=
  let expected_num_clusters :=
    CLUSTERS_PER_BATCH * (num_blocks + HISTOGRAMS_PER_BATCH - 1) / HISTOGRAMS_PER_BATCH
  let zeroH : HistogramDistance κ := { data_ := fun _ => 0, total_count_ := 0, bit_cost_ := C.zero }
  let max_num_pairs := HISTOGRAMS_PER_BATCH * HISTOGRAMS_PER_BATCH / 2
  (countBlockLengths block_ids length num_blocks).bind fun block_lengths =>
  let s0 : ClusterState κ :=
    { histograms := List.replicate (min num_blocks HISTOGRAMS_PER_BATCH) zeroH,
      sizes := List.replicate HISTOGRAMS_PER_BATCH 0,
      new_clusters := List.replicate HISTOGRAMS_PER_BATCH 0,
      symbols := List.replicate HISTOGRAMS_PER_BATCH 0,
      remap := List.replicate HISTOGRAMS_PER_BATCH 0,
      all_histograms := List.replicate expected_num_clusters zeroH,
      all_histograms_size := 0,
      cluster_size := List.replicate expected_num_clusters 0,
      cluster_size_size := 0,
      histogram_symbols := List.replicate num_blocks 0,
      num_clusters := 0,
      pos := 0 }
  (forLoop (batchStep C data block_lengths num_blocks max_num_pairs) 0
    ((num_blocks + HISTOGRAMS_PER_BATCH - 1) / HISTOGRAMS_PER_BATCH) s0).bind fun s =>
  let num_clusters := s.num_clusters
  let max_num_pairs2 := min (64 * num_clusters) ((num_clusters / 2) * num_clusters)
  some (block_lengths, num_clusters,
    C.BrotliHistogramCombineDistance s.all_histograms s.cluster_size
      s.histogram_symbols ((List.range num_clusters).map u32) num_clusters num_blocks
      BROTLI_MAX_NUMBER_OF_BLOCK_TYPES max_num_pairs2)

/-- Lines 191-341 of `ClusterBlocksDistance`: the lengths of the blocks and the arrays after
the loop of lines 311-341, which holds the final assignment of the blocks to clusters in
`histogram_symbols[0 .. num_blocks)` and the renumbering `new_index`. -/
def clusterBlocksAssigned {κ : Type} (C : ClusterCollab κ) (data : Nat → Nat) (length : Nat)
    (num_blocks : Nat) (block_ids : Nat → Nat) : Option (List Nat × RefineState) :=
  (clusterBlocksCombined C data length num_blocks block_ids).bind fun p =>
  let block_lengths := p.1
  let num_clusters := p.2.1
  let r := p.2.2
  let num_final_clusters := r.ret
  (forLoop (refineStep C data block_lengths r.out r.clusters num_final_clusters) 0 num_blocks
    { histogram_symbols := r.symbols,
      new_index := List.replicate num_clusters ClusterBlocksDistance_kInvalidIndex,
      next_index := 0, pos := 0 }).bind fun rs =>
  some (block_lengths, rs)

/-- The function `ClusterBlocksDistance`; the result is the `BlockSplit` it leaves in
`split`. -/
def ClusterBlocksDistance {κ : Type} (C : ClusterCollab κ) (data : Nat → Nat) (length : Nat)
    (num_blocks : Nat) (block_ids : Nat → Nat) (split : BlockSplit) : Option BlockSplit :=
  (clusterBlocksAssigned C data length num_blocks block_ids).bind fun p =>
  let block_lengths := p.1
  let rs := p.2
  (forLoop (emitStep num_blocks block_lengths rs.histogram_symbols rs.new_index) 0 num_blocks
    { types := brotli_ensure_capacity split.types num_blocks,
      lengths := brotli_ensure_capacity split.lengths num_blocks,
      cur_length := 0, block_idx := 0, max_type := 0 }).bind fun es =>
  some { num_types := es.max_type + 1, num_blocks := es.block_idx,
         types := es.types, lengths := es.lengths }

/-- What the second `BrotliHistogramCombineDistance` of `ClusterBlocksDistance` answers
(line 300): the number of final clusters, the array `clusters` and the array
`histogram_symbols`. -/
def finalCombineDistance {κ : Type} (C : ClusterCollab κ) (data : Nat → Nat) (length : Nat)
    (num_blocks : Nat) (block_ids : Nat → Nat) : Option (Nat × List Nat × List Nat) :=
  (clusterBlocksCombined C data length num_blocks block_ids).map fun p =>
    (p.2.2.ret, p.2.2.clusters, p.2.2.symbols)

/-- The final assignment of `ClusterBlocksDistance`: the cluster of each of the `num_blocks`
blocks, `histogram_symbols[0 .. num_blocks)` after the loop of lines 311-341. -/
def finalAssignmentDistance {κ : Type} (C : ClusterCollab κ) (data : Nat → Nat) (length : Nat)
    (num_blocks : Nat) (block_ids : Nat → Nat) : Option (List Nat) :=
  (clusterBlocksAssigned C data length num_blocks block_ids).map fun p =>
    p.2.histogram_symbols.take num_blocks

/-! ## The entropy codes and the block ids -/

/-- The collaborators of `SplitByteVectorDistance` beyond those of `ClusterBlocksDistance`,
none of them among the sources: the arithmetic of `float64` (`add`, `sub`, `mul`, `div`, the
comparison `ge` for `>=`, the conversion `ofNat` and the literals `1e99`, `0.77`, `0.07` and
`2000`), `FastLog2`, `BitCost`, the generator `MyRand`, which maps the seed to the new seed it
also returns, and `HistogramDataSizeDistance`. -/
structure SplitCollab (κ : Type) extends ClusterCollab κ where
  add : κ → κ → κ
  sub : κ → κ → κ
  mul : κ → κ → κ
  div : κ → κ → κ
  ge : κ → κ → Bool
  ofNat : Nat → κ
  c1e99 : κ
  c0_77 : κ
  c0_07 : κ
  c2000 : κ
  FastLog2 : Nat → κ
  BitCost : Nat → κ
  MyRand : Nat → Nat
  HistogramDataSizeDistance : Nat

/-- The remainder `a % b` of Go, which fails on `b = 0`. -/
def umod (a b : Nat) : Option Nat := if b = 0 then none else some (a % b)

/-- The quotient `a / b` of Go, which fails on `b = 0`. -/
def udiv (a b : Nat) : Option Nat := if b = 0 then none else some (a / b)

/-- Modelled from the spec: `ClearHistogramsDistance` is not among the sources: the first `n`
histograms of the array are cleared. -/
def ClearHistogramsDistance {κ : Type} (huge : κ) (histograms : List (HistogramDistance κ))
    (n : Nat) : Option (List (HistogramDistance κ)) :=
  forLoop (fun i hs => setAt hs i (HistogramClearDistance huge)) 0 n histograms

/-- Lines 15-22: the position at which histogram `i` samples, and the seed afterwards. -/
def initialEntropyPos {κ : Type} (C : SplitCollab κ) (length stride num_histograms : Nat)
    (block_length : Nat) (i seed : Nat) : Option (Nat × Nat) :=
  (udiv (u64 (length * i)) num_histograms).bind fun pos0 =>
  (if i ≠ 0 then
      (umod (C.MyRand seed) (u32 block_length)).bind fun r =>
        some (u64 (pos0 + r), C.MyRand seed)
    else some (pos0, seed)).bind fun ps =>
  some (if u64 (ps.1 + stride) ≥ length then usub (usub length stride) 1 else ps.1, ps.2)

/-- The function `InitialEntropyCodesDistance`; `data_len` is `len(data)` and the result is
the array `histograms`.  The slice expression `data[pos:]` fails for `pos > len(data)`, and
`HistogramAddVectorDistance` reads the `stride` symbols `data[pos .. pos + stride)` of it, which
fails outside the slice: the call goes through when `pos + stride <= len(data)`. -/
def InitialEntropyCodesDistance {κ : Type} (C : SplitCollab κ) (data : Nat → Nat)
    (data_len : Nat) (length stride num_histograms : Nat)
    (histograms : List (HistogramDistance κ)) :
    Option (List (HistogramDistance κ)) :=
  (udiv length num_histograms).bind fun block_length =>
  (ClearHistogramsDistance C.huge histograms num_histograms).bind fun hs0 =>
  (forLoop (fun i (st : Nat × List (HistogramDistance κ)) =>
      (initialEntropyPos C length stride num_histograms block_length i st.1).bind fun ps =>
      (st.2[i]?).bind fun h =>
      if ps.1 + stride ≤ data_len then
        (setAt st.2 i (HistogramAddVectorDistance h (fun k => data (ps.1 + k)) stride)).bind
          fun hs => some (ps.2, hs)
      else none)
    0 num_histograms (7, hs0)).bind fun st => some st.2

/-- The function `RandomSampleDistance`; `data_len` is `len(data)` and the result is the new
seed and the sample.  The symbols read are `data[pos .. pos + stride)`, with the slice
expression `data[pos:]` as in `InitialEntropyCodesDistance`. -/
def RandomSampleDistance {κ : Type} (C : SplitCollab κ) (seed : Nat) (data : Nat → Nat)
    (data_len : Nat) (length stride : Nat) (sample : HistogramDistance κ) :
    Option (Nat × HistogramDistance κ) :=
  if stride ≥ length then
    if 0 + length ≤ data_len then
      some (seed, HistogramAddVectorDistance sample (fun k => data (0 + k)) length)
    else none
  else
    (umod (C.MyRand seed) (u32 (length - stride + 1))).bind fun pos =>
    if pos + stride ≤ data_len then
      some (C.MyRand seed, HistogramAddVectorDistance sample (fun k => data (pos + k)) stride)
    else none

/-- The function `RefineEntropyCodesDistance`; `data_len` is `len(data)` and the result is the
array `histograms`. -/
def RefineEntropyCodesDistance {κ : Type} (C : SplitCollab κ) (data : Nat → Nat)
    (data_len : Nat) (length stride num_histograms : Nat)
    (histograms : List (HistogramDistance κ)) :
    Option (List (HistogramDistance κ)) :=
  (udiv (u64 (kIterMulForRefining * length)) stride).bind fun q =>
  let iters0 := u64 (q + kMinItersForRefining)
  (udiv (usub (u64 (iters0 + num_histograms)) 1) num_histograms).bind fun q2 =>
  let iters := u64 (q2 * num_histograms)
  (forLoop (fun iter (st : Nat × List (HistogramDistance κ)) =>
      (RandomSampleDistance C st.1 data data_len length stride
        (HistogramClearDistance C.huge)).bind fun ss =>
      (st.2[iter % num_histograms]?).bind fun h =>
      (setAt st.2 (iter % num_histograms) (HistogramAddHistogramDistance h ss.2)).bind
        fun hs => some (ss.1, hs))
    0 iters (7, histograms)).bind fun st => some st.2

/-- The working arrays `FindBlocksDistance` is handed and rewrites. -/
structure FindBlocksState (κ : Type) where
  insert_cost : List κ
  cost : List κ
  switch_signal : List Nat
  block_id : List Nat

/-- Lines 77-82: row `i` of the insert costs. -/
def insertCostRow {κ : Type} (C : SplitCollab κ) (num_histograms : Nat)
    (histograms : List (HistogramDistance κ)) (i : Nat) (insert_cost : List κ) :
    Option (List κ) :=
  forLoop (fun j ic =>
      (ic[j]?).bind fun base =>
      (histograms[j]?).bind fun h =>
      setAt ic (i * num_histograms + j) (C.sub base (C.BitCost (h.data_ i))))
    0 num_histograms insert_cost

/-- Lines 104-112: the costs of coding `data[byte_ix]` with each entropy code, on
`(cost, min_cost, block_id)`. -/
def findBlocksAddStep {κ : Type} (C : SplitCollab κ) (insert_cost : List κ)
    (insert_cost_ix byte_ix : Nat) (k : Nat) (st : List κ × κ × List Nat) :
    Option (List κ × κ × List Nat) :=
  (st.1[k]?).bind fun ck =>
  (insert_cost[insert_cost_ix + k]?).bind fun ic =>
  let ck1 := C.add ck ic
  (setAt st.1 k ck1).bind fun cost =>
  if C.lt ck1 st.2.1 then
    (setAt st.2.2 byte_ix (u8 k)).bind fun block_id => some (cost, ck1, block_id)
  else some (cost, st.2.1, st.2.2)

/-- Lines 119-128: the costs are normalised and capped, on `(cost, switch_signal)`. -/
def findBlocksCapStep {κ : Type} (C : SplitCollab κ) (min_cost block_switch_cost : κ)
    (ix bitmaplen : Nat) (k : Nat) (st : List κ × List Nat) : Option (List κ × List Nat) :=
  (st.1[k]?).bind fun ck =>
  let ck1 := C.sub ck min_cost
  (setAt st.1 k ck1).bind fun cost =>
  if C.ge ck1 block_switch_cost then
    let mask := u8 (1 <<< (k &&& 7))
    (setAt cost k block_switch_cost).bind fun cost2 =>
    (assert (decide (k >>> 3 < bitmaplen))).bind fun _ =>
    (st.2[ix + (k >>> 3)]?).bind fun sw =>
    (setAt st.2 (ix + (k >>> 3)) (sw ||| mask)).bind fun switch_signal =>
    some (cost2, switch_signal)
  else some (cost, st.2)

/-- Lines 97-129: one position of the forward pass. -/
def findBlocksForwardStep {κ : Type} (C : SplitCollab κ) (data : Nat → Nat)
    (block_switch_bitcost : κ) (num_histograms bitmaplen : Nat) (i : Nat)
    (st : FindBlocksState κ) : Option (FindBlocksState κ) :=
  let byte_ix := i
  let ix := byte_ix * bitmaplen
  let insert_cost_ix := data byte_ix * num_histograms
  (forLoop (findBlocksAddStep C st.insert_cost insert_cost_ix byte_ix) 0 num_histograms
    (st.cost, C.c1e99, st.block_id)).bind fun a =>
  let min_cost := a.2.1
  let block_switch_cost :=
    if byte_ix < 2000 then
      C.mul block_switch_bitcost
        (C.add C.c0_77 (C.div (C.mul C.c0_07 (C.ofNat byte_ix)) C.c2000))
    else block_switch_bitcost
  (forLoop (findBlocksCapStep C min_cost block_switch_cost ix bitmaplen) 0 num_histograms
    (a.1, st.switch_signal)).bind fun b =>
  some { insert_cost := st.insert_cost, cost := b.1, switch_signal := b.2, block_id := a.2.2 }

/-- Lines 134-147: one step of the trace back, at `byte_ix` after its decrement, on
`(block_id, cur_id, num_blocks)`. -/
def findBlocksTraceStep (switch_signal : List Nat) (bitmaplen : Nat) (byte_ix : Nat)
    (st : List Nat × Nat × Nat) : Option (List Nat × Nat × Nat) :=
  let cur_id := st.2.1
  let mask := u8 (1 <<< (cur_id &&& 7))
  (assert (decide (cur_id >>> 3 < bitmaplen))).bind fun _ =>
  let ix := byte_ix * bitmaplen
  (switch_signal[ix + (cur_id >>> 3)]?).bind fun sw =>
  (st.1[byte_ix]?).bind fun b =>
  let switched := decide (sw &&& mask ≠ 0) && decide (cur_id ≠ b)
  let cur_id1 := if switched then b else cur_id
  let num_blocks1 := if switched then st.2.2 + 1 else st.2.2
  (setAt st.1 byte_ix cur_id1).bind fun block_id => some (block_id, cur_id1, num_blocks1)

/-- The function `FindBlocksDistance`; the result is the number of blocks it returns and the
working arrays as it leaves them. -/
def FindBlocksDistance {κ : Type} (C : SplitCollab κ) (data : Nat → Nat) (length : Nat)
    (block_switch_bitcost : κ) (num_histograms : Nat)
    (histograms : List (HistogramDistance κ)) (st : FindBlocksState κ) :
    Option (Nat × FindBlocksState κ) :=
  let data_size := C.HistogramDataSizeDistance
  let bitmaplen := (num_histograms + 7) >>> 3
  (assert (decide (num_histograms ≤ 256))).bind fun _ =>
  if num_histograms ≤ 1 then
    (forLoop (fun i bid => setAt bid i 0) 0 length st.block_id).bind fun bid =>
    some (1, { st with block_id := bid })
  else
    (forLoop (fun i ic => setAt ic i C.zero) 0 (data_size * num_histograms)
      st.insert_cost).bind fun ic1 =>
    (forLoop (fun i ic => (histograms[i]?).bind fun h =>
        setAt ic i (C.FastLog2 (u32 h.total_count_))) 0 num_histograms ic1).bind fun ic2 =>
    (forLoop (fun t ic => insertCostRow C num_histograms histograms (data_size - 1 - t) ic)
      0 data_size ic2).bind fun ic3 =>
    (forLoop (fun i c => setAt c i C.zero) 0 num_histograms st.cost).bind fun cost0 =>
    (forLoop (fun i sw => setAt sw i 0) 0 (length * bitmaplen) st.switch_signal).bind
      fun sw0 =>
    (forLoop (findBlocksForwardStep C data block_switch_bitcost num_histograms bitmaplen)
      0 length
      { insert_cost := ic3, cost := cost0, switch_signal := sw0,
        block_id := st.block_id }).bind fun s1 =>
    let byte_ix := usub length 1
    (s1.block_id[byte_ix]?).bind fun cur_id =>
    (forLoop (fun t tr => findBlocksTraceStep s1.switch_signal bitmaplen (byte_ix - 1 - t) tr)
      0 byte_ix (s1.block_id, cur_id, 1)).bind fun tr =>
    some (tr.2.2, { s1 with block_id := tr.1 })

/-- Lines 70-129 of `FindBlocksDistance`, for more than one histogram: the working arrays after
the insert costs, the costs and `switch_signal` are initialised and the forward pass has
processed the first `n` positions. -/
def forwardPassDistance {κ : Type} (C : SplitCollab κ) (data : Nat → Nat) (length : Nat)
    (block_switch_bitcost : κ) (num_histograms : Nat)
    (histograms : List (HistogramDistance κ)) (st : FindBlocksState κ) (n : Nat) :
    Option (FindBlocksState κ) :=
  let data_size := C.HistogramDataSizeDistance
  let bitmaplen := (num_histograms + 7) >>> 3
  (forLoop (fun i ic => setAt ic i C.zero) 0 (data_size * num_histograms)
    st.insert_cost).bind fun ic1 =>
  (forLoop (fun i ic => (histograms[i]?).bind fun h =>
      setAt ic i (C.FastLog2 (u32 h.total_count_))) 0 num_histograms ic1).bind fun ic2 =>
  (forLoop (fun t ic => insertCostRow C num_histograms histograms (data_size - 1 - t) ic)
    0 data_size ic2).bind fun ic3 =>
  (forLoop (fun i c => setAt c i C.zero) 0 num_histograms st.cost).bind fun cost0 =>
  (forLoop (fun i sw => setAt sw i 0) 0 (length * bitmaplen) st.switch_signal).bind
    fun sw0 =>
  forLoop (findBlocksForwardStep C data block_switch_bitcost num_histograms bitmaplen)
    0 n
    { insert_cost := ic3, cost := cost0, switch_signal := sw0, block_id := st.block_id }

/-- `RemapBlockIdsDistance_kInvalidId`. -/
def RemapBlockIdsDistance_kInvalidId : Nat := 256

/-- The function `RemapBlockIdsDistance`; the result is the number of ids it returns and the
arrays `block_ids` and `new_id` as it leaves them. -/
def RemapBlockIdsDistance (block_ids : List Nat) (length : Nat) (new_id : List Nat)
    (num_histograms : Nat) : Option (Nat × List Nat × List Nat) :=
  (forLoop (fun i ni => setAt ni i RemapBlockIdsDistance_kInvalidId) 0 num_histograms
    new_id).bind fun ni0 =>
  (forLoop (fun i (st : List Nat × Nat) =>
      (block_ids[i]?).bind fun b =>
      (assert (decide (b < num_histograms))).bind fun _ =>
      (st.1[b]?).bind fun v =>
      if v = RemapBlockIdsDistance_kInvalidId then
        (setAt st.1 b st.2).bind fun ni => some (ni, u16 (st.2 + 1))
      else some st)
    0 length (ni0, 0)).bind fun st =>
  (forLoop (fun i bids =>
      (bids[i]?).bind fun b =>
      (st.1[b]?).bind fun v =>
      (setAt bids i (u8 v)).bind fun bids1 =>
      (assert (decide (u8 v < num_histograms))).bind fun _ => some bids1)
    0 length block_ids).bind fun bids =>
  (assert (decide (st.2 ≤ num_histograms))).bind fun _ =>
  some (st.2, bids, st.1)

/-- The function `BuildBlockHistogramsDistance`; the result is the array `histograms`. -/
def BuildBlockHistogramsDistance {κ : Type} (huge : κ) (data : Nat → Nat) (length : Nat)
    (block_ids : List Nat) (num_histograms : Nat) (histograms : List (HistogramDistance κ)) :
    Option (List (HistogramDistance κ)) :=
  (ClearHistogramsDistance huge histograms num_histograms).bind fun hs0 =>
  forLoop (fun i hs =>
      (block_ids[i]?).bind fun b =>
      (hs[b]?).bind fun h =>
      setAt hs b (HistogramAddDistance h (data i)))
    0 length hs0

/-- What the loop of lines 417-421 updates. -/
structure SplitLoopState (κ : Type) where
  num_blocks : Nat
  num_histograms : Nat
  histograms : List (HistogramDistance κ)
  work : FindBlocksState κ
  new_id : List Nat

/-- The function `SplitByteVectorDistance`; `data_len` is `len(data)`, `quality` is
`params.quality`, and the result is the `BlockSplit` it leaves in `split`. -/
def SplitByteVectorDistance {κ : Type} (C : SplitCollab κ) (data : Nat → Nat)
    (data_len : Nat) (length : Nat)
    (literals_per_histogram max_histograms sampling_stride_length : Nat)
    (block_switch_cost : κ) (quality : Nat) (split : BlockSplit) : Option BlockSplit :=
  let data_size := C.HistogramDataSizeDistance
  (udiv length literals_per_histogram).bind fun q =>
  let num_histograms := if u64 (q + 1) > max_histograms then max_histograms else u64 (q + 1)
  if length = 0 then
    some { split with num_types := 1 }
  else if length < kMinLengthForBlockSplitting then
    let types := brotli_ensure_capacity split.types (split.num_blocks + 1)
    let lengths := brotli_ensure_capacity split.lengths (split.num_blocks + 1)
    (setAt types split.num_blocks 0).bind fun types1 =>
    (setAt lengths split.num_blocks (u32 length)).bind fun lengths1 =>
    some { num_types := 1, num_blocks := split.num_blocks + 1, types := types1,
           lengths := lengths1 }
  else
    let zeroH : HistogramDistance κ :=
      { data_ := fun _ => 0, total_count_ := 0, bit_cost_ := C.zero }
    (InitialEntropyCodesDistance C data data_len length sampling_stride_length num_histograms
      (List.replicate num_histograms zeroH)).bind fun h1 =>
    (RefineEntropyCodesDistance C data data_len length sampling_stride_length num_histograms
      h1).bind fun h2 =>
    let bitmaplen := (num_histograms + 7) >>> 3
    let iters := if quality < HQ_ZOPFLIFICATION_QUALITY then 3 else 10
    (forLoop (fun _ (s : SplitLoopState κ) =>
        (FindBlocksDistance C data length block_switch_cost s.num_histograms s.histograms
          s.work).bind fun fb =>
        (RemapBlockIdsDistance fb.2.block_id length s.new_id s.num_histograms).bind fun rm =>
        (BuildBlockHistogramsDistance C.huge data length rm.2.1 rm.1 s.histograms).bind
          fun hs =>
        some { num_blocks := fb.1, num_histograms := rm.1, histograms := hs,
               work := { fb.2 with block_id := rm.2.1 }, new_id := rm.2.2 })
      0 iters
      { num_blocks := 0, num_histograms := num_histograms, histograms := h2,
        work := { insert_cost := List.replicate (data_size * num_histograms) C.zero,
                  cost := List.replicate num_histograms C.zero,
                  switch_signal := List.replicate (length * bitmaplen) 0,
                  block_id := List.replicate length 0 },
        new_id := List.replicate num_histograms 0 }).bind fun s =>
    ClusterBlocksDistance C.toClusterCollab data length s.num_blocks
      (fun i => s.work.block_id.getD i 0) split

/-! ## Concrete collaborators for the closed statements -/

/-- A simple instance of the collaborators: costs are natural numbers, every histogram costs
nothing, and `BrotliHistogramCombineDistance` leaves every cluster on its own. -/
def trivialSplitCollab : SplitCollab Nat :=
  { zero := 0, huge := 0, lt := fun a b => decide (a < b),
    BrotliPopulationCostDistance := fun _ => 0,
    BrotliHistogramBitCostDistanceDistance := fun _ _ => 0,
    BrotliHistogramCombineDistance := fun out cs sy cl n _ _ _ => ⟨out, cs, sy, cl, n⟩,
    add := fun a b => a + b, sub := fun a b => a - b, mul := fun a b => a * b,
    div := fun a b => a / b, ge := fun a b => decide (a ≥ b), ofNat := fun n => n,
    c1e99 := 10 ^ 99, c0_77 := 0, c0_07 := 0, c2000 := 2000,
    FastLog2 := fun n => Nat.log2 n, BitCost := fun n => Nat.log2 n,
    MyRand := fun s => u32 (s * 16807), HistogramDataSizeDistance := 544 }

/-! ## Vocabulary of the claims about `ClusterBlocksDistance` -/

/-- The number of block switches among `block_ids[0 .. length)`: the positions
`i < length - 1` with `block_ids[i] != block_ids[i+1]`. -/
def numSwitches (block_ids : Nat → Nat) (length : Nat) : Nat :=
  (List.range (length - 1)).countP (fun i => decide (block_ids i ≠ block_ids (i + 1)))

/-- The number of maximal runs of equal ids among `block_ids[0 .. length)`: none for an empty
input, otherwise one more than the number of block switches. -/
def numRuns (block_ids : Nat → Nat) (length : Nat) : Nat :=
  if length = 0 then 0 else 1 + numSwitches block_ids length

/-- The collaborator `BrotliHistogramCombineDistance` answers in range on what it is handed in
range: called on `num_clusters >= 1` clusters, with arrays that hold the `num_clusters`
clusters and the `symbol_size` symbols, cluster indices `clusters[0 .. num_clusters)` below
`num_clusters` and every symbol of `symbols[0 .. symbol_size)` one of these clusters (as
lines 243-248 and 295-300 hand them over), it keeps the lengths of the four arrays, returns
between `1` and `num_clusters` clusters, every cluster index it returns is below
`num_clusters`, and every symbol of the first `symbol_size` is one of the clusters it
returns. -/
def CombineInRange {κ : Type} (C : ClusterCollab κ) : Prop :=
  ∀ (out : List (HistogramDistance κ)) (cs sy cl : List Nat) (n m mc mp : Nat), 1 ≤ n →
    n ≤ out.length → n ≤ cs.length → m ≤ sy.length → n ≤ cl.length →
    (∀ j c, j < n → cl[j]? = some c → c < n) →
    (∀ j s, j < m → sy[j]? = some s → ∃ k, k < n ∧ cl[k]? = some s) →
    (C.BrotliHistogramCombineDistance out cs sy cl n m mc mp).out.length = out.length ∧
    (C.BrotliHistogramCombineDistance out cs sy cl n m mc mp).cluster_size.length =
      cs.length ∧
    (C.BrotliHistogramCombineDistance out cs sy cl n m mc mp).symbols.length = sy.length ∧
    (C.BrotliHistogramCombineDistance out cs sy cl n m mc mp).clusters.length = cl.length ∧
    1 ≤ (C.BrotliHistogramCombineDistance out cs sy cl n m mc mp).ret ∧
    (C.BrotliHistogramCombineDistance out cs sy cl n m mc mp).ret ≤ n ∧
    (∀ j c, j < (C.BrotliHistogramCombineDistance out cs sy cl n m mc mp).ret →
      (C.BrotliHistogramCombineDistance out cs sy cl n m mc mp).clusters[j]? = some c →
      c < n) ∧
    (∀ j s, j < m →
      (C.BrotliHistogramCombineDistance out cs sy cl n m mc mp).symbols[j]? = some s →
      ∃ k, k < (C.BrotliHistogramCombineDistance out cs sy cl n m mc mp).ret ∧
        (C.BrotliHistogramCombineDistance out cs sy cl n m mc mp).clusters[k]? = some s)

/-- An instance of the collaborators that merges every histogram into cluster `0`. -/
def mergingCollab : ClusterCollab Nat :=
  { zero := 0, huge := 0, lt := fun a b => decide (a < b),
    BrotliPopulationCostDistance := fun _ => 0,
    BrotliHistogramBitCostDistanceDistance := fun _ _ => 0,
    BrotliHistogramCombineDistance := fun out cs sy cl _ _ _ _ =>
      ⟨out, cs, sy.map (fun _ => 0), cl.map (fun _ => 0), 1⟩ }

/-! ## Invariants of the loops of `ClusterBlocksDistance` -/

/-- The shape of the local arrays between two batches: the batch arrays hold
`HISTOGRAMS_PER_BATCH` entries, the pool holds at least `num_clusters` entries, and the
three counters of the pool agree. -/
def BatchInv {κ : Type} (nb : Nat) (s : ClusterState κ) : Prop :=
  s.histograms.length = min nb 64 ∧ s.sizes.length = 64 ∧ s.new_clusters.length = 64 ∧
  s.symbols.length = 64 ∧ s.remap.length = 64 ∧
  s.all_histograms_size = s.num_clusters ∧ s.cluster_size_size = s.num_clusters ∧
  s.num_clusters ≤ s.all_histograms.length ∧ s.num_clusters ≤ s.cluster_size.length ∧
  s.histogram_symbols.length = nb

/-- The shape of the local arrays while the `ret` clusters of a batch of `n` histograms are
appended to a pool that held `a0` clusters; `j` of them are appended. -/
def AppendInv {κ : Type} (nb n ret a0 : Nat) (j : Nat) (s : ClusterState κ) : Prop :=
  n ≤ s.histograms.length ∧ s.sizes.length = 64 ∧ s.new_clusters.length = 64 ∧
  s.symbols.length = 64 ∧ s.remap.length = 64 ∧
  s.histograms.length = min nb 64 ∧
  (∀ k c, k < ret → s.new_clusters[k]? = some c → c < n) ∧
  (∀ k c, k < n → s.symbols[k]? = some c → c < n) ∧
  s.all_histograms_size = a0 + j ∧ s.cluster_size_size = a0 + j ∧
  a0 + ret ≤ s.all_histograms.length ∧ a0 + ret ≤ s.cluster_size.length ∧
  s.num_clusters = a0 ∧ s.histogram_symbols.length = nb

/-- The shape of the arrays of the loop of lines 311-341 before block `i`: the symbols of the
blocks before `i` are cluster indices, the others are still the ones `hs0` the second
`BrotliHistogramCombineDistance` left. -/
def RefineShape (nb nc : Nat) (hs0 : List Nat) (i : Nat) (rs : RefineState) : Prop :=
  rs.histogram_symbols.length = nb ∧ rs.new_index.length = nc ∧
  (∀ j c, j < i → rs.histogram_symbols[j]? = some c → c < nc) ∧
  (∀ j, i ≤ j → rs.histogram_symbols[j]? = hs0[j]?)

/-- The numbering of the clusters before block `i` of the loop of lines 311-341: the numbered
clusters are final clusters that a block before `i` uses, they carry the numbers below
`next_index` in the order of their first use, and no number is given twice. -/
def RefineNumbered (nfc : Nat) (clusters : List Nat) (i : Nat) (rs : RefineState) : Prop :=
  (∀ c v : Nat, rs.new_index[c]? = some v → v ≠ ClusterBlocksDistance_kInvalidIndex →
    v < rs.next_index ∧ (∃ j, j < i ∧ rs.histogram_symbols[j]? = some c) ∧
    (∃ k, k < nfc ∧ clusters[k]? = some c)) ∧
  (∀ j c, j < i → rs.histogram_symbols[j]? = some c →
    ∃ v, rs.new_index[c]? = some v ∧ v < rs.next_index) ∧
  (∀ j c v w, j < i → rs.histogram_symbols[j]? = some c → rs.new_index[c]? = some v →
    w < v → ∃ j2 c2, j2 < j ∧ rs.histogram_symbols[j2]? = some c2 ∧
      rs.new_index[c2]? = some w) ∧
  (∀ w, w < rs.next_index → ∃ j c, j < i ∧ rs.histogram_symbols[j]? = some c ∧
    rs.new_index[c]? = some w) ∧
  rs.next_index ≤ nfc ∧
  (∀ c c2 v : Nat, rs.new_index[c]? = some v → rs.new_index[c2]? = some v →
    v ≠ ClusterBlocksDistance_kInvalidIndex → c = c2)

/-- The best candidate of the loop of lines 328-334 is a cluster index: the one the loop
started from or one of the final clusters. -/
def CandidateInv {κ : Type} (nc nfc : Nat) (clusters : List Nat) (best_out0 : Nat)
    (best : Nat × κ) : Prop :=
  best.1 < nc ∧ (best.1 = best_out0 ∨ ∃ k, k < nfc ∧ clusters[k]? = some best.1)

/-- The shape of the arrays of the loop of lines 352-362 before block `i`; after the last of
the `nb` blocks a run has been written. -/
def EmitShape (nb lt ll : Nat) (i : Nat) (es : EmitState) : Prop :=
  es.types.length = lt ∧ es.lengths.length = ll ∧ es.block_idx ≤ i ∧
  (i = nb → 1 ≤ nb → 1 ≤ es.block_idx)

/-- The lengths written by the loop of lines 352-362 before block `i`: together with the
length of the open run they add up to the lengths of the first `i` blocks, and each is
positive. -/
def EmitLengths (nb : Nat) (bl : List Nat) (i : Nat) (es : EmitState) : Prop :=
  (es.lengths.take es.block_idx).sum + es.cur_length = (bl.take i).sum ∧
  (∀ b, b < es.block_idx → ∃ v, es.lengths[b]? = some v ∧ 0 < v) ∧
  (i = nb → es.cur_length = 0)

/-- The types written by the loop of lines 352-362 before block `i`: the number of every
block before `i` is written unless the block belongs to the open run, every number below a
written one is written before it, and `max_type` is the largest of them. -/
def EmitTypes (hs ni : List Nat) (i : Nat) (es : EmitState) : Prop :=
  (∀ j c v : Nat, j < i → hs[j]? = some c → ni[c]? = some v →
    (∃ b, b < es.block_idx ∧ es.types[b]? = some v) ∨ hs[i]? = some c) ∧
  (∀ b t w : Nat, b < es.block_idx → es.types[b]? = some t → w < t →
    ∃ b2, b2 < b ∧ es.types[b2]? = some w) ∧
  (∀ b t : Nat, b < es.block_idx → es.types[b]? = some t → t ≤ es.max_type) ∧
  ((es.block_idx = 0 ∧ es.max_type = 0) ∨
    ∃ b, b < es.block_idx ∧ es.types[b]? = some es.max_type)

/-! ## Hashers: common parts -/

/-- The loop `for i = lo; i < lo + n; i++ { body }` over a state, for a body that cannot
fail. -/
def iterLoop {σ : Type} (body : Nat → σ → σ) : Nat → Nat → σ → σ
  | _, 0, s => s
  | i, n + 1, s => iterLoop body (i + 1) n (body i s)

/-- The assignment `t[k] = v` on a table. -/
def upd (t : Nat → Nat) (k v : Nat) : Nat → Nat := fun i => if i = k then v else t i

/-- Conversion of an `int` to `uint`. -/
def uintOfInt (x : Int) : Nat := (x % (2 ^ 64 : Int)).toNat

/-- Modelled from the spec: `BROTLI_UNALIGNED_LOAD32LE` is not among the sources: the
little-endian load of the four bytes `data[p .. p+4)`. -/
def BROTLI_UNALIGNED_LOAD32LE (data : Nat → Nat) (p : Nat) : Nat :=
  u8 (data p) + 2 ^ 8 * u8 (data (p + 1)) + 2 ^ 16 * u8 (data (p + 2)) +
    2 ^ 24 * u8 (data (p + 3))

/-- Modelled from the spec: `BROTLI_UNALIGNED_LOAD64LE` is not among the sources: the
little-endian load of the eight bytes `data[p .. p+8)`. -/
def BROTLI_UNALIGNED_LOAD64LE (data : Nat → Nat) (p : Nat) : Nat :=
  BROTLI_UNALIGNED_LOAD32LE data p + 2 ^ 32 * BROTLI_UNALIGNED_LOAD32LE data (p + 4)

/-- Modelled from the spec: `FindMatchLengthWithLimit` is not among the sources: the
"byte-wise longest common prefix length" of `data[s1 ..]` and `data[s2 ..]`, at most
`limit`. -/
def FindMatchLengthWithLimit (data : Nat → Nat) (s1 s2 : Nat) : Nat → Nat
  | 0 => 0
  | limit + 1 =>
    if data s1 = data s2 then 1 + FindMatchLengthWithLimit data (s1 + 1) (s2 + 1) limit
    else 0

/-- The record `HasherSearchResult`. -/
structure HasherSearchResult where
  len : Nat
  distance : Nat
  score : Nat
  len_code_delta : Int
deriving DecidableEq, Repr

/-- Modelled from the spec: the type `BackwardMatch`, `InitBackwardMatch` and
`InitDictionaryBackwardMatch` are not among the sources.  A match records the distance and
the length it is initialised with; a dictionary match also records its length code. -/
structure BackwardMatch where
  distance : Nat
  length : Nat
  len_code : Option Nat
deriving DecidableEq, Repr

/-- Modelled from the spec: `InitBackwardMatch` (see `BackwardMatch`). -/
def InitBackwardMatch (dist len : Nat) : BackwardMatch :=
  { distance := dist, length := len, len_code := none }

/-- Modelled from the spec: `InitDictionaryBackwardMatch` (see `BackwardMatch`). -/
def InitDictionaryBackwardMatch (dist len len_code : Nat) : BackwardMatch :=
  { distance := dist, length := len, len_code := some len_code }

/-- Modelled from the spec: `BROTLI_WINDOW_GAP` is not declared in the sources; the value of
the Brotli reference encoder. -/
def BROTLI_WINDOW_GAP : Nat := 16

/-- Modelled from the spec: `BROTLI_MAX_STATIC_DICTIONARY_MATCH_LEN` is not declared in the
sources; the value of the Brotli reference encoder. -/
def BROTLI_MAX_STATIC_DICTIONARY_MATCH_LEN : Nat := 37

/-- Modelled from the spec: `kInvalidMatch` is not declared in the sources; the value of the
Brotli reference encoder. -/
def kInvalidMatch : Nat := 0xFFFFFFF

/-- The collaborators of the hashers, none of them among the sources: the two mixing
constants, the three scoring functions and the two static-dictionary look-ups.  `Γ` is the
state of the part of the hasher handle the look-ups own (their counters); the look-ups see
the input at `data[cur_ix_masked ..]` and never the hash tables.
`SearchInStaticDictionary` receives `data, cur_ix_masked, max_length, max_backward + gap,
max_distance, out, shallow`; `BrotliFindAllStaticDictionaryMatches` receives `data,
cur_ix_masked, min_length, max_length` and the array `dict_matches`. -/
structure HasherCollab (Γ : Type) where
  kHashMul32 : Nat
  kHashMul64 : Nat
  BackwardReferenceScore : Nat → Nat → Nat
  BackwardReferenceScoreUsingLastDistance : Nat → Nat
  BackwardReferencePenaltyUsingLastDistance : Nat → Nat
  SearchInStaticDictionary : Γ → (Nat → Nat) → Nat → Nat → Nat → Nat → HasherSearchResult →
    Bool → Γ × HasherSearchResult
  BrotliFindAllStaticDictionaryMatches : Γ → (Nat → Nat) → Nat → Nat → Nat → (Nat → Nat) →
    Γ × Bool × (Nat → Nat)

/-! ## H4 -/

/-- `HashTypeLengthH4`. -/
def HashTypeLengthH4 : Nat := 8

/-- `StoreLookaheadH4`. -/
def StoreLookaheadH4 : Nat := 8

/-- `HashBytesH4` on `data[p ..]`. -/
def HashBytesH4 {Γ : Type} (K : HasherCollab Γ) (data : Nat → Nat) (p : Nat) : Nat :=
  let h := u64 (u64 (BROTLI_UNALIGNED_LOAD64LE data p <<< (64 - 8 * 5)) * K.kHashMul64)
  u32 (h >>> (64 - 17))

/-- The record `H4`: the table `buckets_` of `(1 << 17) + 4` slots. -/
structure H4 where
  buckets_ : Nat → Nat

/-- `InitializeH4`: a fresh, zeroed table. -/
def InitializeH4 : H4 := { buckets_ := fun _ => 0 }

/-- `PrepareH4`. -/
def PrepareH4 {Γ : Type} (K : HasherCollab Γ) (self : H4) (one_shot : Bool)
    (input_size : Nat) (data : Nat → Nat) : H4 :=
  let partial_prepare_threshold := (4 <<< 17) >>> 7
  if one_shot = true ∧ input_size ≤ partial_prepare_threshold then
    iterLoop (fun i (s : H4) =>
        let key := HashBytesH4 K data i
        { buckets_ := iterLoop (fun j b => upd b (key + j) 0) 0 4 s.buckets_ })
      0 input_size self
  else
    { buckets_ := fun i => if i < (1 <<< 17) + 4 then 0 else self.buckets_ i }

/-- `StoreH4`. -/
def StoreH4 {Γ : Type} (K : HasherCollab Γ) (self : H4) (data : Nat → Nat) (mask ix : Nat) :
    H4 :=
  let key := HashBytesH4 K data (ix &&& mask)
  let off := u32 (ix >>> 3) % 4
  { buckets_ := upd self.buckets_ (u32 (key + off)) (u32 ix) }

/-- `StoreRangeH4`. -/
def StoreRangeH4 {Γ : Type} (K : HasherCollab Γ) (self : H4) (data : Nat → Nat)
    (mask ix_start ix_end : Nat) : H4 :=
  iterLoop (fun i s => StoreH4 K s data mask i) ix_start (ix_end - ix_start) self

/-- `StitchToPreviousBlockH4`. -/
def StitchToPreviousBlockH4 {Γ : Type} (K : HasherCollab Γ) (self : H4)
    (num_bytes position : Nat) (ringbuffer : Nat → Nat) (ringbuffer_mask : Nat) : H4 :=
  if num_bytes ≥ HashTypeLengthH4 - 1 ∧ position ≥ 3 then
    StoreH4 K (StoreH4 K (StoreH4 K self ringbuffer ringbuffer_mask (position - 3))
      ringbuffer ringbuffer_mask (position - 2)) ringbuffer ringbuffer_mask (position - 1)
  else self

/-- What the search loops of `FindLongestMatchH4` and `FindLongestMatchH5` update. -/
structure SearchState where
  best_score : Nat
  best_len : Nat
  compare_char : Nat
  out : HasherSearchResult

/-- Lines 122-142 of `h4.go`: the candidate of the distance cache. -/
def h4TryCache {Γ : Type} (K : HasherCollab Γ) (data : Nat → Nat)
    (ring_buffer_mask cur_ix cur_ix_masked max_length cached_backward : Nat)
    (st : SearchState) : SearchState :=
  let prev_ix := usub cur_ix cached_backward
  if prev_ix < cur_ix then
    let prev_ix := prev_ix &&& u32 ring_buffer_mask
    if st.compare_char = data (prev_ix + st.best_len) then
      let len := FindMatchLengthWithLimit data prev_ix cur_ix_masked max_length
      if len ≥ 4 then
        let score := K.BackwardReferenceScoreUsingLastDistance len
        if st.best_score < score then
          { best_score := score, best_len := len,
            compare_char := data (cur_ix_masked + len),
            out := { st.out with len := len, distance := cached_backward, score := score } }
        else st
      else st
    else st
  else st

/-- Lines 177-201 of `h4.go`: the candidate `prev_ix` read from a slot of the sweep. -/
def h4SweepStep {Γ : Type} (K : HasherCollab Γ) (data : Nat → Nat)
    (ring_buffer_mask cur_ix cur_ix_masked max_length max_backward : Nat) (prev_ix : Nat)
    (st : SearchState) : SearchState :=
  let backward := usub cur_ix prev_ix
  let prev_ix := prev_ix &&& u32 ring_buffer_mask
  if st.compare_char ≠ data (prev_ix + st.best_len) then st
  else if backward = 0 ∨ backward > max_backward then st
  else
    let len := FindMatchLengthWithLimit data prev_ix cur_ix_masked max_length
    if len ≥ 4 then
      let score := K.BackwardReferenceScore len backward
      if st.best_score < score then
        { best_score := score, best_len := len,
          compare_char := data (cur_ix_masked + len),
          out := { st.out with len := len, distance := backward, score := score } }
      else st
    else st

/-- `FindLongestMatchH4`; the branches under `if 4 == 1` are never taken and are left out.
The result is the table, the state of the dictionary look-ups and `out`. -/
def FindLongestMatchH4 {Γ : Type} (K : HasherCollab Γ) (self : H4) (common : Γ)
    (data : Nat → Nat) (ring_buffer_mask : Nat) (distance_cache : Nat → Int)
    (cur_ix max_length max_backward gap max_distance : Nat) (out : HasherSearchResult) :
    H4 × Γ × HasherSearchResult :=
  let best_len_in := out.len
  let cur_ix_masked := cur_ix &&& ring_buffer_mask
  let key := HashBytesH4 K data cur_ix_masked
  let min_score := out.score
  let cached_backward := uintOfInt (distance_cache 0)
  let st0 : SearchState :=
    { best_score := out.score, best_len := best_len_in,
      compare_char := data (cur_ix_masked + best_len_in),
      out := { out with len_code_delta := 0 } }
  let st1 := h4TryCache K data ring_buffer_mask cur_ix cur_ix_masked max_length
    cached_backward st0
  let st2 := iterLoop (fun i st =>
      h4SweepStep K data ring_buffer_mask cur_ix cur_ix_masked max_length max_backward
        (self.buckets_ (key + i)) st) 0 4 st1
  let d := if min_score = st2.out.score then
      K.SearchInStaticDictionary common data cur_ix_masked max_length
        (u64 (max_backward + gap)) max_distance st2.out true
    else (common, st2.out)
  ({ buckets_ := upd self.buckets_ (u32 (key + u32 ((cur_ix >>> 3) % 4))) (u32 cur_ix) },
    d.1, d.2)

/-! ## H5 -/

/-- `HashTypeLengthH5`. -/
def HashTypeLengthH5 : Nat := 4

/-- `StoreLookaheadH5`. -/
def StoreLookaheadH5 : Nat := 4

/-- `HashBytesH5` on `data[p ..]`. -/
def HashBytesH5 {Γ : Type} (K : HasherCollab Γ) (data : Nat → Nat) (p : Nat) (shift : Int) :
    Nat :=
  let h := u32 (BROTLI_UNALIGNED_LOAD32LE data p * K.kHashMul32)
  u32 (h >>> uintOfInt shift)

/-- The record `H5` together with the three parameters the code reads from
`GetHasherCommon(handle).params`. -/
structure H5 where
  bucket_bits : Int
  block_bits : Int
  num_last_distances_to_check : Int
  bucket_size_ : Nat
  block_size_ : Nat
  hash_shift_ : Int
  block_mask_ : Nat
  num : Nat → Nat
  buckets : Nat → Nat

/-- `InitializeH5`: the sizes follow from the parameters, the tables are fresh and zeroed. -/
def InitializeH5 (bucket_bits block_bits num_last_distances_to_check : Int) : H5 :=
  { bucket_bits := bucket_bits, block_bits := block_bits,
    num_last_distances_to_check := num_last_distances_to_check,
    hash_shift_ := 32 - bucket_bits,
    bucket_size_ := u64 (1 <<< uintOfInt bucket_bits),
    block_size_ := u64 (1 <<< uintOfInt block_bits),
    block_mask_ := u32 (usub (u64 (1 <<< uintOfInt block_bits)) 1),
    num := fun _ => 0, buckets := fun _ => 0 }

/-- `PrepareH5`. -/
def PrepareH5 {Γ : Type} (K : HasherCollab Γ) (self : H5) (one_shot : Bool)
    (input_size : Nat) (data : Nat → Nat) : H5 :=
  let partial_prepare_threshold := self.bucket_size_ >>> 6
  if one_shot = true ∧ input_size ≤ partial_prepare_threshold then
    iterLoop (fun i (s : H5) =>
        { s with num := upd s.num (HashBytesH5 K data i s.hash_shift_) 0 })
      0 input_size self
  else
    { self with num := fun i => if i < self.bucket_size_ then 0 else self.num i }

/-- `StoreH5`. -/
def StoreH5 {Γ : Type} (K : HasherCollab Γ) (self : H5) (data : Nat → Nat) (mask ix : Nat) :
    H5 :=
  let key := HashBytesH5 K data (ix &&& mask) self.hash_shift_
  let minor_ix := self.num key &&& self.block_mask_
  let offset := minor_ix + u32 (key <<< uintOfInt self.block_bits)
  { self with buckets := upd self.buckets offset (u32 ix),
              num := upd self.num key (u16 (self.num key + 1)) }

/-- `StoreRangeH5`. -/
def StoreRangeH5 {Γ : Type} (K : HasherCollab Γ) (self : H5) (data : Nat → Nat)
    (mask ix_start ix_end : Nat) : H5 :=
  iterLoop (fun i s => StoreH5 K s data mask i) ix_start (ix_end - ix_start) self

/-- `StitchToPreviousBlockH5`. -/
def StitchToPreviousBlockH5 {Γ : Type} (K : HasherCollab Γ) (self : H5)
    (num_bytes position : Nat) (ringbuffer : Nat → Nat) (ringbuffer_mask : Nat) : H5 :=
  if num_bytes ≥ HashTypeLengthH5 - 1 ∧ position ≥ 3 then
    StoreH5 K (StoreH5 K (StoreH5 K self ringbuffer ringbuffer_mask (position - 3))
      ringbuffer ringbuffer_mask (position - 2)) ringbuffer ringbuffer_mask (position - 1)
  else self

/-- What the search loops of `FindLongestMatchH5` update. -/
structure SearchStateH5 where
  best_score : Nat
  best_len : Nat
  out : HasherSearchResult

/-- Lines 147-184 of `h5.go`: candidate `i` of the distance cache. -/
def h5CacheStep {Γ : Type} (K : HasherCollab Γ) (data : Nat → Nat)
    (ring_buffer_mask : Nat) (distance_cache : Nat → Int)
    (cur_ix cur_ix_masked max_length max_backward : Nat) (i : Nat) (st : SearchStateH5) :
    SearchStateH5 :=
  let backward := uintOfInt (distance_cache i)
  let prev_ix := usub cur_ix backward
  if prev_ix ≥ cur_ix then st
  else if backward > max_backward then st
  else
    let prev_ix := prev_ix &&& ring_buffer_mask
    if cur_ix_masked + st.best_len > ring_buffer_mask ∨
        prev_ix + st.best_len > ring_buffer_mask ∨
        data (cur_ix_masked + st.best_len) ≠ data (prev_ix + st.best_len) then st
    else
      let len := FindMatchLengthWithLimit data prev_ix cur_ix_masked max_length
      if len ≥ 3 ∨ (len = 2 ∧ i < 2) then
        let score := K.BackwardReferenceScoreUsingLastDistance len
        if st.best_score < score then
          let score := if i ≠ 0 then usub score (K.BackwardReferencePenaltyUsingLastDistance i)
            else score
          if st.best_score < score then
            { best_score := score, best_len := len,
              out := { st.out with len := len, distance := backward, score := score } }
          else st
        else st
      else st

/-- Lines 194-223 of `h5.go`: the walk down the ring of the key from entry `i`, for at most
`steps` entries; it ends at the first entry further away than `max_backward`. -/
def h5BucketLoop {Γ : Type} (K : HasherCollab Γ) (self : H5) (data : Nat → Nat)
    (ring_buffer_mask cur_ix cur_ix_masked max_length max_backward : Nat) (base : Nat) :
    Nat → Nat → SearchStateH5 → SearchStateH5
  | 0, _, st => st
  | steps + 1, i, st =>
    let i := i - 1
    let prev_ix := self.buckets (base + (u32 i &&& self.block_mask_))
    let backward := usub cur_ix prev_ix
    if backward > max_backward then st
    else
      let prev_ix := prev_ix &&& ring_buffer_mask
      if cur_ix_masked + st.best_len > ring_buffer_mask ∨
          prev_ix + st.best_len > ring_buffer_mask ∨
          data (cur_ix_masked + st.best_len) ≠ data (prev_ix + st.best_len) then
        h5BucketLoop K self data ring_buffer_mask cur_ix cur_ix_masked max_length
          max_backward base steps i st
      else
        let len := FindMatchLengthWithLimit data prev_ix cur_ix_masked max_length
        let st1 : SearchStateH5 :=
          if len ≥ 4 then
            let score := K.BackwardReferenceScore len backward
            if st.best_score < score then
              { best_score := score, best_len := len,
                out := { st.out with len := len, distance := backward, score := score } }
            else st
          else st
        h5BucketLoop K self data ring_buffer_mask cur_ix cur_ix_masked max_length
          max_backward base steps i st1

/-- `FindLongestMatchH5`.  The result is the tables, the state of the dictionary look-ups
and `out`. -/
def FindLongestMatchH5 {Γ : Type} (K : HasherCollab Γ) (self : H5) (common : Γ)
    (data : Nat → Nat) (ring_buffer_mask : Nat) (distance_cache : Nat → Int)
    (cur_ix max_length max_backward gap max_distance : Nat) (out : HasherSearchResult) :
    H5 × Γ × HasherSearchResult :=
  let cur_ix_masked := cur_ix &&& ring_buffer_mask
  let min_score := out.score
  let st0 : SearchStateH5 :=
    { best_score := out.score, best_len := out.len,
      out := { out with len := 0, len_code_delta := 0 } }
  let st1 := iterLoop (h5CacheStep K data ring_buffer_mask distance_cache cur_ix
    cur_ix_masked max_length max_backward) 0 (uintOfInt self.num_last_distances_to_check) st0
  let key := HashBytesH5 K data cur_ix_masked self.hash_shift_
  let base := u32 (key <<< uintOfInt self.block_bits)
  let down := if self.num key > self.block_size_ then self.num key - self.block_size_ else 0
  let st2 := h5BucketLoop K self data ring_buffer_mask cur_ix cur_ix_masked max_length
    max_backward base (self.num key - down) (self.num key) st1
  let self1 : H5 :=
    { self with buckets := upd self.buckets (base + (u32 (self.num key) &&& self.block_mask_))
                  (u32 cur_ix),
                num := upd self.num key (u16 (self.num key + 1)) }
  let d := if min_score = st2.out.score then
      K.SearchInStaticDictionary common data cur_ix_masked max_length
        (u64 (max_backward + gap)) max_distance st2.out false
    else (common, st2.out)
  (self1, d.1, d.2)

/-! ## H10 -/

/-- `HashTypeLengthH10`. -/
def HashTypeLengthH10 : Nat := 4

/-- `StoreLookaheadH10`. -/
def StoreLookaheadH10 : Nat := 128

/-- `MAX_NUM_MATCHES_H10`. -/
def MAX_NUM_MATCHES_H10 : Nat := 128

/-- `HashBytesH10` on `data[p ..]`. -/
def HashBytesH10 {Γ : Type} (K : HasherCollab Γ) (data : Nat → Nat) (p : Nat) : Nat :=
  let h := u32 (BROTLI_UNALIGNED_LOAD32LE data p * K.kHashMul32)
  h >>> (32 - 17)

/-- The record `H10`: the heads `buckets_` (`1 << 17` slots) and the `forest` of two child
links per window position. -/
structure H10 where
  window_mask_ : Nat
  buckets_ : Nat → Nat
  invalid_pos_ : Nat
  forest : Nat → Nat

/-- `InitializeH10` for `params.lgwin`; the tables are fresh and zeroed. -/
def InitializeH10 (lgwin : Nat) : H10 :=
  { window_mask_ := usub (u64 (1 <<< lgwin)) 1,
    invalid_pos_ := u32 (usub 0 (usub (u64 (1 <<< lgwin)) 1)),
    buckets_ := fun _ => 0, forest := fun _ => 0 }

/-- `PrepareH10`. -/
def PrepareH10 (self : H10) : H10 :=
  { self with buckets_ := fun i => if i < 1 <<< 17 then self.invalid_pos_ else self.buckets_ i }

/-- `LeftChildIndexH10`. -/
def LeftChildIndexH10 (self : H10) (pos : Nat) : Nat := 2 * (pos &&& self.window_mask_)

/-- `RightChildIndexH10`. -/
def RightChildIndexH10 (self : H10) (pos : Nat) : Nat := 2 * (pos &&& self.window_mask_) + 1

/-- What the loop of `StoreAndFindMatchesH10` updates; `matches` holds the entries written
so far, in order. -/
structure TreeState where
  forest : Nat → Nat
  prev_ix : Nat
  node_left : Nat
  node_right : Nat
  best_len_left : Nat
  best_len_right : Nat
  best_len : Nat
  matches_ : List BackwardMatch

/-- Lines 122-125 of `h10.go`: the length the loop of `StoreAndFindMatchesH10` computes at the
link `st.prev_ix`. -/
def treeLen (data : Nat → Nat) (cur_ix ring_buffer_mask max_length : Nat) (st : TreeState) :
    Nat :=
  min st.best_len_left st.best_len_right +
    FindMatchLengthWithLimit data
      ((cur_ix &&& ring_buffer_mask) + min st.best_len_left st.best_len_right)
      ((st.prev_ix &&& ring_buffer_mask) + min st.best_len_left st.best_len_right)
      (usub max_length (min st.best_len_left st.best_len_right))

/-- Lines 126-130 of `h10.go`: the state after the entry for the link `st.prev_ix` is written,
if it is. -/
def treeRecord (data : Nat → Nat) (cur_ix ring_buffer_mask max_length : Nat) (record : Bool)
    (st : TreeState) : TreeState :=
  if record = true ∧ treeLen data cur_ix ring_buffer_mask max_length st > st.best_len then
    { st with best_len := treeLen data cur_ix ring_buffer_mask max_length st,
              matches_ := st.matches_ ++ [InitBackwardMatch (usub cur_ix st.prev_ix)
                (treeLen data cur_ix ring_buffer_mask max_length st)] }
  else st

/-- Lines 110-159 of `h10.go`: the loop over `depth_remaining`.  `record` says that `matches`
is not `nil`.  The assertion `cur_len <= 128` never fails: both lengths it is the minimum of
are below `max_comp_len`. -/
def treeLoop (self : H10) (data : Nat → Nat)
    (cur_ix ring_buffer_mask max_length max_backward : Nat) (record : Bool) :
    Nat → TreeState → TreeState
  | 0, st =>
    if max_length ≥ 128 then
      let f1 := upd st.forest st.node_left self.invalid_pos_
      { st with forest := upd f1 st.node_right self.invalid_pos_ }
    else st
  | depth_remaining + 1, st =>
    let cur_ix_masked := cur_ix &&& ring_buffer_mask
    let max_comp_len := min max_length 128
    let should_reroot_tree := decide (max_length ≥ 128)
    let backward := usub cur_ix st.prev_ix
    let prev_ix_masked := st.prev_ix &&& ring_buffer_mask
    if backward = 0 ∨ backward > max_backward then
      if should_reroot_tree then
        let f1 := upd st.forest st.node_left self.invalid_pos_
        { st with forest := upd f1 st.node_right self.invalid_pos_ }
      else st
    else
      let len := treeLen data cur_ix ring_buffer_mask max_length st
      let st1 := treeRecord data cur_ix ring_buffer_mask max_length record st
      if len ≥ max_comp_len then
        if should_reroot_tree then
          let f1 := upd st1.forest st1.node_left
            (st1.forest (LeftChildIndexH10 self st1.prev_ix))
          let f2 := upd f1 st1.node_right (f1 (RightChildIndexH10 self st1.prev_ix))
          { st1 with forest := f2 }
        else st1
      else if data (cur_ix_masked + len) > data (prev_ix_masked + len) then
        let f1 := if should_reroot_tree then upd st1.forest st1.node_left (u32 st1.prev_ix)
          else st1.forest
        let node_left := RightChildIndexH10 self st1.prev_ix
        treeLoop self data cur_ix ring_buffer_mask max_length max_backward record
          depth_remaining
          { st1 with best_len_left := len, forest := f1, node_left := node_left,
                     prev_ix := f1 node_left }
      else
        let f1 := if should_reroot_tree then upd st1.forest st1.node_right (u32 st1.prev_ix)
          else st1.forest
        let node_right := LeftChildIndexH10 self st1.prev_ix
        treeLoop self data cur_ix ring_buffer_mask max_length max_backward record
          depth_remaining
          { st1 with best_len_right := len, forest := f1, node_right := node_right,
                     prev_ix := f1 node_right }

/-- `StoreAndFindMatchesH10`.  `matches = none` is the `nil` slice of `StoreH10`; otherwise
`matches` holds the entries written so far.  The result is the table, `*best_len` and the
entries written. -/
def StoreAndFindMatchesH10 {Γ : Type} (K : HasherCollab Γ) (self : H10) (data : Nat → Nat)
    (cur_ix ring_buffer_mask max_length max_backward : Nat) (best_len : Nat)
    (matches_ : Option (List BackwardMatch)) : H10 × Nat × List BackwardMatch :=
  let cur_ix_masked := cur_ix &&& ring_buffer_mask
  let should_reroot_tree := decide (max_length ≥ 128)
  let key := HashBytesH10 K data cur_ix_masked
  let prev_ix := self.buckets_ key
  let buckets1 := if should_reroot_tree then upd self.buckets_ key (u32 cur_ix)
    else self.buckets_
  let st := treeLoop self data cur_ix ring_buffer_mask max_length max_backward
    matches_.isSome 64
    { forest := self.forest, prev_ix := prev_ix,
      node_left := LeftChildIndexH10 self cur_ix,
      node_right := RightChildIndexH10 self cur_ix,
      best_len_left := 0, best_len_right := 0, best_len := best_len,
      matches_ := matches_.getD [] }
  ({ self with buckets_ := buckets1, forest := st.forest }, st.best_len, st.matches_)

/-- Lines 187-206 of `h10.go`: the scan of the nearest positions from `i` downwards, for at
most `steps` positions, on `(best_len, matches)`; it ends when `best_len` exceeds `2` or a
position is further away than `max_backward`. -/
def shortScan (data : Nat → Nat) (ring_buffer_mask cur_ix max_length max_backward : Nat) :
    Nat → Nat → Nat × List BackwardMatch → Nat × List BackwardMatch
  | 0, _, st => st
  | steps + 1, i, st =>
    let cur_ix_masked := cur_ix &&& ring_buffer_mask
    if ¬ (st.1 ≤ 2) then st
    else
      let backward := usub cur_ix i
      if backward > max_backward then st
      else
        let prev_ix := i &&& ring_buffer_mask
        if data cur_ix_masked ≠ data prev_ix ∨ data (cur_ix_masked + 1) ≠ data (prev_ix + 1)
        then shortScan data ring_buffer_mask cur_ix max_length max_backward steps (i - 1) st
        else
          let len := FindMatchLengthWithLimit data prev_ix cur_ix_masked max_length
          shortScan data ring_buffer_mask cur_ix max_length max_backward steps (i - 1)
            (if len > st.1 then (len, st.2 ++ [InitBackwardMatch backward len]) else st)

/-- Lines 220-229 of `h10.go`: the dictionary entry of length `l`, if there is one. -/
def dictStep (dict_matches : Nat → Nat) (max_backward gap max_distance : Nat) (l : Nat)
    (matches_ : List BackwardMatch) : List BackwardMatch :=
  let dict_id := dict_matches l
  if dict_id < kInvalidMatch then
    let distance := u64 (max_backward + gap + (dict_id >>> 5) + 1)
    if distance ≤ max_distance then
      matches_ ++ [InitDictionaryBackwardMatch distance l (dict_id &&& 31)]
    else matches_
  else matches_

/-- `FindAllMatchesH10`; `quality` is `params.quality` and `max_distance` is
`params.dist.max_distance`.  The result is the table, the state of the dictionary look-ups
and the entries written into `matches`, in order; the value the function returns is their
number. -/
def FindAllMatchesH10 {Γ : Type} (K : HasherCollab Γ) (self : H10) (common : Γ)
    (data : Nat → Nat) (ring_buffer_mask cur_ix max_length max_backward gap : Nat)
    (quality max_distance : Nat) : H10 × Γ × List BackwardMatch :=
  let cur_ix_masked := cur_ix &&& ring_buffer_mask
  let short_match_max_backward := if quality ≠ HQ_ZOPFLIFICATION_QUALITY then 16 else 64
  let stop := if cur_ix < short_match_max_backward then 0
    else usub cur_ix short_match_max_backward
  let sc := shortScan data ring_buffer_mask cur_ix max_length max_backward
    (usub cur_ix 1 - stop) (usub cur_ix 1) (1, [])
  let tr : H10 × Nat × List BackwardMatch :=
    if sc.1 < max_length then
      StoreAndFindMatchesH10 K self data cur_ix ring_buffer_mask max_length max_backward
        sc.1 (some sc.2)
    else (self, sc.1, sc.2)
  let minlen := max 4 (u64 (tr.2.1 + 1))
  let dm := K.BrotliFindAllStaticDictionaryMatches common data cur_ix_masked minlen
    max_length (fun _ => kInvalidMatch)
  let maxlen := min BROTLI_MAX_STATIC_DICTIONARY_MATCH_LEN max_length
  let matches_ := if dm.2.1 = true then
      iterLoop (dictStep dm.2.2 max_backward gap max_distance) minlen (maxlen + 1 - minlen)
        tr.2.2
    else tr.2.2
  (tr.1, dm.1, matches_)

/-- `StoreH10`. -/
def StoreH10 {Γ : Type} (K : HasherCollab Γ) (self : H10) (data : Nat → Nat) (mask ix : Nat) :
    H10 :=
  let max_backward := u64 (usub self.window_mask_ BROTLI_WINDOW_GAP + 1)
  (StoreAndFindMatchesH10 K self data ix mask 128 max_backward 0 none).1

/-- `StoreRangeH10`.  The loop `for ; j < i; j += 8` runs `(i - ix_start + 7) / 8` times, `j`
not wrapping around before it reaches `i`. -/
def StoreRangeH10 {Γ : Type} (K : HasherCollab Γ) (self : H10) (data : Nat → Nat)
    (mask ix_start ix_end : Nat) : H10 :=
  let i := if u64 (ix_start + 63) ≤ ix_end then ix_end - 63 else ix_start
  let s1 := if u64 (ix_start + 512) ≤ i then
      iterLoop (fun t s => StoreH10 K s data mask (ix_start + 8 * t)) 0
        ((i - ix_start + 7) / 8) self
    else self
  iterLoop (fun k s => StoreH10 K s data mask k) i (ix_end - i) s1

/-- `StitchToPreviousBlockH10`. -/
def StitchToPreviousBlockH10 {Γ : Type} (K : HasherCollab Γ) (self : H10)
    (num_bytes position : Nat) (ringbuffer : Nat → Nat) (ringbuffer_mask : Nat) : H10 :=
  if num_bytes ≥ HashTypeLengthH10 - 1 ∧ position ≥ 128 then
    let i_start := position - 128 + 1
    let i_end := min position (u64 (i_start + num_bytes))
    iterLoop (fun i s =>
        let max_backward := usub s.window_mask_ (max (BROTLI_WINDOW_GAP - 1) (position - i))
        (StoreAndFindMatchesH10 K s ringbuffer i ringbuffer_mask 128 max_backward 0 none).1)
      i_start (i_end - i_start) self
  else self

/-! ## The collaborators of the Brotli reference encoder, for the closed statements -/

/-- Modelled from the spec: the loop of `Log2FloorNonZero`, which is not among the sources
(halve `n` until it is zero, counting the halvings after the first); 64 rounds cover a
`uint`. -/
def log2FloorLoop : Nat → Nat → Nat → Nat
  | 0, _, result => result
  | fuel + 1, n, result =>
    if n >>> 1 = 0 then result else log2FloorLoop fuel (n >>> 1) (result + 1)

/-- Modelled from the spec: `Log2FloorNonZero` of the Brotli reference encoder. -/
def Log2FloorNonZero (n : Nat) : Nat := log2FloorLoop 64 n 0

/-- Modelled from the spec: the scoring functions and mixing constants are not among the
sources; these are the ones of the Brotli reference encoder (`BROTLI_SCORE_BASE = 1920`,
`BROTLI_LITERAL_BYTE_SCORE = 135`, `BROTLI_DISTANCE_BIT_PENALTY = 30`, the floor of the
binary logarithm computed by halving), with a static dictionary that never finds a match. -/
def referenceCollab : HasherCollab Unit :=
  { kHashMul32 := 0x1E35A7BD,
    kHashMul64 := 0x1E35A7BD1E35A7BD,
    BackwardReferenceScore := fun len backward =>
      usub (u64 (1920 + 135 * len)) (30 * Log2FloorNonZero backward),
    BackwardReferenceScoreUsingLastDistance := fun len => u64 (135 * len + 1920 + 15),
    BackwardReferencePenaltyUsingLastDistance := fun code =>
      39 + ((0x1CA10 >>> (code &&& 0xE)) &&& 0xE),
    SearchInStaticDictionary := fun c _ _ _ _ _ out _ => (c, out),
    BrotliFindAllStaticDictionaryMatches := fun c _ _ _ _ dm => (c, false, dm) }

/-- The start value of `out`: no match, and the minimal score `kMinScore` of the Brotli
reference encoder. -/
def initialSearchResult : HasherSearchResult :=
  { len := 0, distance := 0, score := 2020, len_code_delta := 0 }

/-! ## Sessions of calls on H4 and H5 -/

/-- A call of the session of a hasher: `store(data, mask, ix)` or
`find_longest_match(data, ring_buffer_mask, distance_cache, cur_ix, max_length, max_backward,
gap, max_distance, out)`. -/
inductive HasherCall where
  | store (data : Nat → Nat) (mask ix : Nat)
  | find (data : Nat → Nat) (ring_buffer_mask : Nat) (distance_cache : Nat → Int)
      (cur_ix max_length max_backward gap max_distance : Nat) (out : HasherSearchResult)

/-- The position of a call. -/
def HasherCall.position : HasherCall → Nat
  | .store _ _ ix => ix
  | .find _ _ _ cur_ix _ _ _ _ _ => cur_ix

/-- The input a call reads. -/
def HasherCall.input : HasherCall → Nat → Nat
  | .store data _ _ => data
  | .find data _ _ _ _ _ _ _ _ => data

/-- The ring-buffer mask of a call. -/
def HasherCall.ringMask : HasherCall → Nat
  | .store _ mask _ => mask
  | .find _ mask _ _ _ _ _ _ _ => mask

/-- One call on an H5 hasher; the list holds the result of a `find`. -/
def callH5 {Γ : Type} (K : HasherCollab Γ) (st : H5 × Γ) :
    HasherCall → (H5 × Γ) × List HasherSearchResult
  | .store data mask ix => ((StoreH5 K st.1 data mask ix, st.2), [])
  | .find data mask dc cur_ix max_length max_backward gap max_distance out =>
    let r := FindLongestMatchH5 K st.1 st.2 data mask dc cur_ix max_length max_backward gap
      max_distance out
    ((r.1, r.2.1), [r.2.2])

/-- A sequence of calls on an H5 hasher; the list holds the results of its `find`s, in
order. -/
def runH5 {Γ : Type} (K : HasherCollab Γ) :
    H5 × Γ → List HasherCall → (H5 × Γ) × List HasherSearchResult
  | st, [] => (st, [])
  | st, c :: cs => ((runH5 K (callH5 K st c).1 cs).1,
      (callH5 K st c).2 ++ (runH5 K (callH5 K st c).1 cs).2)

/-- One call on an H4 hasher; the list holds the result of a `find`. -/
def callH4 {Γ : Type} (K : HasherCollab Γ) (st : H4 × Γ) :
    HasherCall → (H4 × Γ) × List HasherSearchResult
  | .store data mask ix => ((StoreH4 K st.1 data mask ix, st.2), [])
  | .find data mask dc cur_ix max_length max_backward gap max_distance out =>
    let r := FindLongestMatchH4 K st.1 st.2 data mask dc cur_ix max_length max_backward gap
      max_distance out
    ((r.1, r.2.1), [r.2.2])

/-- A sequence of calls on an H4 hasher; the list holds the results of its `find`s, in
order. -/
def runH4 {Γ : Type} (K : HasherCollab Γ) :
    H4 × Γ → List HasherCall → (H4 × Γ) × List HasherSearchResult
  | st, [] => (st, [])
  | st, c :: cs => ((runH4 K (callH4 K st c).1 cs).1,
      (callH4 K st c).2 ++ (runH4 K (callH4 K st c).1 cs).2)

/-- The static dictionary contributes nothing: `SearchInStaticDictionary` leaves `out` as it
is. -/
def DictionarySilent {Γ : Type} (K : HasherCollab Γ) : Prop :=
  ∀ c data p max_length max_backward max_distance out shallow,
    (K.SearchInStaticDictionary c data p max_length max_backward max_distance out shallow).2 =
      out

/-- A match `(out.distance, out.len)` at `cur_ix` is valid: the distance is positive and at
most `max_backward` (and at most `cur_ix`), the length is at most `max_length`, and the
`out.len` bytes at `cur_ix - out.distance` are those at `cur_ix`. -/
def ValidMatch (data : Nat → Nat) (ring_buffer_mask cur_ix max_length max_backward : Nat)
    (distance len : Nat) : Prop :=
  0 < distance ∧ distance ≤ max_backward ∧ distance ≤ cur_ix ∧ len ≤ max_length ∧
  ∀ j, j < len →
    data (((cur_ix - distance) &&& ring_buffer_mask) + j) =
      data ((cur_ix &&& ring_buffer_mask) + j)

/-- The rings of an H5 hasher hold positions below `b`: every entry of a ring that a search
walks over (the last `block_size_` of the `num[key]` entries) is the `uint32` of a position
below `b`, and every counter is a `uint16`. -/
def RingsBelow (s : H5) (b : Nat) : Prop :=
  (∀ key, s.num key < 2 ^ 16) ∧
  ∀ key i, i < s.num key → s.num key ≤ i + s.block_size_ →
    ∃ p, p < b ∧
      s.buckets (u32 (key <<< uintOfInt s.block_bits) + (i &&& s.block_mask_)) = u32 p

/-- The search state of `FindLongestMatchH5` is sound: `out.score` is the best score, it is
not below the score at entry, and once it is above it `out` is a valid match. -/
def SearchSoundH5 (data : Nat → Nat) (ring_buffer_mask cur_ix max_length max_backward : Nat)
    (score0 : Nat) (st : SearchStateH5) : Prop :=
  st.out.score = st.best_score ∧ score0 ≤ st.best_score ∧
  (score0 < st.best_score →
    ValidMatch data ring_buffer_mask cur_ix max_length max_backward st.out.distance
      st.out.len)

/-! ## Inputs of the closed statements on the hashers -/

/-- The input `abcdabcd...`. -/
def abcdInput : Nat → Nat := fun i => 97 + i % 4

/-- The input whose byte `i` is `i mod 5 + 1`. -/
def period5Input : Nat → Nat := fun i => i % 5 + 1

/-! ## The tables after a partial and after a full prepare -/

/-- Two H4 tables agree on the four slots of the key of every position below `input_size` of
`data`. -/
def AgreeH4 {Γ : Type} (K : HasherCollab Γ) (data : Nat → Nat) (input_size : Nat)
    (s1 s2 : H4) : Prop :=
  ∀ p j, p < input_size → j < 4 →
    s1.buckets_ (HashBytesH4 K data p + j) = s2.buckets_ (HashBytesH4 K data p + j)

/-- Two H5 hashers have the same parameters and the same `buckets`, and their `num` agree on
the key of every position below `input_size` of `data`. -/
def AgreeH5 {Γ : Type} (K : HasherCollab Γ) (data : Nat → Nat) (input_size : Nat)
    (s1 s2 : H5) : Prop :=
  s1.bucket_bits = s2.bucket_bits ∧ s1.block_bits = s2.block_bits ∧
  s1.num_last_distances_to_check = s2.num_last_distances_to_check ∧
  s1.bucket_size_ = s2.bucket_size_ ∧ s1.block_size_ = s2.block_size_ ∧
  s1.hash_shift_ = s2.hash_shift_ ∧ s1.block_mask_ = s2.block_mask_ ∧
  s1.buckets = s2.buckets ∧
  ∀ p, p < input_size →
    s1.num (HashBytesH5 K data p s1.hash_shift_) = s2.num (HashBytesH5 K data p s1.hash_shift_)

/-- The calls of a session read `data` at positions below `input_size` that the ring-buffer
mask leaves as they are. -/
def CallsWithin (data : Nat → Nat) (input_size : Nat) (calls : List HasherCall) : Prop :=
  ∀ c ∈ calls, c.input = data ∧ c.position < input_size ∧
    c.position &&& c.ringMask = c.position

/-! ## The order of the entries of `FindAllMatchesH10` -/

/-- The entries written so far are strictly increasing in length, each of length at least 2
and at most `best_len`, and `best_len` is at least 1. -/
def LengthsIncreasing (best_len : Nat) (ms : List BackwardMatch) : Prop :=
  List.Pairwise (fun a b => a.length < b.length) ms ∧
  (∀ m ∈ ms, 2 ≤ m.length ∧ m.length ≤ best_len) ∧ 1 ≤ best_len

/-! ## The binary trees of H10 -/

/-- Byte `j` of the sequence that starts at position `p` of the ring buffer. -/
def seqAt (data : Nat → Nat) (mask p j : Nat) : Nat := data ((p &&& mask) + j)

/-- The 128-byte sequence at `p` is lexicographically below the one at `q`. -/
def Lt128 (data : Nat → Nat) (mask p q : Nat) : Prop :=
  ∃ l, l < 128 ∧ (∀ j, j < l → seqAt data mask p j = seqAt data mask q j) ∧
    seqAt data mask p l < seqAt data mask q l

/-- The first `a` bytes of the sequence at `x` are lexicographically not below those of the
sequence at `c`. -/
def AboveLeft (data : Nat → Nat) (mask c a x : Nat) : Prop :=
  (∀ j, j < a → seqAt data mask x j = seqAt data mask c j) ∨
  ∃ l, l < a ∧ (∀ j, j < l → seqAt data mask x j = seqAt data mask c j) ∧
    seqAt data mask c l < seqAt data mask x l

/-- The first `b` bytes of the sequence at `x` are lexicographically not above those of the
sequence at `c`. -/
def BelowRight (data : Nat → Nat) (mask c b x : Nat) : Prop :=
  (∀ j, j < b → seqAt data mask x j = seqAt data mask c j) ∨
  ∃ l, l < b ∧ (∀ j, j < l → seqAt data mask x j = seqAt data mask c j) ∧
    seqAt data mask x l < seqAt data mask c l

/-- The shape of the tree of a hash bucket as the forest holds it: a leaf is a link that no
search follows (the invalid position, or a position that has left the window), a node is a
position with its two subtrees. -/
inductive HTree where
  | leaf (v : Nat)
  | node (p : Nat) (l r : HTree)

/-- The link that leads to a tree. -/
def HTree.root : HTree → Nat
  | .leaf v => v
  | .node p _ _ => p

/-- The positions of a tree. -/
def HTree.nodes : HTree → List Nat
  | .leaf _ => []
  | .node p l r => p :: (l.nodes ++ r.nodes)

/-- The forest `f` of a hasher with window mask `w` holds the tree: the two child links of
every node are the roots of its subtrees. -/
def ReprTree (w : Nat) (f : Nat → Nat) : HTree → Prop
  | .leaf _ => True
  | .node p l r => f (2 * (p &&& w)) = l.root ∧ f (2 * (p &&& w) + 1) = r.root ∧
      ReprTree w f l ∧ ReprTree w f r

/-- A tree of the bucket `key` is well formed for the positions from `lo` up to `hi`: its
leaves are the invalid position `inv` or positions more than `w` below `lo`; its nodes are
positions below `hi` and at most `w` below `lo` whose hash is `key`; every node is above the
positions of its subtrees (max-heap), after the sequences of its left subtree and before those
of its right subtree (search tree). -/
def WFTree {Γ : Type} (K : HasherCollab Γ) (data : Nat → Nat) (mask w inv key lo hi : Nat) :
    HTree → Prop
  | .leaf v => v + w < lo ∨ v = inv
  | .node p l r => p < hi ∧ lo ≤ p + w ∧ HashBytesH10 K data (p &&& mask) = key ∧
      (∀ x ∈ l.nodes, x < p ∧ Lt128 data mask x p) ∧
      (∀ x ∈ r.nodes, x < p ∧ Lt128 data mask p x) ∧
      WFTree K data mask w inv key lo hi l ∧ WFTree K data mask w inv key lo hi r

/-- The invariant of an H10 hasher between two calls, for positions from `lo` up to `hi`: the
head of every bucket leads to a well-formed tree that the forest holds. -/
def H10Inv {Γ : Type} (K : HasherCollab Γ) (data : Nat → Nat) (mask : Nat) (s : H10)
    (lo hi : Nat) : Prop :=
  ∀ key, key < 2 ^ 17 → ∃ t : HTree, t.root = s.buckets_ key ∧
    ReprTree s.window_mask_ s.forest t ∧
    WFTree K data mask s.window_mask_ s.invalid_pos_ key lo hi t

/-- A call of a session on an H10 hasher over one input and one ring-buffer mask: `store(ix)`
or `find_all_matches(cur_ix, max_length, max_backward, gap, quality, max_distance)`. -/
inductive H10Call where
  | store (ix : Nat)
  | find (cur_ix max_length max_backward gap quality max_distance : Nat)

/-- The position of a call. -/
def H10Call.position : H10Call → Nat
  | .store ix => ix
  | .find cur_ix _ _ _ _ _ => cur_ix

/-- The `max_backward` a call searches with: that of the call, or the `window_mask_ - 15` of a
store. -/
def H10Call.maxBackward (window_mask : Nat) : H10Call → Nat
  | .store _ => u64 (usub window_mask BROTLI_WINDOW_GAP + 1)
  | .find _ _ max_backward _ _ _ => max_backward

/-- One call on an H10 hasher. -/
def callH10 {Γ : Type} (K : HasherCollab Γ) (data : Nat → Nat) (mask : Nat) (st : H10 × Γ) :
    H10Call → H10 × Γ
  | .store ix => (StoreH10 K st.1 data mask ix, st.2)
  | .find cur_ix max_length max_backward gap quality max_distance =>
    let r := FindAllMatchesH10 K st.1 st.2 data mask cur_ix max_length max_backward gap
      quality max_distance
    (r.1, r.2.1)

/-- A sequence of calls on an H10 hasher. -/
def runH10 {Γ : Type} (K : HasherCollab Γ) (data : Nat → Nat) (mask : Nat) :
    H10 × Γ → List H10Call → H10 × Γ
  | st, [] => st
  | st, c :: cs => runH10 K data mask (callH10 K data mask st c) cs

/-- A hook of the traversal at `cur`: a child link of a position of the window that is not in
the tree `t`. -/
def HookOK (w cur : Nat) (t : HTree) (h : Nat) : Prop :=
  ∃ q e, h = 2 * (q &&& w) + e ∧ e ≤ 1 ∧ q ≤ cur ∧ cur ≤ q + w ∧ q ∉ t.nodes

/-- The entries written so far at `cur` are valid matches, their distances do not decrease, and
no position of the tree `t` that matches longer than `best_len` is nearer than one of them. -/
def MatchesSound (data : Nat → Nat) (mask cur max_length max_backward : Nat) (t : HTree)
    (best_len : Nat) (ms : List BackwardMatch) : Prop :=
  (∀ m ∈ ms, ValidMatch data mask cur max_length max_backward m.distance m.length) ∧
  List.Pairwise (fun a b => a.distance ≤ b.distance) ms ∧
  ∀ m ∈ ms, ∀ x ∈ t.nodes,
    best_len < FindMatchLengthWithLimit data (cur &&& mask) (x &&& mask) max_length →
      m.distance ≤ cur - x

/-- The state of the loop of `StoreAndFindMatchesH10` at `cur` before it looks at the link
`prev_ix`: the link leads to the well-formed tree `t` that the forest holds, the two hooks are
distinct links outside `t`, and every sequence of `t` lies, on its first `best_len_left` bytes,
not below and, on its first `best_len_right` bytes, not above the sequence at `cur`. -/
def TraversalInv {Γ : Type} (K : HasherCollab Γ) (self : H10) (data : Nat → Nat)
    (mask cur max_length max_backward : Nat) (t : HTree) (st : TreeState) : Prop :=
  st.prev_ix = t.root ∧ ReprTree self.window_mask_ st.forest t ∧
  WFTree K data mask self.window_mask_ self.invalid_pos_
    (HashBytesH10 K data (cur &&& mask)) cur cur t ∧
  HookOK self.window_mask_ cur t st.node_left ∧ HookOK self.window_mask_ cur t st.node_right ∧
  st.node_left ≠ st.node_right ∧
  (∀ x ∈ t.nodes, AboveLeft data mask cur st.best_len_left x ∧
    BelowRight data mask cur st.best_len_right x) ∧
  st.best_len_left ≤ max_length ∧ st.best_len_right ≤ max_length ∧
  MatchesSound data mask cur max_length max_backward t st.best_len st.matches_

/-- What the loop of `StoreAndFindMatchesH10` at `cur` leaves, from the state `st` on the
tree `t` to the state `st2`: when it re-roots, the hooks lead to two well-formed trees of
positions of `t`, before and after the sequence at `cur`, and the other links outside `t` are as
they were; otherwise the forest is as it was; the entries written are valid and their distances
do not decrease. -/
def TraversalPost {Γ : Type} (K : HasherCollab Γ) (self : H10) (data : Nat → Nat)
    (mask cur max_length max_backward : Nat) (t : HTree) (st st2 : TreeState) : Prop :=
  (max_length ≥ 128 → ∃ L R : HTree,
    st2.forest st.node_left = L.root ∧ st2.forest st.node_right = R.root ∧
    ReprTree self.window_mask_ st2.forest L ∧ ReprTree self.window_mask_ st2.forest R ∧
    WFTree K data mask self.window_mask_ self.invalid_pos_
      (HashBytesH10 K data (cur &&& mask)) cur cur L ∧
    WFTree K data mask self.window_mask_ self.invalid_pos_
      (HashBytesH10 K data (cur &&& mask)) cur cur R ∧
    (∀ x ∈ L.nodes, x ∈ t.nodes ∧ Lt128 data mask x cur) ∧
    (∀ x ∈ R.nodes, x ∈ t.nodes ∧ Lt128 data mask cur x) ∧
    ∀ c, c ≠ st.node_left → c ≠ st.node_right →
      (∀ x ∈ t.nodes, c ≠ 2 * (x &&& self.window_mask_) ∧
        c ≠ 2 * (x &&& self.window_mask_) + 1) →
      st2.forest c = st.forest c) ∧
  (max_length < 128 → st2.forest = st.forest) ∧
  (∀ m ∈ st2.matches_, ValidMatch data mask cur max_length max_backward m.distance m.length) ∧
  List.Pairwise (fun a b => a.distance ≤ b.distance) st2.matches_

/-- A call fits a window of `2^lg` bytes: its position leaves room for the window below
`2^32`, and a search looks back no further than the window mask and than its own position,
for a `max_length` that is a `uint`. -/
def H10CallOK (lg : Nat) : H10Call → Prop
  | .store ix => ix + 2 ^ lg ≤ 2 ^ 32
  | .find cur_ix max_length max_backward _ _ _ =>
    cur_ix + 2 ^ lg ≤ 2 ^ 32 ∧ max_backward ≤ 2 ^ lg - 1 ∧ max_backward ≤ cur_ix ∧
      max_length < 2 ^ 64

/-- An input for a window of 1024 bytes: `abcdZ` at 100, `abcd0` at 200, `zbcdEFGH` at 300,
`zbcdZ` at 1124 and `abcdEFGH` at 1200, and the byte 1 everywhere else. -/
def aliasInput (i : Nat) : Nat :=
  if 100 ≤ i ∧ i < 105 then [97, 98, 99, 100, 90].getD (i - 100) 1
  else if 200 ≤ i ∧ i < 205 then [97, 98, 99, 100, 48].getD (i - 200) 1
  else if 300 ≤ i ∧ i < 308 then [122, 98, 99, 100, 69, 70, 71, 72].getD (i - 300) 1
  else if 1124 ≤ i ∧ i < 1129 then [122, 98, 99, 100, 90].getD (i - 1124) 1
  else if 1200 ≤ i ∧ i < 1208 then [97, 98, 99, 100, 69, 70, 71, 72].getD (i - 1200) 1
  else 1

/-- Modelled from the spec: a static dictionary that answers every look-up at a position with
the word 64 for the length 4 and the word 0 for the length 5; the other collaborators are
those of `referenceCollab`. -/
def twoWordDictionaryCollab : HasherCollab Unit :=
  { referenceCollab with
    BrotliFindAllStaticDictionaryMatches := fun c _ _ _ _ _ =>
      (c, true, fun l => if l = 4 then 64 else if l = 5 then 0 else kInvalidMatch) }

/-- Lines 89 and 110-113 of `h10.go`: the link the loop of `StoreAndFindMatchesH10` compares
the input against in its first round, which is the head of the bucket of the key of `cur_ix`;
`none` when the loop ends at that link without comparing. -/
def firstCandidateH10 {Γ : Type} (K : HasherCollab Γ) (self : H10) (data : Nat → Nat)
    (cur_ix ring_buffer_mask max_backward : Nat) : Option Nat :=
  let prev_ix := self.buckets_ (HashBytesH10 K data (cur_ix &&& ring_buffer_mask))
  if usub cur_ix prev_ix = 0 ∨ usub cur_ix prev_ix > max_backward then none else some prev_ix

/-- Lines 93-95 of `h10.go`: a call may write the head of a bucket only when it re-roots,
which a store always does and a find does only with `max_length >= 128`. -/
def H10Call.mayReroot : H10Call → Bool
  | .store _ => true
  | .find _ max_length _ _ _ _ => decide (max_length ≥ 128)

/-- The input of the closed statements in which every byte is `7`. -/
def sevensInput : Nat → Nat := fun _ => 7

/-- The state of the loop of `BuildBlockHistogramsDistance` after `i` rounds: histogram `k`
counts the positions below `i` of block id `k`, per symbol and in total; its total is the sum
of its counters over the symbols below `S`; and the totals add up to `i`. -/
def BuildCounted {κ : Type} (data : Nat → Nat) (block_ids : List Nat)
    (num_histograms S len : Nat) (i : Nat) (hs : List (HistogramDistance κ)) : Prop :=
  hs.length = len ∧
  (∀ k, k < num_histograms → ∃ h, hs[k]? = some h ∧
    (∀ s, h.data_ s =
      (List.range i).countP (fun j => decide (block_ids[j]? = some k ∧ data j = s))) ∧
    h.total_count_ = (List.range i).countP (fun j => decide (block_ids[j]? = some k)) ∧
    h.total_count_ = ((List.range S).map h.data_).sum) ∧
  ((hs.take num_histograms).map (fun h => h.total_count_)).sum = i

/-- The state of the loop of `ClearHistogramsDistance` after `i` rounds. -/
def ClearedBelow {κ : Type} (huge : κ) (len : Nat) (i : Nat)
    (hs : List (HistogramDistance κ)) : Prop :=
  hs.length = len ∧ ∀ k, k < i → hs[k]? = some (HistogramClearDistance huge)

/-- The input of the closed statements on `BuildBlockHistogramsDistance`: the symbols
`5, 6, 5, 7`. -/
def fourSymbols : Nat → Nat := fun i => if i = 1 then 6 else if i = 3 then 7 else 5

/-- The state of a loop `for i = 0; i < n; i++ { xs[i] = c }` after `i` rounds, started on
`xs0`. -/
def FilledBelow {α : Type} (c : α) (xs0 : List α) (i : Nat) (xs : List α) : Prop :=
  xs.length = xs0.length ∧ (∀ a, a < i → xs[a]? = some c) ∧ ∀ a, i ≤ a → xs[a]? = xs0[a]?

/-- The numbering of the second loop of `RemapBlockIdsDistance` after the first `i` ids, on
`(new_id, next_id)`: an id below `num_histograms` has a number exactly when it occurs among the
first `i` ids; the numbers are those below `next_id`, none is given twice, and they follow
the order of first appearance. -/
def RemapNumbered (block_ids : List Nat) (num_histograms len : Nat) (i : Nat)
    (st : List Nat × Nat) : Prop :=
  st.1.length = len ∧
  (∀ a, a < num_histograms →
    ∃ v, st.1[a]? = some v ∧ (v = RemapBlockIdsDistance_kInvalidId ∨ v < st.2)) ∧
  (∀ a, a < num_histograms →
    (st.1[a]? ≠ some RemapBlockIdsDistance_kInvalidId ↔
      ∃ j, j < i ∧ block_ids[j]? = some a)) ∧
  (∀ a a2 v, a < num_histograms → a2 < num_histograms → st.1[a]? = some v →
    st.1[a2]? = some v → v ≠ RemapBlockIdsDistance_kInvalidId → a = a2) ∧
  (∀ v, v < st.2 → ∃ a, a < num_histograms ∧ st.1[a]? = some v) ∧
  (∀ j2 a v, j2 < i → block_ids[j2]? = some a → st.1[a]? = some (v + 1) →
    ∃ j a0, j < j2 ∧ block_ids[j]? = some a0 ∧ st.1[a0]? = some v) ∧
  st.2 ≤ num_histograms

/-- The state of the third loop of `RemapBlockIdsDistance` after `i` rounds: the first `i` ids
are replaced by their numbers, the others are as they were. -/
def RemapRewritten (block_ids new_id : List Nat) (i : Nat) (bids : List Nat) : Prop :=
  bids.length = block_ids.length ∧
  (∀ j, j < i → ∃ a v, block_ids[j]? = some a ∧ new_id[a]? = some v ∧ bids[j]? = some v) ∧
  ∀ j, i ≤ j → bids[j]? = block_ids[j]?

/-- Ids in the order of first appearance: every id `v + 1` among the first `length` comes
after an id `v`; so the first id is `0`. -/
def FirstAppearanceOrder (block_ids : List Nat) (length : Nat) : Prop :=
  ∀ i v, i < length → block_ids[i]? = some (v + 1) → ∃ j, j < i ∧ block_ids[j]? = some v

/-- The state of the trace back of `FindBlocksDistance` (lines 134-147) after `t` rounds, on
`(block_id, cur_id, num_blocks)`: `cur_id` is the id at the position reached, and `num_blocks`
is one more than the number of block switches from that position on. -/
def TraceCounted (byte_ix len : Nat) (t : Nat) (st : List Nat × Nat × Nat) : Prop :=
  st.1.length = len ∧ st.1[byte_ix - t]? = some st.2.1 ∧
  st.2.2 = 1 + (List.range' (byte_ix - t) t).countP
    (fun i => decide (st.1.getD i 0 ≠ st.1.getD (i + 1) 0))

/-- The costs of the forward pass of `FindBlocksDistance` stay below `1e99`: at every position
`byte_ix < length` the pass reaches, some entropy code `k` has a cost that, with its insert
cost added (line 106), compares below the start value `1e99` of `min_cost`. -/
def CostsBelowHuge {κ : Type} (C : SplitCollab κ) (data : Nat → Nat) (length : Nat)
    (block_switch_bitcost : κ) (num_histograms : Nat)
    (histograms : List (HistogramDistance κ)) (st : FindBlocksState κ) : Prop :=
  ∀ byte_ix s, byte_ix < length →
    forwardPassDistance C data length block_switch_bitcost num_histograms histograms st
      byte_ix = some s →
    ∃ k c e, k < num_histograms ∧ s.cost[k]? = some c ∧
      s.insert_cost[data byte_ix * num_histograms + k]? = some e ∧
      C.lt (C.add c e) C.c1e99 = true

/-- The arrays `FindBlocksDistance` is handed are as `SplitByteVectorDistance` allocates them
(lines 408-414): `data_size * num_histograms` insert costs, `num_histograms` costs and
histograms, `length * bitmaplen` bytes of `switch_signal` and `length` block ids; and the
symbols `data[0 .. length)` are symbols of the alphabet. -/
def FindBlocksSized {κ : Type} (C : SplitCollab κ) (data : Nat → Nat) (length : Nat)
    (num_histograms : Nat) (histograms : List (HistogramDistance κ))
    (st : FindBlocksState κ) : Prop :=
  C.HistogramDataSizeDistance * num_histograms ≤ st.insert_cost.length ∧
  num_histograms ≤ st.cost.length ∧
  st.switch_signal.length = length * ((num_histograms + 7) >>> 3) ∧
  length ≤ st.block_id.length ∧
  num_histograms ≤ histograms.length ∧
  ∀ i, i < length → data i < C.HistogramDataSizeDistance

/-- The state of the loop of lines 104-112 at position `byte_ix` after `k` rounds, on
`(cost, min_cost, block_id)`, started on the costs `cost0` and the block ids `bl0`, with the
insert costs `ic` from index `ix` on: the other positions are as they were and the costs from
`k` on are untouched; `min_cost` is `1e99` still, the position is as it was and none of the
first `k` costs compared below `1e99`, or the position has an id below `num_histograms`. -/
def AddAssigned {κ : Type} (C : SplitCollab κ) (num_histograms lc lb : Nat)
    (cost0 ic : List κ) (bl0 : List Nat) (ix byte_ix : Nat) (k : Nat)
    (st : List κ × κ × List Nat) : Prop :=
  st.1.length = lc ∧ st.2.2.length = lb ∧
  (∀ j, j ≠ byte_ix → st.2.2[j]? = bl0[j]?) ∧
  (∀ j, k ≤ j → st.1[j]? = cost0[j]?) ∧
  ((st.2.1 = C.c1e99 ∧ st.2.2[byte_ix]? = bl0[byte_ix]? ∧
      ∀ j c e, j < k → cost0[j]? = some c → ic[ix + j]? = some e →
        C.lt (C.add c e) C.c1e99 ≠ true) ∨
    ∃ b, st.2.2[byte_ix]? = some b ∧ b < num_histograms)

/-- The state of the loop of lines 119-128, on `(cost, switch_signal)`: the arrays keep their
lengths. -/
def CapSized {κ : Type} (lc lsw : Nat) (st : List κ × List Nat) : Prop :=
  st.1.length = lc ∧ st.2.length = lsw

/-- The state of the forward pass of `FindBlocksDistance` before position `i`, started on the
block ids `bl0`: the arrays keep their lengths, the positions before `i` have ids below
`num_histograms`, and the others are as they were. -/
def ForwardAssigned {κ : Type} (num_histograms lic lc lsw lb : Nat) (bl0 : List Nat) (i : Nat)
    (st : FindBlocksState κ) : Prop :=
  st.insert_cost.length = lic ∧ st.cost.length = lc ∧ st.switch_signal.length = lsw ∧
  st.block_id.length = lb ∧
  (∀ j, j < i → ∃ b, st.block_id[j]? = some b ∧ b < num_histograms) ∧
  ∀ j, i ≤ j → st.block_id[j]? = bl0[j]?

/-- The forward pass of `FindBlocksDistance` gives every position an id below
`num_histograms`: the costs stay below `1e99`, so that an entropy code is recorded at every
position, or the ids at entry are below `num_histograms` already. -/
def IdsAssignable {κ : Type} (C : SplitCollab κ) (data : Nat → Nat) (length : Nat)
    (block_switch_bitcost : κ) (num_histograms : Nat)
    (histograms : List (HistogramDistance κ)) (st : FindBlocksState κ) : Prop :=
  CostsBelowHuge C data length block_switch_bitcost num_histograms histograms st ∨
    ∀ j, j < length → ∃ b, st.block_id[j]? = some b ∧ b < num_histograms

/-- The state of the trace back of `FindBlocksDistance`, on `(block_id, cur_id, num_blocks)`:
the ids of the `length` positions and `cur_id` are below `num_histograms`. -/
def TraceRanged (num_histograms lb length : Nat) (st : List Nat × Nat × Nat) : Prop :=
  st.1.length = lb ∧ (∀ j, j < length → ∃ b, st.1[j]? = some b ∧ b < num_histograms) ∧
  st.2.1 < num_histograms

/-- Lines 201-221 of `h5.go`: what the walk of `FindLongestMatchH5` does with a link
`prev_ix` it has read at a distance `backward` within `max_backward`: the candidate is passed
over when it cannot beat `best_len`, otherwise it is measured and, with at least four bytes and
a better score, becomes the best match. -/
def h5Examine {Γ : Type} (K : HasherCollab Γ) (data : Nat → Nat)
    (ring_buffer_mask cur_ix_masked max_length : Nat) (prev_ix backward : Nat)
    (st : SearchStateH5) : SearchStateH5 :=
  let prev_ix := prev_ix &&& ring_buffer_mask
  if cur_ix_masked + st.best_len > ring_buffer_mask ∨
      prev_ix + st.best_len > ring_buffer_mask ∨
      data (cur_ix_masked + st.best_len) ≠ data (prev_ix + st.best_len) then st
  else
    let len := FindMatchLengthWithLimit data prev_ix cur_ix_masked max_length
    if len ≥ 4 then
      let score := K.BackwardReferenceScore len backward
      if st.best_score < score then
        { best_score := score, best_len := len,
          out := { st.out with len := len, distance := backward, score := score } }
      else st
    else st

/-- Lines 194-200 of `h5.go`: the links the walk down the ring reads from entry `i`, for at
most `steps` entries, in the order it reads them, up to the first link further away than
`max_backward`, at which the walk ends. -/
def h5WalkLinks (self : H5) (cur_ix max_backward : Nat) (base : Nat) : Nat → Nat → List Nat
  | 0, _ => []
  | steps + 1, i =>
    let i := i - 1
    let prev_ix := self.buckets (base + (u32 i &&& self.block_mask_))
    if usub cur_ix prev_ix > max_backward then []
    else prev_ix :: h5WalkLinks self cur_ix max_backward base steps i

/-- The candidates `FindLongestMatchH5` examines in the ring of the key of `cur_ix`, in the
order of the walk of lines 186-223. -/
def examinedH5 {Γ : Type} (K : HasherCollab Γ) (self : H5) (data : Nat → Nat)
    (ring_buffer_mask cur_ix max_backward : Nat) : List Nat :=
  let key := HashBytesH5 K data (cur_ix &&& ring_buffer_mask) self.hash_shift_
  let base := u32 (key <<< uintOfInt self.block_bits)
  let down := if self.num key > self.block_size_ then self.num key - self.block_size_ else 0
  h5WalkLinks self cur_ix max_backward base (self.num key - down) (self.num key)

/-- Lines 142-184 of `h5.go`: the search state of `FindLongestMatchH5` after the candidates of
the distance cache, with which the walk down the ring starts. -/
def cacheSearchH5 {Γ : Type} (K : HasherCollab Γ) (self : H5) (data : Nat → Nat)
    (ring_buffer_mask : Nat) (distance_cache : Nat → Int)
    (cur_ix max_length max_backward : Nat) (out : HasherSearchResult) : SearchStateH5 :=
  iterLoop (h5CacheStep K data ring_buffer_mask distance_cache cur_ix
    (cur_ix &&& ring_buffer_mask) max_length max_backward) 0
    (uintOfInt self.num_last_distances_to_check)
    { best_score := out.score, best_len := out.len,
      out := { out with len := 0, len_code_delta := 0 } }

/-- The sizes of an H5 hasher with `bucket_bits = 15` and `block_bits = 4`, as `InitializeH5`
sets them. -/
def SizedH5 (s : H5) : Prop :=
  s.hash_shift_ = 17 ∧ s.block_bits = 4 ∧ s.block_mask_ = 15 ∧ s.block_size_ = 16

/-- The ring of `key` counts `n >= 1` entries (a `uint16`) and its newest entry is `p`. -/
def RingTop (s : H5) (key n p : Nat) : Prop :=
  s.num key = n ∧ 1 ≤ n ∧ n < 2 ^ 16 ∧
  s.buckets (u32 (key <<< uintOfInt s.block_bits) + (u32 (n - 1) &&& s.block_mask_)) = p

/-- The key of a call on an H5 hasher whose hash shift is `shift`. -/
def HasherCall.keyH5 {Γ : Type} (K : HasherCollab Γ) (shift : Int) (c : HasherCall) : Nat :=
  HashBytesH5 K c.input (c.position &&& c.ringMask) shift

/-- What the search of `FindLongestMatchH5` at `cur_ix = 4` holds on an input that starts
with `abcdabcd`: nothing yet, at the minimal score, or the match of length `4` at distance
`4`. -/
def AbcdSearch (st : SearchStateH5) : Prop :=
  st.out.score = st.best_score ∧
  ((st.best_len = 0 ∧ st.best_score = 2020 ∧ st.out.len = 0) ∨
   (st.best_len = 4 ∧ st.out.len = 4 ∧ st.out.distance = 4 ∧ 2020 < st.best_score))

/-- The search state of `FindLongestMatchH4` against `out` at entry: `out.score` is the best
score and not below the score at entry, and while it is the score at entry, `out.len` and
`out.distance` are those at entry. -/
def SearchFrameH4 (out : HasherSearchResult) (st : SearchState) : Prop :=
  st.out.score = st.best_score ∧ out.score ≤ st.out.score ∧
  (st.out.score = out.score → st.out.len = out.len ∧ st.out.distance = out.distance)

/-- The search state of `FindLongestMatchH5` against `out` at entry: `out.score` is the best
score and not below the score at entry, and while it is the score at entry, `out.len` is the
`0` it was reset to and `out.distance` is that at entry. -/
def SearchFrameH5 (out : HasherSearchResult) (st : SearchStateH5) : Prop :=
  st.out.score = st.best_score ∧ out.score ≤ st.out.score ∧
  (st.out.score = out.score → st.out.len = 0 ∧ st.out.distance = out.distance)

/-- Lines 246-262 of `h10.go`: the positions `StoreRangeH10` stores at, in order, when no sum
wraps around: every eighth position from `ix_start` up to the last 63 when there are at least
512 before them, and then the last 63 positions, or all when there are fewer. -/
def storeRangePositionsH10 (ix_start ix_end : Nat) : List Nat :=
  (if ix_start + 575 ≤ ix_end then
      (List.range ((ix_end - 63 - ix_start + 7) / 8)).map (fun t => ix_start + 8 * t)
    else []) ++
  List.range' (ix_end - min 63 (ix_end - ix_start)) (min 63 (ix_end - ix_start))

/-- The input of the closed statements whose first byte is `9` and every other byte `7`. -/
def nineSevensInput : Nat → Nat := fun i => if i = 0 then 9 else 7

/-- Lines 110-159 of `h10.go`: the links `prev_ix` the loop of `StoreAndFindMatchesH10`
compares the input against (the rounds that reach `FindMatchLengthWithLimit`), in order. -/
def treeCandidates (self : H10) (data : Nat → Nat)
    (cur_ix ring_buffer_mask max_length max_backward : Nat) (record : Bool) :
    Nat → TreeState → List Nat
  | 0, _ => []
  | depth_remaining + 1, st =>
    let cur_ix_masked := cur_ix &&& ring_buffer_mask
    let max_comp_len := min max_length 128
    let should_reroot_tree := decide (max_length ≥ 128)
    let backward := usub cur_ix st.prev_ix
    let prev_ix_masked := st.prev_ix &&& ring_buffer_mask
    if backward = 0 ∨ backward > max_backward then []
    else
      let len := treeLen data cur_ix ring_buffer_mask max_length st
      let st1 := treeRecord data cur_ix ring_buffer_mask max_length record st
      if len ≥ max_comp_len then [st.prev_ix]
      else if data (cur_ix_masked + len) > data (prev_ix_masked + len) then
        let f1 := if should_reroot_tree then upd st1.forest st1.node_left (u32 st1.prev_ix)
          else st1.forest
        let node_left := RightChildIndexH10 self st1.prev_ix
        st.prev_ix :: treeCandidates self data cur_ix ring_buffer_mask max_length max_backward
          record depth_remaining
          { st1 with best_len_left := len, forest := f1, node_left := node_left,
                     prev_ix := f1 node_left }
      else
        let f1 := if should_reroot_tree then upd st1.forest st1.node_right (u32 st1.prev_ix)
          else st1.forest
        let node_right := LeftChildIndexH10 self st1.prev_ix
        st.prev_ix :: treeCandidates self data cur_ix ring_buffer_mask max_length max_backward
          record depth_remaining
          { st1 with best_len_right := len, forest := f1, node_right := node_right,
                     prev_ix := f1 node_right }

/-- The candidates a call of `StoreAndFindMatchesH10` compares the input against: those of its
loop from `depth_remaining = 64` on the state the function starts the loop with. -/
def candidatesH10 {Γ : Type} (K : HasherCollab Γ) (self : H10) (data : Nat → Nat)
    (cur_ix ring_buffer_mask max_length max_backward : Nat) (best_len : Nat)
    (matches_ : Option (List BackwardMatch)) : List Nat :=
  treeCandidates self data cur_ix ring_buffer_mask max_length max_backward matches_.isSome 64
    { forest := self.forest,
      prev_ix := self.buckets_ (HashBytesH10 K data (cur_ix &&& ring_buffer_mask)),
      node_left := LeftChildIndexH10 self cur_ix,
      node_right := RightChildIndexH10 self cur_ix,
      best_len_left := 0, best_len_right := 0, best_len := best_len,
      matches_ := matches_.getD [] }

/-- A hasher whose forest links form a cycle: every head and every child link is the
position 5, so the tree of every bucket leads from 5 to 5. -/
def cyclicH10 : H10 :=
  { window_mask_ := 1023, invalid_pos_ := 4294966273, buckets_ := fun _ => 5,
    forest := fun _ => 5 }

/-- The input of the closed statements on the linear scan of `FindAllMatchesH10`: the bytes
`1, 2, ..., n` repeated, so that two positions agree on a byte exactly when their distance is a
multiple of `n`. -/
def periodInput (n : Nat) : Nat → Nat := fun i => i % n + 1

/-- The state of the loop of `InitialEntropyCodesDistance` after `i` rounds, on an array of
`len` histograms: each histogram below `i` is the cleared histogram with the `stride` symbols
`data[pos .. pos + stride)` added, for a `pos` with `pos + stride <= length`; the histograms
from `i` up to `n` are still cleared. -/
def SeededBelow {κ : Type} (huge : κ) (data : Nat → Nat) (length stride n len : Nat) (i : Nat)
    (st : Nat × List (HistogramDistance κ)) : Prop :=
  st.2.length = len ∧
  (∀ k, k < i → ∃ pos, pos + stride ≤ length ∧
    st.2[k]? = some (HistogramAddVectorDistance (HistogramClearDistance huge)
      (fun j => data (pos + j)) stride)) ∧
  ∀ k, i ≤ k → k < n → st.2[k]? = some (HistogramClearDistance huge)

/-- The input of the closed statements on `InitialEntropyCodesDistance`: the symbol `1` at the
four positions of `data[0 .. 4)` and the symbol `2` at every position outside. -/
def onesInsideFour : Nat → Nat := fun i => if i < 4 then 1 else 2

/-- The types written by the loop of lines 352-362 before block `i` change from one written
run to the next: two adjacent written types differ, and the last written type is the number of
the cluster of a block `e` before `i` whose cluster is not the one of the blocks after `e` up
to `i`, which all have one cluster. -/
def EmitAdjacent (nb : Nat) (hs ni : List Nat) (i : Nat) (es : EmitState) : Prop :=
  (∀ b t t2 : Nat, b + 1 < es.block_idx → es.types[b]? = some t →
    es.types[b + 1]? = some t2 → t ≠ t2) ∧
  (1 ≤ es.block_idx → ∃ e c v, e < i ∧ hs[e]? = some c ∧ ni[c]? = some v ∧
    es.types[es.block_idx - 1]? = some v ∧
    (e + 1 < nb → hs[e + 1]? ≠ some c) ∧
    ∀ j, e < j → j ≤ i → j < nb → hs[j]? = hs[e + 1]?)

/-- A call of a session on an H10 hasher, `StoreRangeH10` included: a call of `H10Call` or
`store_range(ix_start, ix_end)`. -/
inductive H10Op where
  | call (c : H10Call)
  | storeRange (ix_start ix_end : Nat)

/-- One call of a session with `StoreRangeH10` on an H10 hasher. -/
def opH10 {Γ : Type} (K : HasherCollab Γ) (data : Nat → Nat) (mask : Nat) (st : H10 × Γ) :
    H10Op → H10 × Γ
  | .call c => callH10 K data mask st c
  | .storeRange ix_start ix_end => (StoreRangeH10 K st.1 data mask ix_start ix_end, st.2)

/-- A sequence of calls with `StoreRangeH10` on an H10 hasher. -/
def runOpsH10 {Γ : Type} (K : HasherCollab Γ) (data : Nat → Nat) (mask : Nat) :
    H10 × Γ → List H10Op → H10 × Γ
  | st, [] => st
  | st, o :: os => runOpsH10 K data mask (opH10 K data mask st o) os

/-- The stores and searches a call of a session makes, in order: a `StoreRangeH10` makes the
`StoreH10` calls at the positions of `storeRangePositionsH10`. -/
def H10Op.calls : H10Op → List H10Call
  | .call c => [c]
  | .storeRange ix_start ix_end =>
    (storeRangePositionsH10 ix_start ix_end).map H10Call.store

/-- The stores and searches of a session, in order. -/
def sessionCalls : List H10Op → List H10Call
  | [] => []
  | o :: os => o.calls ++ sessionCalls os

/-- A call of a session fits a window of `2^lg` bytes: a call of `H10Call` does, and both ends
of a `StoreRangeH10` leave room for the window below `2^32`. -/
def H10OpOK (lg : Nat) : H10Op → Prop
  | .call c => H10CallOK lg c
  | .storeRange ix_start ix_end => ix_start + 2 ^ lg ≤ 2 ^ 32 ∧ ix_end + 2 ^ lg ≤ 2 ^ 32

/-- Two states of the loop of `StoreAndFindMatchesH10` with the same links and lengths: they
differ in `best_len` and in the entries written only. -/
def SameLinks (a b : TreeState) : Prop :=
  a.forest = b.forest ∧ a.prev_ix = b.prev_ix ∧ a.node_left = b.node_left ∧
  a.node_right = b.node_right ∧ a.best_len_left = b.best_len_left ∧
  a.best_len_right = b.best_len_right

/-- Lines 115-117: the block-switch cost of position `byte_ix`, scaled down at the first 2000
positions. -/
def blockSwitchCostAt {κ : Type} (C : SplitCollab κ) (block_switch_bitcost : κ)
    (byte_ix : Nat) : κ :=
  if byte_ix < 2000 then
    C.mul block_switch_bitcost
      (C.add C.c0_77 (C.div (C.mul C.c0_07 (C.ofNat byte_ix)) C.c2000))
  else block_switch_bitcost

/-- The costs are exact numbers: the arithmetic and the comparisons of the collaborators are
those of the ordered field `κ`, and the literals have their values. -/
def ExactCosts {κ : Type} [LinearOrderedField κ] (C : SplitCollab κ) : Prop :=
  (∀ a b, C.add a b = a + b) ∧ (∀ a b, C.sub a b = a - b) ∧ (∀ a b, C.mul a b = a * b) ∧
  (∀ a b, C.div a b = a / b) ∧ (∀ a b, C.lt a b = true ↔ a < b) ∧
  (∀ a b, C.ge a b = true ↔ b ≤ a) ∧ C.zero = 0 ∧ C.c1e99 = 10 ^ 99 ∧
  C.c0_77 = 77 / 100 ∧ C.c0_07 = 7 / 100 ∧ C.c2000 = 2000 ∧ ∀ n : Nat, C.ofNat n = (n : κ)

/-- Entry `(i, j)` of the insert costs is the cost of the symbol `i` under histogram `j`:
`FastLog2(total_count_) - BitCost(data_[i])` (lines 73-82). -/
def InsertCostAt {κ : Type} (C : SplitCollab κ) (num_histograms : Nat)
    (histograms : List (HistogramDistance κ)) (ic : List κ) (i j : Nat) : Prop :=
  ∃ h, histograms[j]? = some h ∧
    ic[i * num_histograms + j]? =
      some (C.sub (C.FastLog2 (u32 h.total_count_)) (C.BitCost (h.data_ i)))

/-- Entry `j` of the insert costs still is `FastLog2(total_count_)` of histogram `j`
(lines 73-75). -/
def InsertBaseAt {κ : Type} (C : SplitCollab κ) (histograms : List (HistogramDistance κ))
    (ic : List κ) (j : Nat) : Prop :=
  ∃ h, histograms[j]? = some h ∧ ic[j]? = some (C.FastLog2 (u32 h.total_count_))

/-- The state of the loop of lines 104-112 at position `byte_ix` after `k` rounds with exact
costs, on `(cost, min_cost, block_id)`, started on the costs `cost0` and the block ids `bl0`:
the first `k` costs have their insert cost added, `min_cost` is at most `1e99` and at most each
of them, and it is `1e99` still or the cost of the entropy code recorded for the position. -/
def AddExact {κ : Type} [LinearOrderedField κ] (lc lb : Nat) (cost0 ic : List κ)
    (bl0 : List Nat) (ix byte_ix : Nat) (k : Nat) (st : List κ × κ × List Nat) : Prop :=
  st.1.length = lc ∧ st.2.2.length = lb ∧
  (∀ j, j ≠ byte_ix → st.2.2[j]? = bl0[j]?) ∧
  (∀ j, j < k → ∃ c e, cost0[j]? = some c ∧ ic[ix + j]? = some e ∧
    st.1[j]? = some (c + e)) ∧
  (∀ j, k ≤ j → st.1[j]? = cost0[j]?) ∧
  st.2.1 ≤ 10 ^ 99 ∧
  (∀ j v, j < k → st.1[j]? = some v → st.2.1 ≤ v) ∧
  (st.2.1 = 10 ^ 99 ∨ ∃ b, b < k ∧ st.2.2[byte_ix]? = some b ∧ st.1[b]? = some st.2.1)

/-- The state of the loop of lines 119-128 after `k` rounds with exact costs, on
`(cost, switch_signal)`, started on the costs `a1` and the bitmap `sw0`: the first `k` costs
have `min_cost` subtracted and are capped at `bsc`, the bytes of the other positions are as
they were, and bit `j` of the position is set exactly for the `j < k` whose cost was capped. -/
def CapExact {κ : Type} [LinearOrderedField κ] (lc lsw : Nat) (a1 : List κ) (sw0 : List Nat)
    (m bsc : κ) (ix bitmaplen : Nat) (k : Nat) (st : List κ × List Nat) : Prop :=
  st.1.length = lc ∧ st.2.length = lsw ∧
  (∀ j, j < k → ∃ v, a1[j]? = some v ∧
    st.1[j]? = some (if bsc ≤ v - m then bsc else v - m)) ∧
  (∀ j, k ≤ j → st.1[j]? = a1[j]?) ∧
  (∀ p, (p < ix ∨ ix + bitmaplen ≤ p) → st.2[p]? = sw0[p]?) ∧
  (∀ j, j / 8 < bitmaplen → ∃ sw, st.2[ix + j / 8]? = some sw ∧
    (sw.testBit (j % 8) = true ↔ (j < k ∧ ∃ v, a1[j]? = some v ∧ bsc ≤ v - m)))

/-- The state of the forward pass of `FindBlocksDistance` before position `i` with exact costs:
the insert costs are the table `ic`, the arrays keep their lengths, every cost is at least `0`
and one of them is `0`, the bytes of `switch_signal` from position `i` on are `0`, and the
positions before `i` have ids below `num_histograms`. -/
def ForwardExact {κ : Type} [LinearOrderedField κ] (num_histograms : Nat) (ic : List κ)
    (lc lb length : Nat) (i : Nat) (st : FindBlocksState κ) : Prop :=
  st.insert_cost = ic ∧ st.cost.length = lc ∧
  st.switch_signal.length = length * ((num_histograms + 7) >>> 3) ∧
  st.block_id.length = lb ∧
  (∀ k, k < num_histograms → ∃ c, st.cost[k]? = some c ∧ 0 ≤ c) ∧
  (∃ k, k < num_histograms ∧ st.cost[k]? = some 0) ∧
  (∀ p, i * ((num_histograms + 7) >>> 3) ≤ p → p < length * ((num_histograms + 7) >>> 3) →
    st.switch_signal[p]? = some 0) ∧
  (∀ j, j < i → ∃ b, st.block_id[j]? = some b ∧ b < num_histograms)

/-- The arrays after position `i` of the forward pass is processed, for the block-switch cost
`bsc` of the position: every cost lies in `[0, bsc]`, the cost of the entropy code recorded in
`block_id[i]` is `0`, and bit `k` of `switch_signal` at position `i` is set exactly when
`cost[k] = bsc`. -/
def CostsNormalised {κ : Type} [LinearOrderedField κ] (num_histograms : Nat) (bsc : κ)
    (i : Nat) (st : FindBlocksState κ) : Prop :=
  (∀ k, k < num_histograms → ∃ c, st.cost[k]? = some c ∧ 0 ≤ c ∧ c ≤ bsc) ∧
  (∃ b, st.block_id[i]? = some b ∧ b < num_histograms ∧ st.cost[b]? = some 0) ∧
  (∀ k, k < num_histograms → ∃ c sw, st.cost[k]? = some c ∧
    st.switch_signal[i * ((num_histograms + 7) >>> 3) + (k >>> 3)]? = some sw ∧
    (sw.testBit (k &&& 7) = true ↔ c = bsc))

/-- An instance of the collaborators with exact rational costs: `FastLog2` is the floor of the
binary logarithm and `BitCost` is `-2` at `0` and `FastLog2` elsewhere; the alphabet has four
symbols; `BrotliHistogramCombineDistance` leaves every cluster on its own. -/
def exactSplitCollab : SplitCollab ℚ :=
  { zero := 0, huge := 0, lt := fun a b => decide (a < b),
    BrotliPopulationCostDistance := fun _ => 0,
    BrotliHistogramBitCostDistanceDistance := fun _ _ => 0,
    BrotliHistogramCombineDistance := fun out cs sy cl n _ _ _ => ⟨out, cs, sy, cl, n⟩,
    add := fun a b => a + b, sub := fun a b => a - b, mul := fun a b => a * b,
    div := fun a b => a / b, ge := fun a b => decide (b ≤ a), ofNat := fun n => n,
    c1e99 := 10 ^ 99, c0_77 := 77 / 100, c0_07 := 7 / 100, c2000 := 2000,
    FastLog2 := fun n => Log2FloorNonZero n,
    BitCost := fun n => if n = 0 then -2 else Log2FloorNonZero n,
    MyRand := fun s => u32 (s * 16807), HistogramDataSizeDistance := 4 }

/-- An instance of the collaborators that keeps every histogram a cluster of its own, up to
256 clusters: cluster `k` is histogram `k` and a symbol is reduced below the number of
clusters; the bit cost of a block against a cluster is the number of symbols below 8 whose
counters differ. -/
def keepingCollab : ClusterCollab Nat :=
  { zero := 0, huge := 0, lt := fun a b => decide (a < b),
    BrotliPopulationCostDistance := fun _ => 0,
    BrotliHistogramBitCostDistanceDistance := fun h c =>
      (List.range 8).countP (fun s => decide (h.data_ s ≠ c.data_ s)),
    BrotliHistogramCombineDistance := fun out cs sy cl n _ _ _ =>
      ⟨out, cs, sy.map (fun x => x % min n 256), List.range cl.length, min n 256⟩ }

/-- The state of the forward pass of `FindBlocksDistance` before position `i` with exact costs
and any block-switch cost: the insert costs are the table `ic`, the arrays keep their lengths,
one of the costs is at most `0`, and the bytes of `switch_signal` from position `i` on are
`0`. -/
def ForwardFinite {κ : Type} [LinearOrderedField κ] (num_histograms : Nat) (ic : List κ)
    (lc lb length : Nat) (i : Nat) (st : FindBlocksState κ) : Prop :=
  st.insert_cost = ic ∧ st.cost.length = lc ∧
  st.switch_signal.length = length * ((num_histograms + 7) >>> 3) ∧
  st.block_id.length = lb ∧
  (∃ k c, k < num_histograms ∧ st.cost[k]? = some c ∧ c ≤ 0) ∧
  (∀ p, i * ((num_histograms + 7) >>> 3) ≤ p → p < length * ((num_histograms + 7) >>> 3) →
    st.switch_signal[p]? = some 0)

/-! # Theorems -/

theorem doubleUntil_ge (r : Nat) : ∀ (fuel n : Nat), 1 ≤ n →
    r ≤ doubleUntil r fuel n ∨ n * 2 ^ fuel ≤ doubleUntil r fuel n := by
  intro fuel
  induction fuel with
  | zero => intro n _; right; simp [doubleUntil]
  | succ f ih =>
    intro n hn
    unfold doubleUntil
    split
    · rcases ih (2 * n) (by omega) with h | h
      · left; exact h
      · right
        have : n * 2 ^ (f + 1) = 2 * n * 2 ^ f := by ring
        omega
    · left; omega

theorem le_doubleUntil (r n : Nat) (hn : 1 ≤ n) : r ≤ doubleUntil r r n := by
  rcases doubleUntil_ge r r n hn with h | h
  · exact h
  · have h1 : r < 2 ^ r := Nat.lt_two_pow r
    have h2 : 1 * 2 ^ r ≤ n * 2 ^ r := Nat.mul_le_mul_right _ hn
    omega

theorem length_ensure_capacity (a : List Nat) (r : Nat) :
    r ≤ (brotli_ensure_capacity a r).length := by
  unfold brotli_ensure_capacity
  split
  · rename_i h
    simp only [List.length_append, List.length_replicate]
    split
    · omega
    · have := le_doubleUntil r a.length (by omega)
      omega
  · omega

theorem getElem?_ensure_capacity (a : List Nat) (r i : Nat) (h : i < a.length) :
    (brotli_ensure_capacity a r)[i]? = a[i]? := by
  unfold brotli_ensure_capacity
  split
  · exact List.getElem?_append_left h
  · rfl

theorem setAt_eq_some {α : Type} (xs : List α) (i : Nat) (v : α) (h : i < xs.length) :
    setAt xs i v = some (xs.set i v) := by
  simp [setAt, h]




/-- The second early exit of `SplitByteVectorDistance` appends one block of type `0` and of
the full length at index `split.num_blocks`. -/
theorem split_early_exit {κ : Type} (C : SplitCollab κ) (data : Nat → Nat)
    (data_len length : Nat)
    (literals_per_histogram max_histograms sampling_stride_length : Nat)
    (block_switch_cost : κ) (quality : Nat) (split : BlockSplit)
    (hlph : 1 ≤ literals_per_histogram) (h0 : 0 < length)
    (hlen : length < kMinLengthForBlockSplitting) :
    SplitByteVectorDistance C data data_len length literals_per_histogram max_histograms
        sampling_stride_length block_switch_cost quality split =
      some { num_types := 1, num_blocks := split.num_blocks + 1,
             types := (brotli_ensure_capacity split.types (split.num_blocks + 1)).set
               split.num_blocks 0,
             lengths := (brotli_ensure_capacity split.lengths (split.num_blocks + 1)).set
               split.num_blocks length } := by
  have hne : literals_per_histogram ≠ 0 := by omega
  have hl0 : length ≠ 0 := by omega
  have h1 := length_ensure_capacity split.types (split.num_blocks + 1)
  have h2 := length_ensure_capacity split.lengths (split.num_blocks + 1)
  have hu : u32 length = length := by
    unfold u32; unfold kMinLengthForBlockSplitting at hlen; omega
  unfold SplitByteVectorDistance
  simp only [udiv, hne, if_false, Option.some_bind, hl0, hlen, if_true]
  rw [setAt_eq_some _ _ _ (by omega), setAt_eq_some _ _ _ (by omega)]
  simp [hu]

/-- Claim C3.  Called with `literals_per_histogram >= 1` on a split that is empty at entry
(`num_blocks = 0`), `SplitByteVectorDistance` takes the early exits: for `length = 0` the
result has `num_types = 1` and `num_blocks = 0`; for `0 < length <
kMinLengthForBlockSplitting` it has `num_types = 1`, `num_blocks = 1`, `types[0] = 0` and
`lengths[0] = length`. -/
theorem SplitByteVectorDistance_early_exits {κ : Type} (C : SplitCollab κ) (data : Nat → Nat)
    (data_len length literals_per_histogram max_histograms sampling_stride_length : Nat)
    (block_switch_cost : κ) (quality : Nat) (split : BlockSplit)
    (hlph : 1 ≤ literals_per_histogram) (hempty : split.num_blocks = 0) :
    (length = 0 → ∃ s, SplitByteVectorDistance C data data_len length literals_per_histogram
        max_histograms sampling_stride_length block_switch_cost quality split = some s ∧
        s.num_types = 1 ∧ s.num_blocks = 0) ∧
    (0 < length → length < kMinLengthForBlockSplitting →
      ∃ s, SplitByteVectorDistance C data data_len length literals_per_histogram
        max_histograms sampling_stride_length block_switch_cost quality split = some s ∧
        s.num_types = 1 ∧ s.num_blocks = 1 ∧ s.types[0]? = some 0 ∧
        s.lengths[0]? = some length) := by
  constructor
  · intro h0
    have hne : literals_per_histogram ≠ 0 := by omega
    refine ⟨{ split with num_types := 1 }, ?_, rfl, hempty⟩
    unfold SplitByteVectorDistance
    simp [udiv, hne, h0]
  · intro h0 hlen
    have h1 := length_ensure_capacity split.types (split.num_blocks + 1)
    have h2 := length_ensure_capacity split.lengths (split.num_blocks + 1)
    refine ⟨_, split_early_exit C data data_len length _ _ _ _ _ split hlph h0 hlen, rfl, ?_, ?_, ?_⟩
    · simp [hempty]
    · simp only [hempty] at h1 ⊢
      rw [List.getElem?_set_self (by omega)]
    · simp only [hempty] at h2 ⊢
      rw [List.getElem?_set_self (by omega)]

/-- Claim C3 at 64 identical symbols with `literals_per_histogram = 128` (scenario S2). -/
theorem SplitByteVectorDistance_early_exits_witness :
    (64 = 0 → ∃ s, SplitByteVectorDistance trivialSplitCollab (fun _ => 7) 64 64 128 4 70 28 5
        ⟨0, 0, [], []⟩ = some s ∧ s.num_types = 1 ∧ s.num_blocks = 0) ∧
    (0 < 64 → 64 < kMinLengthForBlockSplitting →
      ∃ s, SplitByteVectorDistance trivialSplitCollab (fun _ => 7) 64 64 128 4 70 28 5
        ⟨0, 0, [], []⟩ = some s ∧
        s.num_types = 1 ∧ s.num_blocks = 1 ∧ s.types[0]? = some 0 ∧
        s.lengths[0]? = some 64) :=
  SplitByteVectorDistance_early_exits trivialSplitCollab (fun _ => 7) 64 64 128 4 70 28 5
    ⟨0, 0, [], []⟩ (by decide) rfl



/-- Claim C4, amended.  For `0 < length < kMinLengthForBlockSplitting`, a second call of
`SplitByteVectorDistance` with the same arguments on the split the first call produced (from
a split empty at entry) appends a second block: `num_blocks = 2`, `num_types = 1`,
`types[0] = types[1] = 0` and `lengths[0] = lengths[1] = length`. -/
theorem SplitByteVectorDistance_second_call_appends {κ : Type} (C : SplitCollab κ)
    (data : Nat → Nat)
    (data_len length literals_per_histogram max_histograms sampling_stride_length : Nat)
    (block_switch_cost : κ) (quality : Nat) (split : BlockSplit)
    (hlph : 1 ≤ literals_per_histogram) (hempty : split.num_blocks = 0)
    (h0 : 0 < length) (hlen : length < kMinLengthForBlockSplitting) :
    ∃ s1 s2,
      SplitByteVectorDistance C data data_len length literals_per_histogram max_histograms
        sampling_stride_length block_switch_cost quality split = some s1 ∧
      SplitByteVectorDistance C data data_len length literals_per_histogram max_histograms
        sampling_stride_length block_switch_cost quality s1 = some s2 ∧
      s2.num_types = 1 ∧ s2.num_blocks = 2 ∧
      s2.types[0]? = some 0 ∧ s2.types[1]? = some 0 ∧
      s2.lengths[0]? = some length ∧ s2.lengths[1]? = some length := by
  refine ⟨_, _, split_early_exit C data data_len length _ _ _ _ _ split hlph h0 hlen,
    split_early_exit C data data_len length _ _ _ _ _ _ hlph h0 hlen, rfl, ?_, ?_, ?_, ?_, ?_⟩
  · simp [hempty]
  · have h1 := length_ensure_capacity split.types (split.num_blocks + 1)
    simp only [hempty] at h1 ⊢
    have h2 := length_ensure_capacity
      ((brotli_ensure_capacity split.types (0 + 1)).set 0 0) (0 + 1 + 1)
    rw [List.getElem?_set_ne (by omega),
      getElem?_ensure_capacity _ _ _ (by simp only [List.length_set]; omega),
      List.getElem?_set_self (by omega)]
  · have h1 := length_ensure_capacity split.types (split.num_blocks + 1)
    simp only [hempty] at h1 ⊢
    have h2 := length_ensure_capacity
      ((brotli_ensure_capacity split.types (0 + 1)).set 0 0) (0 + 1 + 1)
    rw [List.getElem?_set_self (by omega)]
  · have h1 := length_ensure_capacity split.lengths (split.num_blocks + 1)
    simp only [hempty] at h1 ⊢
    have h2 := length_ensure_capacity
      ((brotli_ensure_capacity split.lengths (0 + 1)).set 0 length) (0 + 1 + 1)
    rw [List.getElem?_set_ne (by omega),
      getElem?_ensure_capacity _ _ _ (by simp only [List.length_set]; omega),
      List.getElem?_set_self (by omega)]
  · have h1 := length_ensure_capacity split.lengths (split.num_blocks + 1)
    simp only [hempty] at h1 ⊢
    have h2 := length_ensure_capacity
      ((brotli_ensure_capacity split.lengths (0 + 1)).set 0 length) (0 + 1 + 1)
    rw [List.getElem?_set_self (by omega)]

/-- Claim C4 at 64 identical symbols, from the empty split. -/
theorem SplitByteVectorDistance_second_call_appends_witness :
    ∃ s1 s2,
      SplitByteVectorDistance trivialSplitCollab (fun _ => 7) 64 64 128 4 70 28 5
        ⟨0, 0, [], []⟩ = some s1 ∧
      SplitByteVectorDistance trivialSplitCollab (fun _ => 7) 64 64 128 4 70 28 5 s1 = some s2 ∧
      s2.num_types = 1 ∧ s2.num_blocks = 2 ∧
      s2.types[0]? = some 0 ∧ s2.types[1]? = some 0 ∧
      s2.lengths[0]? = some 64 ∧ s2.lengths[1]? = some 64 :=
  SplitByteVectorDistance_second_call_appends trivialSplitCollab (fun _ => 7) 64 64 128 4 70 28 5
    ⟨0, 0, [], []⟩ (by decide) rfl (by decide) (by decide)

/-- Claim C4 as stated fails: for 64 identical symbols the second call on the split the first
call produced leaves two blocks, not one. -/
theorem SplitByteVectorDistance_second_call_counterexample :
    SplitByteVectorDistance trivialSplitCollab (fun _ => 7) 64 64 128 4 70 28 5 ⟨0, 0, [], []⟩ =
      some ⟨1, 1, [0], [64]⟩ ∧
    SplitByteVectorDistance trivialSplitCollab (fun _ => 7) 64 64 128 4 70 28 5
      ⟨1, 1, [0], [64]⟩ = some ⟨1, 2, [0, 0], [64, 64]⟩ ∧
    (⟨1, 2, [0, 0], [64, 64]⟩ : BlockSplit).num_blocks ≠ 1 := by
  decide

theorem forLoop_inv {σ : Type} (body : Nat → σ → Option σ) (P : Nat → σ → Prop) :
    ∀ (n lo : Nat) (s : σ), P lo s →
      (∀ i s, lo ≤ i → i < lo + n → P i s → ∃ s', body i s = some s' ∧ P (i + 1) s') →
      ∃ s', forLoop body lo n s = some s' ∧ P (lo + n) s' := by
  intro n
  induction n with
  | zero => intro lo s h0 _; exact ⟨s, rfl, h0⟩
  | succ k ih =>
    intro lo s h0 hstep
    obtain ⟨s1, hb, hP1⟩ := hstep lo s (Nat.le_refl _) (by omega) h0
    obtain ⟨s2, hl, hP2⟩ := ih (lo + 1) s1 hP1
      (fun i t hlo hhi hP => hstep i t (by omega) (by omega) hP)
    refine ⟨s2, ?_, ?_⟩
    · simp only [forLoop, hb, Option.some_bind, hl]
    · have : lo + (k + 1) = lo + 1 + k := by omega
      rw [this]; exact hP2

theorem forLoop_some_inv {σ : Type} (body : Nat → σ → Option σ) (P : Nat → σ → Prop) :
    ∀ (n lo : Nat) (s s2 : σ), forLoop body lo n s = some s2 → P lo s →
      (∀ i s s1, lo ≤ i → i < lo + n → P i s → body i s = some s1 → P (i + 1) s1) →
      P (lo + n) s2 := by
  intro n
  induction n with
  | zero =>
    intro lo s s2 h h0 _
    simp only [forLoop, Option.some.injEq] at h
    subst h
    exact h0
  | succ k ih =>
    intro lo s s2 h h0 hstep
    simp only [forLoop, Option.bind_eq_some] at h
    obtain ⟨s1, hb, hl⟩ := h
    have := ih (lo + 1) s1 s2 hl (hstep lo s s1 (Nat.le_refl _) (by omega) h0 hb)
      (fun i t t1 hlo hhi hP hbi => hstep i t t1 (by omega) (by omega) hP hbi)
    rw [show lo + (k + 1) = lo + 1 + k by omega]
    exact this

theorem setAt_some_iff {α : Type} (xs : List α) (i : Nat) (v : α) (ys : List α)
    (h : setAt xs i v = some ys) : i < xs.length ∧ ys = xs.set i v := by
  unfold setAt at h
  split at h
  · simp only [Option.some.injEq] at h
    exact ⟨by assumption, h.symm⟩
  · exact absurd h (by simp)

theorem sum_set_succ : ∀ (l : List Nat) (i : Nat) (h : i < l.length),
    (l.set i (l[i] + 1)).sum = l.sum + 1 := by
  intro l
  induction l with
  | nil => intro i h; simp at h
  | cons a t ih =>
    intro i h
    cases i with
    | zero => simp [List.set]; omega
    | succ j =>
      simp only [List.length_cons] at h
      simp only [List.set, List.sum_cons, List.getElem_cons_succ]
      rw [ih j (by omega)]; omega

theorem countP_range_mono (p : Nat → Bool) (a b : Nat) (h : a ≤ b) :
    (List.range a).countP p ≤ (List.range b).countP p := by
  induction b with
  | zero => have : a = 0 := by omega
            subst this; exact Nat.le_refl _
  | succ k ih =>
    rcases Nat.eq_or_lt_of_le h with h1 | h1
    · subst h1; exact Nat.le_refl _
    · have := ih (by omega)
      rw [List.range_succ, List.countP_append]
      omega



theorem countBlockLengths_spec (ids : Nat → Nat) (length nb : Nat) (h1 : 1 ≤ length)
    (hruns : numRuns ids length = nb) :
    ∃ bl, countBlockLengths ids length nb = some bl ∧ bl.length = nb ∧
      (length < 2 ^ 32 → (∀ x ∈ bl, 0 < x) ∧ bl.sum = length) := by
  have hnb : nb = 1 + (List.range (length - 1)).countP
      (fun i => decide (ids i ≠ ids (i + 1))) := by
    rw [← hruns]; unfold numRuns numSwitches; simp; omega
  obtain ⟨st, hst, hlen, hsp, _, hidx⟩ := forLoop_inv
    (countBlockLengthsStep ids length nb)
    (fun i st => st.1.length = nb ∧
      (length < 2 ^ 32 → st.1.sum = i ∧ ∀ b, b < st.2 → ∃ v, st.1[b]? = some v ∧ 0 < v) ∧
      (i < length → st.2 = (List.range i).countP (fun i => decide (ids i ≠ ids (i + 1)))) ∧
      (i = length → st.2 = (List.range (length - 1)).countP
        (fun i => decide (ids i ≠ ids (i + 1))) + 1))
    length 0 (List.replicate nb 0, 0)
    ⟨by simp, fun _ => ⟨by simp, by intro b hb; omega⟩, by intro _; simp, by intro h; omega⟩
    (by
      rintro i ⟨bl, idx⟩ _ hi ⟨hlen, hsp, hlt, _⟩
      simp only [Nat.zero_add] at hi
      simp only at hlen hsp hlt
      have hidx := hlt hi
      have hmono := countP_range_mono (fun i => decide (ids i ≠ ids (i + 1))) i (length - 1)
        (by omega)
      have hin : idx < bl.length := by omega
      refine ⟨(bl.set idx (u32 (bl[idx] + 1)),
        if i + 1 = length ∨ ids i ≠ ids (i + 1) then idx + 1 else idx), ?_, ?_⟩
      · simp only [countBlockLengthsStep, show idx < nb by omega, if_true,
          List.getElem?_eq_getElem hin]
      · refine ⟨by simp [hlen], ?_, ?_, ?_⟩
        · intro h32
          obtain ⟨hsum, hpos⟩ := hsp h32
          have hv : bl[idx] ≤ i := by
            rw [← hsum]; exact List.single_le_sum (by simp) _ (List.getElem_mem hin)
          have hu : u32 (bl[idx] + 1) = bl[idx] + 1 := by unfold u32; omega
          simp only [hu]
          refine ⟨by rw [sum_set_succ bl idx hin, hsum], ?_⟩
          intro b hb
          by_cases hbe : b = idx
          · subst hbe
            exact ⟨bl[b] + 1, by rw [List.getElem?_set_self hin], by omega⟩
          · have hb2 : b < idx := by
              split at hb <;> omega
            obtain ⟨v, hv1, hv2⟩ := hpos b hb2
            exact ⟨v, by rw [List.getElem?_set_ne (by omega)]; exact hv1, hv2⟩
        · intro hi1
          have hne : ¬ (i + 1 = length) := by omega
          rw [List.range_succ, List.countP_append, ← hidx]
          by_cases hd : ids i ≠ ids (i + 1)
          · simp [hne, hd]
          · simp [hne, hd]
        · intro hi1
          have : i = length - 1 := by omega
          simp only [hi1, true_or, if_true]
          rw [hidx, this])
  simp only [Nat.zero_add] at hidx hsp
  have hfin := hidx trivial
  refine ⟨st.1, ?_, hlen, ?_⟩
  · unfold countBlockLengths
    rw [hst]
    simp only [Option.some_bind]
    rw [if_pos (by omega)]
  · intro h32
    obtain ⟨hsum, hpos⟩ := hsp h32
    refine ⟨?_, hsum⟩
    intro x hx
    obtain ⟨b, hb, rfl⟩ := List.mem_iff_getElem.mp hx
    obtain ⟨v, hv1, hv2⟩ := hpos b (by omega)
    rw [List.getElem?_eq_getElem hb] at hv1
    cases hv1; exact hv2

theorem setAt_eq_some' {α : Type} (xs : List α) (i : Nat) (v : α) (h : i < xs.length) :
    setAt xs i v = some (xs.set i v) := by
  simp [setAt, h]

theorem length_growHistograms {κ : Type} (zero : κ) (a : List (HistogramDistance κ))
    (need : Nat) : need ≤ (growHistograms zero a need).length ∧
      a.length ≤ (growHistograms zero a need).length := by
  unfold growHistograms
  split
  · rename_i h
    simp only [List.length_append, List.length_replicate]
    split
    · omega
    · have := le_doubleUntil need a.length (by omega)
      omega
  · omega

theorem length_ensure_capacity_ge (a : List Nat) (r : Nat) :
    a.length ≤ (brotli_ensure_capacity a r).length := by
  unfold brotli_ensure_capacity
  split
  · simp
  · omega

theorem batchFillStep_inv {κ : Type} (C : ClusterCollab κ) (data : Nat → Nat)
    (bl : List Nat) (nb i n : Nat) (hbl : bl.length = nb) (hn : n ≤ 64) (hin : i + n ≤ nb)
    (j : Nat) (s : ClusterState κ) (hj : j < n) (hs : BatchInv nb s) :
    ∃ s', batchFillStep C data bl i j s = some s' ∧ BatchInv nb s' ∧
      s'.num_clusters = s.num_clusters := by
  obtain ⟨h1, h2, h3, h4, h5, h6, h7, h8, h9, h10⟩ := hs
  have e1 : i + j < bl.length := by omega
  have e2 : j < s.histograms.length := by omega
  have e3 : j < s.new_clusters.length := by omega
  have e4 : j < s.symbols.length := by omega
  have e5 : j < s.sizes.length := by omega
  simp only [batchFillStep, List.getElem?_eq_getElem e1, Option.some_bind,
    setAt_eq_some' _ _ _ e2, setAt_eq_some' _ _ _ e3, setAt_eq_some' _ _ _ e4,
    setAt_eq_some' _ _ _ e5]
  refine ⟨_, rfl, ?_, rfl⟩
  simp only [BatchInv, List.length_set]
  exact ⟨h1, h2, h3, h4, h5, h6, h7, h8, h9, h10⟩

theorem batchAppendStep_inv {κ : Type} (nb n ret a0 : Nat) (hn : n ≤ 64) (hret : ret ≤ n)
    (j : Nat) (s : ClusterState κ) (hj : j < ret) (hs : AppendInv nb n ret a0 j s) :
    ∃ s', batchAppendStep j s = some s' ∧ AppendInv nb n ret a0 (j + 1) s' := by
  obtain ⟨h1, h2, h3, h4, h5, h5b, h6, h6b, h7, h8, h9, h10, h11, h12⟩ := hs
  have e1 : j < s.new_clusters.length := by omega
  have hc := h6 j _ hj (List.getElem?_eq_getElem e1)
  have e2 : s.new_clusters[j] < s.histograms.length := by omega
  have e3 : s.all_histograms_size < s.all_histograms.length := by omega
  have e4 : s.new_clusters[j] < s.sizes.length := by omega
  have e5 : s.cluster_size_size < s.cluster_size.length := by omega
  have e6 : s.new_clusters[j] < s.remap.length := by omega
  simp only [batchAppendStep, List.getElem?_eq_getElem e1, Option.some_bind,
    List.getElem?_eq_getElem e2, List.getElem?_eq_getElem e4,
    setAt_eq_some' _ _ _ e3, setAt_eq_some' _ _ _ e5, setAt_eq_some' _ _ _ e6]
  refine ⟨_, rfl, ?_⟩
  simp only [AppendInv, List.length_set]
  exact ⟨h1, h2, h3, h4, h5, h5b, h6, h6b, by omega, by omega, h9, h10, h11, h12⟩

theorem batchSymbolStep_inv {κ : Type} (nb n ret a0 i : Nat) (hn : n ≤ 64) (hin : i + n ≤ nb)
    (j : Nat) (s : ClusterState κ) (hj : j < n) (hs : AppendInv nb n ret a0 ret s) :
    ∃ s', batchSymbolStep i j s = some s' ∧ AppendInv nb n ret a0 ret s' := by
  obtain ⟨h1, h2, h3, h4, h5, h5b, h6, h6b, h7, h8, h9, h10, h11, h12⟩ := hs
  have e1 : j < s.symbols.length := by omega
  have hc := h6b j _ hj (List.getElem?_eq_getElem e1)
  have e2 : s.symbols[j] < s.remap.length := by omega
  have e3 : i + j < s.histogram_symbols.length := by omega
  simp only [batchSymbolStep, List.getElem?_eq_getElem e1, Option.some_bind,
    List.getElem?_eq_getElem e2, setAt_eq_some' _ _ _ e3]
  refine ⟨_, rfl, ?_⟩
  simp only [AppendInv, List.length_set]
  exact ⟨h1, h2, h3, h4, h5, h5b, h6, h6b, h7, h8, h9, h10, h11, h12⟩

theorem pigeonhole_surj (g : Nat → Option Nat) (M K : Nat)
    (h : ∀ w, w < M → ∃ k, k < K ∧ g k = some w) : M ≤ K := by
  have hsub : Finset.range M ⊆ (Finset.range K).image (fun k => (g k).getD 0) := by
    intro w hw
    obtain ⟨k, hk, hg⟩ := h w (Finset.mem_range.mp hw)
    exact Finset.mem_image.mpr ⟨k, Finset.mem_range.mpr hk, by simp [hg]⟩
  have h1 := Finset.card_le_card hsub
  have h2 := Finset.card_image_le (s := Finset.range K) (f := fun k => (g k).getD 0)
  simp only [Finset.card_range] at h1 h2
  omega

theorem getElem?_set_lt {α : Type} (l : List α) (i j : Nat) (v : α) (h : j < i) :
    (l.set i v)[j]? = l[j]? := by
  rw [List.getElem?_set_ne (by omega)]

theorem refineNumbered_old (nfc : Nat) (clusters hs ni : List Nat) (N p p2 i c v0 : Nat)
    (hi : i < hs.length) (hc : ni[c]? = some v0)
    (hv : v0 ≠ ClusterBlocksDistance_kInvalidIndex)
    (h : RefineNumbered nfc clusters i ⟨hs, ni, N, p⟩) :
    RefineNumbered nfc clusters (i + 1) ⟨hs.set i c, ni, N, p2⟩ := by
  obtain ⟨n1, n2, n3, n4, n5, n6⟩ := h
  simp only at n1 n2 n3 n4 n5 n6
  have hset : ∀ j, j < i → (hs.set i c)[j]? = hs[j]? := fun j hj =>
    getElem?_set_lt hs i j c hj
  have hself : (hs.set i c)[i]? = some c := List.getElem?_set_self hi
  refine ⟨?_, ?_, ?_, ?_, n5, n6⟩
  · intro c1 v hcv hne
    obtain ⟨a1, ⟨j, hj, hjc⟩, a3⟩ := n1 c1 v hcv hne
    exact ⟨a1, ⟨j, by omega, by simp only; rw [hset j hj]; exact hjc⟩, a3⟩
  · intro j c1 hj hjc
    simp only at hjc ⊢
    rcases Nat.lt_succ_iff_lt_or_eq.mp hj with hlt | heq
    · rw [hset j hlt] at hjc
      exact n2 j c1 hlt hjc
    · subst heq
      rw [hself] at hjc
      cases hjc
      exact ⟨v0, hc, (n1 c v0 hc hv).1⟩
  · intro j c1 v w hj hjc hcv hw
    simp only at hjc hcv ⊢
    rcases Nat.lt_succ_iff_lt_or_eq.mp hj with hlt | heq
    · rw [hset j hlt] at hjc
      obtain ⟨j2, c2, h1, h2, h3⟩ := n3 j c1 v w hlt hjc hcv hw
      exact ⟨j2, c2, h1, by rw [hset j2 (by omega)]; exact h2, h3⟩
    · subst heq
      rw [hself] at hjc
      cases hjc
      rw [hc] at hcv
      cases hcv
      obtain ⟨_, ⟨j0, hj0, hj0c⟩, _⟩ := n1 c v0 hc hv
      obtain ⟨j2, c2, h1, h2, h3⟩ := n3 j0 c v0 w hj0 hj0c hc hw
      exact ⟨j2, c2, by omega, by rw [hset j2 (by omega)]; exact h2, h3⟩
  · intro w hw
    obtain ⟨j, c1, h1, h2, h3⟩ := n4 w hw
    exact ⟨j, c1, by omega, by simp only; rw [hset j h1]; exact h2, h3⟩



theorem refineNumbered_new (nfc : Nat) (clusters hs ni : List Nat) (N p p2 i c : Nat)
    (hi : i < hs.length) (hcl : c < ni.length)
    (hc : ni[c]? = some ClusterBlocksDistance_kInvalidIndex)
    (hmem : ∃ k, k < nfc ∧ clusters[k]? = some c) (h256 : nfc ≤ 256)
    (h : RefineNumbered nfc clusters i ⟨hs, ni, N, p⟩) :
    RefineNumbered nfc clusters (i + 1) ⟨hs.set i c, ni.set c N, u32 (N + 1), p2⟩ := by
  obtain ⟨n1, n2, n3, n4, n5, n6⟩ := h
  simp only at n1 n2 n3 n4 n5 n6
  have hINV : ClusterBlocksDistance_kInvalidIndex = 4294967295 := by
    simp [ClusterBlocksDistance_kInvalidIndex, BROTLI_UINT32_MAX]
  have hset : ∀ j, j < i → (hs.set i c)[j]? = hs[j]? := fun j hj =>
    getElem?_set_lt hs i j c hj
  have hself : (hs.set i c)[i]? = some c := List.getElem?_set_self hi
  have hniself : (ni.set c N)[c]? = some N := List.getElem?_set_self hcl
  -- a cluster other than `c` keeps its number
  have hni : ∀ c1, c1 ≠ c → (ni.set c N)[c1]? = ni[c1]? := fun c1 hne =>
    List.getElem?_set_ne (fun h => hne h.symm)
  -- a cluster with a valid number is not `c`
  have hnec : ∀ c1 v, ni[c1]? = some v → v ≠ ClusterBlocksDistance_kInvalidIndex → c1 ≠ c := by
    intro c1 v h1 h2 he
    subst he
    rw [hc] at h1
    cases h1
    exact h2 rfl
  have hNlt : N < 4294967295 := by omega
  -- the numbers below `N + 1` are numbers of final clusters
  have hN1 : N + 1 ≤ nfc := by
    apply pigeonhole_surj (fun k => (clusters[k]?).bind fun c1 => (ni.set c N)[c1]?)
    intro w hw
    rcases Nat.lt_succ_iff_lt_or_eq.mp hw with hlt | heq
    · obtain ⟨j, c1, h1, h2, h3⟩ := n4 w hlt
      have hwv : w ≠ ClusterBlocksDistance_kInvalidIndex := by omega
      obtain ⟨_, _, ⟨k, hk, hkc⟩⟩ := n1 c1 w h3 hwv
      refine ⟨k, hk, ?_⟩
      simp only [hkc, Option.some_bind]
      rw [hni c1 (hnec c1 w h3 hwv)]
      exact h3
    · obtain ⟨k, hk, hkc⟩ := hmem
      refine ⟨k, hk, ?_⟩
      simp only [hkc, Option.some_bind]
      rw [hniself, heq]
  have hu : u32 (N + 1) = N + 1 := by unfold u32; omega
  rw [hu]
  refine ⟨?_, ?_, ?_, ?_, hN1, ?_⟩
  · intro c1 v hcv hne
    simp only at hcv ⊢
    by_cases he : c1 = c
    · subst he
      rw [hniself] at hcv
      cases hcv
      exact ⟨by omega, ⟨i, by omega, hself⟩, hmem⟩
    · rw [hni c1 he] at hcv
      obtain ⟨a1, ⟨j, hj, hjc⟩, a3⟩ := n1 c1 v hcv hne
      exact ⟨by omega, ⟨j, by omega, by rw [hset j hj]; exact hjc⟩, a3⟩
  · intro j c1 hj hjc
    simp only at hjc ⊢
    rcases Nat.lt_succ_iff_lt_or_eq.mp hj with hlt | heq
    · rw [hset j hlt] at hjc
      obtain ⟨v, h1, h2⟩ := n2 j c1 hlt hjc
      refine ⟨v, ?_, by omega⟩
      rw [hni c1 (hnec c1 v h1 (by omega))]
      exact h1
    · subst heq
      rw [hself] at hjc
      cases hjc
      exact ⟨N, hniself, by omega⟩
  · intro j c1 v w hj hjc hcv hw
    simp only at hjc hcv ⊢
    rcases Nat.lt_succ_iff_lt_or_eq.mp hj with hlt | heq
    · rw [hset j hlt] at hjc
      obtain ⟨v1, h1, h2⟩ := n2 j c1 hlt hjc
      have hne1 := hnec c1 v1 h1 (by omega)
      rw [hni c1 hne1] at hcv
      obtain ⟨j2, c2, k1, k2, k3⟩ := n3 j c1 v w hlt hjc hcv hw
      rw [h1] at hcv
      cases hcv
      refine ⟨j2, c2, k1, by rw [hset j2 (by omega)]; exact k2, ?_⟩
      rw [hni c2 (hnec c2 w k3 (by omega))]
      exact k3
    · subst heq
      rw [hself] at hjc
      cases hjc
      rw [hniself] at hcv
      cases hcv
      obtain ⟨j2, c2, k1, k2, k3⟩ := n4 w hw
      refine ⟨j2, c2, k1, by rw [hset j2 k1]; exact k2, ?_⟩
      rw [hni c2 (hnec c2 w k3 (by omega))]
      exact k3
  · intro w hw
    simp only
    rcases Nat.lt_succ_iff_lt_or_eq.mp hw with hlt | heq
    · obtain ⟨j2, c2, k1, k2, k3⟩ := n4 w hlt
      refine ⟨j2, c2, by omega, by rw [hset j2 k1]; exact k2, ?_⟩
      rw [hni c2 (hnec c2 w k3 (by omega))]
      exact k3
    · subst heq
      exact ⟨i, c, by omega, hself, hniself⟩
  · intro c1 c2 v h1 h2 hne
    simp only at h1 h2
    by_cases he1 : c1 = c
    · by_cases he2 : c2 = c
      · rw [he1, he2]
      · exfalso
        subst he1
        rw [hniself] at h1
        cases h1
        rw [hni c2 he2] at h2
        have := (n1 c2 _ h2 hne).1
        omega
    · by_cases he2 : c2 = c
      · exfalso
        subst he2
        rw [hniself] at h2
        cases h2
        rw [hni c1 he1] at h1
        have := (n1 c1 _ h1 hne).1
        omega
      · rw [hni c1 he1] at h1
        rw [hni c2 he2] at h2
        exact n6 c1 c2 v h1 h2 hne



theorem refineCandidate_loop {κ : Type} (C : ClusterCollab κ) (histo : HistogramDistance κ)
    (allh : List (HistogramDistance κ)) (clusters : List Nat) (nc nfc : Nat)
    (hcl : clusters.length = nc) (hnfc : nfc ≤ nc)
    (hclr : ∀ k c, k < nfc → clusters[k]? = some c → c < nc) (hall : nc ≤ allh.length)
    (b0 : Nat) (cost0 : κ) (hb0 : b0 < nc) :
    ∃ best, forLoop (refineCandidateStep C histo allh clusters) 0 nfc (b0, cost0) =
        some best ∧ CandidateInv nc nfc clusters b0 best := by
  have := forLoop_inv (refineCandidateStep C histo allh clusters)
    (fun _ best => CandidateInv nc nfc clusters b0 best) nfc 0 (b0, cost0)
    ⟨hb0, Or.inl rfl⟩
    (by
      intro j best _ hj hbest
      have e1 : j < clusters.length := by omega
      have hc := hclr j _ (by omega) (List.getElem?_eq_getElem e1)
      have e2 : clusters[j] < allh.length := by omega
      simp only [refineCandidateStep, List.getElem?_eq_getElem e1, Option.some_bind,
        List.getElem?_eq_getElem e2]
      refine ⟨_, rfl, ?_⟩
      split
      · exact ⟨hc, Or.inr ⟨j, by omega, List.getElem?_eq_getElem e1⟩⟩
      · exact hbest)
  simpa using this

theorem refineStep_inv {κ : Type} (C : ClusterCollab κ) (data : Nat → Nat) (bl : List Nat)
    (allh : List (HistogramDistance κ)) (clusters hs0 : List Nat) (nb nc nfc : Nat)
    (hyp2 : Prop) (hbl : bl.length = nb) (hcl : clusters.length = nc) (hnfc : nfc ≤ nc)
    (hclr : ∀ k c, k < nfc → clusters[k]? = some c → c < nc) (hall : nc ≤ allh.length)
    (hhs0 : ∀ j c, j < nb → hs0[j]? = some c → c < nc)
    (h2 : hyp2 → nfc ≤ 256 ∧ ∀ c, hs0[0]? = some c → ∃ k, k < nfc ∧ clusters[k]? = some c)
    (i : Nat) (rs : RefineState) (hi : i < nb) (hsh : RefineShape nb nc hs0 i rs)
    (hnum : hyp2 → RefineNumbered nfc clusters i rs) :
    ∃ rs', refineStep C data bl allh clusters nfc i rs = some rs' ∧
      RefineShape nb nc hs0 (i + 1) rs' ∧ (hyp2 → RefineNumbered nfc clusters (i + 1) rs') := by
  obtain ⟨g1, g2, g3, g4⟩ := hsh
  have e1 : i < bl.length := by omega
  have e0 : (if i = 0 then 0 else i - 1) < rs.histogram_symbols.length := by
    split <;> omega
  have hb0 : rs.histogram_symbols[if i = 0 then 0 else i - 1] < nc := by
    by_cases hz : i = 0
    · have h0 := g4 0 (by omega)
      have e00 : 0 < rs.histogram_symbols.length := by omega
      rw [List.getElem?_eq_getElem e00] at h0
      have := hhs0 0 _ (by omega) h0.symm
      simpa [hz] using this
    · have := g3 (i - 1) _ (by omega) (List.getElem?_eq_getElem (by omega))
      simpa [hz] using this
  have e2 : rs.histogram_symbols[if i = 0 then 0 else i - 1] < allh.length := by omega
  obtain ⟨best, hbest, hc1, hc2⟩ := refineCandidate_loop C
    (histogramOfRun C.huge data rs.pos bl[i]) allh clusters nc nfc hcl hnfc hclr hall
    (rs.histogram_symbols[if i = 0 then 0 else i - 1])
    (C.BrotliHistogramBitCostDistanceDistance (histogramOfRun C.huge data rs.pos bl[i])
      allh[rs.histogram_symbols[if i = 0 then 0 else i - 1]]) hb0
  have e3 : i < rs.histogram_symbols.length := by omega
  have e4 : best.1 < rs.new_index.length := by omega
  have hshape : ∀ ni N p, ni.length = nc →
      RefineShape nb nc hs0 (i + 1) ⟨rs.histogram_symbols.set i best.1, ni, N, p⟩ := by
    intro ni N p hni
    refine ⟨by simp [g1], hni, ?_, ?_⟩
    · intro j c hj hjc
      simp only at hjc
      rcases Nat.lt_succ_iff_lt_or_eq.mp hj with hlt | heq
      · rw [getElem?_set_lt _ _ _ _ hlt] at hjc
        exact g3 j c hlt hjc
      · subst heq
        rw [List.getElem?_set_self e3] at hjc
        cases hjc
        exact hc1
    · intro j hj
      simp only
      rw [List.getElem?_set_ne (by omega)]
      exact g4 j (by omega)
  simp only [refineStep, List.getElem?_eq_getElem e1, Option.some_bind,
    List.getElem?_eq_getElem e0, List.getElem?_eq_getElem e2, hbest,
    setAt_eq_some' _ _ _ e3, List.getElem?_eq_getElem e4]
  by_cases hinv : rs.new_index[best.1] = ClusterBlocksDistance_kInvalidIndex
  · simp only [hinv, if_true, setAt_eq_some' _ _ _ e4, Option.some_bind]
    refine ⟨_, rfl, hshape _ _ _ (by simp [g2]), ?_⟩
    intro hh
    obtain ⟨h256, hmem0⟩ := h2 hh
    have hN := hnum hh
    have hni : rs.new_index[best.1]? = some ClusterBlocksDistance_kInvalidIndex := by
      rw [List.getElem?_eq_getElem e4, hinv]
    have hINV : ClusterBlocksDistance_kInvalidIndex = 4294967295 := by
      simp [ClusterBlocksDistance_kInvalidIndex, BROTLI_UINT32_MAX]
    have hmem : ∃ k, k < nfc ∧ clusters[k]? = some best.1 := by
      rcases hc2 with hb | hk
      · by_cases hz : i = 0
        · have h0 := g4 0 (by omega)
          have e00 : 0 < rs.histogram_symbols.length := by omega
          rw [List.getElem?_eq_getElem e00] at h0
          apply hmem0
          rw [← h0, hb]
          simp [hz]
        · exfalso
          obtain ⟨_, hN2, _, _, hN5, _⟩ := hN
          obtain ⟨v, hv1, hv2⟩ := hN2 (i - 1) best.1 (by omega)
            (by rw [List.getElem?_eq_getElem (by omega)]; simp [hb, hz])
          rw [hni] at hv1
          cases hv1
          omega
      · exact hk
    exact refineNumbered_new nfc clusters rs.histogram_symbols rs.new_index rs.next_index
      rs.pos _ i best.1 e3 e4 hni hmem h256 hN
  · simp only [hinv, if_false]
    refine ⟨_, rfl, hshape _ _ _ g2, ?_⟩
    intro hh
    exact refineNumbered_old nfc clusters rs.histogram_symbols rs.new_index rs.next_index
      rs.pos _ i best.1 _ e3 (List.getElem?_eq_getElem e4) hinv (hnum hh)

theorem refineLoop_spec {κ : Type} (C : ClusterCollab κ) (data : Nat → Nat) (bl : List Nat)
    (allh : List (HistogramDistance κ)) (clusters hs0 : List Nat) (nb nc nfc : Nat)
    (hyp2 : Prop) (hbl : bl.length = nb) (hcl : clusters.length = nc) (hnfc : nfc ≤ nc)
    (hclr : ∀ k c, k < nfc → clusters[k]? = some c → c < nc) (hall : nc ≤ allh.length)
    (hlen0 : hs0.length = nb)
    (hhs0 : ∀ j c, j < nb → hs0[j]? = some c → c < nc)
    (h2 : hyp2 → nfc ≤ 256 ∧ ∀ c, hs0[0]? = some c → ∃ k, k < nfc ∧ clusters[k]? = some c) :
    ∃ rs, forLoop (refineStep C data bl allh clusters nfc) 0 nb
        { histogram_symbols := hs0,
          new_index := List.replicate nc ClusterBlocksDistance_kInvalidIndex,
          next_index := 0, pos := 0 } = some rs ∧
      RefineShape nb nc hs0 nb rs ∧ (hyp2 → RefineNumbered nfc clusters nb rs) := by
  have hrep : ∀ (c v : Nat),
      (List.replicate nc ClusterBlocksDistance_kInvalidIndex)[c]? = some v →
      v = ClusterBlocksDistance_kInvalidIndex := by
    intro c v h
    rw [List.getElem?_replicate] at h
    split at h
    · cases h; rfl
    · cases h
  have := forLoop_inv (refineStep C data bl allh clusters nfc)
    (fun i rs => RefineShape nb nc hs0 i rs ∧ (hyp2 → RefineNumbered nfc clusters i rs))
    nb 0 { histogram_symbols := hs0,
           new_index := List.replicate nc ClusterBlocksDistance_kInvalidIndex,
           next_index := 0, pos := 0 }
    ⟨⟨hlen0, by simp, by intro j c hj; omega, fun j _ => rfl⟩, fun _ =>
      ⟨fun c v h hne => absurd (hrep c v h) hne, by intro j c hj; omega,
       by intro j c v w hj; omega, by intro w hw; simp at hw, Nat.zero_le _,
       fun c c2 v h _ hne => absurd (hrep c v h) hne⟩⟩
    (by
      intro i rs _ hi hrs
      exact refineStep_inv C data bl allh clusters hs0 nb nc nfc hyp2 hbl hcl hnfc hclr hall
        hhs0 h2 i rs (by omega) hrs.1 hrs.2)
  simpa using this



theorem sum_take_set_succ : ∀ (l : List Nat) (k v : Nat), k < l.length →
    ((l.set k v).take (k + 1)).sum = (l.take k).sum + v := by
  intro l
  induction l with
  | nil => intro k v h; simp at h
  | cons a t ih =>
    intro k v h
    cases k with
    | zero => simp
    | succ j =>
      simp only [List.length_cons] at h
      simp only [List.set_cons_succ, List.take_succ_cons, List.sum_cons]
      rw [ih j v (by omega)]; omega

theorem emitStep_inv (nb nc lt ll : Nat) (bl hs ni : List Nat) (hypL hypT : Prop)
    (hbl : bl.length = nb) (hhs : nb ≤ hs.length) (hni : ni.length = nc)
    (hrange : ∀ j c, j < nb → hs[j]? = some c → c < nc) (hlt : nb ≤ lt) (hll : nb ≤ ll)
    (hL : hypL → (∀ x ∈ bl, 0 < x) ∧ bl.sum < 2 ^ 32)
    (hT : hypT → (∀ j c, j < nb → hs[j]? = some c → ∃ v, ni[c]? = some v ∧ v < 256) ∧
      (∀ j c v w, j < nb → hs[j]? = some c → ni[c]? = some v → w < v →
        ∃ j2 c2, j2 < j ∧ hs[j2]? = some c2 ∧ ni[c2]? = some w))
    (i : Nat) (es : EmitState) (hi : i < nb) (hsh : EmitShape nb lt ll i es)
    (hl : hypL → EmitLengths nb bl i es) (ht : hypT → EmitTypes hs ni i es) :
    ∃ es', emitStep nb bl hs ni i es = some es' ∧ EmitShape nb lt ll (i + 1) es' ∧
      (hypL → EmitLengths nb bl (i + 1) es') ∧ (hypT → EmitTypes hs ni (i + 1) es') := by
  obtain ⟨s1, s2, s3, _⟩ := hsh
  have e1 : i < bl.length := by omega
  have e2 : i < hs.length := by omega
  have hc := hrange i _ hi (List.getElem?_eq_getElem e2)
  have e3 : hs[i] < ni.length := by omega
  have e4 : es.block_idx < es.types.length := by omega
  have e5 : es.block_idx < es.lengths.length := by omega
  -- the length of the open run does not wrap
  have hcur : hypL → u32 (es.cur_length + bl[i]) = es.cur_length + bl[i] ∧ 0 < bl[i] := by
    intro hh
    obtain ⟨hpos, hsum⟩ := hL hh
    obtain ⟨l1, _, _⟩ := hl hh
    have h1 := List.sum_take_succ bl i e1
    have h2 := List.sum_take_add_sum_drop bl (i + 1)
    refine ⟨?_, hpos _ (List.getElem_mem e1)⟩
    unfold u32
    omega
  -- the state after a block that ends a run
  have hwrite : EmitShape nb lt ll (i + 1)
        { types := es.types.set es.block_idx (u8 ni[hs[i]]),
          lengths := es.lengths.set es.block_idx (u32 (es.cur_length + bl[i])),
          cur_length := 0, block_idx := es.block_idx + 1,
          max_type := max es.max_type (u8 ni[hs[i]]) } ∧
      (hypL → EmitLengths nb bl (i + 1)
        { types := es.types.set es.block_idx (u8 ni[hs[i]]),
          lengths := es.lengths.set es.block_idx (u32 (es.cur_length + bl[i])),
          cur_length := 0, block_idx := es.block_idx + 1,
          max_type := max es.max_type (u8 ni[hs[i]]) }) ∧
      (hypT → EmitTypes hs ni (i + 1)
        { types := es.types.set es.block_idx (u8 ni[hs[i]]),
          lengths := es.lengths.set es.block_idx (u32 (es.cur_length + bl[i])),
          cur_length := 0, block_idx := es.block_idx + 1,
          max_type := max es.max_type (u8 ni[hs[i]]) }) := by
    refine ⟨⟨by simp [s1], by simp [s2], by simp only; omega, fun _ _ => by simp only; omega⟩,
      ?_, ?_⟩
    · intro hh
      obtain ⟨hu, hp⟩ := hcur hh
      obtain ⟨l1, l2, l3⟩ := hl hh
      refine ⟨?_, ?_, ?_⟩
      · simp only [hu]
        rw [sum_take_set_succ _ _ _ e5, List.sum_take_succ bl i e1]
        omega
      · intro b hb
        simp only at hb ⊢
        rcases Nat.lt_succ_iff_lt_or_eq.mp hb with hlt' | heq
        · obtain ⟨v, hv1, hv2⟩ := l2 b hlt'
          exact ⟨v, by rw [List.getElem?_set_ne (by omega)]; exact hv1, hv2⟩
        · subst heq
          exact ⟨_, List.getElem?_set_self e5, by rw [hu]; omega⟩
      · intro _
        rfl
    · intro hh
      obtain ⟨hT1, hT2⟩ := hT hh
      obtain ⟨t1, t2, t3, t4⟩ := ht hh
      obtain ⟨v, hv1, hv2⟩ := hT1 i _ hi (List.getElem?_eq_getElem e2)
      have hv : ni[hs[i]] = v := by
        rw [List.getElem?_eq_getElem e3] at hv1
        exact Option.some.inj hv1
      have hu : u8 ni[hs[i]] = v := by rw [hv]; unfold u8; omega
      rw [hu]
      have hkeep : ∀ b, b < es.block_idx → (es.types.set es.block_idx v)[b]? = es.types[b]? :=
        fun b hb => getElem?_set_lt _ _ _ _ hb
      have hnew : (es.types.set es.block_idx v)[es.block_idx]? = some v :=
        List.getElem?_set_self e4
      refine ⟨?_, ?_, ?_, ?_⟩
      · intro j c v' hj hjc hcv
        left
        simp only
        rcases Nat.lt_succ_iff_lt_or_eq.mp hj with hlt' | heq
        · rcases t1 j c v' hlt' hjc hcv with ⟨b, hb1, hb2⟩ | hopen
          · exact ⟨b, by omega, by rw [hkeep b hb1]; exact hb2⟩
          · rw [List.getElem?_eq_getElem e2] at hopen
            have hce : hs[i] = c := Option.some.inj hopen
            rw [← hce, hv1] at hcv
            cases hcv
            exact ⟨es.block_idx, by omega, hnew⟩
        · subst heq
          rw [List.getElem?_eq_getElem e2] at hjc
          have hce : hs[j] = c := Option.some.inj hjc
          rw [← hce, hv1] at hcv
          cases hcv
          exact ⟨es.block_idx, by omega, hnew⟩
      · intro b t w hb hbt hw
        simp only at hb hbt ⊢
        rcases Nat.lt_succ_iff_lt_or_eq.mp hb with hlt' | heq
        · rw [hkeep b hlt'] at hbt
          obtain ⟨b2, k1, k2⟩ := t2 b t w hlt' hbt hw
          exact ⟨b2, k1, by rw [hkeep b2 (by omega)]; exact k2⟩
        · subst heq
          rw [hnew] at hbt
          cases hbt
          obtain ⟨j2, c2, k1, k2, k3⟩ := hT2 i _ _ w hi (List.getElem?_eq_getElem e2) hv1 hw
          rcases t1 j2 c2 w k1 k2 k3 with ⟨b2, hb1, hb2⟩ | hopen
          · exact ⟨b2, hb1, by rw [hkeep b2 hb1]; exact hb2⟩
          · exfalso
            rw [List.getElem?_eq_getElem e2] at hopen
            have hce : hs[i] = c2 := Option.some.inj hopen
            rw [← hce, hv1] at k3
            cases k3
            omega
      · intro b t hb hbt
        simp only at hb hbt ⊢
        rcases Nat.lt_succ_iff_lt_or_eq.mp hb with hlt' | heq
        · rw [hkeep b hlt'] at hbt
          have := t3 b t hlt' hbt
          omega
        · subst heq
          rw [hnew] at hbt
          cases hbt
          omega
      · right
        simp only
        rcases Nat.le_total es.max_type v with hle | hle
        · exact ⟨es.block_idx, by omega, by rw [Nat.max_eq_right hle]; exact hnew⟩
        · rw [Nat.max_eq_left hle]
          rcases t4 with ⟨z1, z2⟩ | ⟨b, hb1, hb2⟩
          · exact ⟨es.block_idx, by omega, by
              have : v = 0 := by omega
              rw [z2, ← this]; exact hnew⟩
          · exact ⟨b, by omega, by rw [hkeep b hb1]; exact hb2⟩
  by_cases hlast : i + 1 = nb
  · simp only [emitStep, List.getElem?_eq_getElem e1, Option.some_bind,
      List.getElem?_eq_getElem e2, hlast, if_true, List.getElem?_eq_getElem e3,
      setAt_eq_some' _ _ _ e4, setAt_eq_some' _ _ _ e5]
    rw [hlast] at hwrite
    exact ⟨_, rfl, hwrite⟩
  · have e6 : i + 1 < hs.length := by omega
    by_cases hne : hs[i] = hs[i + 1]
    · simp only [emitStep, List.getElem?_eq_getElem e1, Option.some_bind,
        List.getElem?_eq_getElem e2, hlast, if_false, List.getElem?_eq_getElem e6,
        Option.map_some', hne, ne_eq, not_true_eq_false, decide_False, Bool.false_eq_true]
      refine ⟨_, rfl, ⟨s1, s2, by simp only; omega, fun h => absurd h hlast⟩, ?_, ?_⟩
      · intro hh
        obtain ⟨hu, hp⟩ := hcur hh
        obtain ⟨l1, l2, l3⟩ := hl hh
        refine ⟨?_, l2, fun h => absurd h hlast⟩
        simp only [hu]
        rw [List.sum_take_succ bl i e1]
        omega
      · intro hh
        obtain ⟨t1, t2, t3, t4⟩ := ht hh
        refine ⟨?_, t2, t3, t4⟩
        intro j c v' hj hjc hcv
        simp only
        rcases Nat.lt_succ_iff_lt_or_eq.mp hj with hlt' | heq
        · rcases t1 j c v' hlt' hjc hcv with hw | hopen
          · exact Or.inl hw
          · right
            rw [List.getElem?_eq_getElem e2] at hopen
            rw [List.getElem?_eq_getElem e6, ← hne]
            exact hopen
        · subst heq
          right
          rw [List.getElem?_eq_getElem e2] at hjc
          rw [List.getElem?_eq_getElem e6, ← hne]
          exact hjc
    · simp only [emitStep, List.getElem?_eq_getElem e1, Option.some_bind,
        List.getElem?_eq_getElem e2, hlast, if_false, List.getElem?_eq_getElem e6,
        Option.map_some', hne, ne_eq, not_false_eq_true, decide_True, if_true,
        List.getElem?_eq_getElem e3, setAt_eq_some' _ _ _ e4, setAt_eq_some' _ _ _ e5]
      exact ⟨_, rfl, hwrite⟩

theorem emitLoop_spec (nb nc : Nat) (bl hs ni types0 lengths0 : List Nat) (hypL hypT : Prop)
    (hbl : bl.length = nb) (hhs : nb ≤ hs.length) (hni : ni.length = nc)
    (hrange : ∀ j c, j < nb → hs[j]? = some c → c < nc) (hlt : nb ≤ types0.length)
    (hll : nb ≤ lengths0.length)
    (hL : hypL → (∀ x ∈ bl, 0 < x) ∧ bl.sum < 2 ^ 32)
    (hT : hypT → (∀ j c, j < nb → hs[j]? = some c → ∃ v, ni[c]? = some v ∧ v < 256) ∧
      (∀ j c v w, j < nb → hs[j]? = some c → ni[c]? = some v → w < v →
        ∃ j2 c2, j2 < j ∧ hs[j2]? = some c2 ∧ ni[c2]? = some w)) :
    ∃ es, forLoop (emitStep nb bl hs ni) 0 nb
        { types := types0, lengths := lengths0, cur_length := 0, block_idx := 0,
          max_type := 0 } = some es ∧
      EmitShape nb types0.length lengths0.length nb es ∧
      (hypL → EmitLengths nb bl nb es) ∧ (hypT → EmitTypes hs ni nb es) := by
  have := forLoop_inv (emitStep nb bl hs ni)
    (fun i es => EmitShape nb types0.length lengths0.length i es ∧
      (hypL → EmitLengths nb bl i es) ∧ (hypT → EmitTypes hs ni i es))
    nb 0
    { types := types0, lengths := lengths0, cur_length := 0, block_idx := 0, max_type := 0 }
    ⟨⟨rfl, rfl, Nat.le_refl _, fun h h' => by omega⟩,
     fun _ => ⟨by simp, by intro b hb; simp at hb, fun _ => rfl⟩,
     fun _ => ⟨by intro j c v hj; omega, by intro b t w hb; simp at hb,
       by intro b t hb; simp at hb, Or.inl ⟨rfl, rfl⟩⟩⟩
    (by
      intro i es _ hi hes
      exact emitStep_inv nb nc _ _ bl hs ni hypL hypT hbl hhs hni hrange hlt hll hL hT i es
        (by omega) hes.1 hes.2.1 hes.2.2)
  simpa using this

theorem countBlockLengths_const (n : Nat) (hn : 1 ≤ n) :
    countBlockLengths (fun _ => 0) n 1 = some [u32 n] := by
  obtain ⟨st, hst, _, hfin⟩ := forLoop_inv (countBlockLengthsStep (fun _ => 0) n 1)
    (fun i st => (i < n → st = ([u32 i], 0)) ∧ (i = n → st = ([u32 n], 1)))
    n 0 ([0], 0) ⟨fun _ => rfl, fun h => by omega⟩
    (by
      intro i st _ hi hinv
      simp only [Nat.zero_add] at hi
      have hst := hinv.1 hi
      subst hst
      have hu : u32 (u32 i + 1) = u32 (i + 1) := by unfold u32; omega
      refine ⟨([u32 (i + 1)], if i + 1 = n then 1 else 0), ?_, ?_, ?_⟩
      · simp [countBlockLengthsStep, hu]
      · intro h; rw [if_neg (by omega)]
      · intro h; rw [if_pos h, h])
  simp only [Nat.zero_add] at hfin
  have := hfin trivial
  subst this
  unfold countBlockLengths
  simp only [List.replicate]
  rw [hst]
  rfl

theorem numRuns_const (n : Nat) (hn : 1 ≤ n) : numRuns (fun _ => 0) n = 1 := by
  unfold numRuns numSwitches
  rw [if_neg (by omega)]
  simp

theorem FindMatchLengthWithLimit_le (data : Nat → Nat) :
    ∀ (limit s1 s2 : Nat), FindMatchLengthWithLimit data s1 s2 limit ≤ limit := by
  intro limit
  induction limit with
  | zero => intro s1 s2; simp [FindMatchLengthWithLimit]
  | succ n ih =>
    intro s1 s2
    unfold FindMatchLengthWithLimit
    split
    · have := ih (s1 + 1) (s2 + 1); omega
    · omega

theorem FindMatchLengthWithLimit_eq (data : Nat → Nat) :
    ∀ (limit s1 s2 j : Nat), j < FindMatchLengthWithLimit data s1 s2 limit →
      data (s1 + j) = data (s2 + j) := by
  intro limit
  induction limit with
  | zero => intro s1 s2 j h; simp [FindMatchLengthWithLimit] at h
  | succ n ih =>
    intro s1 s2 j h
    unfold FindMatchLengthWithLimit at h
    split at h
    · rename_i heq
      cases j with
      | zero => simpa using heq
      | succ k =>
        have := ih (s1 + 1) (s2 + 1) k (by omega)
        have e1 : s1 + (k + 1) = s1 + 1 + k := by omega
        have e2 : s2 + (k + 1) = s2 + 1 + k := by omega
        rw [e1, e2]; exact this
    · omega

theorem usub_of_le (a b : Nat) (ha : a < 2 ^ 64) (hb : b ≤ a) : usub a b = a - b := by
  unfold usub
  have h1 : a % 2 ^ 64 = a := Nat.mod_eq_of_lt ha
  have h2 : b % 2 ^ 64 = b := Nat.mod_eq_of_lt (by omega)
  rw [h1, h2]
  have : a + (2 ^ 64 - b) = (a - b) + 2 ^ 64 := by omega
  rw [this, Nat.add_mod_right]
  exact Nat.mod_eq_of_lt (by omega)

theorem usub_of_gt (a b : Nat) (hb : b < 2 ^ 64) (hab : a < b) :
    usub a b = a + 2 ^ 64 - b := by
  unfold usub
  have h1 : a % 2 ^ 64 = a := Nat.mod_eq_of_lt (by omega)
  have h2 : b % 2 ^ 64 = b := Nat.mod_eq_of_lt hb
  rw [h1, h2]
  have : a + (2 ^ 64 - b) = a + 2 ^ 64 - b := by omega
  rw [this]
  exact Nat.mod_eq_of_lt (by omega)

theorem uintOfInt_lt (x : Int) : uintOfInt x < 2 ^ 64 := by
  unfold uintOfInt
  have h1 : (0 : Int) ≤ x % (2 ^ 64 : Int) := Int.emod_nonneg _ (by norm_num)
  have h2 : x % (2 ^ 64 : Int) < (2 ^ 64 : Int) := Int.emod_lt_of_pos _ (by norm_num)
  omega

/-- A candidate at backward distance `backward` whose masked position is `prev` gives a
valid match. -/
theorem validMatch_of_candidate (data : Nat → Nat) (mask cur_ix max_length max_backward : Nat)
    (backward : Nat) (h0 : 0 < backward) (hmb : backward ≤ max_backward)
    (hcur : backward ≤ cur_ix) :
    ValidMatch data mask cur_ix max_length max_backward backward
      (FindMatchLengthWithLimit data ((cur_ix - backward) &&& mask) (cur_ix &&& mask)
        max_length) :=
  ⟨h0, hmb, hcur, FindMatchLengthWithLimit_le data _ _ _,
    fun j hj => FindMatchLengthWithLimit_eq data _ _ _ j hj⟩

theorem usub_lt_imp (a b : Nat) (ha : a < 2 ^ 64) (hb : b < 2 ^ 64)
    (h : ¬ (usub a b ≥ a)) : 0 < b ∧ b ≤ a ∧ usub a b = a - b := by
  have hle : b ≤ a := by
    by_contra hgt
    rw [usub_of_gt _ _ hb (by omega)] at h
    omega
  have hus := usub_of_le a b ha hle
  rw [hus] at h
  exact ⟨by omega, hle, hus⟩

theorem searchSoundH5_update (data : Nat → Nat) (mask cur_ix max_length max_backward : Nat)
    (score0 : Nat) (st : SearchStateH5) (score d l : Nat) (x : Int)
    (h : SearchSoundH5 data mask cur_ix max_length max_backward score0 st)
    (hs : st.best_score < score)
    (hv : ValidMatch data mask cur_ix max_length max_backward d l) :
    SearchSoundH5 data mask cur_ix max_length max_backward score0
      { best_score := score, best_len := l,
        out := { len := l, distance := d, score := score, len_code_delta := x } } :=
  ⟨rfl, by have := h.2.1; simp only; omega, fun _ => hv⟩

theorem h5CacheStep_sound {Γ : Type} (K : HasherCollab Γ) (data : Nat → Nat)
    (mask : Nat) (dc : Nat → Int) (cur_ix max_length max_backward score0 : Nat)
    (hcur : cur_ix < 2 ^ 64) (i : Nat) (st : SearchStateH5)
    (h : SearchSoundH5 data mask cur_ix max_length max_backward score0 st) :
    SearchSoundH5 data mask cur_ix max_length max_backward score0
      (h5CacheStep K data mask dc cur_ix (cur_ix &&& mask) max_length max_backward i st) := by
  have hb := uintOfInt_lt (dc i)
  unfold h5CacheStep
  simp only
  by_cases h1 : usub cur_ix (uintOfInt (dc i)) ≥ cur_ix
  · rw [if_pos h1]; exact h
  rw [if_neg h1]
  by_cases h2 : uintOfInt (dc i) > max_backward
  · rw [if_pos h2]; exact h
  rw [if_neg h2]
  obtain ⟨hpos, hle, hus⟩ := usub_lt_imp cur_ix _ hcur hb h1
  have hv := validMatch_of_candidate data mask cur_ix max_length max_backward
    (uintOfInt (dc i)) hpos (by omega) hle
  rw [← hus] at hv
  repeat' split
  all_goals first
    | exact h
    | exact searchSoundH5_update _ _ _ _ _ _ _ _ _ _ _ h (by assumption) hv



theorem iterLoop_inv {σ : Type} (body : Nat → σ → σ) (P : σ → Prop)
    (hstep : ∀ i s, P s → P (body i s)) :
    ∀ (n lo : Nat) (s : σ), P s → P (iterLoop body lo n s) := by
  intro n
  induction n with
  | zero => intro lo s h; exact h
  | succ k ih => intro lo s h; exact ih (lo + 1) (body lo s) (hstep lo s h)

theorem u32_le (p : Nat) : u32 p ≤ p := Nat.mod_le _ _

theorem u32_lt (p : Nat) : u32 p < 2 ^ 32 := Nat.mod_lt _ (by norm_num)

theorem u32_of_lt (p : Nat) (h : p < 2 ^ 32) : u32 p = p := Nat.mod_eq_of_lt h

theorem h5BucketLoop_sound {Γ : Type} (K : HasherCollab Γ) (self : H5) (data : Nat → Nat)
    (mask cur_ix max_length max_backward base score0 : Nat) (hcur : cur_ix < 2 ^ 64) :
    ∀ (steps i : Nat) (st : SearchStateH5), steps ≤ i →
      (∀ k, i - steps ≤ k → k < i →
        ∃ p, p < cur_ix ∧ self.buckets (base + (u32 k &&& self.block_mask_)) = u32 p) →
      SearchSoundH5 data mask cur_ix max_length max_backward score0 st →
      SearchSoundH5 data mask cur_ix max_length max_backward score0
        (h5BucketLoop K self data mask cur_ix (cur_ix &&& mask) max_length max_backward base
          steps i st) := by
  intro steps
  induction steps with
  | zero => intro i st _ _ h; exact h
  | succ n ih =>
    intro i st hi hent h
    obtain ⟨p, hp, hpe⟩ := hent (i - 1) (by omega) (by omega)
    have hrest : ∀ k, i - 1 - n ≤ k → k < i - 1 →
        ∃ p, p < cur_ix ∧ self.buckets (base + (u32 k &&& self.block_mask_)) = u32 p :=
      fun k h1 h2 => hent k (by omega) (by omega)
    unfold h5BucketLoop
    simp only
    rw [hpe]
    have hle := u32_le p
    have hus := usub_of_le cur_ix (u32 p) hcur (by omega)
    by_cases h1 : usub cur_ix (u32 p) > max_backward
    · rw [if_pos h1]; exact h
    rw [if_neg h1]
    have hv := validMatch_of_candidate data mask cur_ix max_length max_backward
      (usub cur_ix (u32 p)) (by omega) (by omega) (by omega)
    have hback : cur_ix - usub cur_ix (u32 p) = u32 p := by omega
    rw [hback] at hv
    split
    · exact ih (i - 1) st (by omega) hrest h
    · apply ih (i - 1) _ (by omega) hrest
      repeat' split
      all_goals first
        | exact h
        | exact searchSoundH5_update _ _ _ _ _ _ _ _ _ _ _ h (by assumption) hv

theorem FindLongestMatchH5_valid {Γ : Type} (K : HasherCollab Γ)
    (s : H5) (common : Γ) (data : Nat → Nat) (mask : Nat) (dc : Nat → Int)
    (cur_ix max_length max_backward gap max_distance : Nat) (out : HasherSearchResult)
    (hd : ∀ c o, (K.SearchInStaticDictionary c data (cur_ix &&& mask) max_length
      (u64 (max_backward + gap)) max_distance o false).2 = o)
    (hcur : cur_ix < 2 ^ 64) (hr : RingsBelow s cur_ix)
    (hsc : out.score < (FindLongestMatchH5 K s common data mask dc cur_ix max_length
      max_backward gap max_distance out).2.2.score) :
    ValidMatch data mask cur_ix max_length max_backward
      (FindLongestMatchH5 K s common data mask dc cur_ix max_length max_backward gap
        max_distance out).2.2.distance
      (FindLongestMatchH5 K s common data mask dc cur_ix max_length max_backward gap
        max_distance out).2.2.len := by
  have h0 : SearchSoundH5 data mask cur_ix max_length max_backward out.score
      { best_score := out.score, best_len := out.len,
        out := { out with len := 0, len_code_delta := 0 } } :=
    ⟨rfl, Nat.le_refl _, fun h => absurd h (Nat.lt_irrefl _)⟩
  have h1 := iterLoop_inv (h5CacheStep K data mask dc cur_ix (cur_ix &&& mask) max_length
    max_backward) (SearchSoundH5 data mask cur_ix max_length max_backward out.score)
    (fun i st h => h5CacheStep_sound K data mask dc cur_ix max_length max_backward _ hcur i
      st h) (uintOfInt s.num_last_distances_to_check) 0 _ h0
  have h2 := h5BucketLoop_sound K s data mask cur_ix max_length max_backward
    (u32 (HashBytesH5 K data (cur_ix &&& mask) s.hash_shift_ <<< uintOfInt s.block_bits))
    out.score hcur
    (s.num (HashBytesH5 K data (cur_ix &&& mask) s.hash_shift_) -
      (if s.num (HashBytesH5 K data (cur_ix &&& mask) s.hash_shift_) > s.block_size_ then
        s.num (HashBytesH5 K data (cur_ix &&& mask) s.hash_shift_) - s.block_size_ else 0))
    (s.num (HashBytesH5 K data (cur_ix &&& mask) s.hash_shift_)) _ (Nat.sub_le _ _)
    (by
      intro k hk1 hk2
      have hn := hr.1 (HashBytesH5 K data (cur_ix &&& mask) s.hash_shift_)
      have hk : u32 k = k := u32_of_lt k (by omega)
      rw [hk]
      apply hr.2 _ k hk2
      split at hk1 <;> omega)
    h1
  have key : ∀ (st2 : SearchStateH5) (d : Γ × HasherSearchResult),
      SearchSoundH5 data mask cur_ix max_length max_backward out.score st2 →
      d = (if out.score = st2.out.score then
        K.SearchInStaticDictionary common data (cur_ix &&& mask) max_length
          (u64 (max_backward + gap)) max_distance st2.out false
        else (common, st2.out)) →
      out.score < d.2.score →
      ValidMatch data mask cur_ix max_length max_backward d.2.distance d.2.len := by
    intro st2 d hs hdd hlt
    have hd2 : d.2 = st2.out := by
      rw [hdd]
      split
      · exact hd _ _
      · rfl
    rw [hd2] at hlt ⊢
    obtain ⟨e1, e2, e3⟩ := hs
    exact e3 (by omega)
  exact key _ _ h2 rfl hsc


theorem ringsBelow_write (s t : H5) (b key0 ix : Nat) (hr : RingsBelow s b) (hix : ix < b)
    (h1 : t.block_bits = s.block_bits) (h2 : t.block_size_ = s.block_size_)
    (h3 : t.block_mask_ = s.block_mask_)
    (h4 : t.num = upd s.num key0 (u16 (s.num key0 + 1)))
    (h5 : t.buckets = upd s.buckets
      (u32 (key0 <<< uintOfInt s.block_bits) + (s.num key0 &&& s.block_mask_)) (u32 ix)) :
    RingsBelow t b := by
  obtain ⟨hn, hv⟩ := hr
  refine ⟨?_, ?_⟩
  · intro key
    rw [h4]
    unfold upd
    split
    · exact Nat.mod_lt _ (by norm_num)
    · exact hn key
  · intro key i hi1 hi2
    rw [h5, h1, h3]
    unfold upd
    split
    · exact ⟨ix, hix, rfl⟩
    · rename_i hne
      apply hv key i
      · rw [h4] at hi1
        unfold upd at hi1
        split at hi1
        · rename_i hk
          subst hk
          have hk0 := hn key
          unfold u16 at hi1
          by_cases hw : s.num key + 1 < 2 ^ 16
          · rw [Nat.mod_eq_of_lt hw] at hi1
            by_cases hin : i = s.num key
            · exfalso; apply hne; rw [hin]
            · omega
          · have : s.num key + 1 = 2 ^ 16 := by omega
            rw [this] at hi1
            simp at hi1
        · exact hi1
      · rw [h4, h2] at hi2
        rw [h4] at hi1
        unfold upd at hi1 hi2
        split at hi2
        · rename_i hk
          subst hk
          simp only [if_true] at hi1
          have hk0 := hn key
          unfold u16 at hi1 hi2
          by_cases hw : s.num key + 1 < 2 ^ 16
          · rw [Nat.mod_eq_of_lt hw] at hi1 hi2
            by_cases hin : i = s.num key
            · exfalso; apply hne; rw [hin]
            · omega
          · have : s.num key + 1 = 2 ^ 16 := by omega
            rw [this] at hi1
            simp at hi1
        · exact hi2

theorem ringsBelow_mono (s : H5) (b c : Nat) (hbc : b ≤ c) (hr : RingsBelow s b) :
    RingsBelow s c := by
  refine ⟨hr.1, ?_⟩
  intro key i h1 h2
  obtain ⟨p, hp, he⟩ := hr.2 key i h1 h2
  exact ⟨p, by omega, he⟩

theorem ringsBelow_StoreH5 {Γ : Type} (K : HasherCollab Γ) (s : H5) (data : Nat → Nat)
    (mask ix b : Nat) (hr : RingsBelow s b) (hix : ix < b) :
    RingsBelow (StoreH5 K s data mask ix) b := by
  apply ringsBelow_write s (StoreH5 K s data mask ix) b
    (HashBytesH5 K data (ix &&& mask) s.hash_shift_) ix hr hix rfl rfl rfl rfl
  simp only [StoreH5]
  rw [Nat.add_comm]

theorem ringsBelow_FindLongestMatchH5 {Γ : Type} (K : HasherCollab Γ) (s : H5) (common : Γ)
    (data : Nat → Nat) (mask : Nat) (dc : Nat → Int)
    (cur_ix max_length max_backward gap max_distance : Nat) (out : HasherSearchResult)
    (b : Nat) (hr : RingsBelow s b) (hix : cur_ix < b) :
    RingsBelow (FindLongestMatchH5 K s common data mask dc cur_ix max_length max_backward gap
      max_distance out).1 b := by
  apply ringsBelow_write s (FindLongestMatchH5 K s common data mask dc cur_ix max_length
    max_backward gap max_distance out).1 b
    (HashBytesH5 K data (cur_ix &&& mask) s.hash_shift_) cur_ix hr hix rfl rfl rfl rfl
  simp only [FindLongestMatchH5]
  have hn := hr.1 (HashBytesH5 K data (cur_ix &&& mask) s.hash_shift_)
  rw [u32_of_lt (s.num (HashBytesH5 K data (cur_ix &&& mask) s.hash_shift_)) (by omega)]

theorem ringsBelow_runH5 {Γ : Type} (K : HasherCollab Γ) (b : Nat) :
    ∀ (calls : List HasherCall) (st : H5 × Γ), RingsBelow st.1 b →
      (∀ c ∈ calls, c.position < b) → RingsBelow (runH5 K st calls).1.1 b := by
  intro calls
  induction calls with
  | nil => intro st h _; exact h
  | cons c cs ih =>
    intro st h hp
    simp only [runH5]
    apply ih
    · have hc := hp c (List.mem_cons_self _ _)
      cases c with
      | store data mask ix => exact ringsBelow_StoreH5 K st.1 data mask ix b h hc
      | find data mask dc cur_ix ml mb gap md out =>
        exact ringsBelow_FindLongestMatchH5 K st.1 st.2 data mask dc cur_ix ml mb gap md out
          b h hc
    · intro c2 hc2
      exact hp c2 (List.mem_cons_of_mem _ hc2)

theorem num_PrepareH5_InitializeH5 {Γ : Type} (K : HasherCollab Γ)
    (bucket_bits block_bits nldc : Int) (one_shot : Bool) (input_size : Nat)
    (data : Nat → Nat) (key : Nat) :
    (PrepareH5 K (InitializeH5 bucket_bits block_bits nldc) one_shot input_size data).num key
      = 0 := by
  unfold PrepareH5
  simp only
  split
  · exact iterLoop_inv _ (fun (s : H5) => ∀ key, s.num key = 0)
      (by
        intro i s hs k
        simp only [upd]
        split
        · rfl
        · exact hs k) input_size 0 _ (fun _ => rfl) key
  · simp [InitializeH5]

theorem ringsBelow_of_num_zero (s : H5) (b : Nat) (h : ∀ key, s.num key = 0) :
    RingsBelow s b := by
  refine ⟨fun key => by rw [h key]; norm_num, ?_⟩
  intro key i hi
  rw [h key] at hi
  exact absurd hi (Nat.not_lt_zero _)

/-- Match validity for H5 when no position is searched at which it was stored: in the state
reached from `PrepareH5` on an initialised hasher by `StoreH5` / `FindLongestMatchH5` calls at
strictly increasing positions, a `FindLongestMatchH5` call at a greater position `cur_ix` (a
`uint`) in which the static dictionary contributes nothing and that raises `out.score` leaves
`0 < out.distance <= max_backward`, `out.len <= max_length` and
`data[((cur_ix - out.distance) & ring_buffer_mask) + j] = data[(cur_ix & ring_buffer_mask) + j]`
for every `j < out.len`. -/
theorem FindLongestMatchH5_match_valid {Γ : Type} (K : HasherCollab Γ)
    (bucket_bits block_bits num_last_distances_to_check : Int) (one_shot : Bool)
    (input_size : Nat) (data0 : Nat → Nat) (common : Γ) (calls : List HasherCall)
    (data : Nat → Nat) (ring_buffer_mask : Nat) (distance_cache : Nat → Int)
    (cur_ix max_length max_backward gap max_distance : Nat) (out : HasherSearchResult)
    (hd : ∀ c o, (K.SearchInStaticDictionary c data (cur_ix &&& ring_buffer_mask) max_length
      (u64 (max_backward + gap)) max_distance o false).2 = o)
    (hcur : cur_ix < 2 ^ 64)
    (hpos : List.Pairwise (fun a b => a < b) (calls.map HasherCall.position ++ [cur_ix]))
    (hsc : out.score <
      (FindLongestMatchH5 K
        (runH5 K (PrepareH5 K (InitializeH5 bucket_bits block_bits num_last_distances_to_check)
          one_shot input_size data0, common) calls).1.1
        (runH5 K (PrepareH5 K (InitializeH5 bucket_bits block_bits num_last_distances_to_check)
          one_shot input_size data0, common) calls).1.2
        data ring_buffer_mask distance_cache cur_ix max_length max_backward gap max_distance
        out).2.2.score) :
    ∃ r, r = (FindLongestMatchH5 K
        (runH5 K (PrepareH5 K (InitializeH5 bucket_bits block_bits num_last_distances_to_check)
          one_shot input_size data0, common) calls).1.1
        (runH5 K (PrepareH5 K (InitializeH5 bucket_bits block_bits num_last_distances_to_check)
          one_shot input_size data0, common) calls).1.2
        data ring_buffer_mask distance_cache cur_ix max_length max_backward gap max_distance
        out).2.2 ∧
      0 < r.distance ∧ r.distance ≤ max_backward ∧ r.len ≤ max_length ∧
      ∀ j, j < r.len →
        data (((cur_ix - r.distance) &&& ring_buffer_mask) + j) =
          data ((cur_ix &&& ring_buffer_mask) + j) := by
  have hbelow : ∀ c ∈ calls, c.position < cur_ix := by
    intro c hc
    rw [List.pairwise_append] at hpos
    exact hpos.2.2 _ (List.mem_map_of_mem _ hc) _ (List.mem_singleton_self _)
  have hr := ringsBelow_runH5 K cur_ix calls
    (PrepareH5 K (InitializeH5 bucket_bits block_bits num_last_distances_to_check)
      one_shot input_size data0, common)
    (ringsBelow_of_num_zero _ _ (num_PrepareH5_InitializeH5 K _ _ _ _ _ _)) hbelow
  obtain ⟨h1, h2, _, h4, h5⟩ := FindLongestMatchH5_valid K _ _ data ring_buffer_mask
    distance_cache cur_ix max_length max_backward gap max_distance out hd hcur hr hsc
  exact ⟨_, rfl, h1, h2, h4, h5⟩

/-- Match validity for H5 on `abcdabcd`: after stores at 0, 1, 2, 3 the search at 4 finds the
match at distance 4 of length 4. -/
theorem FindLongestMatchH5_match_valid_witness :
    ∃ r, r = (FindLongestMatchH5 referenceCollab
        (runH5 referenceCollab (PrepareH5 referenceCollab (InitializeH5 15 4 4)
          false 8 abcdInput, ())
          [.store abcdInput 0xFFFF 0, .store abcdInput 0xFFFF 1, .store abcdInput 0xFFFF 2,
           .store abcdInput 0xFFFF 3]).1.1
        (runH5 referenceCollab (PrepareH5 referenceCollab (InitializeH5 15 4 4)
          false 8 abcdInput, ())
          [.store abcdInput 0xFFFF 0, .store abcdInput 0xFFFF 1, .store abcdInput 0xFFFF 2,
           .store abcdInput 0xFFFF 3]).1.2
        abcdInput 0xFFFF (fun _ => 16) 4 4 4 0 100000 initialSearchResult).2.2 ∧
      0 < r.distance ∧ r.distance ≤ 4 ∧ r.len ≤ 4 ∧
      ∀ j, j < r.len →
        abcdInput (((4 - r.distance) &&& 0xFFFF) + j) = abcdInput ((4 &&& 0xFFFF) + j) :=
  FindLongestMatchH5_match_valid referenceCollab 15 4 4 false 8 abcdInput ()
    [.store abcdInput 0xFFFF 0, .store abcdInput 0xFFFF 1, .store abcdInput 0xFFFF 2,
     .store abcdInput 0xFFFF 3]
    abcdInput 0xFFFF (fun _ => 16) 4 4 4 0 100000 initialSearchResult
    (fun _ _ => rfl) (by norm_num) (by decide) (by decide)

/-- Claim C5.  The walk down the ring of `FindLongestMatchH5` (lines 194-200 of `h5.go`) ends
at a link further away than `max_backward` but does not pass over the distance `0`, as the loop
over the distance cache (line 150 of `h5.go`), the sweep of H4 (line 185 of `h4.go`) and the
tree of H10 (line 113 of `h10.go`) do: after `PrepareH5` and `StoreH5` at position 4 of
`abcdabcd`, the search at `cur_ix = 4` (the positions 4, 4 are non-decreasing) with
`max_length = 8`, `max_backward = 4`, no distance-cache candidates and no dictionary match
compares `data[4 ..]` with itself, raises the score from 2020 to 3000 and returns the distance
`0` with the length 8. -/
theorem FindLongestMatchH5_walk_accepts_distance_zero :
    (FindLongestMatchH5 referenceCollab
      (runH5 referenceCollab (PrepareH5 referenceCollab (InitializeH5 15 4 0)
        false 8 abcdInput, ()) [.store abcdInput 0xFFFF 4]).1.1 ()
      abcdInput 0xFFFF (fun _ => 16) 4 8 4 0 100000 initialSearchResult).2.2 =
      { len := 8, distance := 0, score := 3000, len_code_delta := 0 } ∧
    initialSearchResult.score = 2020 ∧
    ¬ (0 < (FindLongestMatchH5 referenceCollab
      (runH5 referenceCollab (PrepareH5 referenceCollab (InitializeH5 15 4 0)
        false 8 abcdInput, ()) [.store abcdInput 0xFFFF 4]).1.1 ()
      abcdInput 0xFFFF (fun _ => 16) 4 8 4 0 100000 initialSearchResult).2.2.distance) := by
  decide

set_option maxRecDepth 100000

/-- Claim C6.  The distance-cache candidate of `FindLongestMatchH4` is not checked against
`max_backward`: on a fresh table, over the input whose byte `i` is `i mod 5 + 1`, the call at
`cur_ix = 5` with `distance_cache[0] = 5`, `max_length = 4` and `max_backward = 2` raises the
score from 2020 to 2475 and returns the distance 5, which is further away than
`max_backward`. -/
theorem FindLongestMatchH4_cache_beyond_max_backward :
    (FindLongestMatchH4 referenceCollab InitializeH4 () period5Input 0xFFFF (fun _ => 5)
      5 4 2 0 100000 initialSearchResult).2.2 =
      { len := 4, distance := 5, score := 2475, len_code_delta := 0 } ∧
    initialSearchResult.score < 2475 ∧ ¬ (5 ≤ 2) := by
  decide

theorem iterLoop_inv_idx {σ : Type} (body : Nat → σ → σ) (P : Nat → σ → Prop) :
    ∀ (n lo : Nat) (s : σ), P lo s →
      (∀ i s, lo ≤ i → i < lo + n → P i s → P (i + 1) (body i s)) →
      P (lo + n) (iterLoop body lo n s) := by
  intro n
  induction n with
  | zero => intro lo s h _; exact h
  | succ k ih =>
    intro lo s h hstep
    have := ih (lo + 1) (body lo s) (hstep lo s (Nat.le_refl _) (by omega) h)
      (fun i s h1 h2 hp => hstep i s (by omega) (by omega) hp)
    rw [show lo + (k + 1) = lo + 1 + k by omega]
    exact this

theorem HashBytesH4_lt {Γ : Type} (K : HasherCollab Γ) (data : Nat → Nat) (p : Nat) :
    HashBytesH4 K data p < 2 ^ 17 := by
  unfold HashBytesH4
  simp only
  have h : u64 (u64 (BROTLI_UNALIGNED_LOAD64LE data p <<< (64 - 8 * 5)) * K.kHashMul64)
      < 2 ^ 64 := Nat.mod_lt _ (by norm_num)
  have h2 : u64 (u64 (BROTLI_UNALIGNED_LOAD64LE data p <<< (64 - 8 * 5)) * K.kHashMul64)
      >>> (64 - 17) < 2 ^ 17 := by
    rw [Nat.shiftRight_eq_div_pow]
    apply Nat.div_lt_of_lt_mul
    norm_num at h ⊢
    omega
  exact Nat.lt_of_le_of_lt (Nat.mod_le _ _) h2

theorem agreeH4_prepare {Γ : Type} (K : HasherCollab Γ) (self : H4) (input_size : Nat)
    (data : Nat → Nat) (hle : input_size ≤ 4096) :
    AgreeH4 K data input_size (PrepareH4 K self true input_size data)
      (PrepareH4 K self false input_size data) := by
  have hpart : ∀ p j, p < input_size → j < 4 →
      (PrepareH4 K self true input_size data).buckets_ (HashBytesH4 K data p + j) = 0 := by
    have hthr : (4 <<< 17) >>> 7 = 4096 := by decide
    unfold PrepareH4
    simp only [hthr, hle, and_self, if_true]
    have := iterLoop_inv_idx (fun i (s : H4) =>
        ({ buckets_ := iterLoop (fun j b => upd b (HashBytesH4 K data i + j) 0) 0 4
            s.buckets_ } : H4))
      (fun i s => ∀ p j, p < i → j < 4 → s.buckets_ (HashBytesH4 K data p + j) = 0)
      input_size 0 self (fun p j hp _ => absurd hp (Nat.not_lt_zero _))
      (by
        intro i s _ _ hP p j hp hj
        simp only [iterLoop, upd]
        by_cases hpi : p = i
        · subst hpi
          have : j = 0 ∨ j = 1 ∨ j = 2 ∨ j = 3 := by omega
          rcases this with h | h | h | h <;> subst h <;> simp
        · have := hP p j (by omega) hj
          repeat' split
          all_goals first | rfl | exact this)
    simpa using this
  intro p j hp hj
  rw [hpart p j hp hj]
  have hk := HashBytesH4_lt K data p
  simp only [PrepareH4]
  have h17 : (1 <<< 17 : Nat) = 131072 := by decide
  rw [h17]
  show 0 = if HashBytesH4 K data p + j < 131072 + 4 then 0 else _
  rw [if_pos (by omega)]

theorem agreeH4_call {Γ : Type} (K : HasherCollab Γ) (data : Nat → Nat) (input_size : Nat)
    (s1 s2 : H4) (g : Γ) (c : HasherCall) (h : AgreeH4 K data input_size s1 s2)
    (hc : c.input = data ∧ c.position < input_size ∧ c.position &&& c.ringMask = c.position) :
    (callH4 K (s1, g) c).2 = (callH4 K (s2, g) c).2 ∧
    (callH4 K (s1, g) c).1.2 = (callH4 K (s2, g) c).1.2 ∧
    AgreeH4 K data input_size (callH4 K (s1, g) c).1.1 (callH4 K (s2, g) c).1.1 := by
  cases c with
  | store d mask ix =>
    refine ⟨rfl, rfl, ?_⟩
    intro p j hp hj
    simp only [callH4, StoreH4, upd]
    split
    · rfl
    · exact h p j hp hj
  | find d mask dc cur_ix ml mb gap md out =>
    obtain ⟨hd, hpos, hm⟩ := hc
    simp only [HasherCall.input, HasherCall.position, HasherCall.ringMask] at hd hpos hm
    subst hd
    have e0 := h cur_ix 0 hpos (by omega)
    have e1 := h cur_ix 1 hpos (by omega)
    have e2 := h cur_ix 2 hpos (by omega)
    have e3 := h cur_ix 3 hpos (by omega)
    simp only [callH4, FindLongestMatchH4, iterLoop, hm, Nat.zero_add, e0, e1, e2, e3]
    refine ⟨trivial, trivial, ?_⟩
    intro p j hp hj
    simp only [upd]
    split
    · rfl
    · exact h p j hp hj

theorem agreeH4_run {Γ : Type} (K : HasherCollab Γ) (data : Nat → Nat) (input_size : Nat) :
    ∀ (calls : List HasherCall) (s1 s2 : H4) (g : Γ), AgreeH4 K data input_size s1 s2 →
      CallsWithin data input_size calls →
      (runH4 K (s1, g) calls).2 = (runH4 K (s2, g) calls).2 := by
  intro calls
  induction calls with
  | nil => intro s1 s2 g _ _; rfl
  | cons c cs ih =>
    intro s1 s2 g h hc
    obtain ⟨r1, r2, r3⟩ := agreeH4_call K data input_size s1 s2 g c h
      (hc c (List.mem_cons_self _ _))
    simp only [runH4]
    rw [r1]
    congr 1
    have := ih (callH4 K (s1, g) c).1.1 (callH4 K (s2, g) c).1.1 (callH4 K (s1, g) c).1.2 r3
      (fun c2 hc2 => hc c2 (List.mem_cons_of_mem _ hc2))
    rw [show (callH4 K (s2, g) c).1 = ((callH4 K (s2, g) c).1.1, (callH4 K (s1, g) c).1.2) by
      rw [r2]]
    exact this


theorem h5BucketLoop_congr {Γ : Type} (K : HasherCollab Γ) (s1 s2 : H5) (data : Nat → Nat)
    (mask cur_ix cur_ix_masked max_length max_backward base : Nat)
    (hb : s1.buckets = s2.buckets) (hm : s1.block_mask_ = s2.block_mask_) :
    ∀ (steps i : Nat) (st : SearchStateH5),
      h5BucketLoop K s1 data mask cur_ix cur_ix_masked max_length max_backward base steps i st
        = h5BucketLoop K s2 data mask cur_ix cur_ix_masked max_length max_backward base steps
          i st := by
  intro steps
  induction steps with
  | zero => intro i st; rfl
  | succ n ih =>
    intro i st
    simp only [h5BucketLoop, hb, hm, ih]

theorem uintOfInt_sub_32 (bb : Int) (hk : uintOfInt bb < 64) :
    uintOfInt (32 - bb) = if uintOfInt bb ≤ 32 then 32 - uintOfInt bb
      else 2 ^ 64 + 32 - uintOfInt bb := by
  unfold uintOfInt at *
  split <;> omega

theorem HashBytesH5_lt {Γ : Type} (K : HasherCollab Γ) (data : Nat → Nat) (p : Nat) (bb : Int)
    (hne : u64 (1 <<< uintOfInt bb) ≠ 0) :
    HashBytesH5 K data p (32 - bb) < u64 (1 <<< uintOfInt bb) := by
  have hk : uintOfInt bb < 64 := by
    by_contra hge
    apply hne
    unfold u64
    rw [Nat.shiftLeft_eq, Nat.one_mul]
    exact Nat.mod_eq_zero_of_dvd (Nat.pow_dvd_pow 2 (by omega))
  have hsz : u64 (1 <<< uintOfInt bb) = 2 ^ uintOfInt bb := by
    unfold u64
    rw [Nat.shiftLeft_eq, Nat.one_mul]
    exact Nat.mod_eq_of_lt (Nat.pow_lt_pow_right (by norm_num) hk)
  rw [hsz]
  unfold HashBytesH5
  simp only
  have hh : u32 (BROTLI_UNALIGNED_LOAD32LE data p * K.kHashMul32) < 2 ^ 32 :=
    Nat.mod_lt _ (by norm_num)
  apply Nat.lt_of_le_of_lt (Nat.mod_le _ _)
  rw [Nat.shiftRight_eq_div_pow, uintOfInt_sub_32 bb hk]
  split
  · rename_i hle
    apply Nat.div_lt_of_lt_mul
    rw [← Nat.pow_add]
    rw [show 32 - uintOfInt bb + uintOfInt bb = 32 by omega]
    exact hh
  · rename_i hgt
    have : u32 (BROTLI_UNALIGNED_LOAD32LE data p * K.kHashMul32) <
        2 ^ (2 ^ 64 + 32 - uintOfInt bb) :=
      Nat.lt_of_lt_of_le hh (Nat.pow_le_pow_right (by norm_num) (by omega))
    rw [Nat.div_eq_of_lt this]
    exact Nat.pow_pos (by norm_num)

theorem agreeH5_prepare {Γ : Type} (K : HasherCollab Γ)
    (bucket_bits block_bits nldc : Int) (num0 buckets0 : Nat → Nat) (input_size : Nat)
    (data : Nat → Nat)
    (hle : input_size ≤ (InitializeH5 bucket_bits block_bits nldc).bucket_size_ >>> 6) :
    AgreeH5 K data input_size
      (PrepareH5 K { InitializeH5 bucket_bits block_bits nldc with
        num := num0, buckets := buckets0 } true input_size data)
      (PrepareH5 K { InitializeH5 bucket_bits block_bits nldc with
        num := num0, buckets := buckets0 } false input_size data) := by
  have hthr : input_size ≤ u64 (1 <<< uintOfInt bucket_bits) >>> 6 := hle
  have hpart := iterLoop_inv_idx (fun i (s : H5) =>
      { s with num := upd s.num (HashBytesH5 K data i s.hash_shift_) 0 })
    (fun i s => s.bucket_bits = bucket_bits ∧ s.block_bits = block_bits ∧
      s.num_last_distances_to_check = nldc ∧
      s.bucket_size_ = u64 (1 <<< uintOfInt bucket_bits) ∧
      s.block_size_ = u64 (1 <<< uintOfInt block_bits) ∧
      s.hash_shift_ = 32 - bucket_bits ∧
      s.block_mask_ = u32 (usub (u64 (1 <<< uintOfInt block_bits)) 1) ∧
      s.buckets = buckets0 ∧
      ∀ p, p < i → s.num (HashBytesH5 K data p (32 - bucket_bits)) = 0)
    input_size 0 { InitializeH5 bucket_bits block_bits nldc with
        num := num0, buckets := buckets0 }
    ⟨rfl, rfl, rfl, rfl, rfl, rfl, rfl, rfl, fun p hp => absurd hp (Nat.not_lt_zero _)⟩
    (by
      intro i s _ _ ⟨a1, a2, a3, a4, a5, a6, a7, a8, a9⟩
      refine ⟨a1, a2, a3, a4, a5, a6, a7, a8, ?_⟩
      intro p hp
      simp only [upd, a6]
      split
      · rfl
      · rename_i hne
        apply a9 p
        by_cases hpi : p = i
        · subst hpi; exact absurd rfl hne
        · omega)
  rw [Nat.zero_add] at hpart
  obtain ⟨a1, a2, a3, a4, a5, a6, a7, a8, a9⟩ := hpart
  have efull : PrepareH5 K { InitializeH5 bucket_bits block_bits nldc with
        num := num0, buckets := buckets0 } false input_size data =
      { InitializeH5 bucket_bits block_bits nldc with
        num := fun i => if i < u64 (1 <<< uintOfInt bucket_bits) then 0 else num0 i,
        buckets := buckets0 } := by
    simp [PrepareH5, InitializeH5]
  have epart : PrepareH5 K { InitializeH5 bucket_bits block_bits nldc with
        num := num0, buckets := buckets0 } true input_size data =
      iterLoop (fun i (s : H5) =>
        { s with num := upd s.num (HashBytesH5 K data i s.hash_shift_) 0 }) 0 input_size
        { InitializeH5 bucket_bits block_bits nldc with num := num0, buckets := buckets0 } := by
    unfold PrepareH5
    simp only
    rw [if_pos ⟨trivial, hle⟩]
  rw [efull, epart]
  refine ⟨a1, a2, a3, a4, a5, a6, a7, a8, ?_⟩
  intro p hp
  rw [a6, a9 p hp]
  have hne : u64 (1 <<< uintOfInt bucket_bits) ≠ 0 := by
    intro h0
    rw [h0] at hthr
    simp at hthr
    omega
  have := HashBytesH5_lt K data p bucket_bits hne
  show 0 = if _ < u64 (1 <<< uintOfInt bucket_bits) then 0 else _
  rw [if_pos this]


theorem agreeH5_call {Γ : Type} (K : HasherCollab Γ) (data : Nat → Nat) (input_size : Nat)
    (s1 s2 : H5) (g : Γ) (c : HasherCall) (h : AgreeH5 K data input_size s1 s2)
    (hc : c.input = data ∧ c.position < input_size ∧ c.position &&& c.ringMask = c.position) :
    (callH5 K (s1, g) c).2 = (callH5 K (s2, g) c).2 ∧
    (callH5 K (s1, g) c).1.2 = (callH5 K (s2, g) c).1.2 ∧
    AgreeH5 K data input_size (callH5 K (s1, g) c).1.1 (callH5 K (s2, g) c).1.1 := by
  obtain ⟨a1, a2, a3, a4, a5, a6, a7, a8, a9⟩ := h
  cases c with
  | store d mask ix =>
    obtain ⟨hd, hpos, hm⟩ := hc
    simp only [HasherCall.input, HasherCall.position, HasherCall.ringMask] at hd hpos hm
    subst hd
    have e := a9 ix hpos
    refine ⟨rfl, rfl, ?_⟩
    simp only [callH5, StoreH5, hm]
    refine ⟨a1, a2, a3, a4, a5, a6, a7, ?_, ?_⟩
    · simp only [← a6, ← a2, ← a7, e, a8]
    · intro p hp
      simp only [← a6, e, upd]
      split
      · rfl
      · exact a9 p hp
  | find d mask dc cur_ix ml mb gap md out =>
    obtain ⟨hd, hpos, hm⟩ := hc
    simp only [HasherCall.input, HasherCall.position, HasherCall.ringMask] at hd hpos hm
    subst hd
    have e := a9 cur_ix hpos
    have hloop := h5BucketLoop_congr K s1 s2 d mask cur_ix cur_ix ml mb
      (u32 (HashBytesH5 K d cur_ix s1.hash_shift_ <<< uintOfInt s1.block_bits)) a8 a7
    simp only [callH5, FindLongestMatchH5, hm, ← a6, ← a2, ← a3, ← a5, ← a7, e, hloop]
    refine ⟨trivial, trivial, ?_⟩
    refine ⟨a1, rfl, rfl, a4, rfl, rfl, rfl, ?_, ?_⟩
    · simp only [a8]
    · intro p hp
      simp only [upd]
      split
      · rfl
      · exact a9 p hp

theorem agreeH5_run {Γ : Type} (K : HasherCollab Γ) (data : Nat → Nat) (input_size : Nat) :
    ∀ (calls : List HasherCall) (s1 s2 : H5) (g : Γ), AgreeH5 K data input_size s1 s2 →
      CallsWithin data input_size calls →
      (runH5 K (s1, g) calls).2 = (runH5 K (s2, g) calls).2 := by
  intro calls
  induction calls with
  | nil => intro s1 s2 g _ _; rfl
  | cons c cs ih =>
    intro s1 s2 g h hc
    obtain ⟨r1, r2, r3⟩ := agreeH5_call K data input_size s1 s2 g c h
      (hc c (List.mem_cons_self _ _))
    simp only [runH5]
    rw [r1]
    congr 1
    have := ih (callH5 K (s1, g) c).1.1 (callH5 K (s2, g) c).1.1 (callH5 K (s1, g) c).1.2 r3
      (fun c2 hc2 => hc c2 (List.mem_cons_of_mem _ hc2))
    rw [show (callH5 K (s2, g) c).1 = ((callH5 K (s2, g) c).1.1, (callH5 K (s1, g) c).1.2) by
      rw [r2]]
    exact this

/-- Claim C10.  Partial versus full prepare, for H4 and for H5: for every prior content of the
hash tables, every `data` and every `input_size` up to the partial-prepare threshold (H4: 4096;
H5: `bucket_size_ >> 6`), a sequence of store and find-longest-match calls over `data` at
positions below `input_size` that the ring-buffer mask does not wrap yields, after
`prepare(one_shot = true)`, the same list of `HasherSearchResult`s, one per find call, as after
`prepare(one_shot = false)`. -/
theorem Prepare_partial_full_same_results {Γ : Type} (K : HasherCollab Γ) (data : Nat → Nat)
    (input_size : Nat) (calls : List HasherCall) (common : Γ)
    (hcalls : CallsWithin data input_size calls) :
    (∀ self : H4, input_size ≤ 4096 →
      (runH4 K (PrepareH4 K self true input_size data, common) calls).2 =
        (runH4 K (PrepareH4 K self false input_size data, common) calls).2) ∧
    (∀ (bucket_bits block_bits num_last_distances_to_check : Int) (num0 buckets0 : Nat → Nat),
      input_size ≤
        (InitializeH5 bucket_bits block_bits num_last_distances_to_check).bucket_size_ >>> 6 →
      (runH5 K (PrepareH5 K
        { InitializeH5 bucket_bits block_bits num_last_distances_to_check with
          num := num0, buckets := buckets0 } true input_size data, common) calls).2 =
        (runH5 K (PrepareH5 K
          { InitializeH5 bucket_bits block_bits num_last_distances_to_check with
            num := num0, buckets := buckets0 } false input_size data, common) calls).2) := by
  refine ⟨?_, ?_⟩
  · intro self hle
    exact agreeH4_run K data input_size calls _ _ common
      (agreeH4_prepare K self input_size data hle) hcalls
  · intro bucket_bits block_bits nldc num0 buckets0 hle
    exact agreeH5_run K data input_size calls _ _ common
      (agreeH5_prepare K bucket_bits block_bits nldc num0 buckets0 input_size data hle) hcalls

/-- Claim C10 on `abcdabcd`: stores at 0, 1, 2, 3 and a search at 4, on an H4 table full of
sevens and on H5 tables full of sevens and nines. -/
theorem Prepare_partial_full_same_results_witness :
    CallsWithin abcdInput 8
      [.store abcdInput 0xFFFF 0, .store abcdInput 0xFFFF 1, .store abcdInput 0xFFFF 2,
       .store abcdInput 0xFFFF 3,
       .find abcdInput 0xFFFF (fun _ => 16) 4 4 4 0 100000 initialSearchResult] ∧
    (8 ≤ 4096 ∧
      (runH4 referenceCollab (PrepareH4 referenceCollab ⟨fun _ => 7⟩ true 8 abcdInput, ())
        [.store abcdInput 0xFFFF 0, .store abcdInput 0xFFFF 1, .store abcdInput 0xFFFF 2,
         .store abcdInput 0xFFFF 3,
         .find abcdInput 0xFFFF (fun _ => 16) 4 4 4 0 100000 initialSearchResult]).2 =
      (runH4 referenceCollab (PrepareH4 referenceCollab ⟨fun _ => 7⟩ false 8 abcdInput, ())
        [.store abcdInput 0xFFFF 0, .store abcdInput 0xFFFF 1, .store abcdInput 0xFFFF 2,
         .store abcdInput 0xFFFF 3,
         .find abcdInput 0xFFFF (fun _ => 16) 4 4 4 0 100000 initialSearchResult]).2) ∧
    (8 ≤ (InitializeH5 15 4 4).bucket_size_ >>> 6 ∧
      (runH5 referenceCollab (PrepareH5 referenceCollab
        { InitializeH5 15 4 4 with num := fun _ => 7, buckets := fun _ => 9 }
        true 8 abcdInput, ())
        [.store abcdInput 0xFFFF 0, .store abcdInput 0xFFFF 1, .store abcdInput 0xFFFF 2,
         .store abcdInput 0xFFFF 3,
         .find abcdInput 0xFFFF (fun _ => 16) 4 4 4 0 100000 initialSearchResult]).2 =
      (runH5 referenceCollab (PrepareH5 referenceCollab
        { InitializeH5 15 4 4 with num := fun _ => 7, buckets := fun _ => 9 }
        false 8 abcdInput, ())
        [.store abcdInput 0xFFFF 0, .store abcdInput 0xFFFF 1, .store abcdInput 0xFFFF 2,
         .store abcdInput 0xFFFF 3,
         .find abcdInput 0xFFFF (fun _ => 16) 4 4 4 0 100000 initialSearchResult]).2) :=
  have hc : CallsWithin abcdInput 8
      [.store abcdInput 0xFFFF 0, .store abcdInput 0xFFFF 1, .store abcdInput 0xFFFF 2,
       .store abcdInput 0xFFFF 3,
       .find abcdInput 0xFFFF (fun _ => 16) 4 4 4 0 100000 initialSearchResult] := by
    intro c hc
    simp only [List.mem_cons, List.mem_singleton, List.not_mem_nil, or_false] at hc
    rcases hc with h | h | h | h | h <;> subst h <;> exact ⟨rfl, by decide, by decide⟩
  ⟨hc, ⟨by decide,
      (Prepare_partial_full_same_results referenceCollab abcdInput 8 _ () hc).1
        ⟨fun _ => 7⟩ (by decide)⟩,
    ⟨by decide,
      (Prepare_partial_full_same_results referenceCollab abcdInput 8 _ () hc).2
        15 4 4 (fun _ => 7) (fun _ => 9) (by decide)⟩⟩

theorem lengthsIncreasing_push (bl : Nat) (ms : List BackwardMatch) (m : BackwardMatch)
    (h : LengthsIncreasing bl ms) (hlt : bl < m.length) :
    LengthsIncreasing m.length (ms ++ [m]) := by
  obtain ⟨h1, h2, h3⟩ := h
  refine ⟨?_, ?_, by omega⟩
  · rw [List.pairwise_append]
    refine ⟨h1, List.pairwise_singleton _ _, ?_⟩
    intro a ha b hb
    rw [List.mem_singleton] at hb
    subst hb
    have := (h2 a ha).2
    omega
  · intro a ha
    rw [List.mem_append, List.mem_singleton] at ha
    rcases ha with ha | ha
    · have := h2 a ha
      omega
    · subst ha
      omega

theorem shortScan_lengths (data : Nat → Nat) (mask cur_ix max_length max_backward : Nat) :
    ∀ (steps i : Nat) (st : Nat × List BackwardMatch),
      LengthsIncreasing st.1 st.2 ∧ st.1 ≤ max 1 max_length →
      LengthsIncreasing (shortScan data mask cur_ix max_length max_backward steps i st).1
        (shortScan data mask cur_ix max_length max_backward steps i st).2 ∧
      (shortScan data mask cur_ix max_length max_backward steps i st).1 ≤ max 1 max_length := by
  intro steps
  induction steps with
  | zero => intro i st h; exact h
  | succ n ih =>
    intro i st h
    unfold shortScan
    simp only
    split
    · exact h
    split
    · exact h
    split
    · exact ih _ _ h
    · apply ih
      split
      · rename_i hlen
        refine ⟨lengthsIncreasing_push st.1 st.2
          (InitBackwardMatch (usub cur_ix i)
            (FindMatchLengthWithLimit data (i &&& mask) (cur_ix &&& mask) max_length))
          h.1 hlen, ?_⟩
        have := FindMatchLengthWithLimit_le data max_length (i &&& mask) (cur_ix &&& mask)
        simp only
        omega
      · exact h

theorem usub_le_sub (a b : Nat) (h : b ≤ a) : usub a b ≤ a - b := by
  unfold usub
  omega

theorem treeLoop_zero (self : H10) (data : Nat → Nat)
    (cur mask max_length max_backward : Nat) (record : Bool) (st : TreeState) :
    treeLoop self data cur mask max_length max_backward record 0 st =
      if max_length ≥ 128 then
        let f1 := upd st.forest st.node_left self.invalid_pos_
        { st with forest := upd f1 st.node_right self.invalid_pos_ }
      else st := by
  rw [treeLoop]

theorem treeLoop_stop (self : H10) (data : Nat → Nat)
    (cur mask max_length max_backward : Nat) (record : Bool) (d : Nat) (st : TreeState)
    (h : usub cur st.prev_ix = 0 ∨ usub cur st.prev_ix > max_backward) :
    treeLoop self data cur mask max_length max_backward record (d + 1) st =
      if max_length ≥ 128 then
        let f1 := upd st.forest st.node_left self.invalid_pos_
        { st with forest := upd f1 st.node_right self.invalid_pos_ }
      else st := by
  rw [treeLoop]
  simp only [h, if_true, decide_eq_true_eq]

theorem treeRecord_fields (data : Nat → Nat) (cur mask max_length : Nat) (record : Bool)
    (st : TreeState) :
    (treeRecord data cur mask max_length record st).forest = st.forest ∧
    (treeRecord data cur mask max_length record st).prev_ix = st.prev_ix ∧
    (treeRecord data cur mask max_length record st).node_left = st.node_left ∧
    (treeRecord data cur mask max_length record st).node_right = st.node_right ∧
    (treeRecord data cur mask max_length record st).best_len_left = st.best_len_left ∧
    (treeRecord data cur mask max_length record st).best_len_right = st.best_len_right := by
  unfold treeRecord
  split <;> exact ⟨rfl, rfl, rfl, rfl, rfl, rfl⟩

theorem treeLoop_equal (self : H10) (data : Nat → Nat)
    (cur mask max_length max_backward : Nat) (record : Bool) (d : Nat) (st : TreeState)
    (h : ¬ (usub cur st.prev_ix = 0 ∨ usub cur st.prev_ix > max_backward))
    (h2 : treeLen data cur mask max_length st ≥ min max_length 128) :
    treeLoop self data cur mask max_length max_backward record (d + 1) st =
      if max_length ≥ 128 then
        let f1 := upd st.forest st.node_left (st.forest (LeftChildIndexH10 self st.prev_ix))
        let f2 := upd f1 st.node_right (f1 (RightChildIndexH10 self st.prev_ix))
        { treeRecord data cur mask max_length record st with forest := f2 }
      else treeRecord data cur mask max_length record st := by
  obtain ⟨f1, f2, f3, f4, _, _⟩ := treeRecord_fields data cur mask max_length record st
  rw [treeLoop]
  simp only [h, if_false, decide_eq_true_eq, if_pos h2, f1, f2, f3, f4]

theorem treeLoop_right (self : H10) (data : Nat → Nat)
    (cur mask max_length max_backward : Nat) (record : Bool) (d : Nat) (st : TreeState)
    (h : ¬ (usub cur st.prev_ix = 0 ∨ usub cur st.prev_ix > max_backward))
    (h2 : ¬ treeLen data cur mask max_length st ≥ min max_length 128)
    (h3 : data ((cur &&& mask) + treeLen data cur mask max_length st) >
      data ((st.prev_ix &&& mask) + treeLen data cur mask max_length st)) :
    treeLoop self data cur mask max_length max_backward record (d + 1) st =
      treeLoop self data cur mask max_length max_backward record d
        (let f1 := if max_length ≥ 128 then upd st.forest st.node_left (u32 st.prev_ix)
          else st.forest
        let st1 := treeRecord data cur mask max_length record st
        let len := treeLen data cur mask max_length st
        let node_left := RightChildIndexH10 self st.prev_ix
        { st1 with best_len_left := len, forest := f1, node_left := node_left,
                   prev_ix := f1 node_left }) := by
  obtain ⟨f1, f2, f3, f4, _, _⟩ := treeRecord_fields data cur mask max_length record st
  rw [treeLoop]
  simp only [h, if_false, decide_eq_true_eq, if_neg h2, if_pos h3, f1, f2, f3, f4]

theorem treeLoop_left (self : H10) (data : Nat → Nat)
    (cur mask max_length max_backward : Nat) (record : Bool) (d : Nat) (st : TreeState)
    (h : ¬ (usub cur st.prev_ix = 0 ∨ usub cur st.prev_ix > max_backward))
    (h2 : ¬ treeLen data cur mask max_length st ≥ min max_length 128)
    (h3 : ¬ data ((cur &&& mask) + treeLen data cur mask max_length st) >
      data ((st.prev_ix &&& mask) + treeLen data cur mask max_length st)) :
    treeLoop self data cur mask max_length max_backward record (d + 1) st =
      treeLoop self data cur mask max_length max_backward record d
        (let f1 := if max_length ≥ 128 then upd st.forest st.node_right (u32 st.prev_ix)
          else st.forest
        let st1 := treeRecord data cur mask max_length record st
        let len := treeLen data cur mask max_length st
        let node_right := LeftChildIndexH10 self st.prev_ix
        { st1 with best_len_right := len, forest := f1, node_right := node_right,
                   prev_ix := f1 node_right }) := by
  obtain ⟨f1, f2, f3, f4, _, _⟩ := treeRecord_fields data cur mask max_length record st
  rw [treeLoop]
  simp only [h, if_false, decide_eq_true_eq, if_neg h2, if_neg h3, f1, f2, f3, f4]

theorem treeLen_le (data : Nat → Nat) (cur mask max_length : Nat) (st : TreeState)
    (h1 : st.best_len_left ≤ max_length) :
    treeLen data cur mask max_length st ≤ max_length := by
  unfold treeLen
  have := FindMatchLengthWithLimit_le data
    (usub max_length (min st.best_len_left st.best_len_right))
    ((cur &&& mask) + min st.best_len_left st.best_len_right)
    ((st.prev_ix &&& mask) + min st.best_len_left st.best_len_right)
  have hu := usub_le_sub max_length (min st.best_len_left st.best_len_right) (by omega)
  omega

theorem treeRecord_lengths (data : Nat → Nat) (cur mask max_length : Nat) (record : Bool)
    (st : TreeState) (h1 : LengthsIncreasing st.best_len st.matches_)
    (h2 : st.best_len ≤ max 1 max_length) (h3 : st.best_len_left ≤ max_length) :
    LengthsIncreasing (treeRecord data cur mask max_length record st).best_len
      (treeRecord data cur mask max_length record st).matches_ ∧
    (treeRecord data cur mask max_length record st).best_len ≤ max 1 max_length := by
  have hl := treeLen_le data cur mask max_length st h3
  unfold treeRecord
  split
  · rename_i hc
    refine ⟨lengthsIncreasing_push st.best_len st.matches_
      (InitBackwardMatch (usub cur st.prev_ix) _) h1 hc.2, ?_⟩
    simp only
    omega
  · exact ⟨h1, h2⟩

theorem treeLoop_lengths (self : H10) (data : Nat → Nat)
    (cur_ix mask max_length max_backward : Nat) (record : Bool) :
    ∀ (depth : Nat) (st : TreeState),
      LengthsIncreasing st.best_len st.matches_ ∧ st.best_len ≤ max 1 max_length ∧
        st.best_len_left ≤ max_length ∧ st.best_len_right ≤ max_length →
      LengthsIncreasing
        (treeLoop self data cur_ix mask max_length max_backward record depth st).best_len
        (treeLoop self data cur_ix mask max_length max_backward record depth st).matches_ ∧
      (treeLoop self data cur_ix mask max_length max_backward record depth st).best_len ≤
        max 1 max_length := by
  intro depth
  induction depth with
  | zero =>
    intro st h
    rw [treeLoop_zero]
    split
    · exact ⟨h.1, h.2.1⟩
    · exact ⟨h.1, h.2.1⟩
  | succ n ih =>
    intro st h
    obtain ⟨h1, h2, h3, h4⟩ := h
    have hs := treeRecord_lengths data cur_ix mask max_length record st h1 h2 h3
    obtain ⟨_, _, _, _, f5, f6⟩ := treeRecord_fields data cur_ix mask max_length record st
    have hl := treeLen_le data cur_ix mask max_length st h3
    by_cases hstop : usub cur_ix st.prev_ix = 0 ∨ usub cur_ix st.prev_ix > max_backward
    · rw [treeLoop_stop _ _ _ _ _ _ _ _ _ hstop]
      split
      · exact ⟨h1, h2⟩
      · exact ⟨h1, h2⟩
    by_cases heq : treeLen data cur_ix mask max_length st ≥ min max_length 128
    · rw [treeLoop_equal _ _ _ _ _ _ _ _ _ hstop heq]
      split
      · exact hs
      · exact hs
    by_cases hgt : data ((cur_ix &&& mask) + treeLen data cur_ix mask max_length st) >
        data ((st.prev_ix &&& mask) + treeLen data cur_ix mask max_length st)
    · rw [treeLoop_right _ _ _ _ _ _ _ _ _ hstop heq hgt]
      apply ih
      exact ⟨hs.1, hs.2, hl, by simp only [f6]; exact h4⟩
    · rw [treeLoop_left _ _ _ _ _ _ _ _ _ hstop heq hgt]
      apply ih
      exact ⟨hs.1, hs.2, by simp only [f5]; exact h3, hl⟩

theorem dictLoop_lengths (dm : Nat → Nat) (max_backward gap max_distance : Nat) :
    ∀ (n lo : Nat) (ms : List BackwardMatch),
      List.Pairwise (fun a b => a.length < b.length) ms ∧
        (∀ m ∈ ms, 2 ≤ m.length ∧ m.length < lo) → 2 ≤ lo →
      List.Pairwise (fun a b => a.length < b.length)
        (iterLoop (dictStep dm max_backward gap max_distance) lo n ms) ∧
      ∀ m ∈ iterLoop (dictStep dm max_backward gap max_distance) lo n ms, 2 ≤ m.length := by
  intro n
  induction n with
  | zero =>
    intro lo ms h _
    exact ⟨h.1, fun m hm => (h.2 m hm).1⟩
  | succ k ih =>
    intro lo ms h hlo
    simp only [iterLoop]
    apply ih (lo + 1) _ _ (by omega)
    obtain ⟨h1, h2⟩ := h
    unfold dictStep
    simp only
    have hkeep : List.Pairwise (fun a b => a.length < b.length) ms ∧
        ∀ m ∈ ms, 2 ≤ m.length ∧ m.length < lo + 1 :=
      ⟨h1, fun m hm => ⟨(h2 m hm).1, by have := (h2 m hm).2; omega⟩⟩
    split
    · split
      · refine ⟨?_, ?_⟩
        · rw [List.pairwise_append]
          refine ⟨h1, List.pairwise_singleton _ _, ?_⟩
          intro a ha b hb
          rw [List.mem_singleton] at hb
          subst hb
          exact (h2 a ha).2
        · intro a ha
          rw [List.mem_append, List.mem_singleton] at ha
          rcases ha with ha | ha
          · have := h2 a ha
            omega
          · subst ha
            simp only [InitDictionaryBackwardMatch]
            omega
      · exact hkeep
    · exact hkeep

/-- Claim C8.  For every hasher state and every input with `max_length` a `uint` below
`2^64 - 1`, the list of matches written by `FindAllMatchesH10` (linear-scan entries, then tree
entries, then static-dictionary entries) is strictly increasing in length, and its first entry
has length at least 2. -/
theorem FindAllMatchesH10_lengths_increasing {Γ : Type} (K : HasherCollab Γ) (self : H10)
    (common : Γ) (data : Nat → Nat)
    (ring_buffer_mask cur_ix max_length max_backward gap quality max_distance : Nat)
    (hmax : max_length < 2 ^ 64 - 1) :
    List.Pairwise (fun a b => a.length < b.length)
      (FindAllMatchesH10 K self common data ring_buffer_mask cur_ix max_length max_backward gap
        quality max_distance).2.2 ∧
    ∀ m, (FindAllMatchesH10 K self common data ring_buffer_mask cur_ix max_length max_backward
        gap quality max_distance).2.2.head? = some m → 2 ≤ m.length := by
  have key : ∀ (sc : Nat × List BackwardMatch) (tr : H10 × Nat × List BackwardMatch)
      (dm : Γ × Bool × (Nat → Nat)),
      LengthsIncreasing sc.1 sc.2 ∧ sc.1 ≤ max 1 max_length →
      tr = (if sc.1 < max_length then
          StoreAndFindMatchesH10 K self data cur_ix ring_buffer_mask max_length max_backward
            sc.1 (some sc.2)
        else (self, sc.1, sc.2)) →
      List.Pairwise (fun a b => a.length < b.length)
        (if dm.2.1 = true then
          iterLoop (dictStep dm.2.2 max_backward gap max_distance)
            (max 4 (u64 (tr.2.1 + 1)))
            (min BROTLI_MAX_STATIC_DICTIONARY_MATCH_LEN max_length + 1 -
              max 4 (u64 (tr.2.1 + 1))) tr.2.2
        else tr.2.2) ∧
      ∀ m ∈ (if dm.2.1 = true then
          iterLoop (dictStep dm.2.2 max_backward gap max_distance)
            (max 4 (u64 (tr.2.1 + 1)))
            (min BROTLI_MAX_STATIC_DICTIONARY_MATCH_LEN max_length + 1 -
              max 4 (u64 (tr.2.1 + 1))) tr.2.2
        else tr.2.2), 2 ≤ m.length := by
    intro sc tr dm hsc e
    have htr : LengthsIncreasing tr.2.1 tr.2.2 ∧ tr.2.1 ≤ max 1 max_length := by
      rw [e]
      split
      · exact treeLoop_lengths self data cur_ix ring_buffer_mask max_length max_backward _ 64 _
          ⟨hsc.1, hsc.2, Nat.zero_le _, Nat.zero_le _⟩
      · exact hsc
    obtain ⟨⟨p1, p2, p3⟩, hb⟩ := htr
    split
    · apply dictLoop_lengths
      · refine ⟨p1, fun m hm => ⟨(p2 m hm).1, ?_⟩⟩
        have h1 := (p2 m hm).2
        have h2 : u64 (tr.2.1 + 1) = tr.2.1 + 1 := Nat.mod_eq_of_lt (by omega)
        rw [h2]
        omega
      · omega
    · exact ⟨p1, fun m hm => (p2 m hm).1⟩
  have key := key _ _
    (K.BrotliFindAllStaticDictionaryMatches common data (cur_ix &&& ring_buffer_mask)
      (max 4 (u64 ((if (shortScan data ring_buffer_mask cur_ix max_length max_backward
          (usub cur_ix 1 - (if cur_ix < (if quality ≠ HQ_ZOPFLIFICATION_QUALITY then 16
            else 64) then 0
            else usub cur_ix (if quality ≠ HQ_ZOPFLIFICATION_QUALITY then 16 else 64)))
          (usub cur_ix 1) (1, [])).1 < max_length then
        StoreAndFindMatchesH10 K self data cur_ix ring_buffer_mask max_length max_backward
          (shortScan data ring_buffer_mask cur_ix max_length max_backward
            (usub cur_ix 1 - (if cur_ix < (if quality ≠ HQ_ZOPFLIFICATION_QUALITY then 16
              else 64) then 0
              else usub cur_ix (if quality ≠ HQ_ZOPFLIFICATION_QUALITY then 16 else 64)))
            (usub cur_ix 1) (1, [])).1
          (some (shortScan data ring_buffer_mask cur_ix max_length max_backward
            (usub cur_ix 1 - (if cur_ix < (if quality ≠ HQ_ZOPFLIFICATION_QUALITY then 16
              else 64) then 0
              else usub cur_ix (if quality ≠ HQ_ZOPFLIFICATION_QUALITY then 16 else 64)))
            (usub cur_ix 1) (1, [])).2)
        else (self, shortScan data ring_buffer_mask cur_ix max_length max_backward
            (usub cur_ix 1 - (if cur_ix < (if quality ≠ HQ_ZOPFLIFICATION_QUALITY then 16
              else 64) then 0
              else usub cur_ix (if quality ≠ HQ_ZOPFLIFICATION_QUALITY then 16 else 64)))
            (usub cur_ix 1) (1, []))).2.1 + 1)))
      max_length (fun _ => kInvalidMatch))
    (shortScan_lengths data ring_buffer_mask cur_ix max_length max_backward
      (usub cur_ix 1 - (if cur_ix < (if quality ≠ HQ_ZOPFLIFICATION_QUALITY then 16 else 64)
        then 0 else usub cur_ix (if quality ≠ HQ_ZOPFLIFICATION_QUALITY then 16 else 64)))
      (usub cur_ix 1) (1, [])
      ⟨⟨List.Pairwise.nil, fun m hm => absurd hm (List.not_mem_nil m), Nat.le_refl 1⟩,
        by simp⟩) rfl
  refine ⟨key.1, ?_⟩
  intro m hm
  exact key.2 m (List.mem_of_mem_head? hm)

/-- Claim C8 on the input whose byte `i` is `i mod 5 + 1`, searched at position 10 of a
freshly prepared hasher. -/
theorem FindAllMatchesH10_lengths_increasing_witness :
    (128 : Nat) < 2 ^ 64 - 1 ∧
    List.Pairwise (fun a b => a.length < b.length)
      (FindAllMatchesH10 referenceCollab (PrepareH10 (InitializeH10 10)) () period5Input
        0xFFFF 10 128 10 0 10 100000).2.2 ∧
    ∀ m, (FindAllMatchesH10 referenceCollab (PrepareH10 (InitializeH10 10)) () period5Input
        0xFFFF 10 128 10 0 10 100000).2.2.head? = some m → 2 ≤ m.length :=
  ⟨by norm_num,
    FindAllMatchesH10_lengths_increasing referenceCollab (PrepareH10 (InitializeH10 10)) ()
      period5Input 0xFFFF 10 128 10 0 10 100000 (by norm_num)⟩

theorem FindMatchLengthWithLimit_symm (data : Nat → Nat) :
    ∀ (limit s1 s2 : Nat), FindMatchLengthWithLimit data s1 s2 limit =
      FindMatchLengthWithLimit data s2 s1 limit := by
  intro limit
  induction limit with
  | zero => intro s1 s2; rfl
  | succ n ih =>
    intro s1 s2
    unfold FindMatchLengthWithLimit
    by_cases h : data s1 = data s2
    · rw [if_pos h, if_pos h.symm, ih]
    · rw [if_neg h, if_neg (fun e => h e.symm)]

theorem FindMatchLengthWithLimit_mismatch (data : Nat → Nat) :
    ∀ (limit s1 s2 : Nat), FindMatchLengthWithLimit data s1 s2 limit < limit →
      data (s1 + FindMatchLengthWithLimit data s1 s2 limit) ≠
        data (s2 + FindMatchLengthWithLimit data s1 s2 limit) := by
  intro limit
  induction limit with
  | zero => intro s1 s2 h; exact absurd h (Nat.not_lt_zero _)
  | succ n ih =>
    intro s1 s2 h
    unfold FindMatchLengthWithLimit at h ⊢
    by_cases he : data s1 = data s2
    · rw [if_pos he] at h ⊢
      have := ih (s1 + 1) (s2 + 1) (by omega)
      rw [show s1 + (1 + FindMatchLengthWithLimit data (s1 + 1) (s2 + 1) n) =
        s1 + 1 + FindMatchLengthWithLimit data (s1 + 1) (s2 + 1) n by omega,
        show s2 + (1 + FindMatchLengthWithLimit data (s1 + 1) (s2 + 1) n) =
        s2 + 1 + FindMatchLengthWithLimit data (s1 + 1) (s2 + 1) n by omega]
      exact this
    · rw [if_neg he]
      simpa using he

theorem FindMatchLengthWithLimit_skip (data : Nat → Nat) :
    ∀ (k limit s1 s2 : Nat), k ≤ limit → (∀ j, j < k → data (s1 + j) = data (s2 + j)) →
      FindMatchLengthWithLimit data s1 s2 limit =
        k + FindMatchLengthWithLimit data (s1 + k) (s2 + k) (limit - k) := by
  intro k
  induction k with
  | zero => intro limit s1 s2 _ _; simp
  | succ n ih =>
    intro limit s1 s2 hk hag
    obtain ⟨m, rfl⟩ : ∃ m, limit = m + 1 := ⟨limit - 1, by omega⟩
    have h0 : data s1 = data s2 := by simpa using hag 0 (by omega)
    rw [FindMatchLengthWithLimit, if_pos h0]
    rw [ih m (s1 + 1) (s2 + 1) (by omega) (by
      intro j hj
      have := hag (j + 1) (by omega)
      rw [show s1 + 1 + j = s1 + (j + 1) by omega, show s2 + 1 + j = s2 + (j + 1) by omega]
      exact this)]
    rw [show s1 + 1 + n = s1 + (n + 1) by omega, show s2 + 1 + n = s2 + (n + 1) by omega,
      show m + 1 - (n + 1) = m - n by omega]
    omega

theorem lt128_irrefl (data : Nat → Nat) (mask p : Nat) : ¬ Lt128 data mask p p := by
  rintro ⟨l, _, _, h⟩
  exact Nat.lt_irrefl _ h

theorem lt128_trans (data : Nat → Nat) (mask p q r : Nat) (h1 : Lt128 data mask p q)
    (h2 : Lt128 data mask q r) : Lt128 data mask p r := by
  obtain ⟨l1, hl1, ha1, hs1⟩ := h1
  obtain ⟨l2, hl2, ha2, hs2⟩ := h2
  rcases Nat.lt_trichotomy l1 l2 with h | h | h
  · exact ⟨l1, hl1, fun j hj => (ha1 j hj).trans (ha2 j (by omega)), by
      rw [← ha2 l1 h]; exact hs1⟩
  · subst h
    exact ⟨l1, hl1, fun j hj => (ha1 j hj).trans (ha2 j hj), Nat.lt_trans hs1 hs2⟩
  · exact ⟨l2, hl2, fun j hj => (ha1 j (by omega)).trans (ha2 j hj), by
      rw [ha1 l2 h]; exact hs2⟩

theorem lt128_of_eq_right (data : Nat → Nat) (mask p q r : Nat) (h1 : Lt128 data mask p q)
    (h2 : ∀ j, j < 128 → seqAt data mask q j = seqAt data mask r j) : Lt128 data mask p r := by
  obtain ⟨l1, hl1, ha1, hs1⟩ := h1
  exact ⟨l1, hl1, fun j hj => (ha1 j hj).trans (h2 j (by omega)), by
    rw [← h2 l1 hl1]; exact hs1⟩

theorem lt128_of_eq_left (data : Nat → Nat) (mask p q r : Nat) (h1 : Lt128 data mask q p)
    (h2 : ∀ j, j < 128 → seqAt data mask q j = seqAt data mask r j) : Lt128 data mask r p := by
  obtain ⟨l1, hl1, ha1, hs1⟩ := h1
  exact ⟨l1, hl1, fun j hj => (h2 j (by omega)).symm.trans (ha1 j hj), by
    rw [← h2 l1 hl1]; exact hs1⟩

theorem prefix_of_above_below (data : Nat → Nat) (mask c a b x : Nat)
    (h1 : AboveLeft data mask c a x) (h2 : BelowRight data mask c b x) :
    ∀ j, j < min a b → seqAt data mask x j = seqAt data mask c j := by
  intro j hj
  rcases h1 with h1 | ⟨l1, hl1, ha1, hs1⟩
  · exact h1 j (by omega)
  rcases h2 with h2 | ⟨l2, hl2, ha2, hs2⟩
  · exact h2 j (by omega)
  exfalso
  rcases Nat.lt_trichotomy l1 l2 with h | h | h
  · have := ha2 l1 h; omega
  · subst h; omega
  · have := ha1 l2 h; omega

theorem aboveLeft_of_lt128 (data : Nat → Nat) (mask c p x len : Nat)
    (hp : ∀ j, j < len → seqAt data mask p j = seqAt data mask c j)
    (h : Lt128 data mask p x) : AboveLeft data mask c len x := by
  obtain ⟨l, hl, ha, hs⟩ := h
  by_cases hc : len ≤ l
  · left
    intro j hj
    rw [← ha j (by omega)]
    exact hp j hj
  · right
    refine ⟨l, by omega, fun j hj => ?_, ?_⟩
    · rw [← ha j hj]; exact hp j (by omega)
    · rw [← hp l (by omega)]; exact hs

theorem belowRight_of_lt128 (data : Nat → Nat) (mask c p x len : Nat)
    (hp : ∀ j, j < len → seqAt data mask p j = seqAt data mask c j)
    (h : Lt128 data mask x p) : BelowRight data mask c len x := by
  obtain ⟨l, hl, ha, hs⟩ := h
  by_cases hc : len ≤ l
  · left
    intro j hj
    rw [ha j (by omega)]
    exact hp j hj
  · right
    refine ⟨l, by omega, fun j hj => ?_, ?_⟩
    · rw [ha j hj]; exact hp j (by omega)
    · rw [← hp l (by omega)]; exact hs

theorem and_window_mask (lg p : Nat) : p &&& (2 ^ lg - 1) = p % 2 ^ lg :=
  Nat.and_pow_two_sub_one_eq_mod p lg

theorem slot_ne (lg c p q : Nat) (hpq : p ≠ q) (hp : p ≤ c) (hq : q ≤ c)
    (hp2 : c ≤ p + (2 ^ lg - 1)) (hq2 : c ≤ q + (2 ^ lg - 1)) :
    p &&& (2 ^ lg - 1) ≠ q &&& (2 ^ lg - 1) := by
  rw [and_window_mask, and_window_mask]
  have hpos : 0 < 2 ^ lg := Nat.pow_pos (by norm_num)
  intro h
  rcases Nat.lt_or_gt_of_ne hpq with hlt | hlt
  · have hd : 2 ^ lg ∣ q - p := (Nat.modEq_iff_dvd' (Nat.le_of_lt hlt)).mp h
    have := Nat.le_of_dvd (by omega) hd
    omega
  · have hd : 2 ^ lg ∣ p - q := (Nat.modEq_iff_dvd' (Nat.le_of_lt hlt)).mp h.symm
    have := Nat.le_of_dvd (by omega) hd
    omega

theorem reprTree_frame (w : Nat) (f g : Nat → Nat) :
    ∀ t : HTree, (∀ x ∈ t.nodes, g (2 * (x &&& w)) = f (2 * (x &&& w)) ∧
        g (2 * (x &&& w) + 1) = f (2 * (x &&& w) + 1)) →
      ReprTree w f t → ReprTree w g t := by
  intro t
  induction t with
  | leaf v => intro _ _; trivial
  | node p l r ihl ihr =>
    intro hfr h
    obtain ⟨h1, h2, h3, h4⟩ := h
    have hp := hfr p (by simp [HTree.nodes])
    refine ⟨by rw [hp.1]; exact h1, by rw [hp.2]; exact h2, ?_, ?_⟩
    · exact ihl (fun x hx => hfr x (by simp [HTree.nodes, hx])) h3
    · exact ihr (fun x hx => hfr x (by simp [HTree.nodes, hx])) h4

theorem wfTree_nodes {Γ : Type} (K : HasherCollab Γ) (data : Nat → Nat)
    (mask w inv key lo hi : Nat) :
    ∀ t : HTree, WFTree K data mask w inv key lo hi t →
      ∀ x ∈ t.nodes, x < hi ∧ lo ≤ x + w ∧ HashBytesH10 K data (x &&& mask) = key := by
  intro t
  induction t with
  | leaf v => intro _ x hx; simp [HTree.nodes] at hx
  | node p l r ihl ihr =>
    intro h x hx
    obtain ⟨h1, h2, h3, _, _, h6, h7⟩ := h
    simp only [HTree.nodes, List.mem_cons, List.mem_append] at hx
    rcases hx with hx | hx | hx
    · subst hx; exact ⟨h1, h2, h3⟩
    · exact ihl h6 x hx
    · exact ihr h7 x hx

theorem wfTree_mono_hi {Γ : Type} (K : HasherCollab Γ) (data : Nat → Nat)
    (mask w inv key lo hi hi2 : Nat) (hh : hi ≤ hi2) :
    ∀ t : HTree, WFTree K data mask w inv key lo hi t →
      WFTree K data mask w inv key lo hi2 t := by
  intro t
  induction t with
  | leaf v => intro h; exact h
  | node p l r ihl ihr =>
    intro h
    obtain ⟨h1, h2, h3, h4, h5, h6, h7⟩ := h
    exact ⟨by omega, h2, h3, h4, h5, ihl h6, ihr h7⟩

theorem wfTree_age {Γ : Type} (K : HasherCollab Γ) (data : Nat → Nat)
    (mask w inv key lo hi lo2 : Nat) (f : Nat → Nat) (hl : lo ≤ lo2) :
    ∀ t : HTree, ReprTree w f t → WFTree K data mask w inv key lo hi t →
      ∃ t2 : HTree, t2.root = t.root ∧ ReprTree w f t2 ∧
        WFTree K data mask w inv key lo2 hi t2 ∧ ∀ x ∈ t2.nodes, x ∈ t.nodes := by
  intro t
  induction t with
  | leaf v =>
    intro _ h
    refine ⟨.leaf v, rfl, trivial, ?_, fun x hx => hx⟩
    rcases h with h | h
    · left; omega
    · right; exact h
  | node p l r ihl ihr =>
    intro hr h
    obtain ⟨r1, r2, r3, r4⟩ := hr
    obtain ⟨h1, h2, h3, h4, h5, h6, h7⟩ := h
    by_cases hlive : lo2 ≤ p + w
    · obtain ⟨l2, a1, a2, a3, a4⟩ := ihl r3 h6
      obtain ⟨r2t, b1, b2, b3, b4⟩ := ihr r4 h7
      refine ⟨.node p l2 r2t, rfl, ⟨by rw [a1]; exact r1, by rw [b1]; exact r2, a2, b2⟩,
        ⟨h1, hlive, h3, fun x hx => h4 x (a4 x hx), fun x hx => h5 x (b4 x hx), a3, b3⟩, ?_⟩
      intro x hx
      simp only [HTree.nodes, List.mem_cons, List.mem_append] at hx ⊢
      rcases hx with hx | hx | hx
      · left; exact hx
      · right; left; exact a4 x hx
      · right; right; exact b4 x hx
    · exact ⟨.leaf p, rfl, trivial, Or.inl (by omega), fun x hx => by
        simp [HTree.nodes] at hx⟩

theorem h10Inv_age {Γ : Type} (K : HasherCollab Γ) (data : Nat → Nat) (mask : Nat) (s : H10)
    (lo hi lo2 hi2 : Nat) (hl : lo ≤ lo2) (hh : hi ≤ hi2)
    (h : H10Inv K data mask s lo hi) : H10Inv K data mask s lo2 hi2 := by
  intro key hk
  obtain ⟨t, h1, h2, h3⟩ := h key hk
  obtain ⟨t2, a1, a2, a3, _⟩ := wfTree_age K data mask s.window_mask_ s.invalid_pos_ key lo hi
    lo2 s.forest hl t h2 h3
  exact ⟨t2, by rw [a1]; exact h1, a2, wfTree_mono_hi K data mask _ _ key lo2 hi hi2 hh t2 a3⟩

theorem h10Inv_frame {Γ : Type} (K : HasherCollab Γ) (data : Nat → Nat) (mask : Nat)
    (s s2 : H10) (lo hi : Nat) (hw : s2.window_mask_ = s.window_mask_)
    (hi2 : s2.invalid_pos_ = s.invalid_pos_) (hb : s2.buckets_ = s.buckets_)
    (hf : s2.forest = s.forest) (h : H10Inv K data mask s lo hi) :
    H10Inv K data mask s2 lo hi := by
  intro key hk
  obtain ⟨t, h1, h2, h3⟩ := h key hk
  exact ⟨t, by rw [hb]; exact h1, by rw [hw, hf]; exact h2, by rw [hw, hi2]; exact h3⟩

theorem lt_of_window (cur lg : Nat) (h : cur + 2 ^ lg ≤ 2 ^ 32) :
    cur < 2 ^ 32 ∧ cur + (2 ^ lg - 1) < 2 ^ 32 ∧ 1 ≤ 2 ^ lg := by
  have hpos : 0 < 2 ^ lg := Nat.pow_pos (by norm_num)
  generalize 2 ^ lg = W at h hpos
  omega

theorem cell_ne (w lg cur p q e1 e2 : Nat) (hw : w = 2 ^ lg - 1) (hpq : p ≠ q)
    (hp : p ≤ cur) (hq : q ≤ cur) (hp2 : cur ≤ p + w) (hq2 : cur ≤ q + w)
    (h1 : e1 ≤ 1) (h2 : e2 ≤ 1) : 2 * (p &&& w) + e1 ≠ 2 * (q &&& w) + e2 := by
  subst hw
  have := slot_ne lg cur p q hpq hp hq hp2 hq2
  omega

theorem hookOK_ne (w lg cur : Nat) (t : HTree) (h x : Nat) (hw : w = 2 ^ lg - 1)
    (hh : HookOK w cur t h) (hx : x ∈ t.nodes) (hx1 : x ≤ cur) (hx2 : cur ≤ x + w) :
    h ≠ 2 * (x &&& w) ∧ h ≠ 2 * (x &&& w) + 1 := by
  obtain ⟨q, e, rfl, he, hq1, hq2, hq3⟩ := hh
  have hne : q ≠ x := fun e => hq3 (e ▸ hx)
  exact ⟨cell_ne w lg cur q x e 0 hw hne hq1 hx1 hq2 hx2 he (by omega),
    cell_ne w lg cur q x e 1 hw hne hq1 hx1 hq2 hx2 he (by omega)⟩

theorem hookOK_sub (w cur : Nat) (t t2 : HTree) (h : Nat) (hs : ∀ x ∈ t2.nodes, x ∈ t.nodes)
    (hh : HookOK w cur t h) : HookOK w cur t2 h := by
  obtain ⟨q, e, he, h1, h2, h3, h4⟩ := hh
  exact ⟨q, e, he, h1, h2, h3, fun hx => h4 (hs q hx)⟩

theorem matchesSound_mono (data : Nat → Nat) (mask cur max_length max_backward : Nat)
    (t t2 : HTree) (bl bl2 : Nat) (ms : List BackwardMatch)
    (hs : ∀ x ∈ t2.nodes, x ∈ t.nodes) (hb : bl ≤ bl2)
    (h : MatchesSound data mask cur max_length max_backward t bl ms) :
    MatchesSound data mask cur max_length max_backward t2 bl2 ms := by
  obtain ⟨h1, h2, h3⟩ := h
  exact ⟨h1, h2, fun m hm x hx hl => h3 m hm x (hs x hx) (by omega)⟩

theorem traversal_stop_post {Γ : Type} (K : HasherCollab Γ) (self : H10) (data : Nat → Nat)
    (mask cur max_length max_backward : Nat) (t : HTree) (st : TreeState)
    (hne : st.node_left ≠ st.node_right)
    (hm : MatchesSound data mask cur max_length max_backward t st.best_len st.matches_) :
    TraversalPost K self data mask cur max_length max_backward t st
      (if max_length ≥ 128 then
        let f1 := upd st.forest st.node_left self.invalid_pos_
        { st with forest := upd f1 st.node_right self.invalid_pos_ }
      else st) := by
  by_cases hr : max_length ≥ 128
  · rw [if_pos hr]
    refine ⟨fun _ => ⟨.leaf self.invalid_pos_, .leaf self.invalid_pos_, ?_, ?_, trivial,
      trivial, Or.inr rfl, Or.inr rfl, ?_, ?_, ?_⟩, fun h => absurd hr (by omega), hm.1, hm.2.1⟩
    · simp [upd, hne, HTree.root]
    · simp [upd, HTree.root]
    · intro x hx; simp [HTree.nodes] at hx
    · intro x hx; simp [HTree.nodes] at hx
    · intro c h1 h2 _
      simp [upd, h1, h2]
  · rw [if_neg hr]
    exact ⟨fun h => absurd h hr, fun _ => rfl, hm.1, hm.2.1⟩

theorem treeLen_eq_full (data : Nat → Nat) (mask cur max_length p : Nat) (st : TreeState)
    (hml : max_length < 2 ^ 64) (hp : st.prev_ix = p)
    (ha : AboveLeft data mask cur st.best_len_left p)
    (hb : BelowRight data mask cur st.best_len_right p)
    (h1 : st.best_len_left ≤ max_length) :
    treeLen data cur mask max_length st =
      FindMatchLengthWithLimit data (cur &&& mask) (p &&& mask) max_length := by
  have hpre := prefix_of_above_below data mask cur _ _ p ha hb
  unfold treeLen
  rw [hp, usub_of_le _ _ hml (by omega)]
  rw [FindMatchLengthWithLimit_skip data (min st.best_len_left st.best_len_right) max_length
    (cur &&& mask) (p &&& mask) (by omega) (fun j hj => (hpre j hj).symm)]

theorem treeRecord_sound (data : Nat → Nat) (mask cur max_length max_backward p : Nat)
    (record : Bool) (t : HTree) (st : TreeState)
    (hcur : cur < 2 ^ 64) (hp : st.prev_ix = p) (hpt : p ∈ t.nodes) (hpc : p < cur)
    (hheap : ∀ x ∈ t.nodes, x ≤ p)
    (hback : cur - p ≤ max_backward)
    (hlen : treeLen data cur mask max_length st =
      FindMatchLengthWithLimit data (cur &&& mask) (p &&& mask) max_length)
    (hm : MatchesSound data mask cur max_length max_backward t st.best_len st.matches_) :
    MatchesSound data mask cur max_length max_backward t
      (treeRecord data cur mask max_length record st).best_len
      (treeRecord data cur mask max_length record st).matches_ := by
  unfold treeRecord
  split
  · rename_i hc
    obtain ⟨h1, h2, h3⟩ := hm
    have hus : usub cur st.prev_ix = cur - p := by rw [hp]; exact usub_of_le cur p hcur (by omega)
    simp only [hus, InitBackwardMatch]
    refine ⟨?_, ?_, ?_⟩
    · intro m hmem
      rw [List.mem_append, List.mem_singleton] at hmem
      rcases hmem with hmem | hmem
      · exact h1 m hmem
      · subst hmem
        simp only
        rw [hlen]
        refine ⟨by omega, hback, by omega, FindMatchLengthWithLimit_le data _ _ _, ?_⟩
        intro j hj
        rw [show cur - (cur - p) = p by omega]
        exact (FindMatchLengthWithLimit_eq data _ _ _ j hj).symm
    · rw [List.pairwise_append]
      refine ⟨h2, List.pairwise_singleton _ _, ?_⟩
      intro a ha b hb
      rw [List.mem_singleton] at hb
      subst hb
      simp only
      exact h3 a ha p hpt (by rw [← hlen]; exact hc.2)
    · intro m hmem x hx hl
      rw [List.mem_append, List.mem_singleton] at hmem
      rcases hmem with hmem | hmem
      · exact h3 m hmem x hx (by omega)
      · subst hmem
        simp only
        have := hheap x hx
        omega
  · exact hm


theorem wfTree_node_facts {Γ : Type} (K : HasherCollab Γ) (data : Nat → Nat)
    (mask w inv key cur p : Nat) (l r : HTree)
    (h : WFTree K data mask w inv key cur cur (.node p l r)) :
    p < cur ∧ cur ≤ p + w ∧
    (∀ x ∈ l.nodes, x < p ∧ x < cur ∧ cur ≤ x + w ∧ Lt128 data mask x p) ∧
    (∀ x ∈ r.nodes, x < p ∧ x < cur ∧ cur ≤ x + w ∧ Lt128 data mask p x) ∧
    p ∉ l.nodes ∧ p ∉ r.nodes ∧ (∀ x ∈ l.nodes, x ∉ r.nodes) := by
  obtain ⟨h1, h2, h3, h4, h5, h6, h7⟩ := h
  have nl := wfTree_nodes K data mask w inv key cur cur l h6
  have nr := wfTree_nodes K data mask w inv key cur cur r h7
  refine ⟨h1, h2, fun x hx => ⟨(h4 x hx).1, (nl x hx).1, (nl x hx).2.1, (h4 x hx).2⟩,
    fun x hx => ⟨(h5 x hx).1, (nr x hx).1, (nr x hx).2.1, (h5 x hx).2⟩, ?_, ?_, ?_⟩
  · intro hp; exact Nat.lt_irrefl _ (h4 p hp).1
  · intro hp; exact Nat.lt_irrefl _ (h5 p hp).1
  · intro x hx hx2
    exact lt128_irrefl data mask x (lt128_trans data mask x p x (h4 x hx).2 (h5 x hx2).2)

theorem traversalInv_right {Γ : Type} (K : HasherCollab Γ) (self : H10) (data : Nat → Nat)
    (mask cur max_length max_backward lg p len : Nat) (l r : HTree) (st st2 : TreeState)
    (hw : self.window_mask_ = 2 ^ lg - 1)
    (hinv : TraversalInv K self data mask cur max_length max_backward (.node p l r) st)
    (hagree : ∀ j, j < len → seqAt data mask p j = seqAt data mask cur j)
    (hlen : len ≤ max_length)
    (hms : MatchesSound data mask cur max_length max_backward (.node p l r) st2.best_len
      st2.matches_)
    (e1 : st2.forest = if max_length ≥ 128 then upd st.forest st.node_left (u32 p)
      else st.forest)
    (e2 : st2.node_left = RightChildIndexH10 self p)
    (e3 : st2.node_right = st.node_right)
    (e4 : st2.prev_ix = st2.forest (RightChildIndexH10 self p))
    (e5 : st2.best_len_left = len) (e6 : st2.best_len_right = st.best_len_right) :
    TraversalInv K self data mask cur max_length max_backward r st2 := by
  obtain ⟨i1, i2, i3, i4, i5, i6, i7, i8, i9, i10⟩ := hinv
  obtain ⟨r1, r2, r3, r4⟩ := i2
  obtain ⟨w1, w2, wl, wr, wpl, wpr, wlr⟩ := wfTree_node_facts K data mask _ _ _ cur p l r i3
  have hsub : ∀ x ∈ r.nodes, x ∈ (HTree.node p l r).nodes := by
    intro x hx; simp [HTree.nodes, hx]
  have hpin : p ∈ (HTree.node p l r).nodes := by simp [HTree.nodes]
  have hL := hookOK_ne _ lg cur _ st.node_left p hw i4 hpin (by omega) w2
  have hR := hookOK_ne _ lg cur _ st.node_right p hw i5 hpin (by omega) w2
  have hfr : ∀ c, c ≠ st.node_left → st2.forest c = st.forest c := by
    intro c hc
    rw [e1]
    split
    · simp [upd, hc]
    · rfl
  unfold RightChildIndexH10 at e2 e4
  refine ⟨?_, ?_, i3.2.2.2.2.2.2, ?_, ?_, ?_, ?_, ?_, ?_, ?_⟩
  · rw [e4, hfr _ (Ne.symm hL.2)]; exact r2
  · apply reprTree_frame _ st.forest st2.forest r _ r4
    intro x hx
    have hh := hookOK_ne _ lg cur _ st.node_left x hw i4 (hsub x hx) (by have := wr x hx; omega)
      (wr x hx).2.2.1
    exact ⟨hfr _ (Ne.symm hh.1), hfr _ (Ne.symm hh.2)⟩
  · rw [e2]
    exact ⟨p, 1, rfl, by omega, by omega, w2, wpr⟩
  · rw [e3]
    exact hookOK_sub _ cur _ r _ hsub i5
  · rw [e2, e3]
    exact Ne.symm hR.2
  · intro x hx
    rw [e5, e6]
    exact ⟨aboveLeft_of_lt128 data mask cur p x len hagree (wr x hx).2.2.2,
      (i7 x (hsub x hx)).2⟩
  · rw [e5]; exact hlen
  · rw [e6]; exact i9
  · exact matchesSound_mono data mask cur max_length max_backward _ r _ _ _ hsub
      (Nat.le_refl _) hms

theorem traversalInv_left {Γ : Type} (K : HasherCollab Γ) (self : H10) (data : Nat → Nat)
    (mask cur max_length max_backward lg p len : Nat) (l r : HTree) (st st2 : TreeState)
    (hw : self.window_mask_ = 2 ^ lg - 1)
    (hinv : TraversalInv K self data mask cur max_length max_backward (.node p l r) st)
    (hagree : ∀ j, j < len → seqAt data mask p j = seqAt data mask cur j)
    (hlen : len ≤ max_length)
    (hms : MatchesSound data mask cur max_length max_backward (.node p l r) st2.best_len
      st2.matches_)
    (e1 : st2.forest = if max_length ≥ 128 then upd st.forest st.node_right (u32 p)
      else st.forest)
    (e2 : st2.node_right = LeftChildIndexH10 self p)
    (e3 : st2.node_left = st.node_left)
    (e4 : st2.prev_ix = st2.forest (LeftChildIndexH10 self p))
    (e5 : st2.best_len_right = len) (e6 : st2.best_len_left = st.best_len_left) :
    TraversalInv K self data mask cur max_length max_backward l st2 := by
  obtain ⟨i1, i2, i3, i4, i5, i6, i7, i8, i9, i10⟩ := hinv
  obtain ⟨r1, r2, r3, r4⟩ := i2
  obtain ⟨w1, w2, wl, wr, wpl, wpr, wlr⟩ := wfTree_node_facts K data mask _ _ _ cur p l r i3
  have hsub : ∀ x ∈ l.nodes, x ∈ (HTree.node p l r).nodes := by
    intro x hx; simp [HTree.nodes, hx]
  have hpin : p ∈ (HTree.node p l r).nodes := by simp [HTree.nodes]
  have hL := hookOK_ne _ lg cur _ st.node_left p hw i4 hpin (by omega) w2
  have hR := hookOK_ne _ lg cur _ st.node_right p hw i5 hpin (by omega) w2
  have hfr : ∀ c, c ≠ st.node_right → st2.forest c = st.forest c := by
    intro c hc
    rw [e1]
    split
    · simp [upd, hc]
    · rfl
  unfold LeftChildIndexH10 at e2 e4
  refine ⟨?_, ?_, i3.2.2.2.2.2.1, ?_, ?_, ?_, ?_, ?_, ?_, ?_⟩
  · rw [e4, hfr _ (Ne.symm hR.1)]; exact r1
  · apply reprTree_frame _ st.forest st2.forest l _ r3
    intro x hx
    have hh := hookOK_ne _ lg cur _ st.node_right x hw i5 (hsub x hx)
      (by have := wl x hx; omega) (wl x hx).2.2.1
    exact ⟨hfr _ (Ne.symm hh.1), hfr _ (Ne.symm hh.2)⟩
  · rw [e3]
    exact hookOK_sub _ cur _ l _ hsub i4
  · rw [e2]
    exact ⟨p, 0, rfl, by omega, by omega, w2, wpl⟩
  · rw [e2, e3]
    exact hL.1
  · intro x hx
    rw [e5, e6]
    exact ⟨(i7 x (hsub x hx)).1,
      belowRight_of_lt128 data mask cur p x len hagree (wl x hx).2.2.2⟩
  · rw [e6]; exact i8
  · rw [e5]; exact hlen
  · exact matchesSound_mono data mask cur max_length max_backward _ l _ _ _ hsub
      (Nat.le_refl _) hms


theorem traversalPost_right {Γ : Type} (K : HasherCollab Γ) (self : H10) (data : Nat → Nat)
    (mask cur max_length max_backward lg p : Nat) (l r : HTree) (st st2 st3 : TreeState)
    (hw : self.window_mask_ = 2 ^ lg - 1) (hcur : cur + 2 ^ lg ≤ 2 ^ 32)
    (hinv : TraversalInv K self data mask cur max_length max_backward (.node p l r) st)
    (hlt : Lt128 data mask p cur)
    (e1 : st2.forest = if max_length ≥ 128 then upd st.forest st.node_left (u32 p)
      else st.forest)
    (e2 : st2.node_left = RightChildIndexH10 self p)
    (e3 : st2.node_right = st.node_right)
    (hpost : TraversalPost K self data mask cur max_length max_backward r st2 st3) :
    TraversalPost K self data mask cur max_length max_backward (.node p l r) st st3 := by
  obtain ⟨i1, i2, i3, i4, i5, i6, i7, i8, i9, i10⟩ := hinv
  obtain ⟨r1, r2, r3, r4⟩ := i2
  obtain ⟨w1, w2, wl, wr, wpl, wpr, wlr⟩ := wfTree_node_facts K data mask _ _ _ cur p l r i3
  obtain ⟨pA, pB, pC, pD⟩ := hpost
  have hsubr : ∀ x ∈ r.nodes, x ∈ (HTree.node p l r).nodes := by
    intro x hx; simp [HTree.nodes, hx]
  have hsubl : ∀ x ∈ l.nodes, x ∈ (HTree.node p l r).nodes := by
    intro x hx; simp [HTree.nodes, hx]
  have hpin : p ∈ (HTree.node p l r).nodes := by simp [HTree.nodes]
  have hL := hookOK_ne _ lg cur _ st.node_left p hw i4 hpin (by omega) w2
  have hR := hookOK_ne _ lg cur _ st.node_right p hw i5 hpin (by omega) w2
  have hp32 : u32 p = p := u32_of_lt p (Nat.lt_trans w1 (lt_of_window cur lg hcur).1)
  unfold RightChildIndexH10 at e2
  refine ⟨?_, ?_, pC, pD⟩
  · intro hr
    obtain ⟨L2, R2, a1, a2, a3, a4, a5, a6, a7, a8, a9⟩ := pA hr
    rw [if_pos hr] at e1
    have hfr : ∀ c, c ≠ st.node_left → st2.forest c = st.forest c := by
      intro c hc
      rw [e1]
      simp [upd, hc]
    have hLr : ∀ x ∈ r.nodes, st.node_left ≠ 2 * (x &&& self.window_mask_) ∧
        st.node_left ≠ 2 * (x &&& self.window_mask_) + 1 := fun x hx =>
      hookOK_ne _ lg cur _ st.node_left x hw i4 (hsubr x hx) (by have := wr x hx; omega)
        (wr x hx).2.2.1
    have hpr : ∀ x ∈ r.nodes, ∀ e, e ≤ 1 →
        2 * (p &&& self.window_mask_) + e ≠ 2 * (x &&& self.window_mask_) ∧
        2 * (p &&& self.window_mask_) + e ≠ 2 * (x &&& self.window_mask_) + 1 := by
      intro x hx e he
      have hne : p ≠ x := fun h => wpr (h ▸ hx)
      have hx2 := wr x hx
      exact ⟨cell_ne _ lg cur p x e 0 hw hne (by omega) (by omega) w2 hx2.2.2.1 he (by omega),
        cell_ne _ lg cur p x e 1 hw hne (by omega) (by omega) w2 hx2.2.2.1 he (by omega)⟩
    refine ⟨.node p l L2, R2, ?_, ?_, ⟨?_, ?_, ?_, a3⟩, a4, ?_, a6, ?_, ?_, ?_⟩
    · rw [a9 _ (by rw [e2]; exact hL.2) (by rw [e3]; exact i6) hLr, e1]
      simp [upd, HTree.root, hp32]
    · rw [← e3]; exact a2
    · have h0 := hpr
      rw [a9 _ (by rw [e2]; omega) (by rw [e3]; exact Ne.symm hR.1)
        (fun x hx => by have := hpr x hx 0 (by omega); simpa using this),
        hfr _ (Ne.symm hL.1)]
      exact r1
    · rw [← e2]; exact a1
    · apply reprTree_frame _ st.forest st3.forest l _ r3
      intro x hx
      have hx2 := wl x hx
      have hxp : x ≠ p := fun h => wpl (h ▸ hx)
      have hhL := hookOK_ne _ lg cur _ st.node_left x hw i4 (hsubl x hx) (by omega) hx2.2.2.1
      have hhR := hookOK_ne _ lg cur _ st.node_right x hw i5 (hsubl x hx) (by omega) hx2.2.2.1
      have hxr : ∀ y ∈ r.nodes, ∀ e, e ≤ 1 →
          2 * (x &&& self.window_mask_) + e ≠ 2 * (y &&& self.window_mask_) ∧
          2 * (x &&& self.window_mask_) + e ≠ 2 * (y &&& self.window_mask_) + 1 := by
        intro y hy e he
        have hne : x ≠ y := fun h => wlr x hx (h ▸ hy)
        have hy2 := wr y hy
        exact ⟨cell_ne _ lg cur x y e 0 hw hne (by omega) (by omega) hx2.2.2.1 hy2.2.2.1 he
            (by omega),
          cell_ne _ lg cur x y e 1 hw hne (by omega) (by omega) hx2.2.2.1 hy2.2.2.1 he
            (by omega)⟩
      have c0 := cell_ne _ lg cur x p 0 1 hw hxp (by omega) (by omega) hx2.2.2.1 w2
        (by omega) (by omega)
      have c1 := cell_ne _ lg cur x p 1 1 hw hxp (by omega) (by omega) hx2.2.2.1 w2
        (by omega) (by omega)
      constructor
      · rw [a9 _ (by rw [e2]; simpa using c0) (by rw [e3]; exact Ne.symm hhR.1)
          (fun y hy => by have := hxr y hy 0 (by omega); simpa using this),
          hfr _ (Ne.symm hhL.1)]
      · rw [a9 _ (by rw [e2]; exact c1) (by rw [e3]; exact Ne.symm hhR.2)
          (fun y hy => hxr y hy 1 (by omega)),
          hfr _ (Ne.symm hhL.2)]
    · exact ⟨w1, w2, i3.2.2.1, i3.2.2.2.1,
        fun x hx => ⟨(wr x (a7 x hx).1).1, (wr x (a7 x hx).1).2.2.2⟩, i3.2.2.2.2.2.1, a5⟩
    · intro x hx
      simp only [HTree.nodes, List.mem_cons, List.mem_append] at hx
      rcases hx with hx | hx | hx
      · subst hx; exact ⟨hpin, hlt⟩
      · exact ⟨hsubl x hx, lt128_trans data mask x p cur (wl x hx).2.2.2 hlt⟩
      · exact ⟨hsubr x (a7 x hx).1, (a7 x hx).2⟩
    · intro x hx
      exact ⟨hsubr x (a8 x hx).1, (a8 x hx).2⟩
    · intro c hc1 hc2 hc3
      rw [a9 c (by rw [e2]; exact (hc3 p hpin).2) (by rw [e3]; exact hc2)
        (fun x hx => hc3 x (hsubr x hx)), hfr c hc1]
  · intro hr
    rw [pB hr, e1, if_neg (by omega)]


theorem traversalPost_left {Γ : Type} (K : HasherCollab Γ) (self : H10) (data : Nat → Nat)
    (mask cur max_length max_backward lg p : Nat) (l r : HTree) (st st2 st3 : TreeState)
    (hw : self.window_mask_ = 2 ^ lg - 1) (hcur : cur + 2 ^ lg ≤ 2 ^ 32)
    (hinv : TraversalInv K self data mask cur max_length max_backward (.node p l r) st)
    (hlt : Lt128 data mask cur p)
    (e1 : st2.forest = if max_length ≥ 128 then upd st.forest st.node_right (u32 p)
      else st.forest)
    (e2 : st2.node_right = LeftChildIndexH10 self p)
    (e3 : st2.node_left = st.node_left)
    (hpost : TraversalPost K self data mask cur max_length max_backward l st2 st3) :
    TraversalPost K self data mask cur max_length max_backward (.node p l r) st st3 := by
  obtain ⟨i1, i2, i3, i4, i5, i6, i7, i8, i9, i10⟩ := hinv
  obtain ⟨r1, r2, r3, r4⟩ := i2
  obtain ⟨w1, w2, wl, wr, wpl, wpr, wlr⟩ := wfTree_node_facts K data mask _ _ _ cur p l r i3
  obtain ⟨pA, pB, pC, pD⟩ := hpost
  have hsubr : ∀ x ∈ r.nodes, x ∈ (HTree.node p l r).nodes := by
    intro x hx; simp [HTree.nodes, hx]
  have hsubl : ∀ x ∈ l.nodes, x ∈ (HTree.node p l r).nodes := by
    intro x hx; simp [HTree.nodes, hx]
  have hpin : p ∈ (HTree.node p l r).nodes := by simp [HTree.nodes]
  have hL := hookOK_ne _ lg cur _ st.node_left p hw i4 hpin (by omega) w2
  have hR := hookOK_ne _ lg cur _ st.node_right p hw i5 hpin (by omega) w2
  have hp32 : u32 p = p := u32_of_lt p (Nat.lt_trans w1 (lt_of_window cur lg hcur).1)
  unfold LeftChildIndexH10 at e2
  refine ⟨?_, ?_, pC, pD⟩
  · intro hr
    obtain ⟨L2, R2, a1, a2, a3, a4, a5, a6, a7, a8, a9⟩ := pA hr
    rw [if_pos hr] at e1
    have hfr : ∀ c, c ≠ st.node_right → st2.forest c = st.forest c := by
      intro c hc
      rw [e1]
      simp [upd, hc]
    have hRl : ∀ x ∈ l.nodes, st.node_right ≠ 2 * (x &&& self.window_mask_) ∧
        st.node_right ≠ 2 * (x &&& self.window_mask_) + 1 := fun x hx =>
      hookOK_ne _ lg cur _ st.node_right x hw i5 (hsubl x hx) (by have := wl x hx; omega)
        (wl x hx).2.2.1
    have hpl : ∀ x ∈ l.nodes, ∀ e, e ≤ 1 →
        2 * (p &&& self.window_mask_) + e ≠ 2 * (x &&& self.window_mask_) ∧
        2 * (p &&& self.window_mask_) + e ≠ 2 * (x &&& self.window_mask_) + 1 := by
      intro x hx e he
      have hne : p ≠ x := fun h => wpl (h ▸ hx)
      have hx2 := wl x hx
      exact ⟨cell_ne _ lg cur p x e 0 hw hne (by omega) (by omega) w2 hx2.2.2.1 he (by omega),
        cell_ne _ lg cur p x e 1 hw hne (by omega) (by omega) w2 hx2.2.2.1 he (by omega)⟩
    refine ⟨L2, .node p R2 r, ?_, ?_, a3, ⟨?_, ?_, a4, ?_⟩, a5, ?_, ?_, ?_, ?_⟩
    · rw [← e3]; exact a1
    · rw [a9 _ (by rw [e3]; exact Ne.symm i6) (by rw [e2]; exact hR.1) hRl, e1]
      simp [upd, HTree.root, hp32]
    · rw [← e2]; exact a2
    · rw [a9 _ (by rw [e3]; exact Ne.symm hL.2) (by rw [e2]; omega)
        (fun x hx => hpl x hx 1 (by omega)),
        hfr _ (Ne.symm hR.2)]
      exact r2
    · apply reprTree_frame _ st.forest st3.forest r _ r4
      intro x hx
      have hx2 := wr x hx
      have hxp : x ≠ p := fun h => wpr (h ▸ hx)
      have hhL := hookOK_ne _ lg cur _ st.node_left x hw i4 (hsubr x hx) (by omega) hx2.2.2.1
      have hhR := hookOK_ne _ lg cur _ st.node_right x hw i5 (hsubr x hx) (by omega) hx2.2.2.1
      have hxl : ∀ y ∈ l.nodes, ∀ e, e ≤ 1 →
          2 * (x &&& self.window_mask_) + e ≠ 2 * (y &&& self.window_mask_) ∧
          2 * (x &&& self.window_mask_) + e ≠ 2 * (y &&& self.window_mask_) + 1 := by
        intro y hy e he
        have hne : x ≠ y := fun h => wlr y hy (h ▸ hx)
        have hy2 := wl y hy
        exact ⟨cell_ne _ lg cur x y e 0 hw hne (by omega) (by omega) hx2.2.2.1 hy2.2.2.1 he
            (by omega),
          cell_ne _ lg cur x y e 1 hw hne (by omega) (by omega) hx2.2.2.1 hy2.2.2.1 he
            (by omega)⟩
      have c0 := cell_ne _ lg cur x p 0 0 hw hxp (by omega) (by omega) hx2.2.2.1 w2
        (by omega) (by omega)
      have c1 := cell_ne _ lg cur x p 1 0 hw hxp (by omega) (by omega) hx2.2.2.1 w2
        (by omega) (by omega)
      constructor
      · rw [a9 _ (by rw [e3]; exact Ne.symm hhL.1) (by rw [e2]; simpa using c0)
          (fun y hy => by have := hxl y hy 0 (by omega); simpa using this),
          hfr _ (Ne.symm hhR.1)]
      · rw [a9 _ (by rw [e3]; exact Ne.symm hhL.2) (by rw [e2]; simpa using c1)
          (fun y hy => hxl y hy 1 (by omega)),
          hfr _ (Ne.symm hhR.2)]
    · exact ⟨w1, w2, i3.2.2.1,
        fun x hx => ⟨(wl x (a8 x hx).1).1, (wl x (a8 x hx).1).2.2.2⟩, i3.2.2.2.2.1, a6,
        i3.2.2.2.2.2.2⟩
    · intro x hx
      exact ⟨hsubl x (a7 x hx).1, (a7 x hx).2⟩
    · intro x hx
      simp only [HTree.nodes, List.mem_cons, List.mem_append] at hx
      rcases hx with hx | hx | hx
      · subst hx; exact ⟨hpin, hlt⟩
      · exact ⟨hsubl x (a8 x hx).1, (a8 x hx).2⟩
      · exact ⟨hsubr x hx, lt128_trans data mask cur p x hlt (wr x hx).2.2.2⟩
    · intro c hc1 hc2 hc3
      rw [a9 c (by rw [e3]; exact hc1) (by rw [e2]; exact (hc3 p hpin).1)
        (fun x hx => hc3 x (hsubl x hx)), hfr c hc2]
  · intro hr
    rw [pB hr, e1, if_neg (by omega)]

theorem traversalPost_equal {Γ : Type} (K : HasherCollab Γ) (self : H10) (data : Nat → Nat)
    (mask cur max_length max_backward lg p : Nat) (l r : HTree) (st st1 : TreeState)
    (hw : self.window_mask_ = 2 ^ lg - 1)
    (hinv : TraversalInv K self data mask cur max_length max_backward (.node p l r) st)
    (heq : max_length ≥ 128 → ∀ j, j < 128 → seqAt data mask p j = seqAt data mask cur j)
    (e1 : st1.forest = st.forest)
    (hms : MatchesSound data mask cur max_length max_backward (.node p l r) st1.best_len
      st1.matches_) :
    TraversalPost K self data mask cur max_length max_backward (.node p l r) st
      (if max_length ≥ 128 then
        let f1 := upd st.forest st.node_left (st.forest (LeftChildIndexH10 self st.prev_ix))
        let f2 := upd f1 st.node_right (f1 (RightChildIndexH10 self st.prev_ix))
        { st1 with forest := f2 }
      else st1) := by
  obtain ⟨i1, i2, i3, i4, i5, i6, i7, i8, i9, i10⟩ := hinv
  obtain ⟨r1, r2, r3, r4⟩ := i2
  obtain ⟨w1, w2, wl, wr, wpl, wpr, wlr⟩ := wfTree_node_facts K data mask _ _ _ cur p l r i3
  have hsubr : ∀ x ∈ r.nodes, x ∈ (HTree.node p l r).nodes := by
    intro x hx; simp [HTree.nodes, hx]
  have hsubl : ∀ x ∈ l.nodes, x ∈ (HTree.node p l r).nodes := by
    intro x hx; simp [HTree.nodes, hx]
  have hpin : p ∈ (HTree.node p l r).nodes := by simp [HTree.nodes]
  have hL := hookOK_ne _ lg cur _ st.node_left p hw i4 hpin (by omega) w2
  have hR := hookOK_ne _ lg cur _ st.node_right p hw i5 hpin (by omega) w2
  simp only [HTree.root] at i1
  by_cases hr : max_length ≥ 128
  · rw [if_pos hr]
    simp only [i1, LeftChildIndexH10, RightChildIndexH10]
    have hfr : ∀ c, c ≠ st.node_left → c ≠ st.node_right →
        upd (upd st.forest st.node_left (st.forest (2 * (p &&& self.window_mask_))))
          st.node_right (upd st.forest st.node_left (st.forest (2 * (p &&& self.window_mask_)))
            (2 * (p &&& self.window_mask_) + 1)) c = st.forest c := by
      intro c h1 h2
      simp [upd, h1, h2]
    refine ⟨fun _ => ⟨l, r, ?_, ?_, ?_, ?_, i3.2.2.2.2.2.1, i3.2.2.2.2.2.2, ?_, ?_, ?_⟩,
      fun h => absurd hr (by omega), hms.1, hms.2.1⟩
    · simp [upd, i6, r1]
    · simp [upd, Ne.symm hL.2, r2]
    · apply reprTree_frame _ st.forest _ l _ r3
      intro x hx
      have hx2 := wl x hx
      have hhL := hookOK_ne _ lg cur _ st.node_left x hw i4 (hsubl x hx) (by omega) hx2.2.2.1
      have hhR := hookOK_ne _ lg cur _ st.node_right x hw i5 (hsubl x hx) (by omega) hx2.2.2.1
      exact ⟨hfr _ (Ne.symm hhL.1) (Ne.symm hhR.1), hfr _ (Ne.symm hhL.2) (Ne.symm hhR.2)⟩
    · apply reprTree_frame _ st.forest _ r _ r4
      intro x hx
      have hx2 := wr x hx
      have hhL := hookOK_ne _ lg cur _ st.node_left x hw i4 (hsubr x hx) (by omega) hx2.2.2.1
      have hhR := hookOK_ne _ lg cur _ st.node_right x hw i5 (hsubr x hx) (by omega) hx2.2.2.1
      exact ⟨hfr _ (Ne.symm hhL.1) (Ne.symm hhR.1), hfr _ (Ne.symm hhL.2) (Ne.symm hhR.2)⟩
    · intro x hx
      exact ⟨hsubl x hx, lt128_of_eq_right data mask x p cur (wl x hx).2.2.2 (heq hr)⟩
    · intro x hx
      exact ⟨hsubr x hx, lt128_of_eq_left data mask x p cur (wr x hx).2.2.2 (heq hr)⟩
    · intro c h1 h2 _
      exact hfr c h1 h2
  · rw [if_neg hr]
    exact ⟨fun h => absurd h hr, fun _ => e1, hms.1, hms.2.1⟩

theorem treeLoop_post {Γ : Type} (K : HasherCollab Γ) (self : H10) (data : Nat → Nat)
    (mask cur max_length max_backward lg : Nat) (record : Bool)
    (hw : self.window_mask_ = 2 ^ lg - 1)
    (hinv : self.invalid_pos_ = 2 ^ 32 - (2 ^ lg - 1))
    (hcur : cur + 2 ^ lg ≤ 2 ^ 32) (hmb : max_backward ≤ 2 ^ lg - 1)
    (hml : max_length < 2 ^ 64) :
    ∀ (d : Nat) (t : HTree) (st : TreeState),
      TraversalInv K self data mask cur max_length max_backward t st →
      TraversalPost K self data mask cur max_length max_backward t st
        (treeLoop self data cur mask max_length max_backward record d st) := by
  obtain ⟨hc32, hcw, hW1⟩ := lt_of_window cur lg hcur
  have hc64 : cur < 2 ^ 64 := by omega
  intro d
  induction d with
  | zero =>
    intro t st h
    rw [treeLoop_zero]
    exact traversal_stop_post K self data mask cur max_length max_backward t st h.2.2.2.2.2.1
      h.2.2.2.2.2.2.2.2.2
  | succ n ih =>
    intro t st h
    have hne := h.2.2.2.2.2.1
    have hms := h.2.2.2.2.2.2.2.2.2
    cases t with
    | leaf v =>
      have hroot : st.prev_ix = v := h.1
      have hfar : v + self.window_mask_ < cur ∨ v = self.invalid_pos_ := h.2.2.1
      have hstop : usub cur st.prev_ix = 0 ∨ usub cur st.prev_ix > max_backward := by
        right
        rw [hroot]
        rcases hfar with hf | hf
        · rw [usub_of_le cur v hc64 (by omega)]
          rw [hw] at hf
          omega
        · rw [hf, hinv, usub_of_gt cur _ (by omega) (by omega)]
          omega
      rw [treeLoop_stop _ _ _ _ _ _ _ _ _ hstop]
      exact traversal_stop_post K self data mask cur max_length max_backward _ st hne hms
    | node p l r =>
      by_cases hstop : usub cur st.prev_ix = 0 ∨ usub cur st.prev_ix > max_backward
      · rw [treeLoop_stop _ _ _ _ _ _ _ _ _ hstop]
        exact traversal_stop_post K self data mask cur max_length max_backward _ st hne hms
      have hroot : st.prev_ix = p := h.1
      obtain ⟨w1, w2, wl, wr, wpl, wpr, wlr⟩ :=
        wfTree_node_facts K data mask _ _ _ cur p l r h.2.2.1
      have hpin : p ∈ (HTree.node p l r).nodes := by simp [HTree.nodes]
      have hus : usub cur st.prev_ix = cur - p := by
        rw [hroot]; exact usub_of_le cur p hc64 (by omega)
      have hback : cur - p ≤ max_backward := by
        rw [hus] at hstop
        omega
      have hpre := h.2.2.2.2.2.2.1 p hpin
      have hbl := h.2.2.2.2.2.2.2.1
      have hlenfull := treeLen_eq_full data mask cur max_length p st hml hroot hpre.1 hpre.2 hbl
      have hheap : ∀ x ∈ (HTree.node p l r).nodes, x ≤ p := by
        intro x hx
        simp only [HTree.nodes, List.mem_cons, List.mem_append] at hx
        rcases hx with hx | hx | hx
        · omega
        · exact Nat.le_of_lt (wl x hx).1
        · exact Nat.le_of_lt (wr x hx).1
      have hrec := treeRecord_sound data mask cur max_length max_backward p record _ st hc64
        hroot hpin w1 hheap hback hlenfull hms
      obtain ⟨f1, f2, f3, f4, f5, f6⟩ := treeRecord_fields data cur mask max_length record st
      have hagree : ∀ j, j < treeLen data cur mask max_length st →
          seqAt data mask p j = seqAt data mask cur j := by
        intro j hj
        rw [hlenfull] at hj
        exact (FindMatchLengthWithLimit_eq data _ _ _ j hj).symm
      have hlenle : treeLen data cur mask max_length st ≤ max_length := by
        rw [hlenfull]; exact FindMatchLengthWithLimit_le data _ _ _
      by_cases heq : treeLen data cur mask max_length st ≥ min max_length 128
      · rw [treeLoop_equal _ _ _ _ _ _ _ _ _ hstop heq]
        exact traversalPost_equal K self data mask cur max_length max_backward lg p l r st _ hw h
          (fun hr j hj => hagree j (by omega)) f1 hrec
      have hlt1 : treeLen data cur mask max_length st < max_length := by omega
      have hlt2 : treeLen data cur mask max_length st < 128 := by omega
      have hmis : data ((cur &&& mask) + treeLen data cur mask max_length st) ≠
          data ((p &&& mask) + treeLen data cur mask max_length st) := by
        rw [hlenfull]
        exact FindMatchLengthWithLimit_mismatch data _ _ _ (by rw [← hlenfull]; exact hlt1)
      by_cases hgt : data ((cur &&& mask) + treeLen data cur mask max_length st) >
          data ((st.prev_ix &&& mask) + treeLen data cur mask max_length st)
      · rw [treeLoop_right _ _ _ _ _ _ _ _ _ hstop heq hgt]
        rw [hroot] at hgt
        have hlt : Lt128 data mask p cur :=
          ⟨_, hlt2, hagree, hgt⟩
        obtain ⟨st2, hst2⟩ : ∃ st2 : TreeState, st2 =
            (let f1 := if max_length ≥ 128 then upd st.forest st.node_left (u32 st.prev_ix)
              else st.forest
            let st1 := treeRecord data cur mask max_length record st
            let len := treeLen data cur mask max_length st
            let node_left := RightChildIndexH10 self st.prev_ix
            { st1 with best_len_left := len, forest := f1, node_left := node_left,
                       prev_ix := f1 node_left }) := ⟨_, rfl⟩
        rw [← hst2]
        have e1 : st2.forest = if max_length ≥ 128 then upd st.forest st.node_left (u32 p)
            else st.forest := by rw [hst2, hroot]
        have e2 : st2.node_left = RightChildIndexH10 self p := by rw [hst2, hroot]
        have e3 : st2.node_right = st.node_right := by rw [hst2]; exact f4
        have e4 : st2.prev_ix = st2.forest (RightChildIndexH10 self p) := by rw [hst2, hroot]
        have e5 : st2.best_len_left = treeLen data cur mask max_length st := by rw [hst2]
        have e6 : st2.best_len_right = st.best_len_right := by rw [hst2]; exact f6
        have e7 : st2.best_len = (treeRecord data cur mask max_length record st).best_len := by
          rw [hst2]
        have e8 : st2.matches_ = (treeRecord data cur mask max_length record st).matches_ := by
          rw [hst2]
        apply traversalPost_right K self data mask cur max_length max_backward lg p l r st st2 _
          hw hcur h hlt e1 e2 e3
        apply ih
        exact traversalInv_right K self data mask cur max_length max_backward lg p _ l r st st2
          hw h hagree hlenle (by rw [e7, e8]; exact hrec) e1 e2 e3 e4 e5 e6
      · rw [treeLoop_left _ _ _ _ _ _ _ _ _ hstop heq hgt]
        rw [hroot] at hgt
        have hlt : Lt128 data mask cur p :=
          ⟨_, hlt2, fun j hj => (hagree j hj).symm, by
            have : seqAt data mask cur (treeLen data cur mask max_length st) ≠
              seqAt data mask p (treeLen data cur mask max_length st) := hmis
            have hgt2 : ¬ seqAt data mask cur (treeLen data cur mask max_length st) >
              seqAt data mask p (treeLen data cur mask max_length st) := hgt
            omega⟩
        obtain ⟨st2, hst2⟩ : ∃ st2 : TreeState, st2 =
            (let f1 := if max_length ≥ 128 then upd st.forest st.node_right (u32 st.prev_ix)
              else st.forest
            let st1 := treeRecord data cur mask max_length record st
            let len := treeLen data cur mask max_length st
            let node_right := LeftChildIndexH10 self st.prev_ix
            { st1 with best_len_right := len, forest := f1, node_right := node_right,
                       prev_ix := f1 node_right }) := ⟨_, rfl⟩
        rw [← hst2]
        have e1 : st2.forest = if max_length ≥ 128 then upd st.forest st.node_right (u32 p)
            else st.forest := by rw [hst2, hroot]
        have e2 : st2.node_right = LeftChildIndexH10 self p := by rw [hst2, hroot]
        have e3 : st2.node_left = st.node_left := by rw [hst2]; exact f3
        have e4 : st2.prev_ix = st2.forest (LeftChildIndexH10 self p) := by rw [hst2, hroot]
        have e5 : st2.best_len_right = treeLen data cur mask max_length st := by rw [hst2]
        have e6 : st2.best_len_left = st.best_len_left := by rw [hst2]; exact f5
        have e7 : st2.best_len = (treeRecord data cur mask max_length record st).best_len := by
          rw [hst2]
        have e8 : st2.matches_ = (treeRecord data cur mask max_length record st).matches_ := by
          rw [hst2]
        apply traversalPost_left K self data mask cur max_length max_backward lg p l r st st2 _
          hw hcur h hlt e1 e2 e3
        apply ih
        exact traversalInv_left K self data mask cur max_length max_backward lg p _ l r st st2
          hw h hagree hlenle (by rw [e7, e8]; exact hrec) e1 e2 e3 e4 e5 e6

theorem HashBytesH10_lt {Γ : Type} (K : HasherCollab Γ) (data : Nat → Nat) (p : Nat) :
    HashBytesH10 K data p < 2 ^ 17 := by
  unfold HashBytesH10
  simp only
  have h : u32 (BROTLI_UNALIGNED_LOAD32LE data p * K.kHashMul32) < 2 ^ 32 :=
    Nat.mod_lt _ (by norm_num)
  rw [Nat.shiftRight_eq_div_pow]
  apply Nat.div_lt_of_lt_mul
  norm_num at h ⊢
  omega

theorem StoreAndFindMatchesH10_spec {Γ : Type} (K : HasherCollab Γ) (self : H10)
    (data : Nat → Nat) (mask cur max_length max_backward lg bl : Nat)
    (ms : Option (List BackwardMatch))
    (hw : self.window_mask_ = 2 ^ lg - 1)
    (hinv : self.invalid_pos_ = 2 ^ 32 - (2 ^ lg - 1))
    (hcur : cur + 2 ^ lg ≤ 2 ^ 32) (hmb : max_backward ≤ 2 ^ lg - 1)
    (hml : max_length < 2 ^ 64)
    (hI : H10Inv K data mask self cur cur)
    (hms : ∀ t : HTree, (∀ x ∈ t.nodes, x < cur) →
      MatchesSound data mask cur max_length max_backward t bl (ms.getD [])) :
    H10Inv K data mask
      (StoreAndFindMatchesH10 K self data cur mask max_length max_backward bl ms).1
      cur (cur + 1) ∧
    (∀ m ∈ (StoreAndFindMatchesH10 K self data cur mask max_length max_backward bl ms).2.2,
      ValidMatch data mask cur max_length max_backward m.distance m.length) ∧
    List.Pairwise (fun a b => a.distance ≤ b.distance)
      (StoreAndFindMatchesH10 K self data cur mask max_length max_backward bl ms).2.2 := by
  obtain ⟨hc32, hcw, hW1⟩ := lt_of_window cur lg hcur
  have hkey := HashBytesH10_lt K data (cur &&& mask)
  obtain ⟨t, t1, t2, t3⟩ := hI _ hkey
  have tn := wfTree_nodes K data mask _ _ _ cur cur t t3
  have hcn : cur ∉ t.nodes := fun h => Nat.lt_irrefl _ (tn cur h).1
  obtain ⟨st0, hst0⟩ : ∃ st0 : TreeState, st0 =
      { forest := self.forest, prev_ix := self.buckets_ (HashBytesH10 K data (cur &&& mask)),
        node_left := LeftChildIndexH10 self cur,
        node_right := RightChildIndexH10 self cur,
        best_len_left := 0, best_len_right := 0, best_len := bl,
        matches_ := ms.getD [] } := ⟨_, rfl⟩
  have hti : TraversalInv K self data mask cur max_length max_backward t st0 := by
    rw [hst0]
    refine ⟨t1.symm, t2, t3, ⟨cur, 0, rfl, by omega, by omega, by omega, hcn⟩,
      ⟨cur, 1, rfl, by omega, by omega, by omega, hcn⟩, ?_, ?_, by simp, by simp,
      hms t (fun x hx => (tn x hx).1)⟩
    · simp only [LeftChildIndexH10, RightChildIndexH10]; omega
    · intro x _
      exact ⟨Or.inl (fun j hj => absurd hj (Nat.not_lt_zero _)),
        Or.inl (fun j hj => absurd hj (Nat.not_lt_zero _))⟩
  have hpost := treeLoop_post K self data mask cur max_length max_backward lg ms.isSome hw hinv
    hcur hmb hml 64 t st0 hti
  obtain ⟨pA, pB, pC, pD⟩ := hpost
  have hres : StoreAndFindMatchesH10 K self data cur mask max_length max_backward bl ms =
      ({ self with
          buckets_ := if decide (max_length ≥ 128) = true then
              upd self.buckets_ (HashBytesH10 K data (cur &&& mask)) (u32 cur)
            else self.buckets_,
          forest := (treeLoop self data cur mask max_length max_backward ms.isSome 64
            st0).forest },
        (treeLoop self data cur mask max_length max_backward ms.isSome 64 st0).best_len,
        (treeLoop self data cur mask max_length max_backward ms.isSome 64 st0).matches_) := by
    rw [hst0]; rfl
  rw [hres]
  refine ⟨?_, pC, pD⟩
  by_cases hr : max_length ≥ 128
  · obtain ⟨L, R, a1, a2, a3, a4, a5, a6, a7, a8, a9⟩ := pA hr
    have hl0 : st0.node_left = 2 * (cur &&& self.window_mask_) := by rw [hst0]; rfl
    have hr0 : st0.node_right = 2 * (cur &&& self.window_mask_) + 1 := by rw [hst0]; rfl
    have hf0 : st0.forest = self.forest := by rw [hst0]
    intro key hk
    by_cases hkk : key = HashBytesH10 K data (cur &&& mask)
    · subst hkk
      refine ⟨.node cur L R, ?_, ⟨?_, ?_, a3, a4⟩, ?_⟩
      · simp [HTree.root, upd, hr, u32_of_lt cur hc32]
      · rw [← hl0]; exact a1
      · rw [← hr0]; exact a2
      · exact ⟨by omega, by omega, rfl,
          fun x hx => ⟨(tn x (a7 x hx).1).1, (a7 x hx).2⟩,
          fun x hx => ⟨(tn x (a8 x hx).1).1, (a8 x hx).2⟩,
          wfTree_mono_hi K data mask _ _ _ cur cur (cur + 1) (by omega) L a5,
          wfTree_mono_hi K data mask _ _ _ cur cur (cur + 1) (by omega) R a6⟩
    · obtain ⟨t', b1, b2, b3⟩ := hI key hk
      have tn' := wfTree_nodes K data mask _ _ _ cur cur t' b3
      refine ⟨t', ?_, ?_, wfTree_mono_hi K data mask _ _ _ cur cur (cur + 1) (by omega) t' b3⟩
      · simp [upd, hr, hkk, b1]
      · apply reprTree_frame _ self.forest _ t' _ b2
        intro x hx
        have hx2 := tn' x hx
        have hxc : x ≠ cur := by omega
        have hcells : ∀ e, e ≤ 1 →
            (2 * (x &&& self.window_mask_) + e ≠ st0.node_left ∧
            2 * (x &&& self.window_mask_) + e ≠ st0.node_right) ∧
            ∀ y ∈ t.nodes, 2 * (x &&& self.window_mask_) + e ≠
                2 * (y &&& self.window_mask_) ∧
              2 * (x &&& self.window_mask_) + e ≠ 2 * (y &&& self.window_mask_) + 1 := by
          intro e he
          refine ⟨⟨?_, ?_⟩, ?_⟩
          · rw [hl0]
            exact cell_ne _ lg cur x cur e 0 hw hxc (by omega) (by omega) hx2.2.1 (by omega)
              he (by omega)
          · rw [hr0]
            exact cell_ne _ lg cur x cur e 1 hw hxc (by omega) (by omega) hx2.2.1 (by omega)
              he (by omega)
          · intro y hy
            have hy2 := tn y hy
            have hxy : x ≠ y := by
              intro h
              apply hkk
              rw [← hx2.2.2, h, hy2.2.2]
            exact ⟨cell_ne _ lg cur x y e 0 hw hxy (by omega) (by omega) hx2.2.1 hy2.2.1 he
                (by omega),
              cell_ne _ lg cur x y e 1 hw hxy (by omega) (by omega) hx2.2.1 hy2.2.1 he
                (by omega)⟩
        have h0 := hcells 0 (by omega)
        have h1 := hcells 1 (by omega)
        constructor
        · have := a9 (2 * (x &&& self.window_mask_)) (by simpa using h0.1.1)
            (by simpa using h0.1.2) (fun y hy => by simpa using h0.2 y hy)
          rw [hf0] at this
          exact this
        · have := a9 (2 * (x &&& self.window_mask_) + 1) h1.1.1 h1.1.2 h1.2
          rw [hf0] at this
          exact this
  · have hf : (treeLoop self data cur mask max_length max_backward ms.isSome 64 st0).forest =
        self.forest := by
      rw [pB (by omega), hst0]
    dsimp only
    refine h10Inv_frame K data mask self _ cur (cur + 1) ?_ ?_ ?_ ?_ ?_
    · rfl
    · rfl
    · simp [hr]
    · exact hf
    · exact h10Inv_age K data mask self cur cur cur (cur + 1) (Nat.le_refl _) (by omega) hI

theorem FindMatchLengthWithLimit_le_one (data : Nat → Nat) (s1 s2 limit : Nat)
    (h : data s1 ≠ data s2 ∨ data (s1 + 1) ≠ data (s2 + 1)) :
    FindMatchLengthWithLimit data s1 s2 limit ≤ 1 := by
  by_contra hc
  have h0 := FindMatchLengthWithLimit_eq data limit s1 s2 0 (by omega)
  have h1 := FindMatchLengthWithLimit_eq data limit s1 s2 1 (by omega)
  rcases h with h | h
  · exact h (by simpa using h0)
  · exact h h1

theorem shortScan_break (data : Nat → Nat) (mask cur max_length max_backward : Nat)
    (steps i : Nat) (st : Nat × List BackwardMatch)
    (h : usub cur i > max_backward) :
    shortScan data mask cur max_length max_backward steps i st = st := by
  cases steps with
  | zero => rfl
  | succ n =>
    rw [shortScan]
    simp only [h, if_true]
    split <;> rfl

theorem scan_final (data : Nat → Nat) (mask cur max_length max_backward i : Nat)
    (st : Nat × List BackwardMatch)
    (h1 : ∀ m ∈ st.2, ValidMatch data mask cur max_length max_backward m.distance m.length)
    (h2 : List.Pairwise (fun a b => a.distance ≤ b.distance) st.2)
    (h3 : ∀ m ∈ st.2, m.distance < cur - i)
    (h4 : ∀ x, i < x → x < cur →
      FindMatchLengthWithLimit data (cur &&& mask) (x &&& mask) max_length ≤ st.1)
    (t : HTree) (ht : ∀ x ∈ t.nodes, x < cur) :
    MatchesSound data mask cur max_length max_backward t st.1 st.2 := by
  refine ⟨h1, h2, ?_⟩
  intro m hm x hx hl
  have hxc := ht x hx
  have hxi : x ≤ i := by
    by_contra hc
    have := h4 x (by omega) hxc
    omega
  have := h3 m hm
  omega

theorem shortScan_sound (data : Nat → Nat) (mask cur max_length max_backward : Nat)
    (hcur : cur < 2 ^ 64) :
    ∀ (steps i : Nat) (st : Nat × List BackwardMatch), steps ≤ i → i < cur →
      (∀ m ∈ st.2, ValidMatch data mask cur max_length max_backward m.distance m.length) →
      List.Pairwise (fun a b => a.distance ≤ b.distance) st.2 →
      (∀ m ∈ st.2, m.distance < cur - i) →
      (∀ x, i < x → x < cur →
        FindMatchLengthWithLimit data (cur &&& mask) (x &&& mask) max_length ≤ st.1) →
      1 ≤ st.1 →
      ∀ t : HTree, (∀ x ∈ t.nodes, x < cur) →
        MatchesSound data mask cur max_length max_backward t
          (shortScan data mask cur max_length max_backward steps i st).1
          (shortScan data mask cur max_length max_backward steps i st).2 := by
  intro steps
  induction steps with
  | zero =>
    intro i st _ _ h1 h2 h3 h4 _ t ht
    exact scan_final data mask cur max_length max_backward i st h1 h2 h3 h4 t ht
  | succ n ih =>
    intro i st hsi hic h1 h2 h3 h4 h5 t ht
    have hfin := scan_final data mask cur max_length max_backward i st h1 h2 h3 h4 t ht
    have hus : usub cur i = cur - i := usub_of_le cur i hcur (by omega)
    rw [shortScan]
    simp only [hus]
    by_cases hbl : st.1 ≤ 2
    · rw [if_neg (by simpa using hbl)]
      by_cases hb : cur - i > max_backward
      · rw [if_pos hb]; exact hfin
      rw [if_neg hb]
      by_cases hmm : data (cur &&& mask) ≠ data (i &&& mask) ∨
          data ((cur &&& mask) + 1) ≠ data ((i &&& mask) + 1)
      · rw [if_pos hmm]
        apply ih (i - 1) st (by omega) (by omega) h1 h2
          (fun m hm => by have := h3 m hm; omega) _ h5 t ht
        intro x hx1 hx2
        by_cases hxi : x = i
        · subst hxi
          have := FindMatchLengthWithLimit_le_one data (cur &&& mask) (x &&& mask) max_length hmm
          omega
        · exact h4 x (by omega) hx2
      · rw [if_neg hmm]
        have hsym : FindMatchLengthWithLimit data (i &&& mask) (cur &&& mask) max_length =
            FindMatchLengthWithLimit data (cur &&& mask) (i &&& mask) max_length :=
          FindMatchLengthWithLimit_symm data _ _ _
        have hv := validMatch_of_candidate data mask cur max_length max_backward (cur - i)
          (by omega) (by omega) (by omega)
        rw [show cur - (cur - i) = i by omega] at hv
        by_cases hlen : FindMatchLengthWithLimit data (i &&& mask) (cur &&& mask) max_length >
            st.1
        · rw [if_pos hlen]
          apply ih (i - 1) _ (by omega) (by omega)
          · intro m hm
            simp only [List.mem_append, List.mem_singleton] at hm
            rcases hm with hm | hm
            · exact h1 m hm
            · subst hm; exact hv
          · simp only
            rw [List.pairwise_append]
            refine ⟨h2, List.pairwise_singleton _ _, ?_⟩
            intro a ha b hb2
            rw [List.mem_singleton] at hb2
            subst hb2
            have := h3 a ha
            simp only [InitBackwardMatch]
            omega
          · intro m hm
            simp only [List.mem_append, List.mem_singleton] at hm
            rcases hm with hm | hm
            · have := h3 m hm; omega
            · subst hm
              simp only [InitBackwardMatch]
              omega
          · intro x hx1 hx2
            simp only
            by_cases hxi : x = i
            · subst hxi
              rw [← hsym]
            · have := h4 x (by omega) hx2
              omega
          · simp only; omega
          · exact ht
        · rw [if_neg hlen]
          apply ih (i - 1) st (by omega) (by omega) h1 h2
            (fun m hm => by have := h3 m hm; omega) _ h5 t ht
          intro x hx1 hx2
          by_cases hxi : x = i
          · subst hxi
            rw [← hsym]; omega
          · exact h4 x (by omega) hx2
    · rw [if_pos (by simpa using hbl)]
      exact hfin

theorem dictLoop_append (dm : Nat → Nat) (max_backward gap max_distance : Nat) :
    ∀ (n lo : Nat) (ms : List BackwardMatch),
      ∃ dd, iterLoop (dictStep dm max_backward gap max_distance) lo n ms = ms ++ dd ∧
        ∀ d ∈ dd, d.len_code ≠ none ∧
          (max_backward + gap + 2 ^ 23 < 2 ^ 64 → max_backward < d.distance) := by
  intro n
  induction n with
  | zero => intro lo ms; exact ⟨[], by simp [iterLoop], fun d hd => by simp at hd⟩
  | succ k ih =>
    intro lo ms
    rw [iterLoop]
    by_cases h1 : dm lo < kInvalidMatch
    · by_cases h2 : u64 (max_backward + gap + (dm lo >>> 5) + 1) ≤ max_distance
      · have hs : dictStep dm max_backward gap max_distance lo ms =
            ms ++ [InitDictionaryBackwardMatch
              (u64 (max_backward + gap + (dm lo >>> 5) + 1)) lo (dm lo &&& 31)] := by
          unfold dictStep
          simp only [h1, h2, if_true]
        rw [hs]
        obtain ⟨dd, e, hd⟩ := ih (lo + 1) (ms ++ [InitDictionaryBackwardMatch
          (u64 (max_backward + gap + (dm lo >>> 5) + 1)) lo (dm lo &&& 31)])
        refine ⟨InitDictionaryBackwardMatch
          (u64 (max_backward + gap + (dm lo >>> 5) + 1)) lo (dm lo &&& 31) :: dd, ?_, ?_⟩
        · rw [e]; simp
        · intro d hdm
          rw [List.mem_cons] at hdm
          rcases hdm with hdm | hdm
          · subst hdm
            refine ⟨by simp [InitDictionaryBackwardMatch], ?_⟩
            intro hnw
            simp only [InitDictionaryBackwardMatch]
            have hid : dm lo >>> 5 < 2 ^ 23 := by
              rw [Nat.shiftRight_eq_div_pow]
              unfold kInvalidMatch at h1
              omega
            rw [u64, Nat.mod_eq_of_lt (by omega)]
            omega
          · exact hd d hdm
      · have hs : dictStep dm max_backward gap max_distance lo ms = ms := by
          unfold dictStep
          simp only [h1, h2, if_true, if_false]
        rw [hs]; exact ih (lo + 1) ms
    · have hs : dictStep dm max_backward gap max_distance lo ms = ms := by
        unfold dictStep
        simp only [h1, if_false]
      rw [hs]; exact ih (lo + 1) ms

theorem shortScan_codes (data : Nat → Nat) (mask cur max_length max_backward : Nat) :
    ∀ (steps i : Nat) (st : Nat × List BackwardMatch),
      (∀ m ∈ st.2, m.len_code = none) →
      ∀ m ∈ (shortScan data mask cur max_length max_backward steps i st).2,
        m.len_code = none := by
  intro steps
  induction steps with
  | zero => intro i st h; exact h
  | succ n ih =>
    intro i st h
    rw [shortScan]
    simp only
    split
    · exact h
    split
    · exact h
    split
    · exact ih _ _ h
    · apply ih
      split
      · intro m hm
        simp only [List.mem_append, List.mem_singleton] at hm
        rcases hm with hm | hm
        · exact h m hm
        · subst hm; rfl
      · exact h

theorem treeRecord_codes (data : Nat → Nat) (cur mask max_length : Nat) (record : Bool)
    (st : TreeState) (h : ∀ m ∈ st.matches_, m.len_code = none) :
    ∀ m ∈ (treeRecord data cur mask max_length record st).matches_, m.len_code = none := by
  unfold treeRecord
  split
  · intro m hm
    simp only [List.mem_append, List.mem_singleton] at hm
    rcases hm with hm | hm
    · exact h m hm
    · subst hm; rfl
  · exact h

theorem treeLoop_codes (self : H10) (data : Nat → Nat)
    (cur mask max_length max_backward : Nat) (record : Bool) :
    ∀ (d : Nat) (st : TreeState), (∀ m ∈ st.matches_, m.len_code = none) →
      ∀ m ∈ (treeLoop self data cur mask max_length max_backward record d st).matches_,
        m.len_code = none := by
  intro d
  induction d with
  | zero =>
    intro st h
    rw [treeLoop_zero]
    split <;> exact h
  | succ n ih =>
    intro st h
    have hs := treeRecord_codes data cur mask max_length record st h
    by_cases hstop : usub cur st.prev_ix = 0 ∨ usub cur st.prev_ix > max_backward
    · rw [treeLoop_stop _ _ _ _ _ _ _ _ _ hstop]
      split <;> exact h
    by_cases heq : treeLen data cur mask max_length st ≥ min max_length 128
    · rw [treeLoop_equal _ _ _ _ _ _ _ _ _ hstop heq]
      split <;> exact hs
    by_cases hgt : data ((cur &&& mask) + treeLen data cur mask max_length st) >
        data ((st.prev_ix &&& mask) + treeLen data cur mask max_length st)
    · rw [treeLoop_right _ _ _ _ _ _ _ _ _ hstop heq hgt]
      exact ih _ hs
    · rw [treeLoop_left _ _ _ _ _ _ _ _ _ hstop heq hgt]
      exact ih _ hs

theorem store_max_backward_le (lg : Nat) (hlg : 4 ≤ lg) (h32 : 2 ^ lg ≤ 2 ^ 32) :
    u64 (usub (2 ^ lg - 1) BROTLI_WINDOW_GAP + 1) ≤ 2 ^ lg - 1 := by
  have h16 : 2 ^ 4 ≤ 2 ^ lg := Nat.pow_le_pow_right (by norm_num) hlg
  generalize 2 ^ lg = W at h32 h16
  unfold u64 usub BROTLI_WINDOW_GAP
  norm_num at h32 h16 ⊢
  omega

theorem StoreH10_inv {Γ : Type} (K : HasherCollab Γ) (self : H10)
    (data : Nat → Nat) (mask ix lg : Nat) (hlg : 4 ≤ lg)
    (hw : self.window_mask_ = 2 ^ lg - 1)
    (hinv : self.invalid_pos_ = 2 ^ 32 - (2 ^ lg - 1))
    (hcur : ix + 2 ^ lg ≤ 2 ^ 32)
    (hI : H10Inv K data mask self ix ix) :
    H10Inv K data mask (StoreH10 K self data mask ix) ix (ix + 1) := by
  have h32 : 2 ^ lg ≤ 2 ^ 32 := Nat.le_trans (Nat.le_add_left _ _) hcur
  have hmb := store_max_backward_le lg hlg h32
  unfold StoreH10
  simp only
  rw [hw]
  exact (StoreAndFindMatchesH10_spec K self data mask ix 128 _ lg 0 none hw hinv hcur hmb
    (by norm_num) hI (fun t _ => ⟨fun m hm => by simp at hm, List.Pairwise.nil,
      fun m hm => by simp at hm⟩)).1


theorem FindAllMatchesH10_spec {Γ : Type} (K : HasherCollab Γ) (self : H10) (common : Γ)
    (data : Nat → Nat) (mask cur max_length max_backward gap quality max_distance lg : Nat)
    (hw : self.window_mask_ = 2 ^ lg - 1)
    (hinv : self.invalid_pos_ = 2 ^ 32 - (2 ^ lg - 1))
    (hcur : cur + 2 ^ lg ≤ 2 ^ 32) (hmb : max_backward ≤ 2 ^ lg - 1)
    (hmbc : max_backward ≤ cur) (hml : max_length < 2 ^ 64)
    (hI : H10Inv K data mask self cur cur) :
    H10Inv K data mask (FindAllMatchesH10 K self common data mask cur max_length max_backward
      gap quality max_distance).1 cur (cur + 1) ∧
    ∃ nd dd, (FindAllMatchesH10 K self common data mask cur max_length max_backward
        gap quality max_distance).2.2 = nd ++ dd ∧
      (∀ m ∈ nd, m.len_code = none ∧
        ValidMatch data mask cur max_length max_backward m.distance m.length) ∧
      List.Pairwise (fun a b => a.distance ≤ b.distance) nd ∧
      ∀ d ∈ dd, d.len_code ≠ none ∧
        (max_backward + gap + 2 ^ 23 < 2 ^ 64 → max_backward < d.distance) := by
  obtain ⟨hc32, hcw, hW1⟩ := lt_of_window cur lg hcur
  have hc64 : cur < 2 ^ 64 := by omega
  have key : ∀ (sc : Nat × List BackwardMatch) (tr : H10 × Nat × List BackwardMatch)
      (dm : Γ × Bool × (Nat → Nat)) (minlen cnt : Nat),
      (∀ t : HTree, (∀ x ∈ t.nodes, x < cur) →
        MatchesSound data mask cur max_length max_backward t sc.1 sc.2) →
      (∀ m ∈ sc.2, m.len_code = none) →
      tr = (if sc.1 < max_length then
          StoreAndFindMatchesH10 K self data cur mask max_length max_backward
            sc.1 (some sc.2)
        else (self, sc.1, sc.2)) →
      H10Inv K data mask tr.1 cur (cur + 1) ∧
      ∃ nd dd, (if dm.2.1 = true then
          iterLoop (dictStep dm.2.2 max_backward gap max_distance) minlen cnt tr.2.2
        else tr.2.2) = nd ++ dd ∧
        (∀ m ∈ nd, m.len_code = none ∧
          ValidMatch data mask cur max_length max_backward m.distance m.length) ∧
        List.Pairwise (fun a b => a.distance ≤ b.distance) nd ∧
        ∀ d ∈ dd, d.len_code ≠ none ∧
          (max_backward + gap + 2 ^ 23 < 2 ^ 64 → max_backward < d.distance) := by
    intro sc tr dm minlen cnt hsc hcodes e
    have htr : H10Inv K data mask tr.1 cur (cur + 1) ∧
        (∀ m ∈ tr.2.2, m.len_code = none ∧
          ValidMatch data mask cur max_length max_backward m.distance m.length) ∧
        List.Pairwise (fun a b => a.distance ≤ b.distance) tr.2.2 := by
      rw [e]
      split
      · obtain ⟨s1, s2, s3⟩ := StoreAndFindMatchesH10_spec K self data mask cur max_length
          max_backward lg sc.1 (some sc.2) hw hinv hcur hmb hml hI hsc
        refine ⟨s1, fun m hm => ⟨?_, s2 m hm⟩, s3⟩
        exact treeLoop_codes self data cur mask max_length max_backward _ 64 _ hcodes m hm
      · have h0 := hsc (.leaf 0) (fun x hx => by simp [HTree.nodes] at hx)
        exact ⟨h10Inv_age K data mask self cur cur cur (cur + 1) (Nat.le_refl _) (by omega) hI,
          fun m hm => ⟨hcodes m hm, h0.1 m hm⟩, h0.2.1⟩
    refine ⟨htr.1, ?_⟩
    split
    · obtain ⟨dd, e2, hd⟩ := dictLoop_append dm.2.2 max_backward gap max_distance cnt minlen
        tr.2.2
      exact ⟨tr.2.2, dd, e2, htr.2.1, htr.2.2, hd⟩
    · exact ⟨tr.2.2, [], by simp, htr.2.1, htr.2.2, fun d hd => by simp at hd⟩
  have hsc : ∀ t : HTree, (∀ x ∈ t.nodes, x < cur) →
      MatchesSound data mask cur max_length max_backward t
        (shortScan data mask cur max_length max_backward
          (usub cur 1 - (if cur < (if quality ≠ HQ_ZOPFLIFICATION_QUALITY then 16 else 64)
            then 0 else usub cur (if quality ≠ HQ_ZOPFLIFICATION_QUALITY then 16 else 64)))
          (usub cur 1) (1, [])).1
        (shortScan data mask cur max_length max_backward
          (usub cur 1 - (if cur < (if quality ≠ HQ_ZOPFLIFICATION_QUALITY then 16 else 64)
            then 0 else usub cur (if quality ≠ HQ_ZOPFLIFICATION_QUALITY then 16 else 64)))
          (usub cur 1) (1, [])).2 := by
    intro t ht
    by_cases h0 : cur = 0
    · subst h0
      rw [shortScan_break]
      · exact ⟨fun m hm => by simp at hm, List.Pairwise.nil, fun m hm => by simp at hm⟩
      · have : usub 0 (usub 0 1) = 1 := by decide
        rw [this]; omega
    · have hus : usub cur 1 = cur - 1 := usub_of_le cur 1 hc64 (by omega)
      rw [hus]
      exact shortScan_sound data mask cur max_length max_backward hc64 _ (cur - 1) (1, [])
        (Nat.sub_le _ _) (by omega) (fun m hm => by simp at hm) List.Pairwise.nil
        (fun m hm => by simp at hm) (fun x h1 h2 => by omega) (Nat.le_refl 1) t ht
  exact key _ _ _ _ _ hsc
    (shortScan_codes data mask cur max_length max_backward _ _ (1, [])
      (fun m hm => by simp at hm)) rfl

theorem FindAllMatchesH10_fields {Γ : Type} (K : HasherCollab Γ) (self : H10) (common : Γ)
    (data : Nat → Nat) (mask cur max_length max_backward gap quality max_distance : Nat) :
    (FindAllMatchesH10 K self common data mask cur max_length max_backward gap quality
      max_distance).1.window_mask_ = self.window_mask_ ∧
    (FindAllMatchesH10 K self common data mask cur max_length max_backward gap quality
      max_distance).1.invalid_pos_ = self.invalid_pos_ := by
  have key : ∀ (c : Prop) [Decidable c] (bl : Nat) (ms : Option (List BackwardMatch))
      (x : Nat × List BackwardMatch) (tr : H10 × Nat × List BackwardMatch),
      tr = (if c then StoreAndFindMatchesH10 K self data cur mask max_length max_backward bl ms
        else (self, x)) →
      tr.1.window_mask_ = self.window_mask_ ∧ tr.1.invalid_pos_ = self.invalid_pos_ := by
    intro c _ bl ms x tr e
    rw [e]
    split
    · exact ⟨rfl, rfl⟩
    · exact ⟨rfl, rfl⟩
  exact key _ _ _ _ _ rfl

theorem callH10_inv {Γ : Type} (K : HasherCollab Γ) (data : Nat → Nat) (mask lg : Nat)
    (hlg : 4 ≤ lg) (s : H10) (g : Γ) (c : H10Call)
    (hw : s.window_mask_ = 2 ^ lg - 1)
    (hinv : s.invalid_pos_ = 2 ^ 32 - (2 ^ lg - 1))
    (hc : H10CallOK lg c)
    (hI : H10Inv K data mask s c.position c.position) :
    (callH10 K data mask (s, g) c).1.window_mask_ = 2 ^ lg - 1 ∧
    (callH10 K data mask (s, g) c).1.invalid_pos_ = 2 ^ 32 - (2 ^ lg - 1) ∧
    H10Inv K data mask (callH10 K data mask (s, g) c).1 (c.position + 1)
      (c.position + 1) := by
  cases c with
  | store ix =>
    refine ⟨hw, hinv, ?_⟩
    exact h10Inv_age K data mask _ ix (ix + 1) (ix + 1) (ix + 1) (by omega) (Nat.le_refl _)
      (StoreH10_inv K s data mask ix lg hlg hw hinv hc hI)
  | find cur ml mb gap q md =>
    obtain ⟨h1, h2, h3, h4⟩ := hc
    have hsp := (FindAllMatchesH10_spec K s g data mask cur ml mb gap q md lg hw hinv h1 h2 h3
      h4 hI).1
    have hf := FindAllMatchesH10_fields K s g data mask cur ml mb gap q md
    refine ⟨?_, ?_, ?_⟩
    · exact hf.1.trans hw
    · exact hf.2.trans hinv
    · exact h10Inv_age K data mask _ cur (cur + 1) (cur + 1) (cur + 1) (by omega)
        (Nat.le_refl _) hsp

theorem runH10_inv {Γ : Type} (K : HasherCollab Γ) (data : Nat → Nat) (mask lg : Nat)
    (hlg : 4 ≤ lg) :
    ∀ (calls : List H10Call) (s : H10) (g : Γ) (b B : Nat),
      s.window_mask_ = 2 ^ lg - 1 → s.invalid_pos_ = 2 ^ 32 - (2 ^ lg - 1) →
      H10Inv K data mask s b b →
      (∀ c ∈ calls, H10CallOK lg c) →
      List.Pairwise (fun a b => a < b) (calls.map H10Call.position) →
      (∀ c ∈ calls, b ≤ c.position) → b ≤ B → (∀ c ∈ calls, c.position < B) →
      (runH10 K data mask (s, g) calls).1.window_mask_ = 2 ^ lg - 1 ∧
      (runH10 K data mask (s, g) calls).1.invalid_pos_ = 2 ^ 32 - (2 ^ lg - 1) ∧
      H10Inv K data mask (runH10 K data mask (s, g) calls).1 B B := by
  intro calls
  induction calls with
  | nil =>
    intro s g b B hw hinv hI _ _ _ hbB _
    exact ⟨hw, hinv, h10Inv_age K data mask s b b B B hbB hbB hI⟩
  | cons c cs ih =>
    intro s g b B hw hinv hI hok hpos hge hbB hlt
    have hcb := hge c (List.mem_cons_self _ _)
    have hI2 := h10Inv_age K data mask s b b c.position c.position hcb hcb hI
    obtain ⟨a1, a2, a3⟩ := callH10_inv K data mask lg hlg s g c hw hinv
      (hok c (List.mem_cons_self _ _)) hI2
    rw [List.map_cons, List.pairwise_cons] at hpos
    rw [runH10]
    have hcall : callH10 K data mask (s, g) c =
        ((callH10 K data mask (s, g) c).1, (callH10 K data mask (s, g) c).2) := rfl
    rw [hcall]
    apply ih _ _ (c.position + 1) B a1 a2 a3
      (fun c2 hc2 => hok c2 (List.mem_cons_of_mem _ hc2)) hpos.2
    · intro c2 hc2
      have := hpos.1 c2.position (List.mem_map_of_mem _ hc2)
      omega
    · have := hlt c (List.mem_cons_self _ _)
      omega
    · exact fun c2 hc2 => hlt c2 (List.mem_cons_of_mem _ hc2)

theorem prepareH10_window_mask (lg : Nat) (buckets0 forest0 : Nat → Nat) :
    (PrepareH10 { InitializeH10 lg with buckets_ := buckets0, forest := forest0 }).window_mask_
      = usub (u64 (1 <<< lg)) 1 := rfl

theorem prepareH10_invalid_pos (lg : Nat) (buckets0 forest0 : Nat → Nat) :
    (PrepareH10 { InitializeH10 lg with buckets_ := buckets0, forest := forest0 }).invalid_pos_
      = u32 (usub 0 (usub (u64 (1 <<< lg)) 1)) := rfl

theorem prepareH10_bucket (lg key : Nat) (buckets0 forest0 : Nat → Nat) (hk : key < 2 ^ 17) :
    (PrepareH10 { InitializeH10 lg with buckets_ := buckets0, forest := forest0 }).buckets_ key
      = u32 (usub 0 (usub (u64 (1 <<< lg)) 1)) := by
  have h17 : key < 1 <<< 17 := by
    rw [Nat.shiftLeft_eq, Nat.one_mul]; exact hk
  unfold PrepareH10
  simp only
  rw [if_pos h17]
  rfl

theorem window_mask_init (lg : Nat) (hlg : 4 ≤ lg) (h32 : 2 ^ lg ≤ 2 ^ 32) :
    usub (u64 (1 <<< lg)) 1 = 2 ^ lg - 1 := by
  have h16 : 2 ^ 4 ≤ 2 ^ lg := Nat.pow_le_pow_right (by norm_num) hlg
  rw [Nat.shiftLeft_eq, Nat.one_mul]
  generalize 2 ^ lg = W at h32 h16
  have a : (2:Nat) ^ 32 = 4294967296 := by norm_num
  have b : (2:Nat) ^ 4 = 16 := by norm_num
  rw [a] at h32
  rw [b] at h16
  unfold usub u64
  omega

theorem invalid_pos_init (lg : Nat) (hlg : 4 ≤ lg) (h32 : 2 ^ lg ≤ 2 ^ 32) :
    u32 (usub 0 (2 ^ lg - 1)) = 2 ^ 32 - (2 ^ lg - 1) := by
  have h16 : 2 ^ 4 ≤ 2 ^ lg := Nat.pow_le_pow_right (by norm_num) hlg
  generalize 2 ^ lg = W at h32 h16
  have a : (2:Nat) ^ 32 = 4294967296 := by norm_num
  have b : (2:Nat) ^ 4 = 16 := by norm_num
  rw [a] at h32 ⊢
  rw [b] at h16
  unfold usub u32
  omega

theorem h10Inv_prepare {Γ : Type} (K : HasherCollab Γ) (data : Nat → Nat) (mask lg : Nat)
    (buckets0 forest0 : Nat → Nat) (hlg : 4 ≤ lg) (h32 : 2 ^ lg ≤ 2 ^ 32) :
    (PrepareH10 { InitializeH10 lg with buckets_ := buckets0, forest := forest0 }).window_mask_
      = 2 ^ lg - 1 ∧
    (PrepareH10 { InitializeH10 lg with buckets_ := buckets0, forest := forest0 }).invalid_pos_
      = 2 ^ 32 - (2 ^ lg - 1) ∧
    H10Inv K data mask
      (PrepareH10 { InitializeH10 lg with buckets_ := buckets0, forest := forest0 }) 0 0 := by
  have hwm := window_mask_init lg hlg h32
  have hip : u32 (usub 0 (usub (u64 (1 <<< lg)) 1)) = 2 ^ 32 - (2 ^ lg - 1) := by
    rw [hwm]; exact invalid_pos_init lg hlg h32
  have e1 := prepareH10_window_mask lg buckets0 forest0
  have e2 := prepareH10_invalid_pos lg buckets0 forest0
  have e3 := fun key hk => prepareH10_bucket lg key buckets0 forest0 hk
  rw [hip] at e2 e3
  rw [hwm] at e1
  generalize PrepareH10 { InitializeH10 lg with buckets_ := buckets0, forest := forest0 } = s
    at e1 e2 e3 ⊢
  refine ⟨e1, e2, ?_⟩
  intro key hk
  exact ⟨.leaf (2 ^ 32 - (2 ^ lg - 1)), (e3 key hk).symm, trivial, Or.inr e2.symm⟩

theorem runH10_find_spec {Γ : Type} (K : HasherCollab Γ) (lgwin : Nat)
    (buckets0 forest0 : Nat → Nat) (data : Nat → Nat) (ring_buffer_mask : Nat) (common : Γ)
    (calls : List H10Call)
    (cur_ix max_length max_backward gap quality max_distance : Nat)
    (hlg : 4 ≤ lgwin)
    (hcalls : ∀ c ∈ calls ++ [H10Call.find cur_ix max_length max_backward gap quality
      max_distance], H10CallOK lgwin c)
    (hpos : List.Pairwise (fun a b => a < b)
      ((calls ++ [H10Call.find cur_ix max_length max_backward gap quality
        max_distance]).map H10Call.position)) :
    ∃ nd dd, (FindAllMatchesH10 K
        (runH10 K data ring_buffer_mask
          (PrepareH10 { InitializeH10 lgwin with buckets_ := buckets0, forest := forest0 },
            common) calls).1
        (runH10 K data ring_buffer_mask
          (PrepareH10 { InitializeH10 lgwin with buckets_ := buckets0, forest := forest0 },
            common) calls).2
        data ring_buffer_mask cur_ix max_length max_backward gap quality max_distance).2.2 =
        nd ++ dd ∧
      (∀ m ∈ nd, m.len_code = none ∧
        ValidMatch data ring_buffer_mask cur_ix max_length max_backward m.distance m.length) ∧
      List.Pairwise (fun a b => a.distance ≤ b.distance) nd ∧
      ∀ d ∈ dd, d.len_code ≠ none ∧
        (max_backward + gap + 2 ^ 23 < 2 ^ 64 → max_backward < d.distance) := by
  have hfind : H10CallOK lgwin (H10Call.find cur_ix max_length max_backward gap
      quality max_distance) :=
    hcalls _ (List.mem_append_right _ (List.mem_singleton_self _))
  obtain ⟨h1, h2, h3, h4⟩ := hfind
  have h32 : 2 ^ lgwin ≤ 2 ^ 32 := Nat.le_trans (Nat.le_add_left _ _) h1
  obtain ⟨q1, q2, q3⟩ := h10Inv_prepare K data ring_buffer_mask lgwin buckets0 forest0 hlg h32
  rw [List.map_append, List.pairwise_append] at hpos
  obtain ⟨r1, r2, r3⟩ := runH10_inv K data ring_buffer_mask lgwin hlg calls _ common 0 cur_ix
    q1 q2 q3 (fun c hc => hcalls c (List.mem_append_left _ hc)) hpos.1
    (fun c _ => Nat.zero_le _) (Nat.zero_le _)
    (fun c hc => hpos.2.2 _ (List.mem_map_of_mem _ hc) _ (List.mem_singleton_self _))
  exact (FindAllMatchesH10_spec K _ _ data ring_buffer_mask cur_ix max_length max_backward gap
    quality max_distance lgwin r1 r2 h1 h2 h3 h4 r3).2

/-- Claim C7, amended.  Match validity for H10: over one input and one ring-buffer mask, in a
window of `2^lgwin` bytes with `lgwin >= 4`, in every hasher state reached from `PrepareH10` by
`StoreH10` / `FindAllMatchesH10` calls at strictly increasing positions `p` with
`p + 2^lgwin <= 2^32`, every search with `max_backward <= window_mask`,
`max_backward <= cur_ix` and `max_length` a `uint`, every non-dictionary match
`(distance, length)` that `FindAllMatchesH10` writes at `cur_ix` satisfies
`0 < distance <= max_backward`, `length <= max_length` and
`data[((cur_ix - distance) & ring_buffer_mask) + j] = data[(cur_ix & ring_buffer_mask) + j]`
for every `j < length`. -/
theorem FindAllMatchesH10_matches_valid {Γ : Type} (K : HasherCollab Γ) (lgwin : Nat)
    (buckets0 forest0 : Nat → Nat) (data : Nat → Nat) (ring_buffer_mask : Nat) (common : Γ)
    (calls : List H10Call)
    (cur_ix max_length max_backward gap quality max_distance : Nat)
    (hlg : 4 ≤ lgwin)
    (hcalls : ∀ c ∈ calls ++ [H10Call.find cur_ix max_length max_backward gap quality
      max_distance], H10CallOK lgwin c)
    (hpos : List.Pairwise (fun a b => a < b)
      ((calls ++ [H10Call.find cur_ix max_length max_backward gap quality
        max_distance]).map H10Call.position)) :
    ∀ m ∈ (FindAllMatchesH10 K
        (runH10 K data ring_buffer_mask
          (PrepareH10 { InitializeH10 lgwin with buckets_ := buckets0, forest := forest0 },
            common) calls).1
        (runH10 K data ring_buffer_mask
          (PrepareH10 { InitializeH10 lgwin with buckets_ := buckets0, forest := forest0 },
            common) calls).2
        data ring_buffer_mask cur_ix max_length max_backward gap quality max_distance).2.2,
      m.len_code = none →
      0 < m.distance ∧ m.distance ≤ max_backward ∧ m.length ≤ max_length ∧
      ∀ j, j < m.length →
        data (((cur_ix - m.distance) &&& ring_buffer_mask) + j) =
          data ((cur_ix &&& ring_buffer_mask) + j) := by
  obtain ⟨nd, dd, e, h1, _, h3⟩ := runH10_find_spec K lgwin buckets0 forest0 data
    ring_buffer_mask common calls cur_ix max_length max_backward gap quality max_distance hlg
    hcalls hpos
  intro m hm hcode
  rw [e, List.mem_append] at hm
  rcases hm with hm | hm
  · obtain ⟨_, v1, v2, _, v4, v5⟩ := h1 m hm
    exact ⟨v1, v2, v4, v5⟩
  · exact absurd hcode (h3 m hm).1

/-- Claim C7 on `aliasInput` in a window of 1024 bytes: after stores at 100 and 200 the search
at 1200 with `max_backward = 1023` writes the match at distance 1000 of length 4. -/
theorem FindAllMatchesH10_matches_valid_witness :
    (4 ≤ 10) ∧
    (∀ c ∈ [H10Call.store 100, H10Call.store 200] ++ [H10Call.find 1200 8 1023 0 10 100000],
      H10CallOK 10 c) ∧
    List.Pairwise (fun a b => a < b)
      (([H10Call.store 100, H10Call.store 200] ++
        [H10Call.find 1200 8 1023 0 10 100000]).map H10Call.position) ∧
    ∀ m ∈ (FindAllMatchesH10 referenceCollab
        (runH10 referenceCollab aliasInput 0xFFFF
          (PrepareH10 { InitializeH10 10 with buckets_ := fun _ => 7, forest := fun _ => 9 },
            ()) [H10Call.store 100, H10Call.store 200]).1
        (runH10 referenceCollab aliasInput 0xFFFF
          (PrepareH10 { InitializeH10 10 with buckets_ := fun _ => 7, forest := fun _ => 9 },
            ()) [H10Call.store 100, H10Call.store 200]).2
        aliasInput 0xFFFF 1200 8 1023 0 10 100000).2.2,
      m.len_code = none →
      0 < m.distance ∧ m.distance ≤ 1023 ∧ m.length ≤ 8 ∧
      ∀ j, j < m.length →
        aliasInput (((1200 - m.distance) &&& 0xFFFF) + j) =
          aliasInput ((1200 &&& 0xFFFF) + j) :=
  have hc : ∀ c ∈ [H10Call.store 100, H10Call.store 200] ++
      [H10Call.find 1200 8 1023 0 10 100000], H10CallOK 10 c := by
    intro c hc
    simp only [List.cons_append, List.nil_append, List.mem_cons, List.mem_singleton,
      List.not_mem_nil, or_false] at hc
    rcases hc with h | h | h <;> subst h <;> simp [H10CallOK]
  have hp : List.Pairwise (fun a b => a < b)
      (([H10Call.store 100, H10Call.store 200] ++
        [H10Call.find 1200 8 1023 0 10 100000]).map H10Call.position) := by
    simp [H10Call.position]
  ⟨by decide, hc, hp,
    FindAllMatchesH10_matches_valid referenceCollab 10 (fun _ => 7) (fun _ => 9) aliasInput
      0xFFFF () [H10Call.store 100, H10Call.store 200] 1200 8 1023 0 10 100000 (by decide)
      hc hp⟩

/-- Claim C7 as stated fails when a search looks back further than the window: in a window of
1024 bytes, after stores at 100, 200, 300 and 1124 over `aliasInput`, the search at 1200 with
`max_length = 8` and `max_backward = 1100 <= cur_ix` follows the links of position 100, which
the store at 1124 has overwritten, and writes the match at distance 900 of length 8 although
`data[300] = 122` differs from `data[1200] = 97`. -/
theorem FindAllMatchesH10_matches_valid_counterexample :
    (FindAllMatchesH10 referenceCollab
      (runH10 referenceCollab aliasInput 0xFFFF (PrepareH10 (InitializeH10 10), ())
        [H10Call.store 100, H10Call.store 200, H10Call.store 300, H10Call.store 1124]).1 ()
      aliasInput 0xFFFF 1200 8 1100 0 10 100000).2.2 =
      [{ distance := 1000, length := 4, len_code := none },
       { distance := 900, length := 8, len_code := none }] ∧
    1100 ≤ 1200 ∧
    aliasInput (((1200 - 900) &&& 0xFFFF) + 0) ≠ aliasInput ((1200 &&& 0xFFFF) + 0) := by
  decide

/-- The order of the distances `FindAllMatchesH10` writes, apart from the dictionary entries
among themselves.  Over one input and one ring-buffer mask, in a window of `2^lgwin` bytes
with `lgwin >= 4`, in every hasher state reached from `PrepareH10` by stores and finds at
strictly increasing positions `p` with `p + 2^lgwin <= 2^32`, every search with
`max_backward <= window_mask`, `max_backward <= cur_ix` and `max_length` a `uint`, and for
every answer of the static-dictionary collaborator, the list `FindAllMatchesH10` writes is its
non-dictionary entries followed by its dictionary entries; the non-dictionary entries are
sorted by non-strictly increasing distance, and when `max_backward + gap + 2^23 < 2^64` every
dictionary entry is further away than every non-dictionary entry. -/
theorem FindAllMatchesH10_distances_sorted {Γ : Type} (K : HasherCollab Γ) (lgwin : Nat)
    (buckets0 forest0 : Nat → Nat) (data : Nat → Nat) (ring_buffer_mask : Nat) (common : Γ)
    (calls : List H10Call)
    (cur_ix max_length max_backward gap quality max_distance : Nat)
    (hlg : 4 ≤ lgwin)
    (hcalls : ∀ c ∈ calls ++ [H10Call.find cur_ix max_length max_backward gap quality
      max_distance], H10CallOK lgwin c)
    (hpos : List.Pairwise (fun a b => a < b)
      ((calls ++ [H10Call.find cur_ix max_length max_backward gap quality
        max_distance]).map H10Call.position)) :
    ∃ nd dd, (FindAllMatchesH10 K
        (runH10 K data ring_buffer_mask
          (PrepareH10 { InitializeH10 lgwin with buckets_ := buckets0, forest := forest0 },
            common) calls).1
        (runH10 K data ring_buffer_mask
          (PrepareH10 { InitializeH10 lgwin with buckets_ := buckets0, forest := forest0 },
            common) calls).2
        data ring_buffer_mask cur_ix max_length max_backward gap quality max_distance).2.2 =
        nd ++ dd ∧
      (∀ m ∈ nd, m.len_code = none) ∧ (∀ d ∈ dd, d.len_code ≠ none) ∧
      List.Pairwise (fun a b => a.distance ≤ b.distance) nd ∧
      (max_backward + gap + 2 ^ 23 < 2 ^ 64 →
        ∀ m ∈ nd, ∀ d ∈ dd, m.distance < d.distance) := by
  obtain ⟨nd, dd, e, h1, h2, h3⟩ := runH10_find_spec K lgwin buckets0 forest0 data
    ring_buffer_mask common calls cur_ix max_length max_backward gap quality max_distance hlg
    hcalls hpos
  refine ⟨nd, dd, e, fun m hm => (h1 m hm).1, fun d hd => (h3 d hd).1, h2, ?_⟩
  intro hnw m hm d hd
  have hv := (h1 m hm).2.2.1
  have hdd := (h3 d hd).2 hnw
  omega

/-- The order of the distances on `aliasInput` in a window of 1024 bytes: stores at 100 and
200, then the search at 1200 with `max_backward = 1023`. -/
theorem FindAllMatchesH10_distances_sorted_witness :
    (4 ≤ 10) ∧
    (∀ c ∈ [H10Call.store 100, H10Call.store 200] ++ [H10Call.find 1200 8 1023 0 10 100000],
      H10CallOK 10 c) ∧
    List.Pairwise (fun a b => a < b)
      (([H10Call.store 100, H10Call.store 200] ++
        [H10Call.find 1200 8 1023 0 10 100000]).map H10Call.position) ∧
    ∃ nd dd, (FindAllMatchesH10 twoWordDictionaryCollab
        (runH10 twoWordDictionaryCollab aliasInput 0xFFFF
          (PrepareH10 { InitializeH10 10 with buckets_ := fun _ => 7, forest := fun _ => 9 },
            ()) [H10Call.store 100, H10Call.store 200]).1
        (runH10 twoWordDictionaryCollab aliasInput 0xFFFF
          (PrepareH10 { InitializeH10 10 with buckets_ := fun _ => 7, forest := fun _ => 9 },
            ()) [H10Call.store 100, H10Call.store 200]).2
        aliasInput 0xFFFF 1200 8 1023 0 10 100000).2.2 = nd ++ dd ∧
      (∀ m ∈ nd, m.len_code = none) ∧ (∀ d ∈ dd, d.len_code ≠ none) ∧
      List.Pairwise (fun a b => a.distance ≤ b.distance) nd ∧
      (1023 + 0 + 2 ^ 23 < 2 ^ 64 → ∀ m ∈ nd, ∀ d ∈ dd, m.distance < d.distance) :=
  have hc : ∀ c ∈ [H10Call.store 100, H10Call.store 200] ++
      [H10Call.find 1200 8 1023 0 10 100000], H10CallOK 10 c := by
    intro c hc
    simp only [List.cons_append, List.nil_append, List.mem_cons, List.mem_singleton,
      List.not_mem_nil, or_false] at hc
    rcases hc with h | h | h <;> subst h <;> simp [H10CallOK]
  have hp : List.Pairwise (fun a b => a < b)
      (([H10Call.store 100, H10Call.store 200] ++
        [H10Call.find 1200 8 1023 0 10 100000]).map H10Call.position) := by
    simp [H10Call.position]
  ⟨by decide, hc, hp,
    FindAllMatchesH10_distances_sorted twoWordDictionaryCollab 10 (fun _ => 7) (fun _ => 9)
      aliasInput 0xFFFF () [H10Call.store 100, H10Call.store 200] 1200 8 1023 0 10 100000
      (by decide) hc hp⟩

/-- Claim C9.  The dictionary entries of `FindAllMatchesH10` are written in the order of their
lengths (lines 216-229 of `h10.go`), whatever their distances, although the comment above the
function promises matches "sorted by strictly increasing length and (non-strictly) increasing
distance" (lines 164-170): for a dictionary that answers `dict_matches[4] = 64` and
`dict_matches[5] = 0`, the search at `cur_ix = 0` of a freshly prepared hasher (`lgwin = 10`)
with `max_length = 8`, `max_backward = 0`, `gap = 0`, quality 10 and
`max_distance = 100000` writes the dictionary entries at the distances 3 and 1, in this
order. -/
theorem FindAllMatchesH10_dictionary_distances_unsorted :
    (FindAllMatchesH10 twoWordDictionaryCollab (PrepareH10 (InitializeH10 10)) ()
      period5Input 0xFFFF 0 8 0 0 10 100000).2.2 =
      [{ distance := 3, length := 4, len_code := some 0 },
       { distance := 1, length := 5, len_code := some 0 }] ∧
    ¬ (3 ≤ 1) := by
  decide

theorem u32_mod_four (x : Nat) : u32 x % 4 = x % 4 := by
  unfold u32
  omega

/-- Claim C18.  For every table, input, mask and `ix`, `StoreH4` writes `uint32(ix)` into the
slot `key + ((ix >> 3) mod 4)` of `buckets_`, where `key = HashBytesH4(data[ix & mask ..])`;
that slot index is below `2^17 + 4`; and every other slot of `buckets_` is as it was. -/
theorem StoreH4_writes_one_slot {Γ : Type} (K : HasherCollab Γ) (self : H4) (data : Nat → Nat)
    (mask ix : Nat) :
    (StoreH4 K self data mask ix).buckets_
      (HashBytesH4 K data (ix &&& mask) + (ix >>> 3) % 4) = u32 ix ∧
    HashBytesH4 K data (ix &&& mask) + (ix >>> 3) % 4 < 2 ^ 17 + 4 ∧
    ∀ slot, slot ≠ HashBytesH4 K data (ix &&& mask) + (ix >>> 3) % 4 →
      (StoreH4 K self data mask ix).buckets_ slot = self.buckets_ slot := by
  have hk := HashBytesH4_lt K data (ix &&& mask)
  have hm : (ix >>> 3) % 4 < 4 := Nat.mod_lt _ (by norm_num)
  have hs : u32 (HashBytesH4 K data (ix &&& mask) + u32 (ix >>> 3) % 4) =
      HashBytesH4 K data (ix &&& mask) + (ix >>> 3) % 4 := by
    rw [u32_mod_four]
    apply u32_of_lt
    norm_num at hk ⊢
    omega
  refine ⟨?_, ?_, ?_⟩
  · simp only [StoreH4, hs, upd, if_true]
  · norm_num at hk ⊢
    omega
  · intro slot hne
    simp only [StoreH4, hs, upd, if_neg hne]

/-- Claim C19.  `find_longest_match` always stores the current position.  For every table and
every argument list, the table `FindLongestMatchH4` leaves at `cur_ix` is the one
`StoreH4(data, ring_buffer_mask, cur_ix)` leaves from the same table.  For every H5 state
whose `num` holds `uint16` values, the state `FindLongestMatchH5` leaves at `cur_ix` is the one
`StoreH5(data, ring_buffer_mask, cur_ix)` leaves: `uint32(cur_ix)` in slot
`num[key] & block_mask_` of the ring of the key, `num[key]` incremented (as a `uint16`), every
other slot and counter and all the parameters as they were; whichever match is found. -/
theorem FindLongestMatch_stores_cur_ix {Γ : Type} (K : HasherCollab Γ) (s4 : H4) (s5 : H5)
    (common : Γ) (data : Nat → Nat) (ring_buffer_mask : Nat) (distance_cache : Nat → Int)
    (cur_ix max_length max_backward gap max_distance : Nat) (out : HasherSearchResult)
    (hnum : ∀ key, s5.num key < 2 ^ 16) :
    (FindLongestMatchH4 K s4 common data ring_buffer_mask distance_cache cur_ix max_length
      max_backward gap max_distance out).1 = StoreH4 K s4 data ring_buffer_mask cur_ix ∧
    (FindLongestMatchH5 K s5 common data ring_buffer_mask distance_cache cur_ix max_length
      max_backward gap max_distance out).1 = StoreH5 K s5 data ring_buffer_mask cur_ix ∧
    (StoreH5 K s5 data ring_buffer_mask cur_ix).buckets =
      upd s5.buckets
        (u32 (HashBytesH5 K data (cur_ix &&& ring_buffer_mask) s5.hash_shift_ <<<
            uintOfInt s5.block_bits) +
          (s5.num (HashBytesH5 K data (cur_ix &&& ring_buffer_mask) s5.hash_shift_) &&&
            s5.block_mask_))
        (u32 cur_ix) ∧
    (StoreH5 K s5 data ring_buffer_mask cur_ix).num =
      upd s5.num (HashBytesH5 K data (cur_ix &&& ring_buffer_mask) s5.hash_shift_)
        (u16 (s5.num (HashBytesH5 K data (cur_ix &&& ring_buffer_mask) s5.hash_shift_) + 1)) := by
  refine ⟨?_, ?_, ?_, rfl⟩
  · simp only [FindLongestMatchH4, StoreH4]
    have e : u32 ((cur_ix >>> 3) % 4) = u32 (cur_ix >>> 3) % 4 := by
      unfold u32
      omega
    rw [e]
  · simp only [FindLongestMatchH5, StoreH5]
    have hn := hnum (HashBytesH5 K data (cur_ix &&& ring_buffer_mask) s5.hash_shift_)
    rw [u32_of_lt (s5.num (HashBytesH5 K data (cur_ix &&& ring_buffer_mask) s5.hash_shift_))
      (by omega)]
    rw [Nat.add_comm (u32 _) (_ &&& _)]
  · simp only [StoreH5]
    rw [Nat.add_comm (u32 _) (_ &&& _)]

/-- Claim C19 on `abcdabcd`: a search at 4 on fresh H4 and H5 tables leaves what a store at 4
leaves. -/
theorem FindLongestMatch_stores_cur_ix_witness :
    (FindLongestMatchH4 referenceCollab InitializeH4 () abcdInput 0xFFFF (fun _ => 4) 4 4 4 0
      0 initialSearchResult).1 = StoreH4 referenceCollab InitializeH4 abcdInput 0xFFFF 4 ∧
    (FindLongestMatchH5 referenceCollab (InitializeH5 15 4 4) () abcdInput 0xFFFF (fun _ => 4)
      4 4 4 0 0 initialSearchResult).1 =
      StoreH5 referenceCollab (InitializeH5 15 4 4) abcdInput 0xFFFF 4 :=
  ⟨(FindLongestMatch_stores_cur_ix referenceCollab InitializeH4 (InitializeH5 15 4 4) ()
      abcdInput 0xFFFF (fun _ => 4) 4 4 4 0 0 initialSearchResult
      (fun _ => (by decide : (0 : Nat) < 2 ^ 16))).1,
   (FindLongestMatch_stores_cur_ix referenceCollab InitializeH4 (InitializeH5 15 4 4) ()
      abcdInput 0xFFFF (fun _ => 4) 4 4 4 0 0 initialSearchResult
      (fun _ => (by decide : (0 : Nat) < 2 ^ 16))).2.1⟩

theorem treeLoop_forest_short (self : H10) (data : Nat → Nat)
    (cur mask max_length max_backward : Nat) (record : Bool) (h : max_length < 128) :
    ∀ (d : Nat) (st : TreeState),
      (treeLoop self data cur mask max_length max_backward record d st).forest = st.forest := by
  have hn : ¬ max_length ≥ 128 := by omega
  intro d
  induction d with
  | zero =>
    intro st
    rw [treeLoop_zero, if_neg hn]
  | succ d ih =>
    intro st
    obtain ⟨f1, _, _, _, _, _⟩ := treeRecord_fields data cur mask max_length record st
    by_cases hs : usub cur st.prev_ix = 0 ∨ usub cur st.prev_ix > max_backward
    · rw [treeLoop_stop _ _ _ _ _ _ _ _ _ hs, if_neg hn]
    · by_cases h2 : treeLen data cur mask max_length st ≥ min max_length 128
      · rw [treeLoop_equal _ _ _ _ _ _ _ _ _ hs h2, if_neg hn, f1]
      · by_cases h3 : data ((cur &&& mask) + treeLen data cur mask max_length st) >
            data ((st.prev_ix &&& mask) + treeLen data cur mask max_length st)
        · rw [treeLoop_right _ _ _ _ _ _ _ _ _ hs h2 h3, ih]
          simp only [if_neg hn, f1]
        · rw [treeLoop_left _ _ _ _ _ _ _ _ _ hs h2 h3, ih]
          simp only [if_neg hn, f1]

theorem StoreAndFindMatchesH10_short {Γ : Type} (K : HasherCollab Γ) (self : H10)
    (data : Nat → Nat) (cur mask max_length max_backward best_len : Nat)
    (ms : Option (List BackwardMatch)) (h : max_length < 128) :
    (StoreAndFindMatchesH10 K self data cur mask max_length max_backward best_len ms).1 =
      self := by
  have hn : ¬ max_length ≥ 128 := by omega
  simp only [StoreAndFindMatchesH10, decide_eq_true_eq, if_neg hn]
  rw [treeLoop_forest_short self data cur mask max_length max_backward _ h]

/-- Claim C12.  For every H10 state and every input with `max_length < 128`,
`StoreAndFindMatchesH10`, and therefore `FindAllMatchesH10`, leaves the hash table as it was:
the state after the call, with every entry of `buckets_` and every entry of `forest`, is the
state before it; only the entries of `matches` and `best_len` are results of the call. -/
theorem H10_short_max_length_keeps_table {Γ : Type} (K : HasherCollab Γ) (self : H10)
    (common : Γ) (data : Nat → Nat)
    (cur_ix ring_buffer_mask max_length max_backward best_len gap quality max_distance : Nat)
    (matches_ : Option (List BackwardMatch)) (h : max_length < 128) :
    (StoreAndFindMatchesH10 K self data cur_ix ring_buffer_mask max_length max_backward
      best_len matches_).1 = self ∧
    (∀ i, (StoreAndFindMatchesH10 K self data cur_ix ring_buffer_mask max_length max_backward
      best_len matches_).1.buckets_ i = self.buckets_ i) ∧
    (∀ i, (StoreAndFindMatchesH10 K self data cur_ix ring_buffer_mask max_length max_backward
      best_len matches_).1.forest i = self.forest i) ∧
    (FindAllMatchesH10 K self common data ring_buffer_mask cur_ix max_length max_backward gap
      quality max_distance).1 = self := by
  have e := StoreAndFindMatchesH10_short K self data cur_ix ring_buffer_mask max_length
    max_backward best_len matches_ h
  refine ⟨e, fun i => by rw [e], fun i => by rw [e], ?_⟩
  have key : ∀ (c : Prop) [Decidable c] (bl : Nat) (ms : Option (List BackwardMatch))
      (x : Nat × List BackwardMatch) (tr : H10 × Nat × List BackwardMatch),
      tr = (if c then StoreAndFindMatchesH10 K self data cur_ix ring_buffer_mask max_length
          max_backward bl ms
        else (self, x)) →
      tr.1 = self := by
    intro c _ bl ms x tr e
    rw [e]
    split
    · exact StoreAndFindMatchesH10_short K self data cur_ix ring_buffer_mask max_length
        max_backward bl ms h
    · rfl
  exact key _ _ _ _ _ rfl

/-- Claim C12 on `abcdabcd`: a search at 4 with `max_length = 8` on a prepared hasher of
`lgwin = 10`. -/
theorem H10_short_max_length_keeps_table_witness :
    (FindAllMatchesH10 referenceCollab (PrepareH10 (InitializeH10 10)) () abcdInput 0xFFFF 4 8
      4 0 11 0).1 = PrepareH10 (InitializeH10 10) :=
  (H10_short_max_length_keeps_table referenceCollab (PrepareH10 (InitializeH10 10)) ()
    abcdInput 4 0xFFFF 8 4 0 0 11 0 none (by decide)).2.2.2

theorem treeRecord_matches (data : Nat → Nat) (cur mask max_length : Nat) (record : Bool)
    (st : TreeState) :
    ∃ rest, (treeRecord data cur mask max_length record st).matches_ = st.matches_ ++ rest := by
  unfold treeRecord
  split
  · exact ⟨_, rfl⟩
  · exact ⟨[], by simp⟩

theorem treeLoop_matches_extend (self : H10) (data : Nat → Nat)
    (cur mask max_length max_backward : Nat) (record : Bool) :
    ∀ (d : Nat) (st : TreeState),
      ∃ rest, (treeLoop self data cur mask max_length max_backward record d st).matches_ =
        st.matches_ ++ rest := by
  intro d
  induction d with
  | zero =>
    intro st
    rw [treeLoop_zero]
    split <;> exact ⟨[], by simp⟩
  | succ d ih =>
    intro st
    obtain ⟨r2, e2⟩ := treeRecord_matches data cur mask max_length record st
    by_cases hs : usub cur st.prev_ix = 0 ∨ usub cur st.prev_ix > max_backward
    · rw [treeLoop_stop _ _ _ _ _ _ _ _ _ hs]
      split <;> exact ⟨[], by simp⟩
    · by_cases h2 : treeLen data cur mask max_length st ≥ min max_length 128
      · rw [treeLoop_equal _ _ _ _ _ _ _ _ _ hs h2]
        split <;> exact ⟨r2, e2⟩
      · by_cases h3 : data ((cur &&& mask) + treeLen data cur mask max_length st) >
            data ((st.prev_ix &&& mask) + treeLen data cur mask max_length st)
        · rw [treeLoop_right _ _ _ _ _ _ _ _ _ hs h2 h3]
          obtain ⟨r1, e1⟩ := ih _
          exact ⟨r2 ++ r1, by rw [e1]; simp only [e2, List.append_assoc]⟩
        · rw [treeLoop_left _ _ _ _ _ _ _ _ _ hs h2 h3]
          obtain ⟨r1, e1⟩ := ih _
          exact ⟨r2 ++ r1, by rw [e1]; simp only [e2, List.append_assoc]⟩

theorem treeLoop_matches_first (self : H10) (data : Nat → Nat)
    (cur mask max_length max_backward : Nat) (record : Bool) (d : Nat) (st : TreeState)
    (hs : ¬ (usub cur st.prev_ix = 0 ∨ usub cur st.prev_ix > max_backward)) :
    ∃ rest, (treeLoop self data cur mask max_length max_backward record (d + 1)
      st).matches_ = (treeRecord data cur mask max_length record st).matches_ ++ rest := by
  by_cases h2 : treeLen data cur mask max_length st ≥ min max_length 128
  · rw [treeLoop_equal _ _ _ _ _ _ _ _ _ hs h2]
    split <;> exact ⟨[], by simp⟩
  · by_cases h3 : data ((cur &&& mask) + treeLen data cur mask max_length st) >
        data ((st.prev_ix &&& mask) + treeLen data cur mask max_length st)
    · rw [treeLoop_right _ _ _ _ _ _ _ _ _ hs h2 h3]
      exact treeLoop_matches_extend self data cur mask max_length max_backward record d _
    · rw [treeLoop_left _ _ _ _ _ _ _ _ _ hs h2 h3]
      exact treeLoop_matches_extend self data cur mask max_length max_backward record d _

theorem StoreAndFindMatchesH10_head {Γ : Type} (K : HasherCollab Γ) (self : H10)
    (data : Nat → Nat) (cur mask max_length max_backward best_len : Nat)
    (ms : Option (List BackwardMatch)) (k : Nat) :
    (StoreAndFindMatchesH10 K self data cur mask max_length max_backward best_len ms).1.buckets_
        k =
      if max_length ≥ 128 ∧ k = HashBytesH10 K data (cur &&& mask) then u32 cur
      else self.buckets_ k := by
  simp only [StoreAndFindMatchesH10, decide_eq_true_eq]
  by_cases h : max_length ≥ 128
  · rw [if_pos h]
    unfold upd
    by_cases hk : k = HashBytesH10 K data (cur &&& mask)
    · rw [if_pos hk, if_pos ⟨h, hk⟩]
    · rw [if_neg hk, if_neg (fun hh => hk hh.2)]
  · rw [if_neg h, if_neg (fun hh => h hh.1)]

theorem FindAllMatchesH10_head {Γ : Type} (K : HasherCollab Γ) (self : H10) (common : Γ)
    (data : Nat → Nat) (mask cur max_length max_backward gap quality max_distance k : Nat)
    (h : max_length ≥ 128 → k ≠ HashBytesH10 K data (cur &&& mask)) :
    (FindAllMatchesH10 K self common data mask cur max_length max_backward gap quality
      max_distance).1.buckets_ k = self.buckets_ k := by
  have key : ∀ (c : Prop) [Decidable c] (bl : Nat) (ms : Option (List BackwardMatch))
      (x : Nat × List BackwardMatch) (tr : H10 × Nat × List BackwardMatch),
      tr = (if c then StoreAndFindMatchesH10 K self data cur mask max_length max_backward bl ms
        else (self, x)) →
      tr.1.buckets_ k = self.buckets_ k := by
    intro c _ bl ms x tr e
    rw [e]
    split
    · rw [StoreAndFindMatchesH10_head, if_neg (fun hh => h hh.1 hh.2)]
    · rfl
  exact key _ _ _ _ _ rfl

theorem runH10_head {Γ : Type} (K : HasherCollab Γ) (data : Nat → Nat) (mask k : Nat) :
    ∀ (calls : List H10Call) (st : H10 × Γ),
      (∀ c ∈ calls, c.mayReroot = true → HashBytesH10 K data (c.position &&& mask) ≠ k) →
      (runH10 K data mask st calls).1.buckets_ k = st.1.buckets_ k := by
  intro calls
  induction calls with
  | nil => intro st _; rfl
  | cons c cs ih =>
    intro st h
    rw [runH10, ih _ (fun c2 hc2 => h c2 (List.mem_cons_of_mem _ hc2))]
    have hc := h c (List.mem_cons_self _ _)
    cases c with
    | store ix =>
      simp only [callH10, StoreH10]
      rw [StoreAndFindMatchesH10_head, if_neg]
      intro hh
      exact hc rfl hh.2.symm
    | find cur_ix max_length max_backward gap quality max_distance =>
      simp only [callH10]
      apply FindAllMatchesH10_head
      intro hml hk
      exact hc (by simp [H10Call.mayReroot, hml]) hk.symm

theorem usub_zero_right (a : Nat) (h : a < 2 ^ 64) : usub a 0 = a := by
  unfold usub
  norm_num at h ⊢
  omega

/-- Claim C11, amended.  Tree re-root: for every `ix`, after `StoreH10(data, mask, ix)` the
head of the bucket of `key = HashBytesH10(data[ix & mask ..])` is `uint32(ix)` and every other
head is as it was; and, for `ix < 2^32`, after further calls of the session none of which
re-roots at that key, a `StoreAndFindMatchesH10` call at a later position `cur_ix` (a `uint`)
with the same key and `cur_ix - ix <= max_backward` compares against `ix` in the first round of
its loop, and writes the entry `(cur_ix - ix, len)` for it as its first entry when the common
length `len` exceeds `best_len`. -/
theorem StoreH10_head_is_first_candidate {Γ : Type} (K : HasherCollab Γ) (s : H10)
    (common : Γ) (data : Nat → Nat) (mask ix : Nat) :
    (StoreH10 K s data mask ix).buckets_ (HashBytesH10 K data (ix &&& mask)) = u32 ix ∧
    (∀ k, k ≠ HashBytesH10 K data (ix &&& mask) →
      (StoreH10 K s data mask ix).buckets_ k = s.buckets_ k) ∧
    (ix < 2 ^ 32 →
      ∀ (calls : List H10Call) (cur_ix max_length max_backward best_len : Nat)
        (ms : List BackwardMatch),
      ix < cur_ix → cur_ix < 2 ^ 64 → max_length < 2 ^ 64 →
      HashBytesH10 K data (cur_ix &&& mask) = HashBytesH10 K data (ix &&& mask) →
      (∀ c ∈ calls, c.mayReroot = true →
        HashBytesH10 K data (c.position &&& mask) ≠ HashBytesH10 K data (ix &&& mask)) →
      cur_ix - ix ≤ max_backward →
      firstCandidateH10 K (runH10 K data mask (StoreH10 K s data mask ix, common) calls).1 data
        cur_ix mask max_backward = some ix ∧
      (best_len < FindMatchLengthWithLimit data (cur_ix &&& mask) (ix &&& mask) max_length →
        ∃ rest, (StoreAndFindMatchesH10 K
            (runH10 K data mask (StoreH10 K s data mask ix, common) calls).1 data cur_ix mask
            max_length max_backward best_len (some ms)).2.2 =
          ms ++ InitBackwardMatch (cur_ix - ix)
            (FindMatchLengthWithLimit data (cur_ix &&& mask) (ix &&& mask) max_length) ::
            rest)) := by
  have hhead : (StoreH10 K s data mask ix).buckets_ (HashBytesH10 K data (ix &&& mask)) =
      u32 ix := by
    simp only [StoreH10]
    rw [StoreAndFindMatchesH10_head, if_pos ⟨by norm_num, rfl⟩]
  refine ⟨hhead, ?_, ?_⟩
  · intro k hk
    simp only [StoreH10]
    rw [StoreAndFindMatchesH10_head, if_neg (fun hh => hk hh.2)]
  intro hix calls cur_ix max_length max_backward best_len ms hlater hcur hml hkey hcalls hback
  have hrun : (runH10 K data mask (StoreH10 K s data mask ix, common) calls).1.buckets_
      (HashBytesH10 K data (cur_ix &&& mask)) = ix := by
    rw [hkey, runH10_head K data mask _ calls _ hcalls, hhead, u32_of_lt ix hix]
  have hsub : usub cur_ix ix = cur_ix - ix := by
    unfold usub
    norm_num at hcur ⊢
    omega
  have hns : ¬ (usub cur_ix ix = 0 ∨ usub cur_ix ix > max_backward) := by
    rw [hsub]
    omega
  refine ⟨?_, ?_⟩
  · unfold firstCandidateH10
    simp only [hrun]
    rw [if_neg hns]
  · intro hbl
    generalize hs2 : (runH10 K data mask (StoreH10 K s data mask ix, common) calls).1 = s2
      at hrun ⊢
    simp only [StoreAndFindMatchesH10, hrun, Option.isSome_some, Option.getD_some]
    obtain ⟨st0, hst0⟩ : ∃ st0 : TreeState, st0 =
        { forest := s2.forest, prev_ix := ix, node_left := LeftChildIndexH10 s2 cur_ix,
          node_right := RightChildIndexH10 s2 cur_ix, best_len_left := 0, best_len_right := 0,
          best_len := best_len, matches_ := ms } := ⟨_, rfl⟩
    rw [← hst0]
    have e1 : st0.prev_ix = ix := by rw [hst0]
    have e2 : st0.matches_ = ms := by rw [hst0]
    have e3 : st0.best_len = best_len := by rw [hst0]
    have e4 : treeLen data cur_ix mask max_length st0 =
        FindMatchLengthWithLimit data (cur_ix &&& mask) (ix &&& mask) max_length := by
      rw [hst0]
      simp only [treeLen, Nat.min_self, Nat.add_zero, Nat.zero_add]
      rw [usub_zero_right max_length hml]
    obtain ⟨rest, hr⟩ := treeLoop_matches_first s2 data cur_ix mask max_length max_backward
      true 63 st0 (by rw [e1]; exact hns)
    refine ⟨rest, ?_⟩
    rw [hr]
    unfold treeRecord
    rw [if_pos ⟨rfl, by rw [e3, e4]; exact hbl⟩]
    simp only [e1, e2, e4, hsub, List.append_assoc, List.singleton_append]

/-- Claim C11 on `abcdabcd`: the store at 0 leaves `0` at the head of its key, and after the
store at 1 the call at 4 with `max_backward = 4` compares against 0 first. -/
theorem StoreH10_head_is_first_candidate_witness :
    (StoreH10 referenceCollab (PrepareH10 (InitializeH10 10)) abcdInput 0xFFFF 0).buckets_
      (HashBytesH10 referenceCollab abcdInput (0 &&& 0xFFFF)) = u32 0 ∧
    firstCandidateH10 referenceCollab
      (runH10 referenceCollab abcdInput 0xFFFF
        (StoreH10 referenceCollab (PrepareH10 (InitializeH10 10)) abcdInput 0xFFFF 0, ())
        [H10Call.store 1]).1 abcdInput 4 0xFFFF 4 = some 0 :=
  ⟨(StoreH10_head_is_first_candidate referenceCollab (PrepareH10 (InitializeH10 10)) ()
      abcdInput 0xFFFF 0).1,
   ((StoreH10_head_is_first_candidate referenceCollab (PrepareH10 (InitializeH10 10)) ()
      abcdInput 0xFFFF 0).2.2 (by decide) [H10Call.store 1] 4 8 4 0 [] (by decide) (by decide)
      (by decide) (by decide) (by decide) (by decide)).1⟩

/-- Claim C11 as stated fails for a position that is not a `uint32`: after `StoreH10` at
`ix = 2^32` on a prepared hasher (`lgwin = 10`, every byte `7`, mask `0xFFFF`) the head of
the key is `uint32(ix) = 0`; the call at `cur_ix = 2^32 + 1` with the same key, `max_length = 8`
and `max_backward = 1 >= cur_ix - ix` then finds the link `0` further away than `max_backward`,
ends its loop without comparing, and writes no entry, although the eight bytes at `ix` are
those at `cur_ix`. -/
theorem StoreH10_head_is_first_candidate_counterexample :
    HashBytesH10 referenceCollab sevensInput (4294967297 &&& 0xFFFF) =
      HashBytesH10 referenceCollab sevensInput (4294967296 &&& 0xFFFF) ∧
    4294967297 - 4294967296 ≤ 1 ∧
    (StoreH10 referenceCollab (PrepareH10 (InitializeH10 10)) sevensInput 0xFFFF
      4294967296).buckets_ (HashBytesH10 referenceCollab sevensInput (4294967296 &&& 0xFFFF))
      = 0 ∧
    firstCandidateH10 referenceCollab
      (StoreH10 referenceCollab (PrepareH10 (InitializeH10 10)) sevensInput 0xFFFF 4294967296)
      sevensInput 4294967297 0xFFFF 1 = none ∧
    (StoreAndFindMatchesH10 referenceCollab
      (StoreH10 referenceCollab (PrepareH10 (InitializeH10 10)) sevensInput 0xFFFF 4294967296)
      sevensInput 4294967297 0xFFFF 8 1 0 (some [])).2.2 = [] ∧
    FindMatchLengthWithLimit sevensInput (4294967297 &&& 0xFFFF) (4294967296 &&& 0xFFFF) 8
      = 8 := by
  decide

theorem StoreAndFindMatchesH10_window_mask {Γ : Type} (K : HasherCollab Γ) (self : H10)
    (data : Nat → Nat) (cur mask max_length max_backward best_len : Nat)
    (ms : Option (List BackwardMatch)) :
    (StoreAndFindMatchesH10 K self data cur mask max_length max_backward best_len
      ms).1.window_mask_ = self.window_mask_ := rfl

theorem stitchLoop_eq_foldl {Γ : Type} (K : HasherCollab Γ) (ringbuffer : Nat → Nat)
    (mask position w : Nat) (hw : w < 2 ^ 64) :
    ∀ (n lo : Nat) (s : H10), s.window_mask_ = w →
      (∀ i, lo ≤ i → i < lo + n → max 15 (position - i) ≤ w) →
      iterLoop (fun i s =>
          let max_backward := usub s.window_mask_ (max (BROTLI_WINDOW_GAP - 1) (position - i))
          (StoreAndFindMatchesH10 K s ringbuffer i mask 128 max_backward 0 none).1) lo n s =
        (List.range' lo n).foldl (fun s i =>
          (StoreAndFindMatchesH10 K s ringbuffer i mask 128 (w - max 15 (position - i)) 0
            none).1) s := by
  intro n
  induction n with
  | zero => intro lo s _ _; rfl
  | succ n ih =>
    intro lo s hs hb
    rw [iterLoop, List.range', List.foldl_cons]
    have h1 := hb lo (Nat.le_refl _) (by omega)
    have e : usub s.window_mask_ (max (BROTLI_WINDOW_GAP - 1) (position - lo)) =
        w - max 15 (position - lo) := by
      rw [hs]
      show usub w (max 15 (position - lo)) = _
      exact usub_of_le _ _ hw h1
    simp only [e]
    exact ih (lo + 1) _ hs (fun i h2 h3 => hb i (by omega) (by omega))

theorem window_mask_ge (lgwin : Nat) (hlg : 10 ≤ lgwin) (hlg2 : lgwin < 64) :
    127 ≤ (InitializeH10 lgwin).window_mask_ ∧ (InitializeH10 lgwin).window_mask_ < 2 ^ 63 := by
  show 127 ≤ usub (u64 (1 <<< lgwin)) 1 ∧ usub (u64 (1 <<< lgwin)) 1 < 2 ^ 63
  rw [Nat.shiftLeft_eq, Nat.one_mul]
  have h1 : 2 ^ lgwin ≤ 2 ^ 63 := Nat.pow_le_pow_right (by norm_num) (by omega)
  have h2 : 2 ^ 10 ≤ 2 ^ lgwin := Nat.pow_le_pow_right (by norm_num) hlg
  generalize 2 ^ lgwin = W at h1 h2
  unfold usub u64
  norm_num at h1 h2 ⊢
  omega

/-- Claim C20, amended.  `StitchToPreviousBlockH10` on a hasher of `lgwin >= 10` (the window size
`2^lgwin` being a `uint`) changes
nothing unless `num_bytes >= 3` and `position >= 128`; otherwise, when
`position - 127 + num_bytes` does not overflow a `uint`, it re-roots exactly the positions
`i = position - 127, ..., position - 127 + min(num_bytes, 127) - 1`, in increasing order (at
most 127 positions, all below `position`), each by `StoreAndFindMatchesH10` with
`max_length = 128` and `max_backward = window_mask - max(15, position - i)`; so that
`max_backward + (position - i) <= window_mask`, and every link `prev` (a `uint32`) at which
the loop of such a call does not end lies before `i` and at most `window_mask` behind
`position`. -/
theorem StitchToPreviousBlockH10_reroots {Γ : Type} (K : HasherCollab Γ) (self : H10)
    (lgwin num_bytes position : Nat) (ringbuffer : Nat → Nat) (ringbuffer_mask : Nat)
    (hlg : 10 ≤ lgwin) (hlg2 : lgwin < 64)
    (hw : self.window_mask_ = (InitializeH10 lgwin).window_mask_)
    (hpos : position < 2 ^ 64) (hov : position - 127 + num_bytes < 2 ^ 64) :
    (¬ (num_bytes ≥ 3 ∧ position ≥ 128) →
      StitchToPreviousBlockH10 K self num_bytes position ringbuffer ringbuffer_mask = self) ∧
    (num_bytes ≥ 3 ∧ position ≥ 128 →
      StitchToPreviousBlockH10 K self num_bytes position ringbuffer ringbuffer_mask =
        (List.range' (position - 127) (min num_bytes 127)).foldl (fun s i =>
          (StoreAndFindMatchesH10 K s ringbuffer i ringbuffer_mask 128
            (self.window_mask_ - max 15 (position - i)) 0 none).1) self) ∧
    min num_bytes 127 ≤ 127 ∧
    (position ≥ 128 → ∀ i ∈ List.range' (position - 127) (min num_bytes 127),
      i < position ∧
      (self.window_mask_ - max 15 (position - i)) + (position - i) ≤ self.window_mask_ ∧
      ∀ prev, prev < 2 ^ 32 →
        ¬ (usub i prev = 0 ∨ usub i prev > self.window_mask_ - max 15 (position - i)) →
        prev < i ∧ position - prev ≤ self.window_mask_) := by
  obtain ⟨hw1, hw3⟩ := window_mask_ge lgwin hlg hlg2
  rw [← hw] at hw1 hw3
  have hw2 : self.window_mask_ < 2 ^ 64 := Nat.lt_trans hw3 (by norm_num)
  refine ⟨?_, ?_, Nat.min_le_right _ _, ?_⟩
  · intro h
    have h2 : ¬ (num_bytes ≥ HashTypeLengthH10 - 1 ∧ position ≥ 128) := h
    unfold StitchToPreviousBlockH10
    rw [if_neg h2]
  · intro h
    have h2 : num_bytes ≥ HashTypeLengthH10 - 1 ∧ position ≥ 128 := h
    unfold StitchToPreviousBlockH10
    rw [if_pos h2]
    simp only
    have e1 : position - 128 + 1 = position - 127 := by omega
    have e2 : u64 (position - 127 + num_bytes) = position - 127 + num_bytes :=
      Nat.mod_eq_of_lt hov
    have e3 : min position (position - 127 + num_bytes) - (position - 127) =
        min num_bytes 127 := by
      rw [Nat.min_def, Nat.min_def]
      split <;> split <;> omega
    rw [e1, e2, e3]
    apply stitchLoop_eq_foldl K ringbuffer ringbuffer_mask position self.window_mask_ hw2 _ _ _
      rfl
    intro i h1 h2
    have : min num_bytes 127 ≤ 127 := Nat.min_le_right _ _
    rw [Nat.max_def]
    split <;> omega
  · intro hp i hi
    rw [List.mem_range'_1] at hi
    have hm : min num_bytes 127 ≤ 127 := Nat.min_le_right _ _
    have hmax : position - i ≤ max 15 (position - i) := Nat.le_max_right _ _
    have hmax2 : max 15 (position - i) ≤ self.window_mask_ := by
      rw [Nat.max_def]
      split <;> omega
    refine ⟨by omega, by omega, ?_⟩
    intro prev hprev hns
    have hprev2 : prev < 2 ^ 64 := Nat.lt_of_lt_of_le hprev (by norm_num)
    have hi2 : i < 2 ^ 64 := by omega
    have hlt : prev < i := by
      by_contra hge
      apply hns
      by_cases he : prev = i
      · left
        rw [he]
        unfold usub
        norm_num at hi2 ⊢
        omega
      · right
        have : usub i prev = 2 ^ 64 - (prev - i) := by
          unfold usub
          norm_num at hi2 hprev ⊢
          omega
        rw [this]
        norm_num at hprev hi2 hw3 ⊢
        omega
    have hsub : usub i prev = i - prev := by
      unfold usub
      norm_num at hi2 ⊢
      omega
    rw [hsub] at hns
    refine ⟨hlt, ?_⟩
    omega

/-- Claim C20 for `num_bytes = 3` and `position = 128` on a prepared hasher of `lgwin = 10`:
the positions 1, 2, 3 are re-rooted. -/
theorem StitchToPreviousBlockH10_reroots_witness :
    StitchToPreviousBlockH10 referenceCollab (PrepareH10 (InitializeH10 10)) 3 128 sevensInput
        0xFFFF =
      (List.range' (128 - 127) (min 3 127)).foldl (fun s i =>
        (StoreAndFindMatchesH10 referenceCollab s sevensInput i 0xFFFF 128
          ((PrepareH10 (InitializeH10 10)).window_mask_ - max 15 (128 - i)) 0 none).1)
        (PrepareH10 (InitializeH10 10)) :=
  (StitchToPreviousBlockH10_reroots referenceCollab (PrepareH10 (InitializeH10 10)) 10 3 128
    sevensInput 0xFFFF (by decide) (by decide) rfl (by decide) (by decide)).2.1 (by decide)

/-- Claim C20 as stated fails when `position - 127 + num_bytes` overflows: for
`num_bytes = 2^64 - 1` and `position = 128` on a prepared hasher (`lgwin = 10`, every byte
`7`, mask `0xFFFF`), `i_end = min(128, 1 + (2^64 - 1)) = min(128, 0) = 0`, the loop from
`i_start = 1` does not run, and the head of the key is still `invalid_pos_`; re-rooting the
positions `1 .. 127` would leave the head `127`. -/
theorem StitchToPreviousBlockH10_reroots_counterexample :
    (18446744073709551615 ≥ 3 ∧ 128 ≥ 128) ∧
    min 18446744073709551615 127 = 127 ∧
    (StitchToPreviousBlockH10 referenceCollab (PrepareH10 (InitializeH10 10))
      18446744073709551615 128 sevensInput 0xFFFF).buckets_
        (HashBytesH10 referenceCollab sevensInput 1) = 4294966273 ∧
    ((List.range' (128 - 127) (min 18446744073709551615 127)).foldl (fun s i =>
        (StoreAndFindMatchesH10 referenceCollab s sevensInput i 0xFFFF 128
          ((PrepareH10 (InitializeH10 10)).window_mask_ - max 15 (128 - i)) 0 none).1)
        (PrepareH10 (InitializeH10 10))).buckets_
        (HashBytesH10 referenceCollab sevensInput 1) = 127 := by
  decide

theorem sum_map_range_bump (f : Nat → Nat) (s : Nat) :
    ∀ S, s < S →
      ((List.range S).map (fun t => if t = s then f t + 1 else f t)).sum =
        ((List.range S).map f).sum + 1 := by
  intro S
  induction S with
  | zero => intro h; omega
  | succ n ih =>
    intro h
    rw [List.range_succ, List.map_append, List.map_append, List.sum_append, List.sum_append]
    simp only [List.map_cons, List.map_nil, List.sum_cons, List.sum_nil, Nat.add_zero]
    by_cases hn : s < n
    · rw [ih hn, if_neg (by omega)]
      omega
    · have hs : s = n := by omega
      subst hs
      rw [if_pos rfl]
      have : (List.range s).map (fun t => if t = s then f t + 1 else f t) =
          (List.range s).map f := by
        apply List.map_congr_left
        intro a ha
        rw [List.mem_range] at ha
        rw [if_neg (by omega)]
      rw [this]
      omega

theorem sum_map_range_zero (S : Nat) : ((List.range S).map (fun _ => 0)).sum = 0 := by
  induction S with
  | zero => rfl
  | succ n ih => rw [List.range_succ, List.map_append, List.sum_append, ih]; rfl

theorem sum_map_total_set {κ : Type} (hs : List (HistogramDistance κ)) (n b : Nat)
    (h h2 : HistogramDistance κ) (hb : b < n) (hget : hs[b]? = some h)
    (ht : h2.total_count_ = h.total_count_ + 1) :
    (((hs.set b h2).take n).map (fun h => h.total_count_)).sum =
      ((hs.take n).map (fun h => h.total_count_)).sum + 1 := by
  obtain ⟨hlt, hval⟩ := List.getElem?_eq_some_iff.mp hget
  have hl : b < ((hs.take n).map (fun h => h.total_count_)).length := by
    rw [List.length_map, List.length_take]
    omega
  have e : ((hs.set b h2).take n).map (fun h => h.total_count_) =
      ((hs.take n).map (fun h => h.total_count_)).set b
        (((hs.take n).map (fun h => h.total_count_))[b] + 1) := by
    rw [List.set_take, List.map_set]
    congr 1
    rw [ht, List.getElem_map, List.getElem_take, hval]
  rw [e, sum_set_succ _ _ hl]

theorem clear_spec {κ : Type} (huge : κ) (hs : List (HistogramDistance κ)) (n : Nat)
    (hn : n ≤ hs.length) :
    ∃ hs0, ClearHistogramsDistance huge hs n = some hs0 ∧ ClearedBelow huge hs.length n hs0 := by
  have h := forLoop_inv (fun i (hs : List (HistogramDistance κ)) =>
      setAt hs i (HistogramClearDistance huge)) (ClearedBelow huge hs.length) n 0 hs
    ⟨rfl, fun k hk => absurd hk (Nat.not_lt_zero _)⟩
    (by
      intro i s _ hi hP
      obtain ⟨hl, hc⟩ := hP
      refine ⟨s.set i (HistogramClearDistance huge), setAt_eq_some _ _ _ (by omega), ?_, ?_⟩
      · rw [List.length_set]; exact hl
      · intro k hk
        by_cases hki : k = i
        · subst hki
          rw [List.getElem?_set_self (by omega)]
        · rw [List.getElem?_set_ne (fun h => hki h.symm)]
          exact hc k (by omega))
  rw [Nat.zero_add] at h
  exact h

theorem sum_take_cleared {κ : Type} (huge : κ) :
    ∀ (n : Nat) (hs : List (HistogramDistance κ)),
      (∀ k, k < n → hs[k]? = some (HistogramClearDistance huge)) →
      ((hs.take n).map (fun h => h.total_count_)).sum = 0 := by
  intro n
  induction n with
  | zero => intro hs _; simp
  | succ n ih =>
    intro hs h
    cases hs with
    | nil => simp
    | cons a t =>
      have h0 := h 0 (by omega)
      simp only [List.getElem?_cons_zero, Option.some.injEq] at h0
      rw [List.take_succ_cons, List.map_cons, List.sum_cons, h0]
      rw [ih t (fun k hk => by have := h (k + 1) (by omega); simpa using this)]
      rfl

theorem build_step {κ : Type} (data : Nat → Nat) (block_ids : List Nat)
    (num_histograms S len length : Nat)
    (hlen : length ≤ block_ids.length) (hnl : num_histograms ≤ len)
    (hids : ∀ i b, i < length → block_ids[i]? = some b → b < num_histograms)
    (hS : ∀ i, i < length → data i < S)
    (i : Nat) (hs : List (HistogramDistance κ)) (hi : i < length)
    (hP : BuildCounted data block_ids num_histograms S len i hs) :
    ∃ hs1, ((block_ids[i]?).bind fun b => (hs[b]?).bind fun h =>
        setAt hs b (HistogramAddDistance h (data i))) = some hs1 ∧
      BuildCounted data block_ids num_histograms S len (i + 1) hs1 := by
  obtain ⟨hl, hc, hsum⟩ := hP
  have hib : i < block_ids.length := by omega
  have hb : block_ids[i]? = some block_ids[i] := List.getElem?_eq_getElem hib
  have hbn := hids i _ hi hb
  obtain ⟨h, hget, hd, ht, hts⟩ := hc _ hbn
  refine ⟨hs.set block_ids[i] (HistogramAddDistance h (data i)), ?_, ?_, ?_, ?_⟩
  · rw [hb, Option.some_bind, hget, Option.some_bind]
    exact setAt_eq_some _ _ _ (by omega)
  · rw [List.length_set]; exact hl
  · intro k hk
    by_cases hkb : k = block_ids[i]
    · subst hkb
      refine ⟨HistogramAddDistance h (data i), ?_, ?_, ?_, ?_⟩
      · rw [List.getElem?_set_self (by omega)]
      · intro s
        rw [List.range_succ, List.countP_append]
        simp only [HistogramAddDistance, List.countP_cons, List.countP_nil]
        by_cases hs2 : s = data i
        · subst hs2
          rw [if_pos rfl, hd]
          simp [hb]
        · rw [if_neg hs2, hd]
          have : ¬ (data i = s) := fun h => hs2 h.symm
          simp [hb, this]
      · rw [List.range_succ, List.countP_append]
        simp only [HistogramAddDistance, List.countP_cons, List.countP_nil]
        rw [ht]
        simp [hb]
      · simp only [HistogramAddDistance]
        rw [sum_map_range_bump h.data_ (data i) S (hS i hi), hts]
    · obtain ⟨h2, hget2, hd2, ht2, hts2⟩ := hc k hk
      refine ⟨h2, ?_, ?_, ?_, hts2⟩
      · rw [List.getElem?_set_ne (fun h => hkb h.symm)]
        exact hget2
      · intro s
        rw [List.range_succ, List.countP_append, hd2 s]
        have : ¬ (block_ids[i] = k) := fun h => hkb h.symm
        simp [hb, this]
      · rw [List.range_succ, List.countP_append, ht2]
        have : ¬ (block_ids[i] = k) := fun h => hkb h.symm
        simp [hb, this]
  · rw [sum_map_total_set hs num_histograms block_ids[i] h _ hbn hget rfl, hsum]

theorem BuildBlockHistogramsDistance_spec {κ : Type} (huge : κ) (data : Nat → Nat)
    (length : Nat) (block_ids : List Nat) (num_histograms S : Nat)
    (histograms : List (HistogramDistance κ))
    (hlen : length ≤ block_ids.length) (hnl : num_histograms ≤ histograms.length)
    (hids : ∀ i b, i < length → block_ids[i]? = some b → b < num_histograms)
    (hS : ∀ i, i < length → data i < S) :
    ∃ hs, BuildBlockHistogramsDistance huge data length block_ids num_histograms histograms =
        some hs ∧
      BuildCounted data block_ids num_histograms S histograms.length length hs := by
  obtain ⟨hs0, e0, hl0, hc0⟩ := clear_spec huge histograms num_histograms hnl
  have h := forLoop_inv (fun i (hs : List (HistogramDistance κ)) =>
      (block_ids[i]?).bind fun b => (hs[b]?).bind fun h =>
        setAt hs b (HistogramAddDistance h (data i)))
    (BuildCounted data block_ids num_histograms S histograms.length) length 0 hs0
    ⟨hl0, fun k hk => ⟨_, hc0 k hk, fun s => rfl, rfl,
        (sum_map_range_zero S).symm⟩,
      sum_take_cleared huge num_histograms hs0 hc0⟩
    (fun i s _ hi hP => build_step data block_ids num_histograms S histograms.length length
      hlen hnl hids hS i s (by omega) hP)
  rw [Nat.zero_add] at h
  obtain ⟨hs, e, hP⟩ := h
  refine ⟨hs, ?_, hP⟩
  unfold BuildBlockHistogramsDistance
  rw [e0, Option.some_bind]
  exact e

/-- Claim C17.  After `BuildBlockHistogramsDistance(data, length, block_ids, num_histograms,
histograms)` with every `block_ids[i] < num_histograms` (the arrays holding the `length` ids
and the `num_histograms` histograms), the call returns and, for each `k < num_histograms` and
each symbol `s`, the counter `histograms[k].data_[s]` is the number of `i < length` with
`block_ids[i] = k` and `data[i] = s`, and `histograms[k].total_count_` is the number of
`i < length` with `block_ids[i] = k`; so each `total_count_` is the sum of that histogram's
counters (over any range `[0, S)` that holds the symbols) and the totals add up to
`length`. -/
theorem BuildBlockHistogramsDistance_counts {κ : Type} (huge : κ) (data : Nat → Nat)
    (length : Nat) (block_ids : List Nat) (num_histograms S : Nat)
    (histograms : List (HistogramDistance κ))
    (hlen : length ≤ block_ids.length) (hnl : num_histograms ≤ histograms.length)
    (hids : ∀ i b, i < length → block_ids[i]? = some b → b < num_histograms)
    (hS : ∀ i, i < length → data i < S) :
    ∃ hs, BuildBlockHistogramsDistance huge data length block_ids num_histograms histograms =
        some hs ∧
      (∀ k, k < num_histograms → ∃ h, hs[k]? = some h ∧
        (∀ s, h.data_ s = (List.range length).countP
          (fun i => decide (block_ids[i]? = some k ∧ data i = s))) ∧
        h.total_count_ = (List.range length).countP
          (fun i => decide (block_ids[i]? = some k)) ∧
        h.total_count_ = ((List.range S).map h.data_).sum) ∧
      ((hs.take num_histograms).map (fun h => h.total_count_)).sum = length := by
  obtain ⟨hs, e, _, h2, h3⟩ := BuildBlockHistogramsDistance_spec huge data length block_ids
    num_histograms S histograms hlen hnl hids hS
  exact ⟨hs, e, h2, h3⟩

/-- Claim C17 on the symbols `5, 6, 5, 7` with the block ids `0, 1, 0, 1`. -/
theorem BuildBlockHistogramsDistance_counts_witness :
    ∃ hs, BuildBlockHistogramsDistance (0 : Nat) fourSymbols 4 [0, 1, 0, 1] 2
        [HistogramClearDistance 0, HistogramClearDistance 0] = some hs ∧
      (∀ k, k < 2 → ∃ h, hs[k]? = some h ∧
        (∀ s, h.data_ s = (List.range 4).countP
          (fun i => decide ([0, 1, 0, 1][i]? = some k ∧ fourSymbols i = s))) ∧
        h.total_count_ = (List.range 4).countP
          (fun i => decide ([0, 1, 0, 1][i]? = some k)) ∧
        h.total_count_ = ((List.range 8).map h.data_).sum) ∧
      ((hs.take 2).map (fun h => h.total_count_)).sum = 4 :=
  BuildBlockHistogramsDistance_counts 0 fourSymbols 4 [0, 1, 0, 1] 2 8
    [HistogramClearDistance 0, HistogramClearDistance 0] (by decide) (by decide)
    (by intro i b hi hb; interval_cases i <;> simp at hb <;> omega)
    (by intro i hi; interval_cases i <;> decide)

theorem fill_spec {α : Type} (c : α) (xs0 : List α) (n : Nat) (hn : n ≤ xs0.length) :
    ∃ xs, forLoop (fun i xs => setAt xs i c) 0 n xs0 = some xs ∧ FilledBelow c xs0 n xs := by
  have h := forLoop_inv (fun i (xs : List α) => setAt xs i c) (FilledBelow c xs0) n 0 xs0
    ⟨rfl, fun a ha => absurd ha (Nat.not_lt_zero _), fun _ _ => rfl⟩
    (by
      intro i s _ hi hP
      obtain ⟨hl, h1, h2⟩ := hP
      refine ⟨s.set i c, setAt_eq_some _ _ _ (by omega), ?_, ?_, ?_⟩
      · rw [List.length_set]; exact hl
      · intro a ha
        by_cases hai : a = i
        · subst hai
          rw [List.getElem?_set_self (by omega)]
        · rw [List.getElem?_set_ne (fun h => hai h.symm)]
          exact h1 a (by omega)
      · intro a ha
        rw [List.getElem?_set_ne (by omega)]
        exact h2 a (by omega))
  rw [Nat.zero_add] at h
  exact h

theorem remap_number_step (block_ids : List Nat) (num_histograms len length : Nat)
    (hlen : length ≤ block_ids.length) (hnl : num_histograms ≤ len)
    (hnh : num_histograms ≤ 256)
    (hids : ∀ i b, i < length → block_ids[i]? = some b → b < num_histograms)
    (i : Nat) (st : List Nat × Nat) (hi : i < length)
    (hP : RemapNumbered block_ids num_histograms len i st) :
    ∃ st1, ((block_ids[i]?).bind fun b =>
        (assert (decide (b < num_histograms))).bind fun _ =>
        (st.1[b]?).bind fun v =>
        if v = RemapBlockIdsDistance_kInvalidId then
          (setAt st.1 b st.2).bind fun ni => some (ni, u16 (st.2 + 1))
        else some st) = some st1 ∧
      RemapNumbered block_ids num_histograms len (i + 1) st1 := by
  obtain ⟨hl, p2, p3, p4, p5, p6, p7⟩ := hP
  have hib : i < block_ids.length := by omega
  have hb : block_ids[i]? = some block_ids[i] := List.getElem?_eq_getElem hib
  have hbn := hids i _ hi hb
  generalize block_ids[i] = b at hb hbn
  obtain ⟨v, hv, hvr⟩ := p2 b hbn
  have h256 : RemapBlockIdsDistance_kInvalidId = 256 := rfl
  rw [hb, Option.some_bind]
  simp only [assert, hbn, decide_True, if_true, Option.some_bind, hv]
  by_cases hinv : v = RemapBlockIdsDistance_kInvalidId
  · -- a new id
    rw [if_pos hinv]
    subst hinv
    have hbl : b < st.1.length := by omega
    rw [setAt_eq_some _ _ _ hbl, Option.some_bind]
    have hunseen : ¬ ∃ j, j < i ∧ block_ids[j]? = some b := by
      intro hex
      exact (p3 b hbn).mpr hex hv
    -- the numbers below `next_id + 1` are in use
    have hsurj : ∀ w, w < st.2 + 1 → ∃ a, a < num_histograms ∧ (st.1.set b st.2)[a]? = some w := by
      intro w hw
      rcases Nat.lt_succ_iff_lt_or_eq.mp hw with hlt | heq
      · obtain ⟨a, ha, hav⟩ := p5 w hlt
        have hab : a ≠ b := by
          intro h
          rw [h, hv] at hav
          simp only [Option.some.injEq] at hav
          omega
        exact ⟨a, ha, by rw [List.getElem?_set_ne (fun h => hab h.symm)]; exact hav⟩
      · exact ⟨b, hbn, by rw [heq, List.getElem?_set_self hbl]⟩
    have hle : st.2 + 1 ≤ num_histograms :=
      pigeonhole_surj (fun a => (st.1.set b st.2)[a]?) (st.2 + 1) num_histograms hsurj
    have hu : u16 (st.2 + 1) = st.2 + 1 := Nat.mod_eq_of_lt (by omega)
    rw [hu]
    refine ⟨_, rfl, ?_, ?_, ?_, ?_, ?_, ?_, hle⟩
    · show (st.1.set b st.2).length = len
      rw [List.length_set]; exact hl
    · intro a ha
      show ∃ v, (st.1.set b st.2)[a]? = some v ∧ (v = RemapBlockIdsDistance_kInvalidId ∨
        v < st.2 + 1)
      by_cases hab : a = b
      · subst hab
        exact ⟨st.2, List.getElem?_set_self hbl, Or.inr (by omega)⟩
      · rw [List.getElem?_set_ne (fun h => hab h.symm)]
        obtain ⟨w, hw, hwr⟩ := p2 a ha
        exact ⟨w, hw, hwr.imp id (fun h => by omega)⟩
    · intro a ha
      show (st.1.set b st.2)[a]? ≠ some RemapBlockIdsDistance_kInvalidId ↔ _
      by_cases hab : a = b
      · subst hab
        rw [List.getElem?_set_self hbl]
        constructor
        · intro _
          exact ⟨i, by omega, hb⟩
        · intro _ h
          simp only [Option.some.injEq] at h
          omega
      · rw [List.getElem?_set_ne (fun h => hab h.symm)]
        constructor
        · intro h
          obtain ⟨j, hj, hjb⟩ := (p3 a ha).mp h
          exact ⟨j, by omega, hjb⟩
        · intro ⟨j, hj, hjb⟩
          rcases Nat.lt_succ_iff_lt_or_eq.mp hj with hlt | heq
          · exact (p3 a ha).mpr ⟨j, hlt, hjb⟩
          · subst heq
            rw [hb] at hjb
            simp only [Option.some.injEq] at hjb
            exact absurd hjb.symm hab
    · intro a a2 w ha ha2 h1 h2 hw
      change (st.1.set b st.2)[a]? = some w at h1
      change (st.1.set b st.2)[a2]? = some w at h2
      by_cases hab : a = b
      · by_cases ha2b : a2 = b
        · rw [hab, ha2b]
        · exfalso
          subst hab
          rw [List.getElem?_set_self hbl] at h1
          rw [List.getElem?_set_ne (fun h => ha2b h.symm)] at h2
          simp only [Option.some.injEq] at h1
          obtain ⟨w2, hw2, hwr⟩ := p2 a2 ha2
          rw [hw2] at h2
          simp only [Option.some.injEq] at h2
          rcases hwr with h | h <;> omega
      · by_cases ha2b : a2 = b
        · exfalso
          subst ha2b
          rw [List.getElem?_set_self hbl] at h2
          rw [List.getElem?_set_ne (fun h => hab h.symm)] at h1
          simp only [Option.some.injEq] at h2
          obtain ⟨w2, hw2, hwr⟩ := p2 a ha
          rw [hw2] at h1
          simp only [Option.some.injEq] at h1
          rcases hwr with h | h <;> omega
        · rw [List.getElem?_set_ne (fun h => hab h.symm)] at h1
          rw [List.getElem?_set_ne (fun h => ha2b h.symm)] at h2
          exact p4 a a2 w ha ha2 h1 h2 hw
    · exact hsurj
    · intro j2 a w hj2 hja hw
      change (st.1.set b st.2)[a]? = some (w + 1) at hw
      show ∃ j a0, j < j2 ∧ block_ids[j]? = some a0 ∧ (st.1.set b st.2)[a0]? = some w
      have keep : ∀ j a0, j < i → block_ids[j]? = some a0 →
          (st.1.set b st.2)[a0]? = st.1[a0]? := by
        intro j a0 hj hja0
        apply List.getElem?_set_ne
        intro h
        exact hunseen ⟨j, hj, by rw [h]; exact hja0⟩
      rcases Nat.lt_succ_iff_lt_or_eq.mp hj2 with hlt | heq
      · rw [keep j2 a hlt hja] at hw
        obtain ⟨j, a0, hj, hja0, hw0⟩ := p6 j2 a w hlt hja hw
        exact ⟨j, a0, hj, hja0, by rw [keep j a0 (by omega) hja0]; exact hw0⟩
      · subst heq
        rw [hb] at hja
        simp only [Option.some.injEq] at hja
        subst hja
        rw [List.getElem?_set_self hbl] at hw
        simp only [Option.some.injEq] at hw
        obtain ⟨a0, ha0, hw0⟩ := p5 w (by omega)
        have hne : st.1[a0]? ≠ some RemapBlockIdsDistance_kInvalidId := by
          rw [hw0]
          intro h
          simp only [Option.some.injEq] at h
          omega
        obtain ⟨j, hj, hja0⟩ := (p3 a0 ha0).mp hne
        exact ⟨j, a0, hj, hja0, by rw [keep j a0 hj hja0]; exact hw0⟩
  · -- an id seen before
    rw [if_neg hinv]
    have hseen : ∃ j, j < i ∧ block_ids[j]? = some b :=
      (p3 b hbn).mp (by rw [hv]; intro h; simp only [Option.some.injEq] at h; exact hinv h)
    refine ⟨st, rfl, hl, p2, ?_, p4, p5, ?_, p7⟩
    · intro a ha
      constructor
      · intro h
        obtain ⟨j, hj, hjb⟩ := (p3 a ha).mp h
        exact ⟨j, by omega, hjb⟩
      · intro ⟨j, hj, hjb⟩
        rcases Nat.lt_succ_iff_lt_or_eq.mp hj with hlt | heq
        · exact (p3 a ha).mpr ⟨j, hlt, hjb⟩
        · subst heq
          rw [hb] at hjb
          simp only [Option.some.injEq] at hjb
          subst hjb
          exact (p3 b hbn).mpr hseen
    · intro j2 a w hj2 hja hw
      rcases Nat.lt_succ_iff_lt_or_eq.mp hj2 with hlt | heq
      · exact p6 j2 a w hlt hja hw
      · subst heq
        rw [hb] at hja
        simp only [Option.some.injEq] at hja
        subst hja
        obtain ⟨j0, hj0, hj0b⟩ := hseen
        obtain ⟨j, a0, hj, hja0, hw0⟩ := p6 j0 b w hj0 hj0b hw
        exact ⟨j, a0, by omega, hja0, hw0⟩

theorem remap_rewrite_step (block_ids new_id : List Nat) (num_histograms len length next : Nat)
    (hlen : length ≤ block_ids.length) (hnh : num_histograms ≤ 256)
    (hN : RemapNumbered block_ids num_histograms len length (new_id, next))
    (hids : ∀ i b, i < length → block_ids[i]? = some b → b < num_histograms)
    (i : Nat) (bids : List Nat) (hi : i < length)
    (hP : RemapRewritten block_ids new_id i bids) :
    ∃ bids1, ((bids[i]?).bind fun b =>
        (new_id[b]?).bind fun v =>
        (setAt bids i (u8 v)).bind fun bids1 =>
        (assert (decide (u8 v < num_histograms))).bind fun _ => some bids1) = some bids1 ∧
      RemapRewritten block_ids new_id (i + 1) bids1 := by
  obtain ⟨hl, q2, q3⟩ := hP
  obtain ⟨_, p2, p3, _, _, _, p7⟩ := hN
  have hib : i < block_ids.length := by omega
  have hb : block_ids[i]? = some block_ids[i] := List.getElem?_eq_getElem hib
  have hbn := hids i _ hi hb
  generalize block_ids[i] = b at hb hbn
  obtain ⟨v, hv, hvr⟩ := p2 b hbn
  have hne : v ≠ RemapBlockIdsDistance_kInvalidId := by
    intro h
    exact (p3 b hbn).mpr ⟨i, hi, hb⟩ (by rw [hv, h])
  have hvn : v < next := hvr.resolve_left hne
  have hv8 : u8 v = v := Nat.mod_eq_of_lt (by change next ≤ num_histograms at p7; omega)
  have hvh : v < num_histograms := by change next ≤ num_histograms at p7; omega
  rw [q3 i (Nat.le_refl _), hb, Option.some_bind, hv, Option.some_bind, hv8,
    setAt_eq_some _ _ _ (by omega), Option.some_bind]
  simp only [assert, hvh, decide_True, if_true, Option.some_bind]
  refine ⟨_, rfl, ?_, ?_, ?_⟩
  · rw [List.length_set]; exact hl
  · intro j hj
    rcases Nat.lt_succ_iff_lt_or_eq.mp hj with hlt | heq
    · obtain ⟨a, w, h1, h2, h3⟩ := q2 j hlt
      exact ⟨a, w, h1, h2, by rw [List.getElem?_set_ne (by omega)]; exact h3⟩
    · subst heq
      exact ⟨b, v, hb, hv, List.getElem?_set_self (by omega)⟩
  · intro j hj
    rw [List.getElem?_set_ne (by omega)]
    exact q3 j (by omega)

theorem RemapBlockIdsDistance_spec (block_ids : List Nat) (length : Nat) (new_id : List Nat)
    (num_histograms : Nat)
    (hlen : length ≤ block_ids.length) (hnl : num_histograms ≤ new_id.length)
    (hnh : num_histograms ≤ 256)
    (hids : ∀ i b, i < length → block_ids[i]? = some b → b < num_histograms) :
    ∃ n bids ni, RemapBlockIdsDistance block_ids length new_id num_histograms =
        some (n, bids, ni) ∧
      RemapNumbered block_ids num_histograms new_id.length length (ni, n) ∧
      RemapRewritten block_ids ni length bids := by
  obtain ⟨ni0, e0, hl0, hf0, _⟩ := fill_spec RemapBlockIdsDistance_kInvalidId new_id
    num_histograms hnl
  have h1 := forLoop_inv (fun i (st : List Nat × Nat) =>
      (block_ids[i]?).bind fun b =>
      (assert (decide (b < num_histograms))).bind fun _ =>
      (st.1[b]?).bind fun v =>
      if v = RemapBlockIdsDistance_kInvalidId then
        (setAt st.1 b st.2).bind fun ni => some (ni, u16 (st.2 + 1))
      else some st)
    (RemapNumbered block_ids num_histograms new_id.length) length 0 (ni0, 0)
    ⟨hl0, fun a ha => ⟨_, hf0 a ha, Or.inl rfl⟩,
      fun a ha => ⟨fun h => absurd (hf0 a ha) h,
        fun ⟨j, hj, _⟩ => absurd hj (Nat.not_lt_zero _)⟩,
      fun a a2 v ha _ h1 _ hv => by
        exfalso
        have := hf0 a ha
        rw [this] at h1
        simp only [Option.some.injEq] at h1
        exact hv h1.symm,
      fun v hv => absurd hv (Nat.not_lt_zero _),
      fun j2 _ _ hj2 => absurd hj2 (Nat.not_lt_zero _),
      Nat.zero_le _⟩
    (fun i s _ hi hP => remap_number_step block_ids num_histograms new_id.length length hlen
      hnl hnh hids i s (by omega) hP)
  rw [Nat.zero_add] at h1
  obtain ⟨⟨ni, n⟩, e1, hN⟩ := h1
  have h2 := forLoop_inv (fun i (bids : List Nat) =>
      (bids[i]?).bind fun b =>
      (ni[b]?).bind fun v =>
      (setAt bids i (u8 v)).bind fun bids1 =>
      (assert (decide (u8 v < num_histograms))).bind fun _ => some bids1)
    (RemapRewritten block_ids ni) length 0 block_ids
    ⟨rfl, fun j hj => absurd hj (Nat.not_lt_zero _), fun _ _ => rfl⟩
    (fun i s _ hi hP => remap_rewrite_step block_ids ni num_histograms new_id.length length n
      hlen hnh hN hids i s (by omega) hP)
  rw [Nat.zero_add] at h2
  obtain ⟨bids, e2, hR⟩ := h2
  refine ⟨n, bids, ni, ?_, hN, hR⟩
  unfold RemapBlockIdsDistance
  rw [e0, Option.some_bind, e1, Option.some_bind, e2, Option.some_bind]
  have : n ≤ num_histograms := hN.2.2.2.2.2.2
  simp only [assert, this, decide_True, if_true, Option.some_bind]

theorem remap_props (block_ids bids ni : List Nat) (length num_histograms len n : Nat)
    (hnh : num_histograms ≤ 256)
    (hids : ∀ i b, i < length → block_ids[i]? = some b → b < num_histograms)
    (hN : RemapNumbered block_ids num_histograms len length (ni, n))
    (hR : RemapRewritten block_ids ni length bids) :
    (∀ i j, i < length → j < length →
      (bids[i]? = bids[j]? ↔ block_ids[i]? = block_ids[j]?)) ∧
    (∀ v, v < n ↔ ∃ i, i < length ∧ bids[i]? = some v) ∧
    FirstAppearanceOrder bids length ∧
    (∀ i a, i < length → block_ids[i]? = some a → bids[i]? = ni[a]?) := by
  obtain ⟨_, p2, p3, p4, p5, p6, p7⟩ := hN
  obtain ⟨hl, q2, _⟩ := hR
  change n ≤ num_histograms at p7
  have h256 : RemapBlockIdsDistance_kInvalidId = 256 := rfl
  -- what position `i` holds afterwards
  have hat : ∀ i, i < length → ∃ a v, a < num_histograms ∧ block_ids[i]? = some a ∧
      ni[a]? = some v ∧ bids[i]? = some v ∧ v < n := by
    intro i hi
    obtain ⟨a, v, h1, h2, h3⟩ := q2 i hi
    have ha := hids i a hi h1
    obtain ⟨w, hw, hwr⟩ := p2 a ha
    rw [h2] at hw
    simp only [Option.some.injEq] at hw
    subst hw
    have hne : v ≠ RemapBlockIdsDistance_kInvalidId := by
      intro h
      exact (p3 a ha).mpr ⟨i, hi, h1⟩ (by rw [h2, h])
    exact ⟨a, v, ha, h1, h2, h3, hwr.resolve_left hne⟩
  refine ⟨?_, ?_, ?_, ?_⟩
  · intro i j hi hj
    obtain ⟨a, v, ha, h1, h2, h3, hv⟩ := hat i hi
    obtain ⟨a2, v2, ha2, g1, g2, g3, hv2⟩ := hat j hj
    rw [h1, g1, h3, g3]
    constructor
    · intro h
      simp only [Option.some.injEq] at h
      subst h
      rw [p4 a a2 v ha ha2 h2 g2 (by omega)]
    · intro h
      simp only [Option.some.injEq] at h
      subst h
      rw [h2] at g2
      exact g2
  · intro v
    constructor
    · intro hv
      obtain ⟨a, ha, hav⟩ := p5 v hv
      have hne : ni[a]? ≠ some RemapBlockIdsDistance_kInvalidId := by
        rw [hav]
        intro h
        simp only [Option.some.injEq] at h
        omega
      obtain ⟨j, hj, hja⟩ := (p3 a ha).mp hne
      obtain ⟨a2, v2, _, h1, h2, h3, _⟩ := hat j hj
      rw [hja] at h1
      simp only [Option.some.injEq] at h1
      subst h1
      rw [hav] at h2
      simp only [Option.some.injEq] at h2
      subst h2
      exact ⟨j, hj, h3⟩
    · intro ⟨i, hi, hiv⟩
      obtain ⟨a, v2, _, _, _, h3, hv⟩ := hat i hi
      rw [hiv] at h3
      simp only [Option.some.injEq] at h3
      omega
  · intro i v hi hiv
    obtain ⟨a, v2, _, h1, h2, h3, _⟩ := hat i hi
    rw [hiv] at h3
    simp only [Option.some.injEq] at h3
    subst h3
    obtain ⟨j, a0, hj, hja0, hw0⟩ := p6 i a v hi h1 h2
    obtain ⟨a3, v3, _, g1, g2, g3, _⟩ := hat j (by omega)
    rw [hja0] at g1
    simp only [Option.some.injEq] at g1
    subst g1
    rw [hw0] at g2
    simp only [Option.some.injEq] at g2
    subst g2
    exact ⟨j, hj, g3⟩
  · intro i a hi hia
    obtain ⟨a2, v, _, h1, h2, h3, _⟩ := hat i hi
    rw [hia] at h1
    simp only [Option.some.injEq] at h1
    subst h1
    rw [h2, h3]

theorem fao_down (b : List Nat) (length : Nat) (h : FirstAppearanceOrder b length) :
    ∀ i, i < length → ∀ v w, b[i]? = some v → w < v → ∃ j, j < i ∧ b[j]? = some w := by
  intro i
  induction i using Nat.strong_induction_on with
  | _ i ih =>
    intro hi v w hv hw
    cases v with
    | zero => omega
    | succ u =>
      obtain ⟨j, hj, hju⟩ := h i u hi hv
      rcases Nat.lt_succ_iff_lt_or_eq.mp hw with hlt | heq
      · obtain ⟨j2, hj2, hj2w⟩ := ih j hj (by omega) u w hju hlt
        exact ⟨j2, by omega, hj2w⟩
      · subst heq
        exact ⟨j, hj, hju⟩

theorem fao_unique (b b2 : List Nat) (length : Nat) (hb : length ≤ b.length)
    (hc : length ≤ b2.length)
    (fb : FirstAppearanceOrder b length) (fc : FirstAppearanceOrder b2 length)
    (hpat : ∀ i j, i < length → j < length → (b2[i]? = b2[j]? ↔ b[i]? = b[j]?)) :
    ∀ i, i < length → b2[i]? = b[i]? := by
  intro i
  induction i using Nat.strong_induction_on with
  | _ i ih =>
    intro hi
    have hbi : b[i]? = some b[i] := List.getElem?_eq_getElem (by omega)
    have hci : b2[i]? = some b2[i] := List.getElem?_eq_getElem (by omega)
    rcases Nat.lt_trichotomy b2[i] b[i] with hlt | heq | hgt
    · exfalso
      obtain ⟨j, hj, hjw⟩ := fao_down b length fb i hi _ _ hbi hlt
      have e1 : b2[j]? = some b2[i] := by rw [ih j hj (by omega)]; exact hjw
      have e2 : b2[j]? = b2[i]? := by rw [e1, hci]
      have e3 := (hpat j i (by omega) hi).mp e2
      rw [hjw, hbi] at e3
      simp only [Option.some.injEq] at e3
      omega
    · rw [hbi, hci, heq]
    · exfalso
      obtain ⟨j, hj, hjw⟩ := fao_down b2 length fc i hi _ _ hci hgt
      have e1 : b[j]? = some b[i] := by rw [← ih j hj (by omega)]; exact hjw
      have e2 : b[j]? = b[i]? := by rw [e1, hbi]
      have e3 := (hpat j i (by omega) hi).mpr e2
      rw [hjw, hci] at e3
      simp only [Option.some.injEq] at e3
      omega

theorem mem_take_iff (l : List Nat) (n a : Nat) :
    a ∈ l.take n ↔ ∃ i, i < n ∧ l[i]? = some a := by
  constructor
  · intro h
    obtain ⟨i, hi, he⟩ := List.mem_iff_getElem.mp h
    rw [List.length_take] at hi
    rw [List.getElem_take] at he
    exact ⟨i, by omega, by rw [List.getElem?_eq_getElem (by omega), he]⟩
  · intro ⟨i, hi, he⟩
    obtain ⟨hlt, hval⟩ := List.getElem?_eq_some_iff.mp he
    apply List.mem_iff_getElem.mpr
    refine ⟨i, by rw [List.length_take]; omega, ?_⟩
    rw [List.getElem_take]
    exact hval

theorem remap_card (block_ids ni : List Nat) (length num_histograms len n : Nat)
    (hnh : num_histograms ≤ 256)
    (hids : ∀ i b, i < length → block_ids[i]? = some b → b < num_histograms)
    (hN : RemapNumbered block_ids num_histograms len length (ni, n)) :
    n = (block_ids.take length).toFinset.card := by
  obtain ⟨_, p2, p3, p4, p5, _, p7⟩ := hN
  change n ≤ num_histograms at p7
  have h256 : RemapBlockIdsDistance_kInvalidId = 256 := rfl
  have himg : (block_ids.take length).toFinset.image (fun a => (ni[a]?).getD 0) =
      Finset.range n := by
    ext v
    simp only [Finset.mem_image, List.mem_toFinset, Finset.mem_range, mem_take_iff]
    constructor
    · intro ⟨a, ⟨i, hi, hia⟩, hv⟩
      have ha := hids i a hi hia
      obtain ⟨w, hw, hwr⟩ := p2 a ha
      have hne : w ≠ RemapBlockIdsDistance_kInvalidId := by
        intro h
        exact (p3 a ha).mpr ⟨i, hi, hia⟩ (by rw [hw, h])
      rw [hw] at hv
      simp only [Option.getD_some] at hv
      subst hv
      exact hwr.resolve_left hne
    · intro hv
      obtain ⟨a, ha, hav⟩ := p5 v hv
      have hne : ni[a]? ≠ some RemapBlockIdsDistance_kInvalidId := by
        rw [hav]
        intro h
        simp only [Option.some.injEq] at h
        omega
      obtain ⟨j, hj, hja⟩ := (p3 a ha).mp hne
      exact ⟨a, ⟨j, hj, hja⟩, by rw [hav]; rfl⟩
  have hinj : Set.InjOn (fun a => (ni[a]?).getD 0) (↑(block_ids.take length).toFinset : Set Nat) := by
    intro a ha a2 ha2 he
    simp only [Finset.mem_coe, List.mem_toFinset, mem_take_iff] at ha ha2
    obtain ⟨i, hi, hia⟩ := ha
    obtain ⟨j, hj, hja⟩ := ha2
    have hal := hids i a hi hia
    have ha2l := hids j a2 hj hja
    obtain ⟨w, hw, hwr⟩ := p2 a hal
    obtain ⟨w2, hw2, _⟩ := p2 a2 ha2l
    have hne : w ≠ RemapBlockIdsDistance_kInvalidId := by
      intro h
      exact (p3 a hal).mpr ⟨i, hi, hia⟩ (by rw [hw, h])
    simp only [hw, hw2, Option.getD_some] at he
    subst he
    exact p4 a a2 w hal ha2l hw hw2 hne
  rw [← Finset.card_image_of_injOn hinj, himg, Finset.card_range]

/-- Claim C16.  For every `block_ids` whose first `length` entries are below
`num_histograms <= 256` (the arrays holding the `length` ids and the `num_histograms`
numbers), `RemapBlockIdsDistance` returns the number `n` of distinct ids among
`block_ids[0 .. length)` and rewrites `block_ids` so that two positions hold the same id
afterwards exactly when they did before, the ids used are exactly `0 .. n-1`, and they are
numbered in the order of first appearance (`block_ids[0] = 0`, and every id `v + 1` comes after
an id `v`); applying it a second time, with any scratch array, changes nothing and returns `n`
again. -/
theorem RemapBlockIdsDistance_renumbers (block_ids : List Nat) (length : Nat)
    (new_id new_id2 : List Nat) (num_histograms : Nat)
    (hlen : length ≤ block_ids.length) (hnl : num_histograms ≤ new_id.length)
    (hnl2 : num_histograms ≤ new_id2.length) (hnh : num_histograms ≤ 256)
    (hids : ∀ i b, i < length → block_ids[i]? = some b → b < num_histograms) :
    ∃ n bids ni, RemapBlockIdsDistance block_ids length new_id num_histograms =
        some (n, bids, ni) ∧
      n = (block_ids.take length).toFinset.card ∧
      (∀ i j, i < length → j < length →
        (bids[i]? = bids[j]? ↔ block_ids[i]? = block_ids[j]?)) ∧
      (∀ v, v < n ↔ ∃ i, i < length ∧ bids[i]? = some v) ∧
      (0 < length → bids[0]? = some 0) ∧
      (∀ i v, i < length → bids[i]? = some (v + 1) → ∃ j, j < i ∧ bids[j]? = some v) ∧
      ∃ ni2, RemapBlockIdsDistance bids length new_id2 num_histograms = some (n, bids, ni2) := by
  obtain ⟨n, bids, ni, e, hN, hR⟩ := RemapBlockIdsDistance_spec block_ids length new_id
    num_histograms hlen hnl hnh hids
  obtain ⟨r1, r2, r3, _⟩ := remap_props block_ids bids ni length num_histograms new_id.length n
    hnh hids hN hR
  have hbl : bids.length = block_ids.length := hR.1
  have hnle : n ≤ num_histograms := hN.2.2.2.2.2.2
  have hids2 : ∀ i b, i < length → bids[i]? = some b → b < num_histograms := by
    intro i b hi hb
    have := (r2 b).mpr ⟨i, hi, hb⟩
    omega
  obtain ⟨n2, bids2, ni2, e2, hN2, hR2⟩ := RemapBlockIdsDistance_spec bids length new_id2
    num_histograms (by omega) hnl2 hnh hids2
  obtain ⟨s1, s2, s3, _⟩ := remap_props bids bids2 ni2 length num_histograms new_id2.length n2
    hnh hids2 hN2 hR2
  have hsame : ∀ i, i < length → bids2[i]? = bids[i]? :=
    fao_unique bids bids2 length (by omega) (by rw [hR2.1]; omega) r3 s3 s1
  have hb2 : bids2 = bids := by
    apply List.ext_getElem?
    intro i
    by_cases hi : i < length
    · exact hsame i hi
    · exact hR2.2.2 i (by omega)
  have hn2 : n2 = n := by
    apply Nat.le_antisymm
    · by_contra hlt
      obtain ⟨i, hi, hiv⟩ := (s2 n).mp (by omega)
      rw [hsame i hi] at hiv
      have := (r2 n).mpr ⟨i, hi, hiv⟩
      omega
    · by_contra hlt
      obtain ⟨i, hi, hiv⟩ := (r2 n2).mp (by omega)
      rw [← hsame i hi] at hiv
      have := (s2 n2).mpr ⟨i, hi, hiv⟩
      omega
  refine ⟨n, bids, ni, e, remap_card block_ids ni length num_histograms new_id.length n hnh
    hids hN, r1, r2, ?_, r3, ni2, ?_⟩
  · intro h0
    have h0l : 0 < bids.length := by omega
    have hb0 : bids[0]? = some bids[0] := List.getElem?_eq_getElem h0l
    cases hv : bids[0] with
    | zero => rw [hb0, hv]
    | succ u =>
      rw [hv] at hb0
      obtain ⟨j, hj, _⟩ := r3 0 u h0 hb0
      omega
  · rw [e2, hn2, hb2]

/-- Claim C16 on the block ids `3, 1, 3, 0`. -/
theorem RemapBlockIdsDistance_renumbers_witness :
    ∃ n bids ni, RemapBlockIdsDistance [3, 1, 3, 0] 4 [0, 0, 0, 0] 4 = some (n, bids, ni) ∧
      n = ([3, 1, 3, 0].take 4).toFinset.card ∧
      (∀ i j, i < 4 → j < 4 → (bids[i]? = bids[j]? ↔ [3, 1, 3, 0][i]? = [3, 1, 3, 0][j]?)) ∧
      (∀ v, v < n ↔ ∃ i, i < 4 ∧ bids[i]? = some v) ∧
      (0 < 4 → bids[0]? = some 0) ∧
      (∀ i v, i < 4 → bids[i]? = some (v + 1) → ∃ j, j < i ∧ bids[j]? = some v) ∧
      ∃ ni2, RemapBlockIdsDistance bids 4 [7, 7, 7, 7] 4 = some (n, bids, ni2) :=
  RemapBlockIdsDistance_renumbers [3, 1, 3, 0] 4 [0, 0, 0, 0] [7, 7, 7, 7] 4 (by decide)
    (by decide) (by decide) (by decide)
    (by intro i b hi hb; interval_cases i <;> simp at hb <;> omega)

theorem getD_set_ne (l : List Nat) (p i v : Nat) (h : i ≠ p) :
    (l.set p v).getD i 0 = l.getD i 0 := by
  rw [List.getD_eq_getElem?_getD, List.getD_eq_getElem?_getD,
    List.getElem?_set_ne (fun e => h e.symm)]

theorem getD_of_getElem? (l : List Nat) (i v : Nat) (h : l[i]? = some v) : l.getD i 0 = v := by
  rw [List.getD_eq_getElem?_getD, h]
  rfl

theorem trace_step (switch_signal : List Nat) (bitmaplen byte_ix len : Nat)
    (t : Nat) (st st1 : List Nat × Nat × Nat) (ht : t < byte_ix)
    (hP : TraceCounted byte_ix len t st)
    (hb : findBlocksTraceStep switch_signal bitmaplen (byte_ix - 1 - t) st = some st1) :
    TraceCounted byte_ix len (t + 1) st1 := by
  obtain ⟨hl, hcur, hnb⟩ := hP
  unfold findBlocksTraceStep at hb
  simp only [Option.bind_eq_some] at hb
  obtain ⟨_, _, sw, _, b, hbp, bl, hset, hst1⟩ := hb
  simp only [Option.some.injEq] at hst1
  obtain ⟨hp, hbl⟩ := setAt_some_iff _ _ _ _ hset
  have e1 : byte_ix - (t + 1) = byte_ix - 1 - t := by omega
  have e2 : byte_ix - t = byte_ix - 1 - t + 1 := by omega
  generalize byte_ix - 1 - t = p at hbp hset hst1 hp hbl e1 e2
  rw [e2] at hcur hnb
  subst hst1
  subst hbl
  refine ⟨?_, ?_, ?_⟩
  · show (st.1.set p _).length = len
    rw [List.length_set]; exact hl
  · rw [e1]
    exact List.getElem?_set_self hp
  · rw [e1, List.range'_succ, List.countP_cons]
    have hcong : (List.range' (p + 1) t).countP (fun i => decide
          ((st.1.set p (if (decide (sw &&& u8 (1 <<< (st.2.1 &&& 7)) ≠ 0) &&
            decide (st.2.1 ≠ b)) = true then b else st.2.1)).getD i 0 ≠
          (st.1.set p (if (decide (sw &&& u8 (1 <<< (st.2.1 &&& 7)) ≠ 0) &&
            decide (st.2.1 ≠ b)) = true then b else st.2.1)).getD (i + 1) 0)) =
        (List.range' (p + 1) t).countP (fun i => decide (st.1.getD i 0 ≠ st.1.getD (i + 1) 0))
        := by
      apply List.countP_congr
      intro i hi
      rw [List.mem_range'_1] at hi
      rw [getD_set_ne _ _ _ _ (by omega), getD_set_ne _ _ _ _ (by omega)]
    show (if _ then st.2.2 + 1 else st.2.2) = _
    rw [hcong, ← Nat.add_assoc, ← hnb]
    have g1 : (st.1.set p (if (decide (sw &&& u8 (1 <<< (st.2.1 &&& 7)) ≠ 0) &&
        decide (st.2.1 ≠ b)) = true then b else st.2.1)).getD p 0 =
        (if (decide (sw &&& u8 (1 <<< (st.2.1 &&& 7)) ≠ 0) &&
        decide (st.2.1 ≠ b)) = true then b else st.2.1) :=
      getD_of_getElem? _ _ _ (List.getElem?_set_self hp)
    have g2 : (st.1.set p (if (decide (sw &&& u8 (1 <<< (st.2.1 &&& 7)) ≠ 0) &&
        decide (st.2.1 ≠ b)) = true then b else st.2.1)).getD (p + 1) 0 = st.2.1 := by
      rw [getD_set_ne _ _ _ _ (by omega)]
      exact getD_of_getElem? _ _ _ hcur
    rw [g1, g2]
    by_cases hsw : (decide (sw &&& u8 (1 <<< (st.2.1 &&& 7)) ≠ 0) &&
        decide (st.2.1 ≠ b)) = true
    · rw [if_pos hsw, if_pos hsw]
      have hne : b ≠ st.2.1 := by
        simp only [Bool.and_eq_true, decide_eq_true_eq] at hsw
        exact fun h => hsw.2 h.symm
      simp [hne]
    · rw [if_neg hsw, if_neg hsw]
      simp

theorem fill_some {α : Type} (c : α) (xs0 xs : List α) (n : Nat)
    (h : forLoop (fun i xs => setAt xs i c) 0 n xs0 = some xs) :
    n ≤ xs0.length ∧ FilledBelow c xs0 n xs := by
  have h2 := forLoop_some_inv (fun i (xs : List α) => setAt xs i c)
    (fun i xs => i ≤ xs0.length ∧ FilledBelow c xs0 i xs) n 0 xs0 xs h
    ⟨Nat.zero_le _, rfl, fun a ha => absurd ha (Nat.not_lt_zero _), fun _ _ => rfl⟩
    (by
      intro i s s1 _ hi hP hb
      obtain ⟨_, hl, h1, h2⟩ := hP
      obtain ⟨hlt, hs1⟩ := setAt_some_iff _ _ _ _ hb
      subst hs1
      refine ⟨by omega, ?_, ?_, ?_⟩
      · rw [List.length_set]; exact hl
      · intro a ha
        by_cases hai : a = i
        · subst hai
          rw [List.getElem?_set_self hlt]
        · rw [List.getElem?_set_ne (fun h => hai h.symm)]
          exact h1 a (by omega)
      · intro a ha
        rw [List.getElem?_set_ne (by omega)]
        exact h2 a (by omega))
  rw [Nat.zero_add] at h2
  exact h2

theorem numSwitches_const (l : List Nat) (length : Nat)
    (h : ∀ a, a < length → l[a]? = some 0) :
    numSwitches (fun i => l.getD i 0) length = 0 := by
  unfold numSwitches
  rw [List.countP_eq_zero]
  intro i hi
  rw [List.mem_range] at hi
  simp only [decide_eq_true_eq, ne_eq, not_not]
  rw [getD_of_getElem? _ _ _ (h i (by omega)), getD_of_getElem? _ _ _ (h (i + 1) (by omega))]

theorem FindBlocksDistance_switches {κ : Type} (C : SplitCollab κ) (data : Nat → Nat)
    (length : Nat) (block_switch_bitcost : κ) (num_histograms : Nat)
    (histograms : List (HistogramDistance κ)) (st : FindBlocksState κ)
    (n : Nat) (st1 : FindBlocksState κ) (h1 : 1 ≤ length) (h64 : length < 2 ^ 64)
    (h : FindBlocksDistance C data length block_switch_bitcost num_histograms histograms st =
      some (n, st1)) :
    n = 1 + numSwitches (fun i => st1.block_id.getD i 0) length := by
  unfold FindBlocksDistance at h
  simp only [Option.bind_eq_some] at h
  obtain ⟨_, _, h⟩ := h
  split at h
  · simp only [Option.bind_eq_some, Option.some.injEq, Prod.mk.injEq] at h
    obtain ⟨bid, hfill, hn, hst⟩ := h
    obtain ⟨_, _, hz, _⟩ := fill_some 0 _ _ _ hfill
    subst hst
    rw [← hn, numSwitches_const bid length hz]
  · simp only [Option.bind_eq_some, Option.some.injEq, Prod.mk.injEq] at h
    obtain ⟨_, _, _, _, _, _, _, _, _, _, s1, _, cur_id, hcur, tr, htr, hn, hst⟩ := h
    have hby : usub length 1 = length - 1 := usub_of_le _ _ h64 h1
    rw [hby] at hcur htr
    have hT := forLoop_some_inv
      (fun t tr => findBlocksTraceStep s1.switch_signal ((num_histograms + 7) >>> 3)
        (length - 1 - 1 - t) tr)
      (TraceCounted (length - 1) s1.block_id.length) (length - 1) 0
      (s1.block_id, cur_id, 1) tr htr
      ⟨rfl, hcur, by simp⟩
      (fun t s s2 _ ht hP hb => trace_step s1.switch_signal _ (length - 1) _ t s s2
        (by omega) hP hb)
    rw [Nat.zero_add] at hT
    obtain ⟨_, _, hcount⟩ := hT
    subst hst
    rw [← hn, hcount, Nat.sub_self, ← List.range_eq_range']
    rfl

theorem mul_add_lt_mul (i n d j : Nat) (hi : i < d) (hj : j < n) : i * n + j < d * n := by
  have h : (i + 1) * n ≤ d * n := Nat.mul_le_mul_right n hi
  rw [Nat.add_mul, Nat.one_mul] at h
  omega

theorem insertCostRow_len {κ : Type} (C : SplitCollab κ) (num_histograms : Nat)
    (histograms : List (HistogramDistance κ)) (i d : Nat) (insert_cost : List κ)
    (hi : i < d) (hl : d * num_histograms ≤ insert_cost.length)
    (hh : num_histograms ≤ histograms.length) :
    ∃ ic, insertCostRow C num_histograms histograms i insert_cost = some ic ∧
      ic.length = insert_cost.length := by
  have h := forLoop_inv (fun j (ic : List κ) =>
      (ic[j]?).bind fun base =>
      (histograms[j]?).bind fun h =>
      setAt ic (i * num_histograms + j) (C.sub base (C.BitCost (h.data_ i))))
    (fun _ ic => ic.length = insert_cost.length) num_histograms 0 insert_cost rfl
    (by
      intro j ic _ hj hP
      simp only [Nat.zero_add] at hj
      have h1 := mul_add_lt_mul i num_histograms d j hi hj
      have h0 : j < d * num_histograms := by
        have := mul_add_lt_mul 0 num_histograms d j (by omega) hj
        omega
      dsimp only at hP ⊢
      rw [List.getElem?_eq_getElem (by omega), Option.some_bind,
        List.getElem?_eq_getElem (by omega), Option.some_bind,
        setAt_eq_some _ _ _ (by omega)]
      exact ⟨_, rfl, by rw [List.length_set]; exact hP⟩)
  exact h

theorem shift_three_lt (k n : Nat) (hk : k < n) : k >>> 3 < (n + 7) >>> 3 := by
  rw [Nat.shiftRight_eq_div_pow, Nat.shiftRight_eq_div_pow]
  norm_num
  omega

theorem cap_step {κ : Type} (C : SplitCollab κ) (min_cost block_switch_cost : κ)
    (num_histograms lc length byte_ix : Nat)
    (hlc : num_histograms ≤ lc) (hb : byte_ix < length)
    (k : Nat) (st : List κ × List Nat) (hk : k < num_histograms)
    (hP : CapSized lc (length * ((num_histograms + 7) >>> 3)) st) :
    ∃ st1, findBlocksCapStep C min_cost block_switch_cost
        (byte_ix * ((num_histograms + 7) >>> 3)) ((num_histograms + 7) >>> 3) k st =
        some st1 ∧
      CapSized lc (length * ((num_histograms + 7) >>> 3)) st1 := by
  obtain ⟨p1, p2⟩ := hP
  have hs := shift_three_lt k num_histograms hk
  have hidx := mul_add_lt_mul byte_ix ((num_histograms + 7) >>> 3) length (k >>> 3) hb hs
  unfold findBlocksCapStep
  rw [List.getElem?_eq_getElem (by omega), Option.some_bind]
  simp only
  rw [setAt_eq_some _ _ _ (by omega), Option.some_bind]
  split
  · rw [setAt_eq_some _ _ _ (by rw [List.length_set]; omega), Option.some_bind]
    simp only [assert, hs, decide_True, if_true, Option.some_bind]
    rw [List.getElem?_eq_getElem (by omega), Option.some_bind,
      setAt_eq_some _ _ _ (by omega), Option.some_bind]
    refine ⟨_, rfl, ?_, ?_⟩
    · show ((st.1.set k _).set k _).length = lc
      rw [List.length_set, List.length_set]; exact p1
    · show (st.2.set _ _).length = _
      rw [List.length_set]; exact p2
  · refine ⟨_, rfl, ?_, p2⟩
    show (st.1.set k _).length = lc
    rw [List.length_set]; exact p1

theorem trace_ranged_step (switch_signal : List Nat) (num_histograms lb length byte_ix : Nat)
    (hsw : switch_signal.length = length * ((num_histograms + 7) >>> 3))
    (hlb : length ≤ lb) (hb : byte_ix < length)
    (st : List Nat × Nat × Nat) (hP : TraceRanged num_histograms lb length st) :
    ∃ st1, findBlocksTraceStep switch_signal ((num_histograms + 7) >>> 3) byte_ix st =
        some st1 ∧ TraceRanged num_histograms lb length st1 := by
  obtain ⟨p1, p2, p3⟩ := hP
  have hs := shift_three_lt st.2.1 num_histograms p3
  have hidx := mul_add_lt_mul byte_ix ((num_histograms + 7) >>> 3) length (st.2.1 >>> 3) hb hs
  obtain ⟨b, hbv, hbn⟩ := p2 byte_ix hb
  unfold findBlocksTraceStep
  simp only [assert, hs, decide_True, if_true, Option.some_bind]
  rw [List.getElem?_eq_getElem (by omega), Option.some_bind, hbv, Option.some_bind,
    setAt_eq_some _ _ _ (by omega), Option.some_bind]
  refine ⟨_, rfl, ?_, ?_, ?_⟩
  · show (st.1.set byte_ix _).length = lb
    rw [List.length_set]; exact p1
  · intro j hj
    show ∃ b2, (st.1.set byte_ix _)[j]? = some b2 ∧ b2 < num_histograms
    by_cases hjb : j = byte_ix
    · subst hjb
      rw [List.getElem?_set_self (by omega)]
      refine ⟨_, rfl, ?_⟩
      split <;> assumption
    · rw [List.getElem?_set_ne (fun h => hjb h.symm)]
      exact p2 j hj
  · show (if _ then b else st.2.1) < num_histograms
    split <;> assumption

theorem FindBlocksDistance_some_le {κ : Type} (C : SplitCollab κ) (data : Nat → Nat)
    (length : Nat) (block_switch_bitcost : κ) (num_histograms : Nat)
    (histograms : List (HistogramDistance κ)) (st : FindBlocksState κ)
    (r : Nat × FindBlocksState κ)
    (h : FindBlocksDistance C data length block_switch_bitcost num_histograms histograms st =
      some r) : num_histograms ≤ 256 := by
  unfold FindBlocksDistance at h
  simp only [Option.bind_eq_some] at h
  obtain ⟨_, ha, _⟩ := h
  unfold assert at ha
  split at ha
  · rename_i hc
    exact of_decide_eq_true hc
  · exact absurd ha (by simp)

theorem RemapBlockIdsDistance_some_pre (block_ids : List Nat) (length : Nat)
    (new_id : List Nat) (num_histograms : Nat) (r : Nat × List Nat × List Nat)
    (h : RemapBlockIdsDistance block_ids length new_id num_histograms = some r) :
    length ≤ block_ids.length ∧ num_histograms ≤ new_id.length ∧
    ∀ i b, i < length → block_ids[i]? = some b → b < num_histograms := by
  unfold RemapBlockIdsDistance at h
  simp only [Option.bind_eq_some] at h
  obtain ⟨ni0, h0, st, h1, _⟩ := h
  obtain ⟨hn, _⟩ := fill_some _ _ _ _ h0
  have h2 := forLoop_some_inv _
    (fun i (_ : List Nat × Nat) => ∀ j, j < i → ∃ b, block_ids[j]? = some b ∧
      b < num_histograms) length 0 (ni0, 0) st h1
    (fun j hj => absurd hj (Nat.not_lt_zero _))
    (by
      intro i s s1 _ _ hP hb j hj
      simp only [Option.bind_eq_some] at hb
      obtain ⟨b, hbi, _, ha, _⟩ := hb
      rcases Nat.lt_succ_iff_lt_or_eq.mp hj with hlt | heq
      · exact hP j hlt
      · subst heq
        refine ⟨b, hbi, ?_⟩
        unfold assert at ha
        split at ha
        · rename_i hc
          exact of_decide_eq_true hc
        · exact absurd ha (by simp))
  rw [Nat.zero_add] at h2
  refine ⟨?_, hn, ?_⟩
  · by_contra hlt
    obtain ⟨b, hb, _⟩ := h2 block_ids.length (by omega)
    rw [List.getElem?_eq_none (Nat.le_refl _)] at hb
    exact absurd hb (by simp)
  · intro i b hi hb
    obtain ⟨b2, hb2, hlt⟩ := h2 i hi
    rw [hb] at hb2
    simp only [Option.some.injEq] at hb2
    omega

theorem numSwitches_congr (f g : Nat → Nat) (length : Nat)
    (h : ∀ i, i + 1 < length → (f i = f (i + 1) ↔ g i = g (i + 1))) :
    numSwitches f length = numSwitches g length := by
  unfold numSwitches
  apply List.countP_congr
  intro i hi
  rw [List.mem_range] at hi
  simp only [decide_eq_true_eq, ne_eq]
  rw [h i (by omega)]

theorem split_round_runs {κ : Type} (C : SplitCollab κ) (data : Nat → Nat) (length : Nat)
    (block_switch_bitcost : κ) (num_histograms : Nat)
    (histograms : List (HistogramDistance κ)) (st : FindBlocksState κ) (new_id : List Nat)
    (fb : Nat × FindBlocksState κ) (rm : Nat × List Nat × List Nat)
    (h1 : 1 ≤ length) (h64 : length < 2 ^ 64)
    (hfb : FindBlocksDistance C data length block_switch_bitcost num_histograms histograms st =
      some fb)
    (hrm : RemapBlockIdsDistance fb.2.block_id length new_id num_histograms = some rm) :
    fb.1 = numRuns (fun i => rm.2.1.getD i 0) length := by
  have hnh := FindBlocksDistance_some_le C data length block_switch_bitcost num_histograms
    histograms st fb hfb
  have hsw := FindBlocksDistance_switches C data length block_switch_bitcost num_histograms
    histograms st fb.1 fb.2 h1 h64 hfb
  obtain ⟨hlen, hnl, hids⟩ := RemapBlockIdsDistance_some_pre _ _ _ _ _ hrm
  obtain ⟨n, bids, ni, e, hN, hR⟩ := RemapBlockIdsDistance_spec fb.2.block_id length new_id
    num_histograms hlen hnl hnh hids
  rw [e] at hrm
  simp only [Option.some.injEq] at hrm
  subst hrm
  obtain ⟨r1, _, _, _⟩ := remap_props fb.2.block_id bids ni length num_histograms
    new_id.length n hnh hids hN hR
  have hbl : bids.length = fb.2.block_id.length := hR.1
  unfold numRuns
  rw [if_neg (by omega), hsw]
  congr 1
  apply numSwitches_congr
  intro i hi
  have hp := r1 i (i + 1) (by omega) hi
  have g1 : fb.2.block_id[i]? = some (fb.2.block_id.getD i 0) := by
    rw [List.getD_eq_getElem?_getD, List.getElem?_eq_getElem (by omega)]; rfl
  have g2 : fb.2.block_id[i + 1]? = some (fb.2.block_id.getD (i + 1) 0) := by
    rw [List.getD_eq_getElem?_getD, List.getElem?_eq_getElem (by omega)]; rfl
  have g3 : bids[i]? = some (bids.getD i 0) := by
    rw [List.getD_eq_getElem?_getD, List.getElem?_eq_getElem (by omega)]; rfl
  have g4 : bids[i + 1]? = some (bids.getD (i + 1) 0) := by
    rw [List.getD_eq_getElem?_getD, List.getElem?_eq_getElem (by omega)]; rfl
  rw [g1, g2, g3, g4] at hp
  simp only [Option.some.injEq] at hp
  exact hp.symm

theorem split_loop_runs {κ : Type} (C : SplitCollab κ) (data : Nat → Nat) (length : Nat)
    (block_switch_cost : κ) (iters : Nat) (s0 s : SplitLoopState κ)
    (h1 : 1 ≤ length) (h64 : length < 2 ^ 64) (hit : 1 ≤ iters)
    (h : forLoop (fun _ (s : SplitLoopState κ) =>
        (FindBlocksDistance C data length block_switch_cost s.num_histograms s.histograms
          s.work).bind fun fb =>
        (RemapBlockIdsDistance fb.2.block_id length s.new_id s.num_histograms).bind fun rm =>
        (BuildBlockHistogramsDistance C.huge data length rm.2.1 rm.1 s.histograms).bind
          fun hs =>
        some { num_blocks := fb.1, num_histograms := rm.1, histograms := hs,
               work := { fb.2 with block_id := rm.2.1 }, new_id := rm.2.2 })
      0 iters s0 = some s) :
    s.num_blocks = numRuns (fun i => s.work.block_id.getD i 0) length := by
  have h2 := forLoop_some_inv _
    (fun i (s : SplitLoopState κ) => 1 ≤ i →
      s.num_blocks = numRuns (fun i => s.work.block_id.getD i 0) length) iters 0 s0 s h
    (fun h0 => absurd h0 (by omega))
    (by
      intro i t t1 _ _ _ hb _
      simp only [Option.bind_eq_some, Option.some.injEq] at hb
      obtain ⟨fb, hfb, rm, hrm, hs, _, ht1⟩ := hb
      subst ht1
      exact split_round_runs C data length block_switch_cost t.num_histograms t.histograms
        t.work t.new_id fb rm h1 h64 hfb hrm)
  rw [Nat.zero_add] at h2
  exact h2 hit

theorem uintOfInt_four : uintOfInt 4 = 4 := by decide

theorem hashH5_lt_15 {Γ : Type} (K : HasherCollab Γ) (data : Nat → Nat) (p : Nat) :
    HashBytesH5 K data p 17 < 2 ^ 15 := by
  have h := HashBytesH5_lt K data p 15 (by decide)
  have e : (32 : Int) - 15 = 17 := by norm_num
  rw [e] at h
  have e2 : u64 (1 <<< uintOfInt 15) = 2 ^ 15 := by decide
  rw [e2] at h
  exact h

theorem ring_slot_ne (k k2 a b : Nat) (hk : k < 2 ^ 15) (hk2 : k2 < 2 ^ 15) (hne : k ≠ k2)
    (ha : a ≤ 15) (hb : b ≤ 15) : u32 (k <<< 4) + a ≠ u32 (k2 <<< 4) + b := by
  rw [Nat.shiftLeft_eq, Nat.shiftLeft_eq]
  unfold u32
  norm_num at hk hk2 ⊢
  omega

theorem sizedH5_StoreH5 {Γ : Type} (K : HasherCollab Γ) (s : H5) (data : Nat → Nat)
    (mask ix : Nat) (h : SizedH5 s) : SizedH5 (StoreH5 K s data mask ix) := h

theorem sizedH5_FindLongestMatchH5 {Γ : Type} (K : HasherCollab Γ) (s : H5) (common : Γ)
    (data : Nat → Nat) (mask : Nat) (dc : Nat → Int)
    (cur_ix max_length max_backward gap max_distance : Nat) (out : HasherSearchResult)
    (h : SizedH5 s) :
    SizedH5 (FindLongestMatchH5 K s common data mask dc cur_ix max_length max_backward gap
      max_distance out).1 := h

theorem ringTop_write (s t : H5) (key key2 n p ix : Nat) (hs : SizedH5 s)
    (hk : key < 2 ^ 15) (hk2 : key2 < 2 ^ 15) (hne : key2 ≠ key)
    (h1 : t.block_bits = s.block_bits) (h3 : t.block_mask_ = s.block_mask_)
    (h4 : t.num = upd s.num key2 (u16 (s.num key2 + 1)))
    (h5 : ∃ a, a ≤ 15 ∧ t.buckets = upd s.buckets
      (u32 (key2 <<< uintOfInt s.block_bits) + a) ix)
    (hT : RingTop s key n p) : RingTop t key n p := by
  obtain ⟨_, hbb, hbm, _⟩ := hs
  obtain ⟨t1, t2, t3, t4⟩ := hT
  obtain ⟨a, ha, h5⟩ := h5
  refine ⟨?_, t2, t3, ?_⟩
  · rw [h4]
    unfold upd
    rw [if_neg (fun h => hne h.symm)]
    exact t1
  · rw [h5, h1, h3]
    unfold upd
    rw [if_neg]
    · exact t4
    · rw [hbb, hbm, uintOfInt_four]
      exact ring_slot_ne key key2 _ a hk hk2 (fun h => hne h.symm) Nat.and_le_right ha

theorem ringTop_callH5 {Γ : Type} (K : HasherCollab Γ) (st : H5 × Γ) (c : HasherCall)
    (key n p : Nat) (hs : SizedH5 st.1) (hk : key < 2 ^ 15)
    (hne : c.keyH5 K 17 ≠ key) (hT : RingTop st.1 key n p) :
    RingTop (callH5 K st c).1.1 key n p := by
  have hsh : st.1.hash_shift_ = 17 := hs.1
  have hbm : st.1.block_mask_ = 15 := hs.2.2.1
  cases c with
  | store data mask ix =>
    apply ringTop_write st.1 (StoreH5 K st.1 data mask ix) key
      (HashBytesH5 K data (ix &&& mask) 17) n p (u32 ix) hs hk (hashH5_lt_15 K data _) hne
      rfl rfl _ _ hT
    · simp only [StoreH5, hsh]
    · refine ⟨st.1.num (HashBytesH5 K data (ix &&& mask) 17) &&& 15, Nat.and_le_right, ?_⟩
      simp only [StoreH5, hsh, hbm]
      rw [Nat.add_comm (u32 _) (_ &&& _)]
  | find data mask dc cur_ix max_length max_backward gap max_distance out =>
    apply ringTop_write st.1 (FindLongestMatchH5 K st.1 st.2 data mask dc cur_ix max_length
      max_backward gap max_distance out).1 key
      (HashBytesH5 K data (cur_ix &&& mask) 17) n p (u32 cur_ix) hs hk
      (hashH5_lt_15 K data _) hne rfl rfl _ _ hT
    · simp only [FindLongestMatchH5, hsh]
    · refine ⟨u32 (st.1.num (HashBytesH5 K data (cur_ix &&& mask) 17)) &&& 15,
        Nat.and_le_right, ?_⟩
      simp only [FindLongestMatchH5, hsh, hbm]

theorem sizedH5_callH5 {Γ : Type} (K : HasherCollab Γ) (st : H5 × Γ) (c : HasherCall)
    (hs : SizedH5 st.1) : SizedH5 (callH5 K st c).1.1 := by
  cases c with
  | store data mask ix => exact hs
  | find data mask dc cur_ix max_length max_backward gap max_distance out => exact hs

theorem ringTop_runH5 {Γ : Type} (K : HasherCollab Γ) (key n p : Nat) (hk : key < 2 ^ 15) :
    ∀ (calls : List HasherCall) (st : H5 × Γ), SizedH5 st.1 →
      (∀ c ∈ calls, c.keyH5 K 17 ≠ key) → RingTop st.1 key n p →
      SizedH5 (runH5 K st calls).1.1 ∧ RingTop (runH5 K st calls).1.1 key n p := by
  intro calls
  induction calls with
  | nil => intro st hs _ hT; exact ⟨hs, hT⟩
  | cons c cs ih =>
    intro st hs hne hT
    simp only [runH5]
    exact ih _ (sizedH5_callH5 K st c hs) (fun c2 hc2 => hne c2 (List.mem_cons_of_mem _ hc2))
      (ringTop_callH5 K st c key n p hs hk (hne c (List.mem_cons_self _ _)) hT)

theorem ringTop_StoreH5 {Γ : Type} (K : HasherCollab Γ) (s : H5) (data : Nat → Nat)
    (mask p : Nat) (hs : SizedH5 s)
    (hn : s.num (HashBytesH5 K data (p &&& mask) 17) < 2 ^ 16 - 1) :
    RingTop (StoreH5 K s data mask p) (HashBytesH5 K data (p &&& mask) 17)
      (s.num (HashBytesH5 K data (p &&& mask) 17) + 1) (u32 p) := by
  obtain ⟨hsh, hbb, hbm, _⟩ := hs
  have hu : u16 (s.num (HashBytesH5 K data (p &&& mask) 17) + 1) =
      s.num (HashBytesH5 K data (p &&& mask) 17) + 1 := Nat.mod_eq_of_lt (by omega)
  refine ⟨?_, by omega, by omega, ?_⟩
  · simp only [StoreH5, hsh, upd, if_true]
    exact hu
  · simp only [StoreH5, hsh, hbb, hbm, Nat.add_sub_cancel]
    rw [u32_of_lt (s.num _) (by omega), Nat.add_comm (u32 _) (_ &&& _)]
    simp only [upd, if_true]

theorem abcd_bytes (data : Nat → Nat) (hdata : ∀ i, i < 8 → data i = abcdInput i) :
    data 0 = 97 ∧ data 1 = 98 ∧ data 2 = 99 ∧ data 3 = 100 ∧
    data 4 = 97 ∧ data 5 = 98 ∧ data 6 = 99 ∧ data 7 = 100 :=
  ⟨hdata 0 (by decide), hdata 1 (by decide), hdata 2 (by decide), hdata 3 (by decide),
   hdata 4 (by decide), hdata 5 (by decide), hdata 6 (by decide), hdata 7 (by decide)⟩

theorem fml_abcd (data : Nat → Nat) (hdata : ∀ i, i < 8 → data i = abcdInput i) :
    FindMatchLengthWithLimit data 0 4 4 = 4 ∧ FindMatchLengthWithLimit data 1 4 4 = 0 ∧
    FindMatchLengthWithLimit data 2 4 4 = 0 ∧ FindMatchLengthWithLimit data 3 4 4 = 0 := by
  obtain ⟨d0, d1, d2, d3, d4, d5, d6, d7⟩ := abcd_bytes data hdata
  refine ⟨?_, ?_, ?_, ?_⟩ <;>
    simp [FindMatchLengthWithLimit, d0, d1, d2, d3, d4, d5, d6, d7]

theorem hash_abcd {Γ : Type} (K : HasherCollab Γ) (data : Nat → Nat)
    (hdata : ∀ i, i < 8 → data i = abcdInput i) (p : Nat) (hp : p ≤ 4) :
    HashBytesH5 K data p 17 = HashBytesH5 K abcdInput p 17 := by
  unfold HashBytesH5 BROTLI_UNALIGNED_LOAD32LE
  rw [hdata p (by omega), hdata (p + 1) (by omega), hdata (p + 2) (by omega),
    hdata (p + 3) (by omega)]

theorem usub_four (b : Nat) (hb : b < 2 ^ 64) (h : ¬ usub 4 b ≥ 4) :
    usub 4 b = 4 - b ∧ 1 ≤ b ∧ b ≤ 4 := by
  unfold usub at h ⊢
  norm_num at hb h ⊢
  omega

theorem cache_step_abcd (data : Nat → Nat) (mask : Nat) (dc : Nat → Int) (mb i : Nat)
    (st : SearchStateH5) (hdata : ∀ i, i < 8 → data i = abcdInput i)
    (hmask : ∀ i, i < 8 → i &&& mask = i) (hJ : AbcdSearch st) :
    AbcdSearch (h5CacheStep referenceCollab data mask dc 4 4 4 mb i st) := by
  obtain ⟨f0, f1, f2, f3⟩ := fml_abcd data hdata
  have hb64 := uintOfInt_lt (dc i)
  have hge : 2020 ≤ st.best_score := by
    rcases hJ.2 with h | h <;> omega
  unfold h5CacheStep
  simp only
  generalize uintOfInt (dc i) = b at hb64
  by_cases h1 : usub 4 b ≥ 4
  · rw [if_pos h1]
    exact hJ
  rw [if_neg h1]
  obtain ⟨e, hb1, hb4⟩ := usub_four b hb64 h1
  rw [e]
  have hlen : FindMatchLengthWithLimit data ((4 - b) &&& mask) 4 4 ≥ 3 ∨
      (FindMatchLengthWithLimit data ((4 - b) &&& mask) 4 4 = 2 ∧ i < 2) →
      FindMatchLengthWithLimit data ((4 - b) &&& mask) 4 4 = 4 ∧ b = 4 := by
    intro h4
    interval_cases b
    · rw [hmask 3 (by decide), f3] at h4; omega
    · rw [hmask 2 (by decide), f2] at h4; omega
    · rw [hmask 1 (by decide), f1] at h4; omega
    · rw [hmask 0 (by decide), f0]; exact ⟨rfl, rfl⟩
  split_ifs
  all_goals first
    | exact hJ
    | (have h4 := hlen (by assumption)
       refine ⟨rfl, Or.inr ⟨h4.1, h4.1, h4.2, ?_⟩⟩
       dsimp only
       omega)

theorem walk_abcd (s : H5) (data : Nat → Nat) (mask mb base : Nat) (st : SearchStateH5)
    (hdata : ∀ i, i < 8 → data i = abcdInput i)
    (hmask : ∀ i, i < 8 → i &&& mask = i) (hmb : 4 ≤ mb)
    (htop : s.buckets (base + (u32 0 &&& s.block_mask_)) = 0) (hJ : AbcdSearch st) :
    (h5BucketLoop referenceCollab s data mask 4 4 4 mb base 1 1 st).out.distance = 4 ∧
    (h5BucketLoop referenceCollab s data mask 4 4 4 mb base 1 1 st).out.len = 4 ∧
    2020 < (h5BucketLoop referenceCollab s data mask 4 4 4 mb base 1 1 st).out.score := by
  obtain ⟨f0, _, _, _⟩ := fml_abcd data hdata
  obtain ⟨d0, _, _, _, d4, _, _, _⟩ := abcd_bytes data hdata
  have hm7 : 7 ≤ mask := by
    have := hmask 7 (by decide)
    have h2 : 7 &&& mask ≤ mask := Nat.and_le_right
    omega
  have hu : usub 4 0 = 4 := by decide
  have hs : referenceCollab.BackwardReferenceScore 4 4 = 2400 := by decide
  obtain ⟨j1, j2⟩ := hJ
  rw [h5BucketLoop]
  simp only [Nat.sub_self, htop, hu, hmask 0 (by decide), f0, hs, h5BucketLoop]
  rw [if_neg (by omega)]
  by_cases h3 : 4 + st.best_len > mask ∨ 0 + st.best_len > mask ∨
      data (4 + st.best_len) ≠ data (0 + st.best_len)
  · rw [if_pos h3]
    rcases j2 with h | h
    · exfalso
      rw [h.1] at h3
      simp only [Nat.add_zero, d0, d4] at h3
      omega
    · exact ⟨h.2.2.1, h.2.1, by rw [j1]; exact h.2.2.2⟩
  · rw [if_neg h3, if_pos (by omega)]
    by_cases h5 : st.best_score < 2400
    · rw [if_pos h5]
      exact ⟨rfl, rfl, (by decide : (2020 : Nat) < 2400)⟩
    · rw [if_neg h5]
      rcases j2 with h | h
      · omega
      · exact ⟨h.2.2.1, h.2.1, by rw [j1]; exact h.2.2.2⟩

theorem prepareH5_fields {Γ : Type} (K : HasherCollab Γ) (self : H5) (one_shot : Bool)
    (input_size : Nat) (data : Nat → Nat) :
    (PrepareH5 K self one_shot input_size data).hash_shift_ = self.hash_shift_ ∧
    (PrepareH5 K self one_shot input_size data).block_bits = self.block_bits ∧
    (PrepareH5 K self one_shot input_size data).block_mask_ = self.block_mask_ ∧
    (PrepareH5 K self one_shot input_size data).block_size_ = self.block_size_ := by
  unfold PrepareH5
  simp only
  split
  · refine iterLoop_inv _ (fun (s : H5) => s.hash_shift_ = self.hash_shift_ ∧
        s.block_bits = self.block_bits ∧ s.block_mask_ = self.block_mask_ ∧
        s.block_size_ = self.block_size_) ?_ _ _ _ ⟨rfl, rfl, rfl, rfl⟩
    intro i s h
    exact h
  · exact ⟨rfl, rfl, rfl, rfl⟩

theorem sizedH5_prepare {Γ : Type} (K : HasherCollab Γ) (nldc : Int) (one_shot : Bool)
    (input_size : Nat) (data : Nat → Nat) :
    SizedH5 (PrepareH5 K (InitializeH5 15 4 nldc) one_shot input_size data) := by
  obtain ⟨h1, h2, h3, h4⟩ := prepareH5_fields K (InitializeH5 15 4 nldc) one_shot input_size
    data
  refine ⟨?_, ?_, ?_, ?_⟩
  · rw [h1]; show (32 : Int) - 15 = 17; norm_num
  · rw [h2]; rfl
  · rw [h3]; show u32 (usub (u64 (1 <<< uintOfInt 4)) 1) = 15; decide
  · rw [h4]; show u64 (1 <<< uintOfInt 4) = 16; decide

theorem abcd_keys :
    HashBytesH5 referenceCollab abcdInput 4 17 = HashBytesH5 referenceCollab abcdInput 0 17 ∧
    HashBytesH5 referenceCollab abcdInput 1 17 ≠ HashBytesH5 referenceCollab abcdInput 0 17 ∧
    HashBytesH5 referenceCollab abcdInput 2 17 ≠ HashBytesH5 referenceCollab abcdInput 0 17 ∧
    HashBytesH5 referenceCollab abcdInput 3 17 ≠ HashBytesH5 referenceCollab abcdInput 0 17 := by
  decide

theorem ringTop_abcd (nldc : Int) (one_shot : Bool) (input_size : Nat) (data0 : Nat → Nat)
    (data : Nat → Nat) (mask : Nat) (hdata : ∀ i, i < 8 → data i = abcdInput i)
    (hmask : ∀ i, i < 8 → i &&& mask = i) :
    SizedH5 (StoreH5 referenceCollab (StoreH5 referenceCollab (StoreH5 referenceCollab
      (StoreH5 referenceCollab
        (PrepareH5 referenceCollab (InitializeH5 15 4 nldc) one_shot input_size data0)
        data mask 0) data mask 1) data mask 2) data mask 3) ∧
    RingTop (StoreH5 referenceCollab (StoreH5 referenceCollab (StoreH5 referenceCollab
      (StoreH5 referenceCollab
        (PrepareH5 referenceCollab (InitializeH5 15 4 nldc) one_shot input_size data0)
        data mask 0) data mask 1) data mask 2) data mask 3)
      (HashBytesH5 referenceCollab abcdInput 0 17) 1 0 := by
  obtain ⟨_, k1, k2, k3⟩ := abcd_keys
  have hs0 := sizedH5_prepare referenceCollab nldc one_shot input_size data0
  have hn0 := num_PrepareH5_InitializeH5 referenceCollab 15 4 nldc one_shot input_size data0
  have hT1 := ringTop_StoreH5 referenceCollab _ data mask 0 hs0 (by rw [hn0]; decide)
  rw [hn0, hmask 0 (by decide), hash_abcd referenceCollab data hdata 0 (by decide)] at hT1
  have hk : HashBytesH5 referenceCollab abcdInput 0 17 < 2 ^ 15 := hashH5_lt_15 _ _ _
  have key : ∀ (p : Nat), p ≤ 4 →
      HashBytesH5 referenceCollab abcdInput p 17 ≠ HashBytesH5 referenceCollab abcdInput 0 17 →
      (HasherCall.store data mask p).keyH5 referenceCollab 17 ≠
        HashBytesH5 referenceCollab abcdInput 0 17 := by
    intro p hp hne
    show HashBytesH5 referenceCollab data (p &&& mask) 17 ≠ _
    rw [hmask p (by omega), hash_abcd referenceCollab data hdata p hp]
    exact hne
  have h := ringTop_runH5 referenceCollab (HashBytesH5 referenceCollab abcdInput 0 17) 1 0 hk
    [HasherCall.store data mask 1, HasherCall.store data mask 2, HasherCall.store data mask 3]
    (StoreH5 referenceCollab
      (PrepareH5 referenceCollab (InitializeH5 15 4 nldc) one_shot input_size data0)
      data mask 0, ())
    hs0
    (by
      intro c hc
      simp only [List.mem_cons, List.mem_singleton, List.not_mem_nil, or_false] at hc
      rcases hc with h | h | h
      · rw [h]; exact key 1 (by decide) k1
      · rw [h]; exact key 2 (by decide) k2
      · rw [h]; exact key 3 (by decide) k3)
    hT1
  exact h

theorem find_abcd (s : H5) (common : Unit) (data : Nat → Nat) (mask : Nat)
    (dc : Nat → Int) (mb gap md : Nat) (out : HasherSearchResult)
    (hdata : ∀ i, i < 8 → data i = abcdInput i) (hmask : ∀ i, i < 8 → i &&& mask = i)
    (hmb : 4 ≤ mb) (hs : SizedH5 s)
    (hT : RingTop s (HashBytesH5 referenceCollab abcdInput 0 17) 1 0)
    (hlen : out.len = 0) (hscore : out.score = 2020) :
    (FindLongestMatchH5 referenceCollab s common data mask dc 4 4 mb gap md out).2.2.distance
      = 4 ∧
    (FindLongestMatchH5 referenceCollab s common data mask dc 4 4 mb gap md out).2.2.len
      = 4 := by
  obtain ⟨hsh, hbb, hbm, hbs⟩ := hs
  obtain ⟨t1, _, _, t4⟩ := hT
  have hkey : HashBytesH5 referenceCollab data 4 17 =
      HashBytesH5 referenceCollab abcdInput 0 17 := by
    rw [hash_abcd referenceCollab data hdata 4 (by decide)]
    exact abcd_keys.1
  have hJ0 : AbcdSearch ⟨out.score, out.len, { out with len := 0, len_code_delta := 0 }⟩ :=
    ⟨rfl, Or.inl ⟨hlen, hscore, rfl⟩⟩
  have hJ1 := iterLoop_inv (h5CacheStep referenceCollab data mask dc 4 4 4 mb) AbcdSearch
    (fun i st h => cache_step_abcd data mask dc mb i st hdata hmask h)
    (uintOfInt s.num_last_distances_to_check) 0 _ hJ0
  have hw := walk_abcd s data mask mb
    (u32 (HashBytesH5 referenceCollab abcdInput 0 17 <<< uintOfInt s.block_bits)) _ hdata hmask
    hmb t4 hJ1
  have key : ∀ (st2 : SearchStateH5) (d : Unit × HasherSearchResult) (x : Unit × HasherSearchResult),
      st2.out.distance = 4 ∧ st2.out.len = 4 ∧ 2020 < st2.out.score →
      d = (if out.score = st2.out.score then x else (common, st2.out)) →
      d.2.distance = 4 ∧ d.2.len = 4 := by
    intro st2 d x h e
    rw [e, if_neg (by omega)]
    exact ⟨h.1, h.2.1⟩
  unfold FindLongestMatchH5
  simp only [hmask 4 (by decide), hsh, hkey, t1, hbs]
  have hd : (1 : Nat) - (if 1 > 16 then 1 - 16 else 0) = 1 := by decide
  rw [hd]
  exact key _ _ _ hw rfl

theorem load32_congr (data data2 : Nat → Nat) (p q : Nat)
    (h : ∀ j, j < 4 → data (p + j) = data2 (q + j)) :
    BROTLI_UNALIGNED_LOAD32LE data p = BROTLI_UNALIGNED_LOAD32LE data2 q := by
  unfold BROTLI_UNALIGNED_LOAD32LE
  have h0 := h 0 (by omega)
  rw [Nat.add_zero, Nat.add_zero] at h0
  rw [h0, h 1 (by omega), h 2 (by omega), h 3 (by omega)]

theorem load64_congr (data data2 : Nat → Nat) (p q : Nat)
    (h : ∀ j, j < 8 → data (p + j) = data2 (q + j)) :
    BROTLI_UNALIGNED_LOAD64LE data p = BROTLI_UNALIGNED_LOAD64LE data2 q := by
  unfold BROTLI_UNALIGNED_LOAD64LE
  rw [load32_congr data data2 p q (fun j hj => h j (by omega)),
    load32_congr data data2 (p + 4) (q + 4) (fun j hj => by
      have := h (4 + j) (by omega)
      rw [Nat.add_assoc, Nat.add_assoc]
      exact this)]

/-- Claim C22, amended.  `store_lookahead()` returns 4, 8 or 128: `StoreLookaheadH4()` is 8,
`StoreLookaheadH5()` is 4 and `StoreLookaheadH10()` is 128.  They are the bytes a store reads
past the position: `StoreH4` depends on the 8 bytes at `ix & mask` only, `StoreH5` on the 4
bytes there, and `StoreH10` compares up to `max_length = 128` bytes. -/
theorem StoreLookahead_values {Γ : Type} (K : HasherCollab Γ) (s4 : H4) (s5 : H5)
    (data data2 : Nat → Nat) (mask ix : Nat) :
    StoreLookaheadH4 = 8 ∧ StoreLookaheadH5 = 4 ∧ StoreLookaheadH10 = 128 ∧
    ((∀ j, j < StoreLookaheadH4 → data ((ix &&& mask) + j) = data2 ((ix &&& mask) + j)) →
      StoreH4 K s4 data mask ix = StoreH4 K s4 data2 mask ix) ∧
    ((∀ j, j < StoreLookaheadH5 → data ((ix &&& mask) + j) = data2 ((ix &&& mask) + j)) →
      StoreH5 K s5 data mask ix = StoreH5 K s5 data2 mask ix) ∧
    (∀ (s10 : H10), StoreH10 K s10 data mask ix =
      (StoreAndFindMatchesH10 K s10 data ix mask StoreLookaheadH10
        (u64 (usub s10.window_mask_ BROTLI_WINDOW_GAP + 1)) 0 none).1) := by
  refine ⟨rfl, rfl, rfl, ?_, ?_, fun _ => rfl⟩
  · intro h
    have e : HashBytesH4 K data (ix &&& mask) = HashBytesH4 K data2 (ix &&& mask) := by
      unfold HashBytesH4
      rw [load64_congr data data2 _ _ h]
    simp only [StoreH4, e]
  · intro h
    have e : ∀ sh, HashBytesH5 K data (ix &&& mask) sh = HashBytesH5 K data2 (ix &&& mask) sh := by
      intro sh
      unfold HashBytesH5
      rw [load32_congr data data2 _ _ h]
    simp only [StoreH5, e]

/-- Claim C22 on `abcdabcd`: a store at 0 reads the first eight bytes (H4) or the first four
(H5), whatever follows them. -/
theorem StoreLookahead_values_witness :
    StoreH4 referenceCollab InitializeH4 abcdInput 0xFFFF 0 =
      StoreH4 referenceCollab InitializeH4
        (fun i => if i < 8 then abcdInput i else 0) 0xFFFF 0 ∧
    StoreH5 referenceCollab (InitializeH5 15 4 4) abcdInput 0xFFFF 0 =
      StoreH5 referenceCollab (InitializeH5 15 4 4)
        (fun i => if i < 4 then abcdInput i else 0) 0xFFFF 0 :=
  ⟨(StoreLookahead_values referenceCollab InitializeH4 (InitializeH5 15 4 4) abcdInput
      (fun i => if i < 8 then abcdInput i else 0) 0xFFFF 0).2.2.2.1 (by decide),
   (StoreLookahead_values referenceCollab InitializeH4 (InitializeH5 15 4 4) abcdInput
      (fun i => if i < 4 then abcdInput i else 0) 0xFFFF 0).2.2.2.2.1 (by decide)⟩

/-- Claim C22 as stated fails for H4: `StoreLookaheadH4()` is 8, which is neither 4 nor 128. -/
theorem StoreLookahead_values_counterexample :
    StoreLookaheadH4 = 8 ∧ ¬ (StoreLookaheadH4 = 4 ∨ StoreLookaheadH4 = 128) := by
  decide

theorem hashH4_five_bytes {Γ : Type} (K : HasherCollab Γ) (data data2 : Nat → Nat) (p q : Nat)
    (h : ∀ j, j < 5 → data (p + j) = data2 (q + j)) :
    HashBytesH4 K data p = HashBytesH4 K data2 q := by
  have e : u64 (BROTLI_UNALIGNED_LOAD64LE data p <<< (64 - 8 * 5)) =
      u64 (BROTLI_UNALIGNED_LOAD64LE data2 q <<< (64 - 8 * 5)) := by
    unfold BROTLI_UNALIGNED_LOAD64LE BROTLI_UNALIGNED_LOAD32LE u64 u8
    have h0 := h 0 (by omega)
    rw [Nat.add_zero, Nat.add_zero] at h0
    rw [h0, h 1 (by omega), h 2 (by omega), h 3 (by omega), h 4 (by omega),
      Nat.shiftLeft_eq, Nat.shiftLeft_eq]
    norm_num
    omega
  unfold HashBytesH4
  simp only [e]

theorem PrepareH4_outside {Γ : Type} (K : HasherCollab Γ) (self : H4) (one_shot : Bool)
    (input_size : Nat) (data : Nat → Nat) (slot : Nat) (hs : 2 ^ 17 + 4 ≤ slot) :
    (PrepareH4 K self one_shot input_size data).buckets_ slot = self.buckets_ slot := by
  unfold PrepareH4
  simp only
  split
  · refine iterLoop_inv _ (fun (s : H4) => s.buckets_ slot = self.buckets_ slot) ?_ _ _ _ rfl
    intro i s h
    show (iterLoop (fun j b => upd b (HashBytesH4 K data i + j) 0) 0 4 s.buckets_) slot = _
    have hk := HashBytesH4_lt K data i
    simp only [iterLoop, upd]
    norm_num at hk hs
    rw [if_neg (by omega), if_neg (by omega), if_neg (by omega), if_neg (by omega)]
    exact h
  · show (if slot < (1 <<< 17) + 4 then 0 else self.buckets_ slot) = _
    rw [if_neg]
    rw [Nat.shiftLeft_eq, Nat.one_mul]
    omega

/-- Claim C23.  `HashBytesH4` maps 5 bytes to a 17-bit key: the result is below `2^17`, and two
inputs that agree on the bytes `0 .. 4` get the same key, whatever the bytes `5 .. 7` are.
Consequently every slot `key .. key+4` is inside the table of `2^17 + 4` entries: `PrepareH4`,
`StoreH4` and `FindLongestMatchH4` leave every slot outside the table as it was, and what
`FindLongestMatchH4` finds and leaves inside the table is the same for two tables that agree
inside the table. -/
theorem HashBytesH4_key_in_table {Γ : Type} (K : HasherCollab Γ) (data data2 : Nat → Nat)
    (p q : Nat) (self self2 : H4) (common : Γ) (one_shot : Bool) (input_size : Nat)
    (mask : Nat) (distance_cache : Nat → Int)
    (cur_ix max_length max_backward gap max_distance : Nat) (out : HasherSearchResult) :
    HashBytesH4 K data p < 2 ^ 17 ∧
    ((∀ j, j < 5 → data (p + j) = data2 (q + j)) →
      HashBytesH4 K data p = HashBytesH4 K data2 q) ∧
    (∀ j, j ≤ 4 → HashBytesH4 K data p + j < 2 ^ 17 + 4) ∧
    (∀ slot, 2 ^ 17 + 4 ≤ slot →
      (PrepareH4 K self one_shot input_size data).buckets_ slot = self.buckets_ slot ∧
      (StoreH4 K self data mask p).buckets_ slot = self.buckets_ slot ∧
      (FindLongestMatchH4 K self common data mask distance_cache cur_ix max_length max_backward
        gap max_distance out).1.buckets_ slot = self.buckets_ slot) ∧
    ((∀ slot, slot < 2 ^ 17 + 4 → self.buckets_ slot = self2.buckets_ slot) →
      (FindLongestMatchH4 K self common data mask distance_cache cur_ix max_length max_backward
        gap max_distance out).2 =
      (FindLongestMatchH4 K self2 common data mask distance_cache cur_ix max_length
        max_backward gap max_distance out).2 ∧
      ∀ slot, slot < 2 ^ 17 + 4 →
        (FindLongestMatchH4 K self common data mask distance_cache cur_ix max_length
          max_backward gap max_distance out).1.buckets_ slot =
        (FindLongestMatchH4 K self2 common data mask distance_cache cur_ix max_length
          max_backward gap max_distance out).1.buckets_ slot) := by
  have hk := HashBytesH4_lt K data p
  refine ⟨hk, hashH4_five_bytes K data data2 p q, ?_, ?_, ?_⟩
  · intro j hj
    norm_num at hk ⊢
    omega
  · intro slot hs
    refine ⟨PrepareH4_outside K self one_shot input_size data slot hs, ?_, ?_⟩
    · have h1 := HashBytesH4_lt K data (p &&& mask)
      have h2 : u32 (p >>> 3) % 4 < 4 := Nat.mod_lt _ (by norm_num)
      have h3 := u32_le (HashBytesH4 K data (p &&& mask) + u32 (p >>> 3) % 4)
      simp only [StoreH4, upd]
      rw [if_neg]
      norm_num at h1 hs
      omega
    · have h1 := HashBytesH4_lt K data (cur_ix &&& mask)
      have h2 : u32 ((cur_ix >>> 3) % 4) < 4 :=
        Nat.lt_of_le_of_lt (u32_le _) (Nat.mod_lt _ (by norm_num))
      have h3 := u32_le (HashBytesH4 K data (cur_ix &&& mask) + u32 ((cur_ix >>> 3) % 4))
      simp only [FindLongestMatchH4, upd]
      rw [if_neg]
      norm_num at h1 hs
      omega
  · intro hag
    have h1 := HashBytesH4_lt K data (cur_ix &&& mask)
    have e : ∀ j, j < 4 → self.buckets_ (HashBytesH4 K data (cur_ix &&& mask) + j) =
        self2.buckets_ (HashBytesH4 K data (cur_ix &&& mask) + j) := by
      intro j hj
      apply hag
      norm_num at h1 ⊢
      omega
    have e0 := e 0 (by omega)
    rw [Nat.add_zero] at e0
    refine ⟨?_, ?_⟩
    · simp only [FindLongestMatchH4, iterLoop, Nat.zero_add, Nat.add_zero, e0, e 1 (by omega),
        e 2 (by omega), e 3 (by omega)]
    · intro slot hs
      simp only [FindLongestMatchH4, upd]
      split
      · rfl
      · exact hag slot hs

/-- Claim C23 on `abcdabcd`: the key of the five bytes `abcda` does not change with the three
bytes after them. -/
theorem HashBytesH4_key_in_table_witness :
    HashBytesH4 referenceCollab abcdInput 0 =
      HashBytesH4 referenceCollab (fun i => if i < 5 then abcdInput i else 0) 0 :=
  (HashBytesH4_key_in_table referenceCollab abcdInput (fun i => if i < 5 then abcdInput i else 0)
    0 0 InitializeH4 InitializeH4 () false 0 0xFFFF (fun _ => 0) 0 0 0 0 0
    initialSearchResult).2.1 (by decide)

theorem referenceCollab_silent : DictionarySilent referenceCollab := by
  intro c data p max_length max_backward max_distance out shallow
  rfl

theorem searchFrameH4_tryCache {Γ : Type} (K : HasherCollab Γ) (data : Nat → Nat)
    (mask cur_ix cur_ix_masked max_length cached_backward : Nat) (out : HasherSearchResult)
    (st : SearchState) (h : SearchFrameH4 out st) :
    SearchFrameH4 out
      (h4TryCache K data mask cur_ix cur_ix_masked max_length cached_backward st) := by
  obtain ⟨h1, h2, h3⟩ := h
  unfold h4TryCache
  simp only
  split_ifs
  all_goals first
    | exact ⟨h1, h2, h3⟩
    | (refine ⟨rfl, ?_, ?_⟩
       · dsimp only
         omega
       · dsimp only
         intro he
         omega)

theorem searchFrameH4_sweep {Γ : Type} (K : HasherCollab Γ) (data : Nat → Nat)
    (mask cur_ix cur_ix_masked max_length max_backward prev_ix : Nat)
    (out : HasherSearchResult) (st : SearchState) (h : SearchFrameH4 out st) :
    SearchFrameH4 out
      (h4SweepStep K data mask cur_ix cur_ix_masked max_length max_backward prev_ix st) := by
  obtain ⟨h1, h2, h3⟩ := h
  unfold h4SweepStep
  simp only
  split_ifs
  all_goals first
    | exact ⟨h1, h2, h3⟩
    | (refine ⟨rfl, ?_, ?_⟩
       · dsimp only
         omega
       · dsimp only
         intro he
         omega)

theorem searchFrameH5_cache {Γ : Type} (K : HasherCollab Γ) (data : Nat → Nat)
    (mask : Nat) (dc : Nat → Int) (cur_ix cur_ix_masked max_length max_backward i : Nat)
    (out : HasherSearchResult) (st : SearchStateH5) (h : SearchFrameH5 out st) :
    SearchFrameH5 out
      (h5CacheStep K data mask dc cur_ix cur_ix_masked max_length max_backward i st) := by
  obtain ⟨h1, h2, h3⟩ := h
  unfold h5CacheStep
  simp only
  split_ifs
  all_goals first
    | exact ⟨h1, h2, h3⟩
    | (refine ⟨rfl, ?_, ?_⟩
       · dsimp only
         omega
       · dsimp only
         intro he
         omega)

theorem searchFrameH5_walk {Γ : Type} (K : HasherCollab Γ) (self : H5) (data : Nat → Nat)
    (mask cur_ix cur_ix_masked max_length max_backward base : Nat)
    (out : HasherSearchResult) :
    ∀ (steps i : Nat) (st : SearchStateH5), SearchFrameH5 out st →
      SearchFrameH5 out
        (h5BucketLoop K self data mask cur_ix cur_ix_masked max_length max_backward base steps
          i st) := by
  intro steps
  induction steps with
  | zero => intro i st h; exact h
  | succ n ih =>
    intro i st h
    obtain ⟨h1, h2, h3⟩ := h
    rw [h5BucketLoop]
    simp only
    split_ifs
    all_goals first
      | exact ⟨h1, h2, h3⟩
      | exact ih _ _ ⟨h1, h2, h3⟩
      | (apply ih
         refine ⟨rfl, ?_, ?_⟩
         · dsimp only
           omega
         · dsimp only
           intro he
           omega)

/-- Claim C24, amended.  `out` is updated only if a better match is found: for
`FindLongestMatchH4` and `FindLongestMatchH5`, for every state and input with the static
dictionary contributing nothing, `out.score` after the call is `>= out.score` before it; if
`out.score` is unchanged then `out.distance` is unchanged as well, `out.len` is unchanged by
`FindLongestMatchH4`, and `FindLongestMatchH5` leaves `out.len = 0`, to which it resets it at
entry. -/
theorem FindLongestMatch_out_frame {Γ : Type} (K : HasherCollab Γ) (hK : DictionarySilent K)
    (s4 : H4) (s5 : H5) (common : Γ) (data : Nat → Nat) (ring_buffer_mask : Nat)
    (distance_cache : Nat → Int)
    (cur_ix max_length max_backward gap max_distance : Nat) (out : HasherSearchResult) :
    (out.score ≤ (FindLongestMatchH4 K s4 common data ring_buffer_mask distance_cache cur_ix
        max_length max_backward gap max_distance out).2.2.score ∧
      ((FindLongestMatchH4 K s4 common data ring_buffer_mask distance_cache cur_ix
          max_length max_backward gap max_distance out).2.2.score = out.score →
        (FindLongestMatchH4 K s4 common data ring_buffer_mask distance_cache cur_ix
          max_length max_backward gap max_distance out).2.2.len = out.len ∧
        (FindLongestMatchH4 K s4 common data ring_buffer_mask distance_cache cur_ix
          max_length max_backward gap max_distance out).2.2.distance = out.distance)) ∧
    (out.score ≤ (FindLongestMatchH5 K s5 common data ring_buffer_mask distance_cache cur_ix
        max_length max_backward gap max_distance out).2.2.score ∧
      ((FindLongestMatchH5 K s5 common data ring_buffer_mask distance_cache cur_ix
          max_length max_backward gap max_distance out).2.2.score = out.score →
        (FindLongestMatchH5 K s5 common data ring_buffer_mask distance_cache cur_ix
          max_length max_backward gap max_distance out).2.2.len = 0 ∧
        (FindLongestMatchH5 K s5 common data ring_buffer_mask distance_cache cur_ix
          max_length max_backward gap max_distance out).2.2.distance = out.distance)) := by
  refine ⟨?_, ?_⟩
  · have key : ∀ (st2 : SearchState) (d x : Γ × HasherSearchResult),
        SearchFrameH4 out st2 → x.2 = st2.out →
        d = (if out.score = st2.out.score then x else (common, st2.out)) →
        out.score ≤ d.2.score ∧
          (d.2.score = out.score → d.2.len = out.len ∧ d.2.distance = out.distance) := by
      intro st2 d x h hx e
      have hd : d.2 = st2.out := by
        rw [e]
        split
        · exact hx
        · rfl
      rw [hd]
      exact ⟨h.2.1, h.2.2⟩
    have h0 : SearchFrameH4 out ⟨out.score, out.len,
        data ((cur_ix &&& ring_buffer_mask) + out.len), { out with len_code_delta := 0 }⟩ :=
      ⟨rfl, Nat.le_refl _, fun _ => ⟨rfl, rfl⟩⟩
    have h1 := searchFrameH4_tryCache K data ring_buffer_mask cur_ix
      (cur_ix &&& ring_buffer_mask) max_length (uintOfInt (distance_cache 0)) out _ h0
    have h2 := iterLoop_inv (fun i st =>
        h4SweepStep K data ring_buffer_mask cur_ix (cur_ix &&& ring_buffer_mask) max_length
          max_backward (s4.buckets_ (HashBytesH4 K data (cur_ix &&& ring_buffer_mask) + i)) st)
      (SearchFrameH4 out)
      (fun i st h => searchFrameH4_sweep K data ring_buffer_mask cur_ix _ max_length
        max_backward _ out st h) 4 0 _ h1
    exact key _ _ _ h2 (hK _ _ _ _ _ _ _ _) rfl
  · have key : ∀ (st2 : SearchStateH5) (d x : Γ × HasherSearchResult),
        SearchFrameH5 out st2 → x.2 = st2.out →
        d = (if out.score = st2.out.score then x else (common, st2.out)) →
        out.score ≤ d.2.score ∧
          (d.2.score = out.score → d.2.len = 0 ∧ d.2.distance = out.distance) := by
      intro st2 d x h hx e
      have hd : d.2 = st2.out := by
        rw [e]
        split
        · exact hx
        · rfl
      rw [hd]
      exact ⟨h.2.1, h.2.2⟩
    have h0 : SearchFrameH5 out ⟨out.score, out.len,
        { out with len := 0, len_code_delta := 0 }⟩ :=
      ⟨rfl, Nat.le_refl _, fun _ => ⟨rfl, rfl⟩⟩
    have h1 := iterLoop_inv (h5CacheStep K data ring_buffer_mask distance_cache cur_ix
        (cur_ix &&& ring_buffer_mask) max_length max_backward) (SearchFrameH5 out)
      (fun i st h => searchFrameH5_cache K data ring_buffer_mask distance_cache cur_ix _
        max_length max_backward i out st h)
      (uintOfInt s5.num_last_distances_to_check) 0 _ h0
    have h2 := searchFrameH5_walk K s5 data ring_buffer_mask cur_ix
      (cur_ix &&& ring_buffer_mask) max_length max_backward
      (u32 (HashBytesH5 K data (cur_ix &&& ring_buffer_mask) s5.hash_shift_ <<<
        uintOfInt s5.block_bits)) out
      (s5.num (HashBytesH5 K data (cur_ix &&& ring_buffer_mask) s5.hash_shift_) -
        (if s5.num (HashBytesH5 K data (cur_ix &&& ring_buffer_mask) s5.hash_shift_) >
            s5.block_size_
          then s5.num (HashBytesH5 K data (cur_ix &&& ring_buffer_mask) s5.hash_shift_) -
            s5.block_size_
          else 0))
      (s5.num (HashBytesH5 K data (cur_ix &&& ring_buffer_mask) s5.hash_shift_)) _ h1
    exact key _ _ _ h2 (hK _ _ _ _ _ _ _ _) rfl

/-- Claim C24 on `abcdabcd`: the searches at 4 on fresh tables with the distance cache `4`. -/
theorem FindLongestMatch_out_frame_witness :
    initialSearchResult.score ≤ (FindLongestMatchH4 referenceCollab InitializeH4 () abcdInput
        0xFFFF (fun _ => 4) 4 4 4 0 0 initialSearchResult).2.2.score ∧
    initialSearchResult.score ≤ (FindLongestMatchH5 referenceCollab (InitializeH5 15 4 4) ()
        abcdInput 0xFFFF (fun _ => 4) 4 4 4 0 0 initialSearchResult).2.2.score :=
  ⟨(FindLongestMatch_out_frame referenceCollab referenceCollab_silent InitializeH4
      (InitializeH5 15 4 4) () abcdInput 0xFFFF (fun _ => 4) 4 4 4 0 0
      initialSearchResult).1.1,
   (FindLongestMatch_out_frame referenceCollab referenceCollab_silent InitializeH4
      (InitializeH5 15 4 4) () abcdInput 0xFFFF (fun _ => 4) 4 4 4 0 0
      initialSearchResult).2.1⟩

/-- Claim C24 as stated fails for `FindLongestMatchH5`, which sets `out.len = 0` at entry: on a
fresh hasher with `out = {len 5, distance 3, score 2020}` at entry the search at 4 finds no
match, `out.score` is unchanged and `out.distance` is, but `out.len` is 0 and no longer 5. -/
theorem FindLongestMatch_out_frame_counterexample :
    (FindLongestMatchH5 referenceCollab
      (PrepareH5 referenceCollab (InitializeH5 15 4 4) false 0 abcdInput) () abcdInput 0xFFFF
      (fun _ => 16) 4 4 4 0 0
      { len := 5, distance := 3, score := 2020, len_code_delta := 0 }).2.2 =
      { len := 0, distance := 3, score := 2020, len_code_delta := 0 } := by
  decide

theorem iterLoop_eq_foldl {σ : Type} (body : Nat → σ → σ) :
    ∀ (n lo : Nat) (s : σ),
      iterLoop body lo n s = (List.range' lo n).foldl (fun s i => body i s) s := by
  intro n
  induction n with
  | zero => intro lo s; rfl
  | succ n ih =>
    intro lo s
    rw [iterLoop, List.range'_succ, List.foldl_cons]
    exact ih (lo + 1) _

theorem StoreRangeH10_eq_foldl {Γ : Type} (K : HasherCollab Γ) (s : H10) (data : Nat → Nat)
    (mask ix_start ix_end : Nat) (hov : ix_start + 512 < 2 ^ 64) :
    StoreRangeH10 K s data mask ix_start ix_end =
      (storeRangePositionsH10 ix_start ix_end).foldl (fun s i => StoreH10 K s data mask i) s := by
  have e1 : u64 (ix_start + 63) = ix_start + 63 := Nat.mod_eq_of_lt (by omega)
  have e2 : u64 (ix_start + 512) = ix_start + 512 := Nat.mod_eq_of_lt (by omega)
  unfold StoreRangeH10 storeRangePositionsH10
  simp only [e1, e2]
  rw [List.foldl_append]
  by_cases h63 : ix_start + 63 ≤ ix_end
  · rw [if_pos h63]
    have hm : min 63 (ix_end - ix_start) = 63 := by
      rw [Nat.min_def]
      split <;> omega
    rw [hm, show ix_end - (ix_end - 63) = 63 by omega]
    by_cases h575 : ix_start + 575 ≤ ix_end
    · rw [if_pos (by omega), if_pos h575, iterLoop_eq_foldl, iterLoop_eq_foldl,
        List.foldl_map, ← List.range_eq_range']
    · rw [if_neg (by omega), if_neg h575, iterLoop_eq_foldl]
      rfl
  · rw [if_neg h63, if_neg (by omega), if_neg (by omega)]
    have hm : min 63 (ix_end - ix_start) = ix_end - ix_start := by
      rw [Nat.min_def]
      split <;> omega
    rw [hm, iterLoop_eq_foldl]
    by_cases hle : ix_start ≤ ix_end
    · rw [show ix_end - (ix_end - ix_start) = ix_start by omega]
      rfl
    · rw [show ix_end - ix_start = 0 by omega]
      rfl

/-- Claim C21, amended.  For positions whose sums do not wrap around,
`StoreRangeH10(data, mask, ix_start, ix_end)` calls `StoreH10` on the positions of
`storeRangePositionsH10`, whose end is the last `min(63, ix_end - ix_start)` positions of
`[ix_start, ix_end)` in increasing order, and it skips a position of `[ix_start, ix_end)`
exactly when the range exceeds 63 positions: for every range with `ix_end - ix_start <= 63` it
stores at each position in `[ix_start, ix_end)`, as `StoreRangeH4` and `StoreRangeH5` do for
every range. -/
theorem StoreRangeH10_positions {Γ : Type} (K : HasherCollab Γ) (s : H10) (s4 : H4) (s5 : H5)
    (data : Nat → Nat) (mask ix_start ix_end : Nat) (hov : ix_start + 512 < 2 ^ 64) :
    StoreRangeH10 K s data mask ix_start ix_end =
      (storeRangePositionsH10 ix_start ix_end).foldl (fun s i => StoreH10 K s data mask i) s ∧
    (∃ front, storeRangePositionsH10 ix_start ix_end = front ++
      List.range' (ix_end - min 63 (ix_end - ix_start)) (min 63 (ix_end - ix_start))) ∧
    (ix_end - ix_start ≤ 63 →
      storeRangePositionsH10 ix_start ix_end = List.range' ix_start (ix_end - ix_start)) ∧
    (63 < ix_end - ix_start →
      ∃ p, ix_start ≤ p ∧ p < ix_end ∧ p ∉ storeRangePositionsH10 ix_start ix_end) ∧
    StoreRangeH4 K s4 data mask ix_start ix_end =
      (List.range' ix_start (ix_end - ix_start)).foldl (fun s i => StoreH4 K s data mask i)
        s4 ∧
    StoreRangeH5 K s5 data mask ix_start ix_end =
      (List.range' ix_start (ix_end - ix_start)).foldl (fun s i => StoreH5 K s data mask i)
        s5 := by
  refine ⟨StoreRangeH10_eq_foldl K s data mask ix_start ix_end hov, ⟨_, rfl⟩, ?_, ?_,
    iterLoop_eq_foldl _ _ _ _, iterLoop_eq_foldl _ _ _ _⟩
  · intro h
    unfold storeRangePositionsH10
    have hm : min 63 (ix_end - ix_start) = ix_end - ix_start := by
      rw [Nat.min_def]
      split <;> omega
    rw [if_neg (by omega), hm, List.nil_append]
    by_cases hle : ix_start ≤ ix_end
    · rw [show ix_end - (ix_end - ix_start) = ix_start by omega]
    · rw [show ix_end - ix_start = 0 by omega]
      rfl
  · intro h
    have hm : min 63 (ix_end - ix_start) = 63 := by
      rw [Nat.min_def]
      split <;> omega
    unfold storeRangePositionsH10
    rw [hm]
    by_cases h575 : ix_start + 575 ≤ ix_end
    · refine ⟨ix_start + 1, by omega, by omega, ?_⟩
      rw [if_pos h575, List.mem_append, List.mem_map, List.mem_range'_1]
      intro hmem
      rcases hmem with ⟨t, _, ht⟩ | hr
      · omega
      · omega
    · refine ⟨ix_start, Nat.le_refl _, by omega, ?_⟩
      rw [if_neg h575, List.nil_append, List.mem_range'_1]
      omega

/-- Claim C21 for the range `[0, 3)` on a prepared hasher of `lgwin = 10`: the three positions
are stored. -/
theorem StoreRangeH10_positions_witness :
    StoreRangeH10 referenceCollab (PrepareH10 (InitializeH10 10)) sevensInput 0xFFFF 0 3 =
      (storeRangePositionsH10 0 3).foldl (fun s i => StoreH10 referenceCollab s sevensInput
        0xFFFF i) (PrepareH10 (InitializeH10 10)) ∧
    storeRangePositionsH10 0 3 = List.range' 0 (3 - 0) :=
  ⟨(StoreRangeH10_positions referenceCollab (PrepareH10 (InitializeH10 10)) InitializeH4
      (InitializeH5 15 4 4) sevensInput 0xFFFF 0 3 (by decide)).1,
   (StoreRangeH10_positions referenceCollab (PrepareH10 (InitializeH10 10)) InitializeH4
      (InitializeH5 15 4 4) sevensInput 0xFFFF 0 3 (by decide)).2.2.1 (by decide)⟩

/-- Claim C21 as stated fails for a range of 64 positions, which does not exceed 512: on a
prepared hasher of `lgwin = 10` and the input `9, 7, 7, ...`, `StoreRangeH10` on `[0, 64)`
stores at `1 .. 63` only; the head of the key of position 0 is still `invalid_pos_`, where
storing at each position of `[0, 64)` leaves the head `0`. -/
theorem StoreRangeH10_positions_counterexample :
    64 - 0 ≤ 512 ∧
    (StoreRangeH10 referenceCollab (PrepareH10 (InitializeH10 10)) nineSevensInput 0xFFFF 0
      64).buckets_ (HashBytesH10 referenceCollab nineSevensInput 0) = 4294966273 ∧
    ((List.range' 0 64).foldl (fun s i => StoreH10 referenceCollab s nineSevensInput 0xFFFF i)
      (PrepareH10 (InitializeH10 10))).buckets_
        (HashBytesH10 referenceCollab nineSevensInput 0) = 0 := by
  decide

theorem treeCandidates_stop (self : H10) (data : Nat → Nat)
    (cur mask max_length max_backward : Nat) (record : Bool) (d : Nat) (st : TreeState)
    (h : usub cur st.prev_ix = 0 ∨ usub cur st.prev_ix > max_backward) :
    treeCandidates self data cur mask max_length max_backward record (d + 1) st = [] := by
  rw [treeCandidates]
  simp only [h, if_true]

theorem treeCandidates_equal (self : H10) (data : Nat → Nat)
    (cur mask max_length max_backward : Nat) (record : Bool) (d : Nat) (st : TreeState)
    (h : ¬ (usub cur st.prev_ix = 0 ∨ usub cur st.prev_ix > max_backward))
    (h2 : treeLen data cur mask max_length st ≥ min max_length 128) :
    treeCandidates self data cur mask max_length max_backward record (d + 1) st =
      [st.prev_ix] := by
  rw [treeCandidates]
  simp only [h, if_false, if_pos h2]

theorem treeCandidates_right (self : H10) (data : Nat → Nat)
    (cur mask max_length max_backward : Nat) (record : Bool) (d : Nat) (st : TreeState)
    (h : ¬ (usub cur st.prev_ix = 0 ∨ usub cur st.prev_ix > max_backward))
    (h2 : ¬ treeLen data cur mask max_length st ≥ min max_length 128)
    (h3 : data ((cur &&& mask) + treeLen data cur mask max_length st) >
      data ((st.prev_ix &&& mask) + treeLen data cur mask max_length st)) :
    treeCandidates self data cur mask max_length max_backward record (d + 1) st =
      st.prev_ix :: treeCandidates self data cur mask max_length max_backward record d
        (let f1 := if max_length ≥ 128 then upd st.forest st.node_left (u32 st.prev_ix)
          else st.forest
        let st1 := treeRecord data cur mask max_length record st
        let len := treeLen data cur mask max_length st
        let node_left := RightChildIndexH10 self st.prev_ix
        { st1 with best_len_left := len, forest := f1, node_left := node_left,
                   prev_ix := f1 node_left }) := by
  obtain ⟨f1, f2, f3, f4, _, _⟩ := treeRecord_fields data cur mask max_length record st
  rw [treeCandidates]
  simp only [h, if_false, decide_eq_true_eq, if_neg h2, if_pos h3, f1, f2, f3, f4]

theorem treeCandidates_left (self : H10) (data : Nat → Nat)
    (cur mask max_length max_backward : Nat) (record : Bool) (d : Nat) (st : TreeState)
    (h : ¬ (usub cur st.prev_ix = 0 ∨ usub cur st.prev_ix > max_backward))
    (h2 : ¬ treeLen data cur mask max_length st ≥ min max_length 128)
    (h3 : ¬ data ((cur &&& mask) + treeLen data cur mask max_length st) >
      data ((st.prev_ix &&& mask) + treeLen data cur mask max_length st)) :
    treeCandidates self data cur mask max_length max_backward record (d + 1) st =
      st.prev_ix :: treeCandidates self data cur mask max_length max_backward record d
        (let f1 := if max_length ≥ 128 then upd st.forest st.node_right (u32 st.prev_ix)
          else st.forest
        let st1 := treeRecord data cur mask max_length record st
        let len := treeLen data cur mask max_length st
        let node_right := LeftChildIndexH10 self st.prev_ix
        { st1 with best_len_right := len, forest := f1, node_right := node_right,
                   prev_ix := f1 node_right }) := by
  obtain ⟨f1, f2, f3, f4, _, _⟩ := treeRecord_fields data cur mask max_length record st
  rw [treeCandidates]
  simp only [h, if_false, decide_eq_true_eq, if_neg h2, if_neg h3, f1, f2, f3, f4]

theorem treeRecord_matches_one (data : Nat → Nat) (cur mask max_length : Nat) (record : Bool)
    (st : TreeState) :
    ∃ rest, (treeRecord data cur mask max_length record st).matches_ = st.matches_ ++ rest ∧
      rest.length ≤ 1 := by
  unfold treeRecord
  split
  · exact ⟨_, rfl, Nat.le_refl _⟩
  · exact ⟨[], by simp, Nat.zero_le _⟩

theorem treeLoop_matches_count (self : H10) (data : Nat → Nat)
    (cur mask max_length max_backward : Nat) (record : Bool) :
    ∀ (d : Nat) (st : TreeState),
      (treeCandidates self data cur mask max_length max_backward record d st).length ≤ d ∧
      ∃ rest, (treeLoop self data cur mask max_length max_backward record d st).matches_ =
          st.matches_ ++ rest ∧
        rest.length ≤
          (treeCandidates self data cur mask max_length max_backward record d st).length := by
  intro d
  induction d with
  | zero =>
    intro st
    rw [treeLoop_zero, treeCandidates]
    refine ⟨Nat.le_refl _, ?_⟩
    split <;> exact ⟨[], by simp, Nat.le_refl _⟩
  | succ d ih =>
    intro st
    obtain ⟨r2, e2, l2⟩ := treeRecord_matches_one data cur mask max_length record st
    have comb : ∀ st2 : TreeState, st2.matches_ = st.matches_ ++ r2 →
        (st.prev_ix :: treeCandidates self data cur mask max_length max_backward record d
          st2).length ≤ d + 1 ∧
        ∃ rest, (treeLoop self data cur mask max_length max_backward record d st2).matches_ =
            st.matches_ ++ rest ∧
          rest.length ≤ (st.prev_ix :: treeCandidates self data cur mask max_length
            max_backward record d st2).length := by
      intro st2 h2
      obtain ⟨hc, r1, e1, l1⟩ := ih st2
      refine ⟨by rw [List.length_cons]; omega, r2 ++ r1, ?_, ?_⟩
      · rw [e1, h2, List.append_assoc]
      · rw [List.length_append, List.length_cons]; omega
    by_cases hs : usub cur st.prev_ix = 0 ∨ usub cur st.prev_ix > max_backward
    · rw [treeLoop_stop _ _ _ _ _ _ _ _ _ hs, treeCandidates_stop _ _ _ _ _ _ _ _ _ hs]
      refine ⟨Nat.zero_le _, ?_⟩
      split <;> exact ⟨[], by simp, Nat.le_refl _⟩
    · by_cases h2 : treeLen data cur mask max_length st ≥ min max_length 128
      · rw [treeLoop_equal _ _ _ _ _ _ _ _ _ hs h2,
          treeCandidates_equal _ _ _ _ _ _ _ _ _ hs h2]
        refine ⟨by simp, ?_⟩
        split <;> exact ⟨r2, e2, by simpa using l2⟩
      · by_cases h3 : data ((cur &&& mask) + treeLen data cur mask max_length st) >
            data ((st.prev_ix &&& mask) + treeLen data cur mask max_length st)
        · rw [treeLoop_right _ _ _ _ _ _ _ _ _ hs h2 h3,
            treeCandidates_right _ _ _ _ _ _ _ _ _ hs h2 h3]
          refine comb _ ?_
          exact e2
        · rw [treeLoop_left _ _ _ _ _ _ _ _ _ hs h2 h3,
            treeCandidates_left _ _ _ _ _ _ _ _ _ hs h2 h3]
          refine comb _ ?_
          exact e2

theorem StoreAndFindMatchesH10_count {Γ : Type} (K : HasherCollab Γ) (self : H10)
    (data : Nat → Nat) (cur mask max_length max_backward best_len : Nat)
    (ms : Option (List BackwardMatch)) :
    (candidatesH10 K self data cur mask max_length max_backward best_len ms).length ≤ 64 ∧
    ∃ added, (StoreAndFindMatchesH10 K self data cur mask max_length max_backward best_len
        ms).2.2 = ms.getD [] ++ added ∧
      added.length ≤
        (candidatesH10 K self data cur mask max_length max_backward best_len ms).length := by
  unfold candidatesH10 StoreAndFindMatchesH10
  exact treeLoop_matches_count self data cur mask max_length max_backward _ 64 _

theorem shortScan_count (data : Nat → Nat) (mask cur_ix max_length max_backward : Nat) :
    ∀ (steps i : Nat) (st : Nat × List BackwardMatch),
      ∃ rest, (shortScan data mask cur_ix max_length max_backward steps i st).2 =
          st.2 ++ rest ∧
        rest.length + min st.1 3 ≤
          min (shortScan data mask cur_ix max_length max_backward steps i st).1 3 := by
  intro steps
  induction steps with
  | zero => intro i st; exact ⟨[], by simp [shortScan], by simp [shortScan]⟩
  | succ n ih =>
    intro i st
    unfold shortScan
    simp only
    split
    · exact ⟨[], by simp, by simp⟩
    rename_i hb
    split
    · exact ⟨[], by simp, by simp⟩
    split
    · exact ih _ _
    · split
      · rename_i hlen
        obtain ⟨r, e, l⟩ := ih (i - 1)
          (FindMatchLengthWithLimit data (i &&& mask) (cur_ix &&& mask) max_length,
            st.2 ++ [InitBackwardMatch (usub cur_ix i)
              (FindMatchLengthWithLimit data (i &&& mask) (cur_ix &&& mask) max_length)])
        refine ⟨InitBackwardMatch (usub cur_ix i)
          (FindMatchLengthWithLimit data (i &&& mask) (cur_ix &&& mask) max_length) :: r,
          by rw [e]; simp, ?_⟩
        rw [List.length_cons]
        simp only at l
        have hb2 : st.1 ≤ 2 := by simpa using hb
        have h1 : min st.1 3 = st.1 := by rw [Nat.min_def]; split <;> omega
        have h2 : st.1 + 1 ≤ min (FindMatchLengthWithLimit data (i &&& mask)
            (cur_ix &&& mask) max_length) 3 := by
          rw [Nat.min_def]; split <;> omega
        omega
      · exact ih _ _

theorem dictLoop_count (dm : Nat → Nat) (max_backward gap max_distance : Nat) :
    ∀ (n lo : Nat) (ms : List BackwardMatch),
      ∃ dd, iterLoop (dictStep dm max_backward gap max_distance) lo n ms = ms ++ dd ∧
        dd.length ≤ n ∧ List.Pairwise (fun a b => a.length < b.length) dd ∧
        ∀ d ∈ dd, d.len_code ≠ none ∧ lo ≤ d.length ∧ d.length < lo + n := by
  intro n
  induction n with
  | zero =>
    intro lo ms
    exact ⟨[], by simp [iterLoop], Nat.le_refl _, List.Pairwise.nil, fun d hd => by simp at hd⟩
  | succ k ih =>
    intro lo ms
    rw [iterLoop]
    by_cases h1 : dm lo < kInvalidMatch ∧
        u64 (max_backward + gap + (dm lo >>> 5) + 1) ≤ max_distance
    · have hs : dictStep dm max_backward gap max_distance lo ms =
          ms ++ [InitDictionaryBackwardMatch
            (u64 (max_backward + gap + (dm lo >>> 5) + 1)) lo (dm lo &&& 31)] := by
        unfold dictStep
        simp only [h1.1, h1.2, if_true]
      rw [hs]
      obtain ⟨dd, e, hl, hp, hd⟩ := ih (lo + 1) (ms ++ [InitDictionaryBackwardMatch
        (u64 (max_backward + gap + (dm lo >>> 5) + 1)) lo (dm lo &&& 31)])
      refine ⟨InitDictionaryBackwardMatch
        (u64 (max_backward + gap + (dm lo >>> 5) + 1)) lo (dm lo &&& 31) :: dd, ?_, ?_, ?_, ?_⟩
      · rw [e]; simp
      · rw [List.length_cons]; omega
      · rw [List.pairwise_cons]
        refine ⟨?_, hp⟩
        intro b hb
        have := (hd b hb).2.1
        simp only [InitDictionaryBackwardMatch]
        omega
      · intro d hdm
        rw [List.mem_cons] at hdm
        rcases hdm with hdm | hdm
        · subst hdm
          refine ⟨by simp [InitDictionaryBackwardMatch], ?_, ?_⟩ <;>
            simp only [InitDictionaryBackwardMatch] <;> omega
        · obtain ⟨a1, a2, a3⟩ := hd d hdm
          exact ⟨a1, by omega, by omega⟩
    · have hs : dictStep dm max_backward gap max_distance lo ms = ms := by
        unfold dictStep
        by_cases h2 : dm lo < kInvalidMatch
        · have h3 : ¬ u64 (max_backward + gap + (dm lo >>> 5) + 1) ≤ max_distance :=
            fun h => h1 ⟨h2, h⟩
          simp only [h2, h3, if_true, if_false]
        · simp only [h2, if_false]
      rw [hs]
      obtain ⟨dd, e, hl, hp, hd⟩ := ih (lo + 1) ms
      refine ⟨dd, e, by omega, hp, ?_⟩
      intro d hdm
      obtain ⟨a1, a2, a3⟩ := hd d hdm
      exact ⟨a1, by omega, by omega⟩

/-- Claim C26.  Tree depth is capped at 64: on every H10 state and every input,
`StoreAndFindMatchesH10` (a total function) compares against at most 64 candidates and appends
at most one entry per candidate, so at most 64; on a forest whose links form a cycle it stops
after exactly 64 candidates.  The entries `FindAllMatchesH10` writes are at most 2 entries of
the linear scan, then at most 64 of the tree, then dictionary entries of strictly increasing
lengths in `4 .. BROTLI_MAX_STATIC_DICTIONARY_MATCH_LEN`, so at most 34: never more than
`MAX_NUM_MATCHES_H10 = 128` entries. -/
theorem FindAllMatchesH10_at_most_128 {Γ : Type} (K : HasherCollab Γ) (self : H10) (common : Γ)
    (data : Nat → Nat)
    (mask cur max_length max_backward gap quality max_distance best_len : Nat)
    (ms : Option (List BackwardMatch)) :
    (candidatesH10 K self data cur mask max_length max_backward best_len ms).length ≤ 64 ∧
    (∃ added, (StoreAndFindMatchesH10 K self data cur mask max_length max_backward best_len
        ms).2.2 = ms.getD [] ++ added ∧
      added.length ≤
        (candidatesH10 K self data cur mask max_length max_backward best_len ms).length) ∧
    candidatesH10 referenceCollab cyclicH10 aliasInput 100 0xFFFF 128 1000 0 none =
      List.replicate 64 5 ∧
    (∃ scan tree dict, (FindAllMatchesH10 K self common data mask cur max_length max_backward
        gap quality max_distance).2.2 = scan ++ tree ++ dict ∧
      scan.length ≤ 2 ∧ tree.length ≤ 64 ∧ dict.length ≤ 34 ∧
      List.Pairwise (fun a b => a.length < b.length) dict ∧
      ∀ d ∈ dict, d.len_code ≠ none ∧ 4 ≤ d.length ∧
        d.length ≤ BROTLI_MAX_STATIC_DICTIONARY_MATCH_LEN) ∧
    (FindAllMatchesH10 K self common data mask cur max_length max_backward gap quality
      max_distance).2.2.length ≤ MAX_NUM_MATCHES_H10 := by
  have hcyc : candidatesH10 referenceCollab cyclicH10 aliasInput 100 0xFFFF 128 1000 0 none =
      List.replicate 64 5 := by decide
  have hparts : ∃ scan tree dict, (FindAllMatchesH10 K self common data mask cur max_length
        max_backward gap quality max_distance).2.2 = scan ++ tree ++ dict ∧
      scan.length ≤ 2 ∧ tree.length ≤ 64 ∧ dict.length ≤ 34 ∧
      List.Pairwise (fun a b => a.length < b.length) dict ∧
      ∀ d ∈ dict, d.len_code ≠ none ∧ 4 ≤ d.length ∧
        d.length ≤ BROTLI_MAX_STATIC_DICTIONARY_MATCH_LEN := by
    have key : ∀ (sc : Nat × List BackwardMatch) (tr : H10 × Nat × List BackwardMatch)
        (dm : Γ × Bool × (Nat → Nat)) (minlen maxlen : Nat) (res : List BackwardMatch),
        sc.2.length ≤ 2 →
        tr = (if sc.1 < max_length then
            StoreAndFindMatchesH10 K self data cur mask max_length max_backward sc.1 (some sc.2)
          else (self, sc.1, sc.2)) →
        4 ≤ minlen → maxlen ≤ 37 →
        res = (if dm.2.1 = true then
            iterLoop (dictStep dm.2.2 max_backward gap max_distance) minlen
              (maxlen + 1 - minlen) tr.2.2
          else tr.2.2) →
        ∃ scan tree dict, res = scan ++ tree ++ dict ∧
          scan.length ≤ 2 ∧ tree.length ≤ 64 ∧ dict.length ≤ 34 ∧
          List.Pairwise (fun a b => a.length < b.length) dict ∧
          ∀ d ∈ dict, d.len_code ≠ none ∧ 4 ≤ d.length ∧
            d.length ≤ BROTLI_MAX_STATIC_DICTIONARY_MATCH_LEN := by
      intro sc tr dm minlen maxlen res hsc htr hmin hmax hres
      have htree : ∃ tree, tr.2.2 = sc.2 ++ tree ∧ tree.length ≤ 64 := by
        rw [htr]
        split
        · obtain ⟨h64, added, e, hl⟩ := StoreAndFindMatchesH10_count K self data cur mask
            max_length max_backward sc.1 (some sc.2)
          exact ⟨added, by rw [e]; rfl, by omega⟩
        · exact ⟨[], by simp, Nat.zero_le _⟩
      obtain ⟨tree, etree, ltree⟩ := htree
      by_cases hd : dm.2.1 = true
      · rw [if_pos hd] at hres
        obtain ⟨dd, e, hl, hp, hdd⟩ := dictLoop_count dm.2.2 max_backward gap max_distance
          (maxlen + 1 - minlen) minlen tr.2.2
        refine ⟨sc.2, tree, dd, by rw [hres, e, etree], hsc, ltree, by omega, hp, ?_⟩
        intro d hdm
        obtain ⟨a1, a2, a3⟩ := hdd d hdm
        unfold BROTLI_MAX_STATIC_DICTIONARY_MATCH_LEN
        exact ⟨a1, by omega, by omega⟩
      · rw [if_neg hd] at hres
        exact ⟨sc.2, tree, [], by rw [hres, etree]; simp, hsc, ltree, Nat.zero_le _,
          List.Pairwise.nil, fun d hdm => by simp at hdm⟩
    refine key _ _ _ _ _ _ ?_ rfl ?_ ?_ rfl
    · obtain ⟨r, e, l⟩ := shortScan_count data mask cur max_length max_backward
        (usub cur 1 - (if cur < (if quality ≠ HQ_ZOPFLIFICATION_QUALITY then 16 else 64) then 0
          else usub cur (if quality ≠ HQ_ZOPFLIFICATION_QUALITY then 16 else 64)))
        (usub cur 1) (1, [])
      rw [e]
      simp only [List.nil_append]
      have : min (1 : Nat) 3 = 1 := by decide
      have := Nat.min_le_right (shortScan data mask cur max_length max_backward
        (usub cur 1 - (if cur < (if quality ≠ HQ_ZOPFLIFICATION_QUALITY then 16 else 64) then 0
          else usub cur (if quality ≠ HQ_ZOPFLIFICATION_QUALITY then 16 else 64)))
        (usub cur 1) (1, [])).1 3
      omega
    · exact Nat.le_max_left _ _
    · unfold BROTLI_MAX_STATIC_DICTIONARY_MATCH_LEN
      exact Nat.min_le_left _ _
  refine ⟨(StoreAndFindMatchesH10_count K self data cur mask max_length max_backward best_len
    ms).1, (StoreAndFindMatchesH10_count K self data cur mask max_length max_backward best_len
    ms).2, hcyc, hparts, ?_⟩
  obtain ⟨scan, tree, dict, e, h1, h2, h3, _, _⟩ := hparts
  rw [e, List.length_append, List.length_append]
  unfold MAX_NUM_MATCHES_H10
  omega

/-- Claim C25 at its failing inputs.  On the input of period 16, the position at backward
distance exactly 16 of `cur_ix = 32` agrees with `cur_ix` on its first two bytes and no nearer
position does, and `max_backward = 16` allows it; with a quality other than the zopflification
quality the linear scan of `FindAllMatchesH10` runs over the distances 1 to 15 only
(`i > stop`) and records nothing, and the call on a prepared hasher writes no entry.  The same
holds at distance 64 on the input of period 64 with the zopflification quality, whose scan does
reach the distance 16 on the first input. -/
theorem FindAllMatchesH10_scan_misses_last :
    (periodInput 16 32 = periodInput 16 16 ∧ periodInput 16 33 = periodInput 16 17 ∧
      ∀ d, d < 16 → 0 < d → periodInput 16 (32 - d) ≠ periodInput 16 32) ∧
    shortScan (periodInput 16) 0xFFFF 32 8 16 (usub 32 1 - usub 32 16) (usub 32 1) (1, []) =
      (1, []) ∧
    (FindAllMatchesH10 referenceCollab (PrepareH10 (InitializeH10 10)) () (periodInput 16)
      0xFFFF 32 8 16 0 10 0).2.2 = [] ∧
    (FindAllMatchesH10 referenceCollab (PrepareH10 (InitializeH10 10)) () (periodInput 16)
      0xFFFF 32 8 16 0 HQ_ZOPFLIFICATION_QUALITY 0).2.2 = [InitBackwardMatch 16 8] ∧
    (periodInput 64 128 = periodInput 64 64 ∧ periodInput 64 129 = periodInput 64 65 ∧
      ∀ d, d < 64 → 0 < d → periodInput 64 (128 - d) ≠ periodInput 64 128) ∧
    shortScan (periodInput 64) 0xFFFF 128 8 64 (usub 128 1 - usub 128 64) (usub 128 1)
      (1, []) = (1, []) ∧
    (FindAllMatchesH10 referenceCollab (PrepareH10 (InitializeH10 10)) () (periodInput 64)
      0xFFFF 128 8 64 0 HQ_ZOPFLIFICATION_QUALITY 0).2.2 = [] := by
  decide

theorem addVector_spec {κ : Type} (h : HistogramDistance κ) (p : Nat → Nat) :
    ∀ n, (HistogramAddVectorDistance h p n).total_count_ = h.total_count_ + n ∧
      ∀ s, (HistogramAddVectorDistance h p n).data_ s =
        h.data_ s + (List.range n).countP (fun j => decide (p j = s)) := by
  intro n
  induction n with
  | zero => exact ⟨rfl, fun s => rfl⟩
  | succ n ih =>
    obtain ⟨h1, h2⟩ := ih
    refine ⟨?_, ?_⟩
    · simp only [HistogramAddVectorDistance, HistogramAddDistance, h1]
      omega
    · intro s
      simp only [HistogramAddVectorDistance, HistogramAddDistance, h2, List.range_succ,
        List.countP_append, List.countP_cons, List.countP_nil]
      by_cases e : s = p n
      · subst e
        simp
        omega
      · have e2 : ¬ p n = s := fun x => e x.symm
        simp [e, e2]

theorem initialEntropyPos_spec {κ : Type} (C : SplitCollab κ)
    (length stride num_histograms i seed : Nat)
    (h1 : 1 ≤ num_histograms) (hi : i < num_histograms) (hs : stride < length)
    (hlen : length < 2 ^ 62)
    (hb : num_histograms = 1 ∨ u32 (length / num_histograms) ≠ 0) :
    ∃ ps, initialEntropyPos C length stride num_histograms (length / num_histograms) i seed =
        some ps ∧ ps.1 + stride ≤ length := by
  unfold initialEntropyPos
  have hd : udiv (u64 (length * i)) num_histograms =
      some (u64 (length * i) / num_histograms) := by
    unfold udiv
    rw [if_neg (by omega)]
  rw [hd, Option.some_bind]
  have clamp : ∀ p s2 : Nat, p < 2 ^ 63 + 2 ^ 32 →
      (if u64 ((p, s2).1 + stride) ≥ length then usub (usub length stride) 1 else (p, s2).1,
        (p, s2).2).1 + stride ≤ length := by
    intro p s2 hp
    have e : u64 (p + stride) = p + stride := Nat.mod_eq_of_lt (by omega)
    simp only [e]
    split
    · have e1 : usub length stride = length - stride := by
        unfold usub
        rw [Nat.mod_eq_of_lt (by omega : length < 2 ^ 64),
          Nat.mod_eq_of_lt (by omega : stride < 2 ^ 64)]
        rw [show length + (2 ^ 64 - stride) = (length - stride) + 2 ^ 64 by omega,
          Nat.add_mod_right, Nat.mod_eq_of_lt (by omega)]
      have e2 : usub (length - stride) 1 = length - stride - 1 := by
        unfold usub
        rw [Nat.mod_eq_of_lt (by omega : length - stride < 2 ^ 64),
          Nat.mod_eq_of_lt (by omega : 1 < 2 ^ 64)]
        rw [show length - stride + (2 ^ 64 - 1) = (length - stride - 1) + 2 ^ 64 by omega,
          Nat.add_mod_right, Nat.mod_eq_of_lt (by omega)]
      rw [e1, e2]
      omega
    · omega
  by_cases h0 : i = 0
  · subst h0
    rw [if_neg (by simp), Option.some_bind]
    refine ⟨_, rfl, ?_⟩
    apply clamp
    simp only [Nat.mul_zero, u64, Nat.zero_mod, Nat.zero_div]
    omega
  · rw [if_pos h0]
    have hb2 : u32 (length / num_histograms) ≠ 0 := by
      rcases hb with hb | hb
      · omega
      · exact hb
    have hm : umod (C.MyRand seed) (u32 (length / num_histograms)) =
        some (C.MyRand seed % u32 (length / num_histograms)) := by
      unfold umod
      rw [if_neg hb2]
    rw [hm, Option.some_bind, Option.some_bind]
    refine ⟨_, rfl, ?_⟩
    apply clamp
    have hq : u64 (length * i) / num_histograms < 2 ^ 63 := by
      apply Nat.div_lt_of_lt_mul
      have : u64 (length * i) < 2 ^ 64 := Nat.mod_lt _ (by norm_num)
      have : 2 ^ 64 ≤ num_histograms * 2 ^ 63 := by
        have : 2 * 2 ^ 63 ≤ num_histograms * 2 ^ 63 := Nat.mul_le_mul_right _ (by omega)
        omega
      omega
    have hr : C.MyRand seed % u32 (length / num_histograms) < 2 ^ 32 := by
      have h3 : u32 (length / num_histograms) < 2 ^ 32 := Nat.mod_lt _ (by norm_num)
      have := Nat.mod_lt (C.MyRand seed) (Nat.pos_of_ne_zero hb2)
      omega
    exact Nat.lt_of_le_of_lt (Nat.mod_le _ _) (by omega)

theorem emitStep_cases (nb : Nat) (bl hs ni : List Nat) (i : Nat) (es es2 : EmitState)
    (c v : Nat) (hc : hs[i]? = some c) (hv : ni[c]? = some v)
    (hstep : emitStep nb bl hs ni i es = some es2) :
    ((i + 1 = nb ∨ ∃ cn, hs[i + 1]? = some cn ∧ c ≠ cn) ∧
      es2.types = es.types.set es.block_idx (u8 v) ∧ es2.block_idx = es.block_idx + 1) ∨
    ((i + 1 ≠ nb ∧ hs[i + 1]? = some c) ∧
      es2.types = es.types ∧ es2.block_idx = es.block_idx) := by
  unfold emitStep at hstep
  cases hb : bl[i]? with
  | none => rw [hb] at hstep; cases hstep
  | some blv =>
    rw [hb, hc] at hstep
    simp only [Option.some_bind] at hstep
    have hwrite : (ni[c]?.bind fun ni =>
        (setAt es.types es.block_idx (u8 ni)).bind fun types =>
        (setAt es.lengths es.block_idx (u32 (es.cur_length + blv))).bind fun lengths =>
        some ({ types := types, lengths := lengths, cur_length := 0,
                block_idx := es.block_idx + 1, max_type := max es.max_type (u8 ni) } :
          EmitState)) = some es2 →
        es2.types = es.types.set es.block_idx (u8 v) ∧ es2.block_idx = es.block_idx + 1 := by
      intro h
      rw [hv] at h
      simp only [Option.some_bind] at h
      cases ht : setAt es.types es.block_idx (u8 v) with
      | none => rw [ht] at h; cases h
      | some types =>
        rw [ht] at h
        simp only [Option.some_bind] at h
        cases hl : setAt es.lengths es.block_idx (u32 (es.cur_length + blv)) with
        | none => rw [hl] at h; cases h
        | some lengths =>
          rw [hl] at h
          simp only [Option.some_bind, Option.some.injEq] at h
          subst h
          exact ⟨(setAt_some_iff _ _ _ _ ht).2, rfl⟩
    by_cases hlast : i + 1 = nb
    · rw [if_pos hlast] at hstep
      simp only [Option.some_bind, if_true] at hstep
      exact Or.inl ⟨Or.inl hlast, hwrite hstep⟩
    · rw [if_neg hlast] at hstep
      cases hn : hs[i + 1]? with
      | none => rw [hn] at hstep; cases hstep
      | some cn =>
        rw [hn] at hstep
        simp only [Option.map_some', Option.some_bind] at hstep
        by_cases hne : c = cn
        · subst hne
          simp only [ne_eq, not_true_eq_false, decide_False, Bool.false_eq_true, if_false,
            Option.some.injEq] at hstep
          subst hstep
          exact Or.inr ⟨⟨hlast, rfl⟩, rfl, rfl⟩
        · simp only [ne_eq, hne, not_false_eq_true, decide_True, if_true] at hstep
          exact Or.inl ⟨Or.inr ⟨cn, rfl, hne⟩, hwrite hstep⟩

theorem emitStep_adjacent (nb : Nat) (bl hs ni : List Nat)
    (hval : ∀ j c, j < nb → hs[j]? = some c → ∃ v, ni[c]? = some v ∧ v < 256)
    (hinj : ∀ c c2 v : Nat, ni[c]? = some v → ni[c2]? = some v → v < 256 → c = c2)
    (i : Nat) (es es2 : EmitState) (hi : i < nb) (hhs : nb ≤ hs.length)
    (hbi : es.block_idx < es.types.length)
    (hstep : emitStep nb bl hs ni i es = some es2)
    (hA : EmitAdjacent nb hs ni i es) : EmitAdjacent nb hs ni (i + 1) es2 := by
  obtain ⟨a1, a2⟩ := hA
  have hc : hs[i]? = some hs[i] := List.getElem?_eq_getElem (by omega)
  obtain ⟨v, hv, hv256⟩ := hval i _ hi hc
  have hu : u8 v = v := by unfold u8; omega
  rcases emitStep_cases nb bl hs ni i es es2 _ v hc hv hstep with
    ⟨hbd, ht, hb⟩ | ⟨⟨hlast, hn⟩, ht, hb⟩
  · rw [hu] at ht
    refine ⟨?_, ?_⟩
    · intro b t t2 hbb hbt hbt2
      rw [hb] at hbb
      rw [ht] at hbt hbt2
      by_cases hlt : b + 1 < es.block_idx
      · rw [List.getElem?_set_ne (by omega)] at hbt hbt2
        exact a1 b t t2 hlt hbt hbt2
      · have hbe : b + 1 = es.block_idx := by omega
        rw [hbe, List.getElem?_set_self hbi] at hbt2
        rw [List.getElem?_set_ne (by omega)] at hbt
        obtain ⟨e, c0, v0, he, hc0, hv0, hty, hdiff, hrun⟩ := a2 (by omega)
        rw [show es.block_idx - 1 = b by omega, hbt] at hty
        have ht0 : t = v0 := Option.some.inj hty
        have ht2 : v = t2 := Option.some.inj hbt2
        intro heq
        have hci := hrun i he (Nat.le_refl _) hi
        have hcc : c0 = hs[i] := hinj c0 hs[i] v (by rw [hv0, ← ht0, heq, ht2]) hv hv256
        apply hdiff (by omega)
        rw [← hci, hc, hcc]
    · intro _
      refine ⟨i, hs[i], v, by omega, hc, hv, ?_, ?_, ?_⟩
      · rw [hb, ht, show es.block_idx + 1 - 1 = es.block_idx by omega,
          List.getElem?_set_self hbi]
      · intro hlt
        rcases hbd with hbd | ⟨cn, hcn, hne⟩
        · omega
        · rw [hcn]
          intro h
          exact hne (Option.some.inj h).symm
      · intro j h1 h2 _
        rw [show j = i + 1 by omega]
  · refine ⟨?_, ?_⟩
    · intro b t t2 hbb hbt hbt2
      rw [hb] at hbb
      rw [ht] at hbt hbt2
      exact a1 b t t2 hbb hbt hbt2
    · intro h1
      rw [hb] at h1
      obtain ⟨e, c0, v0, he, hc0, hv0, hty, hdiff, hrun⟩ := a2 h1
      refine ⟨e, c0, v0, by omega, hc0, hv0, by rw [hb, ht]; exact hty, hdiff, ?_⟩
      intro j hj1 hj2 hj3
      by_cases hji : j ≤ i
      · exact hrun j hj1 hji hj3
      · rw [show j = i + 1 by omega, hn, ← hc]
        exact hrun i he (Nat.le_refl _) hi

theorem emitLoop_adjacent (nb nc : Nat) (bl hs ni types0 lengths0 : List Nat)
    (hbl : bl.length = nb) (hhs : nb ≤ hs.length) (hni : ni.length = nc)
    (hrange : ∀ j c, j < nb → hs[j]? = some c → c < nc) (hlt : nb ≤ types0.length)
    (hll : nb ≤ lengths0.length)
    (hval : ∀ j c, j < nb → hs[j]? = some c → ∃ v, ni[c]? = some v ∧ v < 256)
    (hinj : ∀ c c2 v : Nat, ni[c]? = some v → ni[c2]? = some v → v < 256 → c = c2) :
    ∃ es, forLoop (emitStep nb bl hs ni) 0 nb
        { types := types0, lengths := lengths0, cur_length := 0, block_idx := 0,
          max_type := 0 } = some es ∧
      es.block_idx ≤ es.types.length ∧
      ∀ b, b + 1 < es.block_idx → ∃ t t2, es.types[b]? = some t ∧
        es.types[b + 1]? = some t2 ∧ t ≠ t2 := by
  obtain ⟨es, hes, hshape, _, _⟩ := emitLoop_spec nb nc bl hs ni types0 lengths0 False False
    hbl hhs hni hrange hlt hll (fun h => h.elim) (fun h => h.elim)
  have hadj := forLoop_some_inv (emitStep nb bl hs ni)
    (fun i es => EmitShape nb types0.length lengths0.length i es ∧
      EmitAdjacent nb hs ni i es) nb 0
    { types := types0, lengths := lengths0, cur_length := 0, block_idx := 0, max_type := 0 }
    es hes
    ⟨⟨rfl, rfl, Nat.le_refl _, fun h h2 => by omega⟩,
      fun b t t2 hb => absurd hb (Nat.not_lt_zero _), fun h => absurd h (by simp)⟩
    (by
      intro i s s1 _ hi hP hbody
      obtain ⟨hsh, hA⟩ := hP
      obtain ⟨s2, hs2, hsh2, _, _⟩ := emitStep_inv nb nc types0.length lengths0.length bl hs
        ni False False hbl hhs hni hrange hlt hll (fun h => h.elim) (fun h => h.elim) i s
        (by omega) hsh (fun h => h.elim) (fun h => h.elim)
      rw [hbody] at hs2
      have e := Option.some.inj hs2
      subst e
      obtain ⟨q1, _, q3, _⟩ := hsh
      exact ⟨hsh2, emitStep_adjacent nb bl hs ni hval hinj i s s1 (by omega) hhs (by omega)
        hbody hA⟩)
  obtain ⟨⟨q1, _, q3, _⟩, a1, _⟩ := hadj
  refine ⟨es, hes, by omega, ?_⟩
  intro b hb
  have h1 : b < es.types.length := by omega
  have h2 : b + 1 < es.types.length := by omega
  exact ⟨_, _, List.getElem?_eq_getElem h1, List.getElem?_eq_getElem h2,
    a1 b _ _ hb (List.getElem?_eq_getElem h1) (List.getElem?_eq_getElem h2)⟩

theorem storeRangePositionsH10_mem (a b p : Nat) (h : p ∈ storeRangePositionsH10 a b) :
    a ≤ p ∧ p < b := by
  unfold storeRangePositionsH10 at h
  rw [List.mem_append, List.mem_range'_1] at h
  rcases h with h | h
  · split at h
    · rename_i h575
      rw [List.mem_map] at h
      obtain ⟨t, ht, e⟩ := h
      rw [List.mem_range] at ht
      have := Nat.div_mul_le_self (b - 63 - a + 7) 8
      omega
    · simp at h
  · have := Nat.min_le_left 63 (b - a)
    have := Nat.min_le_right 63 (b - a)
    omega

theorem runH10_append {Γ : Type} (K : HasherCollab Γ) (data : Nat → Nat) (mask : Nat) :
    ∀ (xs ys : List H10Call) (st : H10 × Γ),
      runH10 K data mask st (xs ++ ys) = runH10 K data mask (runH10 K data mask st xs) ys := by
  intro xs
  induction xs with
  | nil => intro ys st; rfl
  | cons x xs ih => intro ys st; simp only [List.cons_append, runH10]; exact ih ys _

theorem runH10_stores {Γ : Type} (K : HasherCollab Γ) (data : Nat → Nat) (mask : Nat) :
    ∀ (ps : List Nat) (s : H10) (g : Γ),
      runH10 K data mask (s, g) (ps.map H10Call.store) =
        (ps.foldl (fun s i => StoreH10 K s data mask i) s, g) := by
  intro ps
  induction ps with
  | nil => intro s g; rfl
  | cons p ps ih =>
    intro s g
    simp only [List.map_cons, runH10, callH10, List.foldl_cons]
    exact ih _ g

theorem runOpsH10_eq_calls {Γ : Type} (K : HasherCollab Γ) (data : Nat → Nat) (mask lg : Nat) :
    ∀ (ops : List H10Op) (st : H10 × Γ), (∀ o ∈ ops, H10OpOK lg o) →
      runOpsH10 K data mask st ops = runH10 K data mask st (sessionCalls ops) := by
  intro ops
  induction ops with
  | nil => intro st _; rfl
  | cons o os ih =>
    intro st hok
    have ho := hok o (List.mem_cons_self _ _)
    rw [runOpsH10, sessionCalls, runH10_append,
      ih _ (fun o2 h2 => hok o2 (List.mem_cons_of_mem _ h2))]
    congr 1
    cases o with
    | call c => rfl
    | storeRange a b =>
      obtain ⟨h1, _⟩ := ho
      have hp : 0 < 2 ^ lg := Nat.pow_pos (by norm_num)
      have hst : st = (st.1, st.2) := rfl
      rw [opH10, H10Op.calls, hst, runH10_stores,
        StoreRangeH10_eq_foldl K st.1 data mask a b (by omega)]

theorem sessionCalls_ok (lg : Nat) :
    ∀ ops : List H10Op, (∀ o ∈ ops, H10OpOK lg o) → ∀ c ∈ sessionCalls ops, H10CallOK lg c := by
  intro ops
  induction ops with
  | nil => intro _ c hc; simp [sessionCalls] at hc
  | cons o os ih =>
    intro hok c hc
    rw [sessionCalls, List.mem_append] at hc
    rcases hc with hc | hc
    · have ho := hok o (List.mem_cons_self _ _)
      cases o with
      | call c0 =>
        simp only [H10Op.calls, List.mem_singleton] at hc
        subst hc
        exact ho
      | storeRange a b =>
        simp only [H10Op.calls, List.mem_map] at hc
        obtain ⟨p, hp, e⟩ := hc
        subst e
        obtain ⟨_, h2⟩ := ho
        have := storeRangePositionsH10_mem a b p hp
        show p + 2 ^ lg ≤ 2 ^ 32
        omega
    · exact ih (fun o2 h2 => hok o2 (List.mem_cons_of_mem _ h2)) c hc

theorem treeLen_congr (data : Nat → Nat) (cur mask max_length : Nat) (a b : TreeState)
    (h : SameLinks a b) :
    treeLen data cur mask max_length a = treeLen data cur mask max_length b := by
  obtain ⟨_, e2, _, _, e5, e6⟩ := h
  unfold treeLen
  rw [e2, e5, e6]

theorem treeCandidates_congr (self : H10) (data : Nat → Nat)
    (cur mask max_length max_backward : Nat) (rec1 rec2 : Bool) :
    ∀ (d : Nat) (a b : TreeState), SameLinks a b →
      treeCandidates self data cur mask max_length max_backward rec1 d a =
        treeCandidates self data cur mask max_length max_backward rec2 d b := by
  intro d
  induction d with
  | zero => intro a b _; rw [treeCandidates, treeCandidates]
  | succ d ih =>
    intro a b h
    have hl := treeLen_congr data cur mask max_length a b h
    obtain ⟨e1, e2, e3, e4, e5, e6⟩ := h
    by_cases hs : usub cur a.prev_ix = 0 ∨ usub cur a.prev_ix > max_backward
    · rw [treeCandidates_stop _ _ _ _ _ _ _ _ _ hs,
        treeCandidates_stop _ _ _ _ _ _ _ _ _ (by rw [← e2]; exact hs)]
    · by_cases h2 : treeLen data cur mask max_length a ≥ min max_length 128
      · rw [treeCandidates_equal _ _ _ _ _ _ _ _ _ hs h2,
          treeCandidates_equal _ _ _ _ _ _ _ _ _ (by rw [← e2]; exact hs)
            (by rw [← hl]; exact h2), e2]
      · by_cases h3 : data ((cur &&& mask) + treeLen data cur mask max_length a) >
            data ((a.prev_ix &&& mask) + treeLen data cur mask max_length a)
        · rw [treeCandidates_right _ _ _ _ _ _ _ _ _ hs h2 h3,
            treeCandidates_right _ _ _ _ _ _ _ _ _ (by rw [← e2]; exact hs)
              (by rw [← hl]; exact h2) (by rw [← hl, ← e2]; exact h3), e2]
          congr 1
          apply ih
          obtain ⟨f1, f2, f3, f4, f5, f6⟩ := treeRecord_fields data cur mask max_length rec1 a
          obtain ⟨g1, g2, g3, g4, g5, g6⟩ := treeRecord_fields data cur mask max_length rec2 b
          refine ⟨?_, ?_, ?_, ?_, ?_, ?_⟩
          · simp only [e1, e2, e3]
          · simp only [e1, e2, e3]
          · simp only [e2]
          · simp only [f4, g4, e4]
          · simp only [hl]
          · simp only [f6, g6, e6]
        · rw [treeCandidates_left _ _ _ _ _ _ _ _ _ hs h2 h3,
            treeCandidates_left _ _ _ _ _ _ _ _ _ (by rw [← e2]; exact hs)
              (by rw [← hl]; exact h2) (by rw [← hl, ← e2]; exact h3), e2]
          congr 1
          apply ih
          obtain ⟨f1, f2, f3, f4, f5, f6⟩ := treeRecord_fields data cur mask max_length rec1 a
          obtain ⟨g1, g2, g3, g4, g5, g6⟩ := treeRecord_fields data cur mask max_length rec2 b
          refine ⟨?_, ?_, ?_, ?_, ?_, ?_⟩
          · simp only [e1, e2, e4]
          · simp only [e1, e2, e4]
          · simp only [f3, g3, e3]
          · simp only [e2]
          · simp only [f5, g5, e5]
          · simp only [hl]

theorem treeRecord_off (data : Nat → Nat) (cur mask max_length : Nat) (st : TreeState) :
    treeRecord data cur mask max_length false st = st := by
  unfold treeRecord
  rw [if_neg (by simp)]

theorem treeCandidates_decreasing {Γ : Type} (K : HasherCollab Γ) (self : H10)
    (data : Nat → Nat) (mask cur max_length max_backward lg : Nat)
    (hw : self.window_mask_ = 2 ^ lg - 1)
    (hinv : self.invalid_pos_ = 2 ^ 32 - (2 ^ lg - 1))
    (hcur : cur + 2 ^ lg ≤ 2 ^ 32) (hmb : max_backward ≤ 2 ^ lg - 1)
    (hml : max_length < 2 ^ 64) :
    ∀ (d : Nat) (t : HTree) (st : TreeState),
      TraversalInv K self data mask cur max_length max_backward t st → st.matches_ = [] →
      (∀ c ∈ treeCandidates self data cur mask max_length max_backward false d st,
        c ∈ t.nodes ∧ c < cur ∧ cur - c ≤ max_backward) ∧
      List.Pairwise (fun a b => b < a)
        (treeCandidates self data cur mask max_length max_backward false d st) := by
  obtain ⟨hc32, hcw, hW1⟩ := lt_of_window cur lg hcur
  have hc64 : cur < 2 ^ 64 := by omega
  have hnil : ∀ (t : HTree) (bl : Nat),
      MatchesSound data mask cur max_length max_backward t bl [] :=
    fun t bl => ⟨fun m hm => by simp at hm, List.Pairwise.nil, fun m hm => by simp at hm⟩
  intro d
  induction d with
  | zero =>
    intro t st _ _
    rw [treeCandidates]
    exact ⟨fun c hc => by simp at hc, List.Pairwise.nil⟩
  | succ n ih =>
    intro t st h hm0
    by_cases hstop : usub cur st.prev_ix = 0 ∨ usub cur st.prev_ix > max_backward
    · rw [treeCandidates_stop _ _ _ _ _ _ _ _ _ hstop]
      exact ⟨fun c hc => by simp at hc, List.Pairwise.nil⟩
    cases t with
    | leaf v =>
      exfalso
      apply hstop
      have hroot : st.prev_ix = v := h.1
      have hfar : v + self.window_mask_ < cur ∨ v = self.invalid_pos_ := h.2.2.1
      right
      rw [hroot]
      rcases hfar with hf | hf
      · rw [usub_of_le cur v hc64 (by omega)]
        rw [hw] at hf
        omega
      · rw [hf, hinv, usub_of_gt cur _ (by omega) (by omega)]
        omega
    | node p l r =>
      have hroot : st.prev_ix = p := h.1
      obtain ⟨w1, w2, wl, wr, wpl, wpr, wlr⟩ :=
        wfTree_node_facts K data mask _ _ _ cur p l r h.2.2.1
      have hpin : p ∈ (HTree.node p l r).nodes := by simp [HTree.nodes]
      have hus : usub cur st.prev_ix = cur - p := by
        rw [hroot]; exact usub_of_le cur p hc64 (by omega)
      have hback : cur - p ≤ max_backward := by
        rw [hus] at hstop
        omega
      have hpre := h.2.2.2.2.2.2.1 p hpin
      have hbl := h.2.2.2.2.2.2.2.1
      have hlenfull := treeLen_eq_full data mask cur max_length p st hml hroot hpre.1 hpre.2 hbl
      have hagree : ∀ j, j < treeLen data cur mask max_length st →
          seqAt data mask p j = seqAt data mask cur j := by
        intro j hj
        rw [hlenfull] at hj
        exact (FindMatchLengthWithLimit_eq data _ _ _ j hj).symm
      have hlenle : treeLen data cur mask max_length st ≤ max_length := by
        rw [hlenfull]; exact FindMatchLengthWithLimit_le data _ _ _
      have hrec := treeRecord_off data cur mask max_length st
      by_cases heq : treeLen data cur mask max_length st ≥ min max_length 128
      · rw [treeCandidates_equal _ _ _ _ _ _ _ _ _ hstop heq, hroot]
        refine ⟨?_, List.pairwise_singleton _ _⟩
        intro c hc
        rw [List.mem_singleton] at hc
        subst hc
        exact ⟨hpin, w1, hback⟩
      have comb : ∀ (sub : HTree) (st2 : TreeState),
          (∀ x ∈ sub.nodes, x ∈ (HTree.node p l r).nodes ∧ x < p) →
          TraversalInv K self data mask cur max_length max_backward sub st2 →
          st2.matches_ = [] →
          (∀ c ∈ p :: treeCandidates self data cur mask max_length max_backward false n st2,
            c ∈ (HTree.node p l r).nodes ∧ c < cur ∧ cur - c ≤ max_backward) ∧
          List.Pairwise (fun a b => b < a)
            (p :: treeCandidates self data cur mask max_length max_backward false n st2) := by
        intro sub st2 hsub hinv2 hm2
        obtain ⟨i1, i2⟩ := ih sub st2 hinv2 hm2
        refine ⟨?_, ?_⟩
        · intro c hc
          rw [List.mem_cons] at hc
          rcases hc with hc | hc
          · subst hc; exact ⟨hpin, w1, hback⟩
          · obtain ⟨k1, k2, k3⟩ := i1 c hc
            exact ⟨(hsub c k1).1, k2, k3⟩
        · rw [List.pairwise_cons]
          exact ⟨fun c hc => (hsub c (i1 c hc).1).2, i2⟩
      by_cases hgt : data ((cur &&& mask) + treeLen data cur mask max_length st) >
          data ((st.prev_ix &&& mask) + treeLen data cur mask max_length st)
      · rw [treeCandidates_right _ _ _ _ _ _ _ _ _ hstop heq hgt]
        obtain ⟨st2, hst2⟩ : ∃ st2 : TreeState, st2 =
            (let f1 := if max_length ≥ 128 then upd st.forest st.node_left (u32 st.prev_ix)
              else st.forest
            let st1 := treeRecord data cur mask max_length false st
            let len := treeLen data cur mask max_length st
            let node_left := RightChildIndexH10 self st.prev_ix
            { st1 with best_len_left := len, forest := f1, node_left := node_left,
                       prev_ix := f1 node_left }) := ⟨_, rfl⟩
        rw [← hst2]
        rw [hrec] at hst2
        have e1 : st2.forest = if max_length ≥ 128 then upd st.forest st.node_left (u32 p)
            else st.forest := by rw [hst2, hroot]
        have e2 : st2.node_left = RightChildIndexH10 self p := by rw [hst2, hroot]
        have e3 : st2.node_right = st.node_right := by rw [hst2]
        have e4 : st2.prev_ix = st2.forest (RightChildIndexH10 self p) := by rw [hst2, hroot]
        have e5 : st2.best_len_left = treeLen data cur mask max_length st := by rw [hst2]
        have e6 : st2.best_len_right = st.best_len_right := by rw [hst2]
        have e8 : st2.matches_ = [] := by rw [hst2]; exact hm0
        rw [hroot]
        refine comb r st2 (fun x hx => ⟨by simp [HTree.nodes, hx], (wr x hx).1⟩) ?_ e8
        exact traversalInv_right K self data mask cur max_length max_backward lg p _ l r st st2
          hw h hagree hlenle (by rw [e8]; exact hnil _ _) e1 e2 e3 e4 e5 e6
      · rw [treeCandidates_left _ _ _ _ _ _ _ _ _ hstop heq hgt]
        obtain ⟨st2, hst2⟩ : ∃ st2 : TreeState, st2 =
            (let f1 := if max_length ≥ 128 then upd st.forest st.node_right (u32 st.prev_ix)
              else st.forest
            let st1 := treeRecord data cur mask max_length false st
            let len := treeLen data cur mask max_length st
            let node_right := LeftChildIndexH10 self st.prev_ix
            { st1 with best_len_right := len, forest := f1, node_right := node_right,
                       prev_ix := f1 node_right }) := ⟨_, rfl⟩
        rw [← hst2]
        rw [hrec] at hst2
        have e1 : st2.forest = if max_length ≥ 128 then upd st.forest st.node_right (u32 p)
            else st.forest := by rw [hst2, hroot]
        have e2 : st2.node_right = LeftChildIndexH10 self p := by rw [hst2, hroot]
        have e3 : st2.node_left = st.node_left := by rw [hst2]
        have e4 : st2.prev_ix = st2.forest (LeftChildIndexH10 self p) := by rw [hst2, hroot]
        have e5 : st2.best_len_right = treeLen data cur mask max_length st := by rw [hst2]
        have e6 : st2.best_len_left = st.best_len_left := by rw [hst2]
        have e8 : st2.matches_ = [] := by rw [hst2]; exact hm0
        rw [hroot]
        refine comb l st2 (fun x hx => ⟨by simp [HTree.nodes, hx], (wl x hx).1⟩) ?_ e8
        exact traversalInv_left K self data mask cur max_length max_backward lg p _ l r st st2
          hw h hagree hlenle (by rw [e8]; exact hnil _ _) e1 e2 e3 e4 e5 e6

theorem candidatesH10_decreasing {Γ : Type} (K : HasherCollab Γ) (self : H10)
    (data : Nat → Nat) (mask cur max_length max_backward lg bl : Nat)
    (ms : Option (List BackwardMatch))
    (hw : self.window_mask_ = 2 ^ lg - 1)
    (hinv : self.invalid_pos_ = 2 ^ 32 - (2 ^ lg - 1))
    (hcur : cur + 2 ^ lg ≤ 2 ^ 32) (hmb : max_backward ≤ 2 ^ lg - 1)
    (hml : max_length < 2 ^ 64)
    (hI : H10Inv K data mask self cur cur) :
    (∀ c ∈ candidatesH10 K self data cur mask max_length max_backward bl ms,
      c < cur ∧ cur - c ≤ max_backward) ∧
    List.Pairwise (fun a b => b < a)
      (candidatesH10 K self data cur mask max_length max_backward bl ms) := by
  obtain ⟨hc32, hcw, hW1⟩ := lt_of_window cur lg hcur
  have hkey := HashBytesH10_lt K data (cur &&& mask)
  obtain ⟨t, t1, t2, t3⟩ := hI _ hkey
  have tn := wfTree_nodes K data mask _ _ _ cur cur t t3
  have hcn : cur ∉ t.nodes := fun h => Nat.lt_irrefl _ (tn cur h).1
  obtain ⟨st0, hst0⟩ : ∃ st0 : TreeState, st0 =
      { forest := self.forest, prev_ix := self.buckets_ (HashBytesH10 K data (cur &&& mask)),
        node_left := LeftChildIndexH10 self cur,
        node_right := RightChildIndexH10 self cur,
        best_len_left := 0, best_len_right := 0, best_len := 0,
        matches_ := [] } := ⟨_, rfl⟩
  have hti : TraversalInv K self data mask cur max_length max_backward t st0 := by
    rw [hst0]
    refine ⟨t1.symm, t2, t3, ⟨cur, 0, rfl, by omega, by omega, by omega, hcn⟩,
      ⟨cur, 1, rfl, by omega, by omega, by omega, hcn⟩, ?_, ?_, by simp, by simp,
      ⟨fun m hm => by simp at hm, List.Pairwise.nil, fun m hm => by simp at hm⟩⟩
    · simp only [LeftChildIndexH10, RightChildIndexH10]; omega
    · intro x _
      exact ⟨Or.inl (fun j hj => absurd hj (Nat.not_lt_zero _)),
        Or.inl (fun j hj => absurd hj (Nat.not_lt_zero _))⟩
  have hdec := treeCandidates_decreasing K self data mask cur max_length max_backward lg hw
    hinv hcur hmb hml 64 t st0 hti (by rw [hst0])
  have hsame : candidatesH10 K self data cur mask max_length max_backward bl ms =
      treeCandidates self data cur mask max_length max_backward false 64 st0 := by
    unfold candidatesH10
    apply treeCandidates_congr
    rw [hst0]
    exact ⟨rfl, rfl, rfl, rfl, rfl, rfl⟩
  rw [hsame]
  exact ⟨fun c hc => (hdec.1 c hc).2, hdec.2⟩

/-- Claim C29, amended.  Over one input and one ring-buffer mask, in a window of `2^lgwin` bytes
with `lgwin >= 4`, in every H10 state reached from `PrepareH10` by `StoreH10` /
`StoreRangeH10` / `FindAllMatchesH10` calls at strictly increasing positions `p` with
`p + 2^lgwin <= 2^32`, every search with `max_backward <= window_mask`,
`max_backward <= cur_ix` and `max_length` a `uint`: at the next position `cur_ix` the head of
each bucket leads to a tree, held by the forest and restricted to the positions still within
`window_mask` of `cur_ix`, that is sorted by the lexicographic order of the 128-byte sequences
(the sequences of a left subtree are below the one of the node, those of a right subtree
above) and is a max-heap on starting positions (the positions of both subtrees are strictly
smaller than the node), which is `H10Inv`; and a traversal at `cur_ix` with
`max_backward <= window_mask` visits candidates at strictly decreasing positions below
`cur_ix`, so in strictly increasing backward distance, each at most `max_backward`. -/
theorem H10_trees_sorted_heaps {Γ : Type} (K : HasherCollab Γ) (lgwin : Nat)
    (buckets0 forest0 : Nat → Nat) (data : Nat → Nat) (ring_buffer_mask : Nat) (common : Γ)
    (ops : List H10Op) (cur_ix : Nat)
    (hlg : 4 ≤ lgwin) (hops : ∀ o ∈ ops, H10OpOK lgwin o)
    (hcur : cur_ix + 2 ^ lgwin ≤ 2 ^ 32)
    (hpos : List.Pairwise (fun a b => a < b)
      ((sessionCalls ops).map H10Call.position ++ [cur_ix])) :
    H10Inv K data ring_buffer_mask
      (runOpsH10 K data ring_buffer_mask
        (PrepareH10 { InitializeH10 lgwin with buckets_ := buckets0, forest := forest0 },
          common) ops).1 cur_ix cur_ix ∧
    ∀ (max_length max_backward best_len : Nat) (ms : Option (List BackwardMatch)),
      max_backward ≤ 2 ^ lgwin - 1 → max_length < 2 ^ 64 →
      (∀ p ∈ candidatesH10 K
          (runOpsH10 K data ring_buffer_mask
            (PrepareH10 { InitializeH10 lgwin with buckets_ := buckets0, forest := forest0 },
              common) ops).1
          data cur_ix ring_buffer_mask max_length max_backward best_len ms,
        p < cur_ix ∧ cur_ix - p ≤ max_backward) ∧
      List.Pairwise (fun a b => b < a ∧ cur_ix - a < cur_ix - b)
        (candidatesH10 K
          (runOpsH10 K data ring_buffer_mask
            (PrepareH10 { InitializeH10 lgwin with buckets_ := buckets0, forest := forest0 },
              common) ops).1
          data cur_ix ring_buffer_mask max_length max_backward best_len ms) := by
  have h32 : 2 ^ lgwin ≤ 2 ^ 32 := Nat.le_trans (Nat.le_add_left _ _) hcur
  obtain ⟨q1, q2, q3⟩ := h10Inv_prepare K data ring_buffer_mask lgwin buckets0 forest0 hlg h32
  rw [List.pairwise_append] at hpos
  rw [runOpsH10_eq_calls K data ring_buffer_mask lgwin ops _ hops]
  obtain ⟨r1, r2, r3⟩ := runH10_inv K data ring_buffer_mask lgwin hlg (sessionCalls ops) _
    common 0 cur_ix q1 q2 q3 (sessionCalls_ok lgwin ops hops) hpos.1
    (fun c _ => Nat.zero_le _) (Nat.zero_le _)
    (fun c hc => hpos.2.2 _ (List.mem_map_of_mem _ hc) _ (List.mem_singleton_self _))
  refine ⟨r3, ?_⟩
  intro max_length max_backward best_len ms hmb hml
  obtain ⟨d1, d2⟩ := candidatesH10_decreasing K _ data ring_buffer_mask cur_ix max_length
    max_backward lgwin best_len ms r1 r2 hcur hmb hml r3
  refine ⟨d1, ?_⟩
  have hmem : ∀ p ∈ candidatesH10 K
      (runH10 K data ring_buffer_mask
        (PrepareH10 { InitializeH10 lgwin with buckets_ := buckets0, forest := forest0 },
          common) (sessionCalls ops)).1
      data cur_ix ring_buffer_mask max_length max_backward best_len ms, p < cur_ix :=
    fun p hp => (d1 p hp).1
  generalize candidatesH10 K
      (runH10 K data ring_buffer_mask
        (PrepareH10 { InitializeH10 lgwin with buckets_ := buckets0, forest := forest0 },
          common) (sessionCalls ops)).1
      data cur_ix ring_buffer_mask max_length max_backward best_len ms = cs at d2 hmem
  induction cs with
  | nil => exact List.Pairwise.nil
  | cons a t iht =>
    rw [List.pairwise_cons] at d2 ⊢
    refine ⟨?_, iht d2.2 (fun p hp => hmem p (List.mem_cons_of_mem _ hp))⟩
    intro b hb
    have h1 := d2.1 b hb
    have h2 := hmem a (List.mem_cons_self _ _)
    exact ⟨h1, by omega⟩

/-- Claim C29 on `aliasInput` in a window of 1024 bytes: a store at 100, a `StoreRangeH10` over
`[200, 203)` and a search at 300, then the trees at position 1200. -/
theorem H10_trees_sorted_heaps_witness :
    (4 ≤ 10) ∧
    (∀ o ∈ [H10Op.call (H10Call.store 100), H10Op.storeRange 200 203,
      H10Op.call (H10Call.find 300 8 200 0 10 100000)], H10OpOK 10 o) ∧
    1200 + 2 ^ 10 ≤ 2 ^ 32 ∧
    List.Pairwise (fun a b => a < b)
      ((sessionCalls [H10Op.call (H10Call.store 100), H10Op.storeRange 200 203,
        H10Op.call (H10Call.find 300 8 200 0 10 100000)]).map H10Call.position ++ [1200]) ∧
    H10Inv referenceCollab aliasInput 0xFFFF
      (runOpsH10 referenceCollab aliasInput 0xFFFF
        (PrepareH10 { InitializeH10 10 with buckets_ := fun _ => 7, forest := fun _ => 9 }, ())
        [H10Op.call (H10Call.store 100), H10Op.storeRange 200 203,
          H10Op.call (H10Call.find 300 8 200 0 10 100000)]).1 1200 1200 :=
  have hc : ∀ o ∈ [H10Op.call (H10Call.store 100), H10Op.storeRange 200 203,
      H10Op.call (H10Call.find 300 8 200 0 10 100000)], H10OpOK 10 o := by
    intro o ho
    simp only [List.mem_cons, List.mem_singleton, List.not_mem_nil, or_false] at ho
    rcases ho with h | h | h <;> subst h <;> simp [H10OpOK, H10CallOK]
  have hp : List.Pairwise (fun a b => a < b)
      ((sessionCalls [H10Op.call (H10Call.store 100), H10Op.storeRange 200 203,
        H10Op.call (H10Call.find 300 8 200 0 10 100000)]).map H10Call.position ++ [1200]) := by
    decide
  ⟨by decide, hc, by decide, hp,
    (H10_trees_sorted_heaps referenceCollab 10 (fun _ => 7) (fun _ => 9) aliasInput 0xFFFF ()
      [H10Op.call (H10Call.store 100), H10Op.storeRange 200 203,
        H10Op.call (H10Call.find 300 8 200 0 10 100000)] 1200 (by decide) hc (by decide)
      hp).1⟩

/-- Claim C29 as stated fails when a position within `max_backward` of the current position
has left the window: in a window of 1024 bytes, after stores at 100, 200, 300 and 1124 over
`aliasInput`, the bucket of `abcd` has the head 200, whose right link leads to 100, and the
left link of 100, which the store at 1124 has overwritten, leads to the larger position 300;
100 is within `max_backward = 1100` of the position 1200, and the traversal at 1200 visits
200, 100, 300, at the backward distances 1000, 1100, 900. -/
theorem H10_trees_sorted_heaps_counterexample :
    (runOpsH10 referenceCollab aliasInput 0xFFFF (PrepareH10 (InitializeH10 10), ())
      [H10Op.call (H10Call.store 100), H10Op.call (H10Call.store 200),
        H10Op.call (H10Call.store 300), H10Op.call (H10Call.store 1124)]).1.buckets_
      (HashBytesH10 referenceCollab aliasInput 1200) = 200 ∧
    (runOpsH10 referenceCollab aliasInput 0xFFFF (PrepareH10 (InitializeH10 10), ())
      [H10Op.call (H10Call.store 100), H10Op.call (H10Call.store 200),
        H10Op.call (H10Call.store 300), H10Op.call (H10Call.store 1124)]).1.forest
      (RightChildIndexH10 (PrepareH10 (InitializeH10 10)) 200) = 100 ∧
    (runOpsH10 referenceCollab aliasInput 0xFFFF (PrepareH10 (InitializeH10 10), ())
      [H10Op.call (H10Call.store 100), H10Op.call (H10Call.store 200),
        H10Op.call (H10Call.store 300), H10Op.call (H10Call.store 1124)]).1.forest
      (LeftChildIndexH10 (PrepareH10 (InitializeH10 10)) 100) = 300 ∧
    1200 - 100 ≤ 1100 ∧ ¬ (300 < 100) ∧
    candidatesH10 referenceCollab
      (runOpsH10 referenceCollab aliasInput 0xFFFF (PrepareH10 (InitializeH10 10), ())
        [H10Op.call (H10Call.store 100), H10Op.call (H10Call.store 200),
          H10Op.call (H10Call.store 300), H10Op.call (H10Call.store 1124)]).1
      aliasInput 1200 0xFFFF 8 1100 0 none = [200, 100, 300] ∧
    ¬ (1200 - 100 < 1200 - 300) := by
  decide

theorem insertCostRow_spec {κ : Type} (C : SplitCollab κ) (num_histograms : Nat)
    (histograms : List (HistogramDistance κ)) (i d : Nat) (ic0 : List κ)
    (hi : i < d) (hl : d * num_histograms ≤ ic0.length)
    (hdone : ∀ i2 j, i < i2 → i2 < d → j < num_histograms →
      InsertCostAt C num_histograms histograms ic0 i2 j)
    (hbase : ∀ j, j < num_histograms → InsertBaseAt C histograms ic0 j) :
    ∃ ic, insertCostRow C num_histograms histograms i ic0 = some ic ∧
      ic.length = ic0.length ∧
      (∀ i2 j, i ≤ i2 → i2 < d → j < num_histograms →
        InsertCostAt C num_histograms histograms ic i2 j) ∧
      (1 ≤ i → ∀ j, j < num_histograms → InsertBaseAt C histograms ic j) := by
  have h := forLoop_inv (fun j (ic : List κ) =>
      (ic[j]?).bind fun base =>
      (histograms[j]?).bind fun h =>
      setAt ic (i * num_histograms + j) (C.sub base (C.BitCost (h.data_ i))))
    (fun j ic => ic.length = ic0.length ∧
      (∀ i2 j2, i < i2 → i2 < d → j2 < num_histograms →
        InsertCostAt C num_histograms histograms ic i2 j2) ∧
      (∀ j2, j2 < j → InsertCostAt C num_histograms histograms ic i j2) ∧
      (∀ j2, j ≤ j2 → j2 < num_histograms → InsertBaseAt C histograms ic j2) ∧
      (1 ≤ i → ∀ j2, j2 < num_histograms → InsertBaseAt C histograms ic j2))
    num_histograms 0 ic0
    ⟨rfl, hdone, fun j2 hj2 => absurd hj2 (Nat.not_lt_zero _), fun j2 _ hj2 => hbase j2 hj2,
      fun _ => hbase⟩
    (by
      intro j ic _ hj hP
      simp only [Nat.zero_add] at hj
      obtain ⟨p1, p2, p3, p4, p5⟩ := hP
      have h1 := mul_add_lt_mul i num_histograms d j hi hj
      obtain ⟨h, hh1, hh2⟩ := p4 j (Nat.le_refl _) hj
      dsimp only
      rw [hh2, Option.some_bind, hh1, Option.some_bind, setAt_eq_some _ _ _ (by omega)]
      refine ⟨_, rfl, by rw [List.length_set]; exact p1, ?_, ?_, ?_, ?_⟩
      · intro i2 j2 hi2 hi2d hj2
        obtain ⟨g, g1, g2⟩ := p2 i2 j2 hi2 hi2d hj2
        refine ⟨g, g1, ?_⟩
        rw [List.getElem?_set_ne]
        · exact g2
        · have := mul_add_lt_mul i num_histograms i2 j hi2 hj
          omega
      · intro j2 hj2
        by_cases e : j2 = j
        · subst e
          exact ⟨h, hh1, List.getElem?_set_self (by omega)⟩
        · obtain ⟨g, g1, g2⟩ := p3 j2 (by omega)
          exact ⟨g, g1, by rw [List.getElem?_set_ne (by omega)]; exact g2⟩
      · intro j2 hj2 hj2n
        obtain ⟨g, g1, g2⟩ := p4 j2 (by omega) hj2n
        refine ⟨g, g1, ?_⟩
        rw [List.getElem?_set_ne]
        · exact g2
        · by_cases hi0 : i = 0
          · subst hi0; omega
          · have := mul_add_lt_mul 0 num_histograms i j2 (by omega) hj2n
            omega
      · intro hi1 j2 hj2n
        obtain ⟨g, g1, g2⟩ := p5 hi1 j2 hj2n
        refine ⟨g, g1, ?_⟩
        rw [List.getElem?_set_ne]
        · exact g2
        · have := mul_add_lt_mul 0 num_histograms i j2 (by omega) hj2n
          omega)
  obtain ⟨ic, e, q1, q2, q3, _, q5⟩ := h
  refine ⟨ic, e, q1, ?_, q5⟩
  intro i2 j hi2 hi2d hj
  by_cases e2 : i2 = i
  · subst e2
    exact q3 j (by omega)
  · exact q2 i2 j (by omega) hi2d hj

theorem insertCostTable_spec {κ : Type} (C : SplitCollab κ) (num_histograms : Nat)
    (histograms : List (HistogramDistance κ)) (ic0 : List κ)
    (hd1 : 1 ≤ C.HistogramDataSizeDistance)
    (hl : C.HistogramDataSizeDistance * num_histograms ≤ ic0.length)
    (hh : num_histograms ≤ histograms.length) :
    ∃ ic1 ic2 ic3,
      forLoop (fun i ic => setAt ic i C.zero) 0
        (C.HistogramDataSizeDistance * num_histograms) ic0 = some ic1 ∧
      forLoop (fun i ic => (histograms[i]?).bind fun h =>
        setAt ic i (C.FastLog2 (u32 h.total_count_))) 0 num_histograms ic1 = some ic2 ∧
      forLoop (fun t ic => insertCostRow C num_histograms histograms
        (C.HistogramDataSizeDistance - 1 - t) ic) 0 C.HistogramDataSizeDistance ic2 =
        some ic3 ∧
      ic3.length = ic0.length ∧
      ∀ i j, i < C.HistogramDataSizeDistance → j < num_histograms →
        InsertCostAt C num_histograms histograms ic3 i j := by
  have hnd : num_histograms ≤ C.HistogramDataSizeDistance * num_histograms :=
    Nat.le_mul_of_pos_left _ hd1
  obtain ⟨ic1, e1, l1, _, _⟩ := fill_spec C.zero ic0
    (C.HistogramDataSizeDistance * num_histograms) hl
  obtain ⟨ic2, e2, l2, b2⟩ := forLoop_inv (fun i (ic : List κ) => (histograms[i]?).bind fun h =>
      setAt ic i (C.FastLog2 (u32 h.total_count_)))
    (fun i ic => ic.length = ic0.length ∧ ∀ j, j < i → InsertBaseAt C histograms ic j)
    num_histograms 0 ic1 ⟨l1, fun j hj => absurd hj (Nat.not_lt_zero _)⟩
    (by
      intro i ic _ hi hP
      obtain ⟨p1, p2⟩ := hP
      dsimp only
      rw [List.getElem?_eq_getElem (by omega), Option.some_bind,
        setAt_eq_some _ _ _ (by omega)]
      refine ⟨_, rfl, by rw [List.length_set]; exact p1, ?_⟩
      intro j hj
      by_cases e : j = i
      · subst e
        exact ⟨_, List.getElem?_eq_getElem (by omega), List.getElem?_set_self (by omega)⟩
      · obtain ⟨g, g1, g2⟩ := p2 j (by omega)
        exact ⟨g, g1, by rw [List.getElem?_set_ne (by omega)]; exact g2⟩)
  rw [Nat.zero_add] at b2
  obtain ⟨ic3, e3, l3, b3, _⟩ := forLoop_inv
    (fun t (ic : List κ) => insertCostRow C num_histograms histograms
      (C.HistogramDataSizeDistance - 1 - t) ic)
    (fun t ic => ic.length = ic0.length ∧
      (∀ i j, C.HistogramDataSizeDistance - t ≤ i → i < C.HistogramDataSizeDistance →
        j < num_histograms → InsertCostAt C num_histograms histograms ic i j) ∧
      (t < C.HistogramDataSizeDistance → ∀ j, j < num_histograms →
        InsertBaseAt C histograms ic j))
    C.HistogramDataSizeDistance 0 ic2
    ⟨l2, fun i j h1 h2 => by omega, fun _ => b2⟩
    (by
      intro t ic _ ht hP
      simp only [Nat.zero_add] at ht
      obtain ⟨p1, p2, p3⟩ := hP
      obtain ⟨ic4, e4, l4, q1, q2⟩ := insertCostRow_spec C num_histograms histograms
        (C.HistogramDataSizeDistance - 1 - t) C.HistogramDataSizeDistance ic (by omega)
        (by omega) (fun i2 j h1 h2 h3 => p2 i2 j (by omega) h2 h3) (p3 ht)
      refine ⟨ic4, e4, by rw [l4]; exact p1, ?_, ?_⟩
      · intro i j h1 h2 h3
        exact q1 i j (by omega) h2 h3
      · intro ht2
        exact q2 (by omega))
  refine ⟨ic1, ic2, ic3, e1, e2, e3, l3, ?_⟩
  intro i j hi hj
  exact b3 i j (by omega) hi hj

theorem addExact_step {κ : Type} [LinearOrderedField κ] (C : SplitCollab κ)
    (hC : ExactCosts C) (ic cost0 : List κ) (num_histograms lc lb byte_ix ix : Nat)
    (bl0 : List Nat)
    (hnh : num_histograms ≤ 256) (hlc : num_histograms ≤ lc) (hlb : byte_ix < lb)
    (hic : ix + num_histograms ≤ ic.length)
    (k : Nat) (st : List κ × κ × List Nat) (hk : k < num_histograms)
    (hP : AddExact lc lb cost0 ic bl0 ix byte_ix k st) :
    ∃ st1, findBlocksAddStep C ic ix byte_ix k st = some st1 ∧
      AddExact lc lb cost0 ic bl0 ix byte_ix (k + 1) st1 := by
  obtain ⟨p1, p2, p3, p4, p5, p6, p7, p8⟩ := hP
  obtain ⟨xadd, _, _, _, xlt, _⟩ := hC
  have hkc : st.1[k]? = some st.1[k] := List.getElem?_eq_getElem (by omega)
  have hke : ic[ix + k]? = some ic[ix + k] := List.getElem?_eq_getElem (by omega)
  have hu8 : u8 k = k := Nat.mod_eq_of_lt (by omega)
  have hc0 : cost0[k]? = some st.1[k] := by rw [← p5 k (Nat.le_refl _)]; exact hkc
  unfold findBlocksAddStep
  rw [hkc, Option.some_bind, hke, Option.some_bind]
  simp only
  rw [setAt_eq_some _ _ _ (by omega), Option.some_bind, xadd]
  have hdone : ∀ j, j < k + 1 → ∃ c e, cost0[j]? = some c ∧ ic[ix + j]? = some e ∧
      (st.1.set k (st.1[k] + ic[ix + k]))[j]? = some (c + e) := by
    intro j hj
    by_cases e : j = k
    · subst e
      exact ⟨_, _, hc0, hke, List.getElem?_set_self (by omega)⟩
    · obtain ⟨c, e2, g1, g2, g3⟩ := p4 j (by omega)
      exact ⟨c, e2, g1, g2, by rw [List.getElem?_set_ne (fun h => e h.symm)]; exact g3⟩
  have hrest : ∀ j, k + 1 ≤ j → (st.1.set k (st.1[k] + ic[ix + k]))[j]? = cost0[j]? := by
    intro j hj
    rw [List.getElem?_set_ne (by omega)]
    exact p5 j (by omega)
  by_cases hlt : C.lt (st.1[k] + ic[ix + k]) st.2.1 = true
  · rw [if_pos hlt, setAt_eq_some _ _ _ (by omega), Option.some_bind]
    have hlt2 : st.1[k] + ic[ix + k] < st.2.1 := (xlt _ _).1 hlt
    refine ⟨_, rfl, ?_, ?_, ?_, hdone, hrest, ?_, ?_, ?_⟩
    · show (st.1.set k _).length = lc
      rw [List.length_set]; exact p1
    · show (st.2.2.set byte_ix _).length = lb
      rw [List.length_set]; exact p2
    · intro j hj
      show (st.2.2.set byte_ix (u8 k))[j]? = bl0[j]?
      rw [List.getElem?_set_ne (fun h => hj h.symm)]
      exact p3 j hj
    · show st.1[k] + ic[ix + k] ≤ 10 ^ 99
      exact le_trans (le_of_lt hlt2) p6
    · intro j v hj hv
      show st.1[k] + ic[ix + k] ≤ v
      by_cases e : j = k
      · subst e
        simp only at hv
        rw [List.getElem?_set_self (by omega)] at hv
        exact le_of_eq (Option.some.inj hv)
      · simp only at hv
        rw [List.getElem?_set_ne (fun h => e h.symm)] at hv
        exact le_trans (le_of_lt hlt2) (p7 j v (by omega) hv)
    · right
      refine ⟨k, by omega, ?_, ?_⟩
      · show (st.2.2.set byte_ix (u8 k))[byte_ix]? = some k
        rw [hu8]
        exact List.getElem?_set_self (by omega)
      · show (st.1.set k _)[k]? = some _
        exact List.getElem?_set_self (by omega)
  · rw [if_neg hlt]
    have hlt2 : st.2.1 ≤ st.1[k] + ic[ix + k] := by
      by_contra hc
      exact hlt ((xlt _ _).2 (lt_of_not_le hc))
    refine ⟨_, rfl, ?_, p2, p3, hdone, hrest, p6, ?_, ?_⟩
    · show (st.1.set k _).length = lc
      rw [List.length_set]; exact p1
    · intro j v hj hv
      show st.2.1 ≤ v
      by_cases e : j = k
      · subst e
        simp only at hv
        rw [List.getElem?_set_self (by omega)] at hv
        rw [← Option.some.inj hv]
        exact hlt2
      · simp only at hv
        rw [List.getElem?_set_ne (fun h => e h.symm)] at hv
        exact p7 j v (by omega) hv
    · rcases p8 with h | ⟨b, hb1, hb2, hb3⟩
      · exact Or.inl h
      · right
        refine ⟨b, by omega, hb2, ?_⟩
        show (st.1.set k _)[b]? = some st.2.1
        rw [List.getElem?_set_ne (by omega)]
        exact hb3

theorem shift_three_div (k : Nat) : k >>> 3 = k / 8 := by
  rw [Nat.shiftRight_eq_div_pow]

theorem and_seven_mod (k : Nat) : k &&& 7 = k % 8 :=
  Nat.and_pow_two_sub_one_eq_mod k 3

theorem mask_bit (k n : Nat) :
    (u8 (1 <<< (k &&& 7))).testBit n = true ↔ k % 8 = n := by
  have hk : k % 8 < 8 := Nat.mod_lt _ (by norm_num)
  rw [and_seven_mod, Nat.shiftLeft_eq, Nat.one_mul]
  have hlt : 2 ^ (k % 8) < 2 ^ 8 := Nat.pow_lt_pow_right (by norm_num) hk
  have hu : u8 (2 ^ (k % 8)) = 2 ^ (k % 8) := Nat.mod_eq_of_lt hlt
  rw [hu, Nat.testBit_two_pow]
  simp

theorem capExact_step {κ : Type} [LinearOrderedField κ] (C : SplitCollab κ)
    (hC : ExactCosts C) (m bsc : κ) (a1 : List κ) (sw0 : List Nat)
    (num_histograms lc length byte_ix : Nat)
    (hlc : num_histograms ≤ lc) (hb : byte_ix < length)
    (k : Nat) (st : List κ × List Nat) (hk : k < num_histograms)
    (hP : CapExact lc (length * ((num_histograms + 7) >>> 3)) a1 sw0 m bsc
      (byte_ix * ((num_histograms + 7) >>> 3)) ((num_histograms + 7) >>> 3) k st) :
    ∃ st1, findBlocksCapStep C m bsc
        (byte_ix * ((num_histograms + 7) >>> 3)) ((num_histograms + 7) >>> 3) k st =
        some st1 ∧
      CapExact lc (length * ((num_histograms + 7) >>> 3)) a1 sw0 m bsc
        (byte_ix * ((num_histograms + 7) >>> 3)) ((num_histograms + 7) >>> 3) (k + 1) st1 := by
  obtain ⟨p1, p2, p3, p4, p5, p6⟩ := hP
  obtain ⟨_, xsub, _, _, _, xge, _⟩ := hC
  have hs := shift_three_lt k num_histograms hk
  have hidx := mul_add_lt_mul byte_ix ((num_histograms + 7) >>> 3) length (k >>> 3) hb hs
  have hkc : st.1[k]? = some st.1[k] := List.getElem?_eq_getElem (by omega)
  have ha1 : a1[k]? = some st.1[k] := by rw [← p4 k (Nat.le_refl _)]; exact hkc
  have hk8 : k / 8 < (num_histograms + 7) >>> 3 := by rw [← shift_three_div]; exact hs
  unfold findBlocksCapStep
  rw [hkc, Option.some_bind]
  simp only
  rw [setAt_eq_some _ _ _ (by omega), Option.some_bind, xsub]
  by_cases hge : C.ge (st.1[k] - m) bsc = true
  · have hge2 : bsc ≤ st.1[k] - m := (xge _ _).1 hge
    rw [if_pos hge, setAt_eq_some _ _ _ (by rw [List.length_set]; omega), Option.some_bind]
    simp only [assert, hs, decide_True, if_true, Option.some_bind]
    rw [List.getElem?_eq_getElem (by omega), Option.some_bind,
      setAt_eq_some _ _ _ (by omega), Option.some_bind]
    refine ⟨_, rfl, ?_, ?_, ?_, ?_, ?_, ?_⟩
    · show ((st.1.set k _).set k _).length = lc
      rw [List.length_set, List.length_set]; exact p1
    · show (st.2.set _ _).length = _
      rw [List.length_set]; exact p2
    · intro j hj
      show ∃ v, a1[j]? = some v ∧ ((st.1.set k _).set k bsc)[j]? = some _
      by_cases e : j = k
      · subst e
        refine ⟨_, ha1, ?_⟩
        rw [List.getElem?_set_self (by rw [List.length_set]; omega), if_pos hge2]
      · obtain ⟨v, g1, g2⟩ := p3 j (by omega)
        refine ⟨v, g1, ?_⟩
        rw [List.getElem?_set_ne (fun h => e h.symm), List.getElem?_set_ne (fun h => e h.symm)]
        exact g2
    · intro j hj
      show ((st.1.set k _).set k bsc)[j]? = a1[j]?
      rw [List.getElem?_set_ne (by omega), List.getElem?_set_ne (by omega)]
      exact p4 j (by omega)
    · intro p hp
      show (st.2.set _ _)[p]? = sw0[p]?
      rw [List.getElem?_set_ne (by omega)]
      exact p5 p hp
    · intro j hj
      obtain ⟨sw, g1, g2⟩ := p6 j hj
      by_cases e8 : j / 8 = k / 8
      · have hsame : byte_ix * ((num_histograms + 7) >>> 3) + k >>> 3 =
            byte_ix * ((num_histograms + 7) >>> 3) + j / 8 := by
          rw [shift_three_div k, e8]
        refine ⟨sw ||| u8 (1 <<< (k &&& 7)), ?_, ?_⟩
        · show (st.2.set _ _)[_]? = some _
          have hget : st.2[byte_ix * ((num_histograms + 7) >>> 3) + k >>> 3] = sw := by
            have h2 : st.2[byte_ix * ((num_histograms + 7) >>> 3) + k >>> 3]? = some sw := by
              rw [hsame]; exact g1
            rw [List.getElem?_eq_getElem (by omega)] at h2
            exact Option.some.inj h2
          rw [← hsame, List.getElem?_set_self (by omega), hget]
        · rw [Nat.testBit_or, Bool.or_eq_true, g2,
            mask_bit k (j % 8)]
          constructor
          · rintro (⟨h1, h2⟩ | h)
            · exact ⟨by omega, h2⟩
            · have hjk : j = k := by
                have a := Nat.div_add_mod j 8
                have b := Nat.div_add_mod k 8
                omega
              subst hjk
              exact ⟨by omega, _, ha1, hge2⟩
          · rintro ⟨h1, h2⟩
            by_cases hjk : j = k
            · subst hjk; right; rfl
            · left; exact ⟨by omega, h2⟩
      · refine ⟨sw, ?_, ?_⟩
        · show (st.2.set _ _)[_]? = some _
          rw [List.getElem?_set_ne (by rw [shift_three_div k]; omega)]
          exact g1
        · rw [g2]
          constructor
          · rintro ⟨h1, h2⟩
            exact ⟨by omega, h2⟩
          · rintro ⟨h1, h2⟩
            have hjk : j ≠ k := fun h => e8 (by rw [h])
            exact ⟨by omega, h2⟩
  · have hge2 : ¬ bsc ≤ st.1[k] - m := fun h => hge ((xge _ _).2 h)
    rw [if_neg hge]
    refine ⟨_, rfl, ?_, p2, ?_, ?_, p5, ?_⟩
    · show (st.1.set k _).length = lc
      rw [List.length_set]; exact p1
    · intro j hj
      show ∃ v, a1[j]? = some v ∧ (st.1.set k _)[j]? = some _
      by_cases e : j = k
      · subst e
        refine ⟨_, ha1, ?_⟩
        rw [List.getElem?_set_self (by omega), if_neg hge2]
      · obtain ⟨v, g1, g2⟩ := p3 j (by omega)
        refine ⟨v, g1, ?_⟩
        rw [List.getElem?_set_ne (fun h => e h.symm)]
        exact g2
    · intro j hj
      show (st.1.set k _)[j]? = a1[j]?
      rw [List.getElem?_set_ne (by omega)]
      exact p4 j (by omega)
    · intro j hj
      obtain ⟨sw, g1, g2⟩ := p6 j hj
      refine ⟨sw, g1, ?_⟩
      rw [g2]
      constructor
      · rintro ⟨h1, h2⟩
        exact ⟨by omega, h2⟩
      · rintro ⟨h1, v, h2, h3⟩
        refine ⟨?_, v, h2, h3⟩
        by_contra hc
        have hjk : j = k := by omega
        subst hjk
        rw [ha1] at h2
        rw [← Option.some.inj h2] at h3
        exact hge2 h3

theorem blockSwitchCostAt_pos {κ : Type} [LinearOrderedField κ] (C : SplitCollab κ)
    (hC : ExactCosts C) (bsb : κ) (hpos : 0 < bsb) (i : Nat) :
    0 < blockSwitchCostAt C bsb i := by
  obtain ⟨xadd, _, xmul, xdiv, _, _, _, _, x77, x07, x2000, xof⟩ := hC
  unfold blockSwitchCostAt
  split
  · rw [xmul, xadd, xdiv, xmul, x77, x07, x2000, xof]
    apply mul_pos hpos
    positivity
  · exact hpos

theorem forwardExact_step {κ : Type} [LinearOrderedField κ] (C : SplitCollab κ)
    (hC : ExactCosts C) (hbelow : ∀ n m : Nat, C.FastLog2 n - C.BitCost m < 10 ^ 99)
    (data : Nat → Nat) (bsb : κ) (hpos : 0 < bsb)
    (num_histograms lc lb length : Nat) (histograms : List (HistogramDistance κ))
    (ic : List κ) (hnh : num_histograms ≤ 256)
    (hlic : C.HistogramDataSizeDistance * num_histograms ≤ ic.length)
    (htab : ∀ i j, i < C.HistogramDataSizeDistance → j < num_histograms →
      InsertCostAt C num_histograms histograms ic i j)
    (hlc : num_histograms ≤ lc) (hlb : length ≤ lb)
    (hdata : ∀ i, i < length → data i < C.HistogramDataSizeDistance)
    (i : Nat) (st : FindBlocksState κ) (hi : i < length)
    (hP : ForwardExact num_histograms ic lc lb length i st) :
    ∃ st1, findBlocksForwardStep C data bsb num_histograms
        ((num_histograms + 7) >>> 3) i st = some st1 ∧
      ForwardExact num_histograms ic lc lb length (i + 1) st1 ∧
      CostsNormalised num_histograms (blockSwitchCostAt C bsb i) i st1 := by
  obtain ⟨p1, p2, p3, p4, p5, p6, p7, p8⟩ := hP
  have hbsc := blockSwitchCostAt_pos C hC bsb hpos i
  have x99 : C.c1e99 = 10 ^ 99 := hC.2.2.2.2.2.2.2.1
  have xsub := hC.2.1
  have hix : data i * num_histograms + num_histograms ≤ st.insert_cost.length := by
    have h : (data i + 1) * num_histograms ≤ C.HistogramDataSizeDistance * num_histograms :=
      Nat.mul_le_mul_right _ (hdata i hi)
    rw [Nat.add_mul, Nat.one_mul] at h
    rw [p1]
    omega
  obtain ⟨a, ea, ha⟩ := forLoop_inv
    (findBlocksAddStep C st.insert_cost (data i * num_histograms) i)
    (AddExact lc lb st.cost st.insert_cost st.block_id (data i * num_histograms) i)
    num_histograms 0 (st.cost, C.c1e99, st.block_id)
    ⟨p2, p4, fun _ _ => rfl, fun j hj => absurd hj (Nat.not_lt_zero _), fun _ _ => rfl,
      le_of_eq x99, fun j v hj => absurd hj (Nat.not_lt_zero _), Or.inl x99⟩
    (fun k s _ hk hQ => addExact_step C hC st.insert_cost st.cost num_histograms lc lb i
      (data i * num_histograms) st.block_id hnh hlc (by omega) hix k s (by omega) hQ)
  rw [Nat.zero_add] at ha
  obtain ⟨a1, a2, a3, a4, _, a6, a7, a8⟩ := ha
  -- the minimum is the cost of the recorded entropy code
  obtain ⟨k0, hk0, hz⟩ := p6
  obtain ⟨c0, e0, g1, g2, g3⟩ := a4 k0 hk0
  have hc0 : c0 = 0 := by rw [hz] at g1; exact (Option.some.inj g1).symm
  have he0 : e0 < 10 ^ 99 := by
    obtain ⟨h, _, hh⟩ := htab (data i) k0 (hdata i hi) hk0
    rw [← p1, g2] at hh
    rw [Option.some.inj hh, xsub]
    exact hbelow _ _
  have hmlt : a.2.1 < 10 ^ 99 := by
    have := a7 k0 _ hk0 g3
    rw [hc0, zero_add] at this
    exact lt_of_le_of_lt this he0
  obtain ⟨b0, hb0, hb1, hb2⟩ : ∃ b, b < num_histograms ∧ a.2.2[i]? = some b ∧
      a.1[b]? = some a.2.1 := by
    rcases a8 with h | h
    · exact absurd h (ne_of_lt hmlt)
    · exact h
  obtain ⟨b, eb, hb⟩ := forLoop_inv
    (findBlocksCapStep C a.2.1 (blockSwitchCostAt C bsb i)
      (i * ((num_histograms + 7) >>> 3)) ((num_histograms + 7) >>> 3))
    (CapExact lc (length * ((num_histograms + 7) >>> 3)) a.1 st.switch_signal a.2.1
      (blockSwitchCostAt C bsb i) (i * ((num_histograms + 7) >>> 3))
      ((num_histograms + 7) >>> 3))
    num_histograms 0 (a.1, st.switch_signal)
    ⟨a1, p3, fun j hj => absurd hj (Nat.not_lt_zero _), fun _ _ => rfl, fun _ _ => rfl, by
      intro j hj
      have hidx := mul_add_lt_mul i ((num_histograms + 7) >>> 3) length (j / 8) hi hj
      refine ⟨0, p7 _ (by omega) hidx, ?_⟩
      simp⟩
    (fun k s _ hk hQ => capExact_step C hC _ _ a.1 st.switch_signal num_histograms lc length i
      hlc hi k s (by omega) hQ)
  rw [Nat.zero_add] at hb
  obtain ⟨c1, c2, c3, _, c5, c6⟩ := hb
  have eb2 : forLoop (findBlocksCapStep C a.2.1
      (if i < 2000 then
        C.mul bsb (C.add C.c0_77 (C.div (C.mul C.c0_07 (C.ofNat i)) C.c2000))
      else bsb)
      (i * ((num_histograms + 7) >>> 3)) ((num_histograms + 7) >>> 3)) 0 num_histograms
      (a.1, st.switch_signal) = some b := eb
  have hcost : ∀ k, k < num_histograms → ∃ v, a.1[k]? = some v ∧ a.2.1 ≤ v ∧
      b.1[k]? = some (if blockSwitchCostAt C bsb i ≤ v - a.2.1 then blockSwitchCostAt C bsb i
        else v - a.2.1) := by
    intro k hk
    obtain ⟨v, hv1, hv2⟩ := c3 k hk
    exact ⟨v, hv1, a7 k v hk hv1, hv2⟩
  have hzero : b.1[b0]? = some 0 := by
    obtain ⟨v, hv1, _, hv3⟩ := hcost b0 hb0
    rw [hb2] at hv1
    rw [← Option.some.inj hv1, sub_self, if_neg (not_le.2 hbsc)] at hv3
    exact hv3
  unfold findBlocksForwardStep
  simp only
  rw [ea, Option.some_bind, eb2, Option.some_bind]
  refine ⟨_, rfl, ⟨p1, c1, c2, a2, ?_, ⟨b0, hb0, hzero⟩, ?_, ?_⟩, ?_, ⟨b0, hb1, hb0, hzero⟩, ?_⟩
  · intro k hk
    obtain ⟨v, _, hv2, hv3⟩ := hcost k hk
    refine ⟨_, hv3, ?_⟩
    split
    · exact le_of_lt hbsc
    · exact sub_nonneg.2 hv2
  · intro p hp1 hp2
    show b.2[p]? = some 0
    rw [Nat.succ_mul] at hp1
    rw [c5 p (Or.inr hp1)]
    exact p7 p (by omega) hp2
  · intro j hj
    show ∃ b, a.2.2[j]? = some b ∧ b < num_histograms
    by_cases e : j = i
    · subst e
      exact ⟨b0, hb1, hb0⟩
    · rw [a3 j e]
      exact p8 j (by omega)
  · intro k hk
    obtain ⟨v, _, hv2, hv3⟩ := hcost k hk
    refine ⟨_, hv3, ?_, ?_⟩
    · split
      · exact le_of_lt hbsc
      · exact sub_nonneg.2 hv2
    · split
      · exact le_refl _
      · rename_i h
        exact le_of_lt (not_le.1 h)
  · intro k hk
    obtain ⟨v, hv1, hv2, hv3⟩ := hcost k hk
    have hk8 : k / 8 < (num_histograms + 7) >>> 3 := by
      rw [← shift_three_div]
      exact shift_three_lt k num_histograms hk
    obtain ⟨sw, g1, g2⟩ := c6 k hk8
    refine ⟨_, sw, hv3, ?_, ?_⟩
    · show b.2[i * ((num_histograms + 7) >>> 3) + k >>> 3]? = some sw
      rw [shift_three_div k]
      exact g1
    · rw [and_seven_mod, g2]
      constructor
      · rintro ⟨_, v2, h1, h2⟩
        rw [hv1] at h1
        rw [← Option.some.inj h1] at h2
        rw [if_pos h2]
      · intro h
        refine ⟨hk, v, hv1, ?_⟩
        by_contra hc
        rw [if_neg hc] at h
        exact hc (le_of_eq h.symm)

theorem forwardPassDistance_spec {κ : Type} [LinearOrderedField κ] (C : SplitCollab κ)
    (hC : ExactCosts C) (hbelow : ∀ n m : Nat, C.FastLog2 n - C.BitCost m < 10 ^ 99)
    (data : Nat → Nat) (length : Nat) (bsb : κ) (hpos : 0 < bsb) (num_histograms : Nat)
    (histograms : List (HistogramDistance κ)) (st : FindBlocksState κ)
    (h2 : 2 ≤ num_histograms) (hnh : num_histograms ≤ 256) (h1 : 1 ≤ length)
    (hsz : FindBlocksSized C data length num_histograms histograms st)
    (n : Nat) (hn : n ≤ length) :
    ∃ ic s, forwardPassDistance C data length bsb num_histograms histograms st n = some s ∧
      ForwardExact num_histograms ic st.cost.length st.block_id.length length n s ∧
      (∀ i, i + 1 = n → CostsNormalised num_histograms (blockSwitchCostAt C bsb i) i s) := by
  obtain ⟨s1, s2, s3, s4, s5, s6⟩ := hsz
  have xz : C.zero = 0 := hC.2.2.2.2.2.2.1
  have hd1 : 1 ≤ C.HistogramDataSizeDistance := by
    have := s6 0 (by omega)
    omega
  obtain ⟨ic1, ic2, ic3, e1, e2, e3, l3, htab⟩ := insertCostTable_spec C num_histograms
    histograms st.insert_cost hd1 s1 s5
  obtain ⟨cost0, e4, l4, z4, _⟩ := fill_spec C.zero st.cost num_histograms s2
  obtain ⟨sw0, e5, l5, z5, _⟩ := fill_spec 0 st.switch_signal
    (length * ((num_histograms + 7) >>> 3)) (by omega)
  obtain ⟨f, e6, hF, hN⟩ := forLoop_inv
    (findBlocksForwardStep C data bsb num_histograms ((num_histograms + 7) >>> 3))
    (fun j s => ForwardExact num_histograms ic3 st.cost.length st.block_id.length length j s ∧
      ∀ i, i + 1 = j → CostsNormalised num_histograms (blockSwitchCostAt C bsb i) i s)
    n 0
    { insert_cost := ic3, cost := cost0, switch_signal := sw0, block_id := st.block_id }
    ⟨⟨rfl, l4, by rw [l5, s3], rfl,
        fun k hk => ⟨0, by rw [← xz]; exact z4 k hk, le_refl _⟩,
        ⟨0, by omega, by rw [← xz]; exact z4 0 (by omega)⟩,
        fun p _ hp => z5 p hp, fun j hj => absurd hj (Nat.not_lt_zero _)⟩,
      fun i hi => by omega⟩
    (by
      intro i s _ hi hP
      obtain ⟨s', k1, k2, k3⟩ := forwardExact_step C hC hbelow data bsb hpos num_histograms
        st.cost.length st.block_id.length length histograms ic3 hnh (by rw [l3]; exact s1)
        htab s2 s4 s6 i s (by omega) hP.1
      refine ⟨s', k1, k2, ?_⟩
      intro i2 hi2
      have : i2 = i := by omega
      subst this
      exact k3)
  rw [Nat.zero_add] at hF hN
  refine ⟨ic3, f, ?_, hF, hN⟩
  unfold forwardPassDistance
  simp only
  rw [e1, Option.some_bind, e2, Option.some_bind, e3, Option.some_bind, e4,
    Option.some_bind, e5, Option.some_bind, e6]

theorem FindBlocksDistance_of_forward {κ : Type} [LinearOrderedField κ] (C : SplitCollab κ)
    (hC : ExactCosts C) (hbelow : ∀ n m : Nat, C.FastLog2 n - C.BitCost m < 10 ^ 99)
    (data : Nat → Nat) (length : Nat) (bsb : κ) (hpos : 0 < bsb) (num_histograms : Nat)
    (histograms : List (HistogramDistance κ)) (st : FindBlocksState κ)
    (h2 : 2 ≤ num_histograms) (hnh : num_histograms ≤ 256) (h1 : 1 ≤ length)
    (h64 : length < 2 ^ 64)
    (hsz : FindBlocksSized C data length num_histograms histograms st) :
    ∃ n s1 sL, forwardPassDistance C data length bsb num_histograms histograms st length =
        some sL ∧
      FindBlocksDistance C data length bsb num_histograms histograms st = some (n, s1) ∧
      s1.insert_cost = sL.insert_cost ∧ s1.cost = sL.cost ∧
      s1.switch_signal = sL.switch_signal := by
  obtain ⟨ic, sL, hfw, hF, _⟩ := forwardPassDistance_spec C hC hbelow data length bsb hpos
    num_histograms histograms st h2 hnh h1 hsz length (Nat.le_refl _)
  obtain ⟨_, _, _, s4, _, _⟩ := hsz
  obtain ⟨_, _, f3, f4, _, _, _, f8⟩ := hF
  have hby : usub length 1 = length - 1 := usub_of_le _ _ h64 h1
  obtain ⟨cur_id, hcur, hcn⟩ := f8 (length - 1) (by omega)
  obtain ⟨tr, e7, _⟩ := forLoop_inv
    (fun t tr => findBlocksTraceStep sL.switch_signal ((num_histograms + 7) >>> 3)
      (length - 1 - 1 - t) tr)
    (fun _ tr => TraceRanged num_histograms st.block_id.length length tr) (length - 1) 0
    (sL.block_id, cur_id, 1) ⟨f4, f8, hcn⟩
    (fun t s _ ht hP => trace_ranged_step sL.switch_signal num_histograms
      st.block_id.length length (length - 1 - 1 - t) f3 s4 (by omega) s hP)
  refine ⟨tr.2.2, { sL with block_id := tr.1 }, sL, hfw, ?_, rfl, rfl, rfl⟩
  unfold forwardPassDistance at hfw
  simp only [Option.bind_eq_some] at hfw
  obtain ⟨ic1, e1, ic2, e2, ic3, e3, cost0, e4, sw0, e5, e6⟩ := hfw
  unfold FindBlocksDistance
  simp only [assert, hnh, decide_True, if_true, Option.some_bind]
  rw [if_neg (by omega), e1, Option.some_bind, e2, Option.some_bind, e3, Option.some_bind, e4,
    Option.some_bind, e5, Option.some_bind, e6, Option.some_bind]
  simp only [hby]
  rw [hcur, Option.some_bind, e7, Option.some_bind]

theorem log2FloorLoop_le : ∀ (fuel n r : Nat), log2FloorLoop fuel n r ≤ r + fuel := by
  intro fuel
  induction fuel with
  | zero => intro n r; exact Nat.le_refl _
  | succ f ih =>
    intro n r
    rw [log2FloorLoop]
    split
    · omega
    · have := ih (n >>> 1) (r + 1)
      omega

theorem exactSplitCollab_exact : ExactCosts exactSplitCollab :=
  ⟨fun _ _ => rfl, fun _ _ => rfl, fun _ _ => rfl, fun _ _ => rfl,
    fun _ _ => decide_eq_true_iff, fun _ _ => decide_eq_true_iff, rfl, rfl, rfl, rfl, rfl,
    fun _ => rfl⟩

theorem exactSplitCollab_below (n m : Nat) :
    exactSplitCollab.FastLog2 n - exactSplitCollab.BitCost m < 10 ^ 99 := by
  have h1 : (Log2FloorNonZero n : ℚ) ≤ 64 := by
    have := log2FloorLoop_le 64 n 0
    unfold Log2FloorNonZero
    exact_mod_cast (by omega : log2FloorLoop 64 n 0 ≤ 64)
  have h2 : (-2 : ℚ) ≤ exactSplitCollab.BitCost m := by
    show (-2 : ℚ) ≤ if m = 0 then -2 else (Log2FloorNonZero m : ℚ)
    split
    · exact le_refl _
    · have : (0 : ℚ) ≤ (Log2FloorNonZero m : ℚ) := Nat.cast_nonneg _
      linarith
  show (Log2FloorNonZero n : ℚ) - exactSplitCollab.BitCost m < 10 ^ 99
  have h3 : (66 : ℚ) < 10 ^ 99 := by norm_num
  linarith

/-- Claim C28.  Reading the costs as exact numbers of an ordered field (the arithmetic and the
comparisons of the collaborators are exact, an insert cost `FastLog2(n) - BitCost(m)` is
below `1e99`), for `2 <= num_histograms <= 256` and a positive block-switch cost, on arrays as
`SplitByteVectorDistance` allocates them: the forward pass of `FindBlocksDistance` processes
position `i`, and after it every `cost[k]` lies in `[0, bsc_i]`, where `bsc_i` is the scaled
block-switch cost of the position, the cost at `k = block_id[i]` is `0`, and bit `k` of
`switch_signal` at position `i` is set exactly when `cost[k] = bsc_i`; `FindBlocksDistance`
returns with the costs and the bitmap of its forward pass. -/
theorem FindBlocksDistance_costs_normalised {κ : Type} [LinearOrderedField κ]
    (C : SplitCollab κ) (data : Nat → Nat) (length : Nat) (block_switch_bitcost : κ)
    (num_histograms : Nat) (histograms : List (HistogramDistance κ))
    (st : FindBlocksState κ) (i : Nat)
    (hC : ExactCosts C) (hbelow : ∀ n m : Nat, C.FastLog2 n - C.BitCost m < 10 ^ 99)
    (hpos : 0 < block_switch_bitcost)
    (h2 : 2 ≤ num_histograms) (hnh : num_histograms ≤ 256) (h64 : length < 2 ^ 64)
    (hsz : FindBlocksSized C data length num_histograms histograms st) (hi : i < length) :
    (∃ s, forwardPassDistance C data length block_switch_bitcost num_histograms histograms st
        (i + 1) = some s ∧
      (∀ k, k < num_histograms → ∃ c, s.cost[k]? = some c ∧ 0 ≤ c ∧
        c ≤ blockSwitchCostAt C block_switch_bitcost i) ∧
      (∃ b, s.block_id[i]? = some b ∧ b < num_histograms ∧ s.cost[b]? = some 0) ∧
      (∀ k, k < num_histograms → ∃ c sw, s.cost[k]? = some c ∧
        s.switch_signal[i * ((num_histograms + 7) >>> 3) + (k >>> 3)]? = some sw ∧
        (sw.testBit (k &&& 7) = true ↔ c = blockSwitchCostAt C block_switch_bitcost i))) ∧
    ∃ n s1 sL, forwardPassDistance C data length block_switch_bitcost num_histograms
        histograms st length = some sL ∧
      FindBlocksDistance C data length block_switch_bitcost num_histograms histograms st =
        some (n, s1) ∧
      s1.insert_cost = sL.insert_cost ∧ s1.cost = sL.cost ∧
      s1.switch_signal = sL.switch_signal := by
  obtain ⟨_, s, e, _, hN⟩ := forwardPassDistance_spec C hC hbelow data length
    block_switch_bitcost hpos num_histograms histograms st h2 hnh (by omega) hsz (i + 1)
    (by omega)
  obtain ⟨n1, n2, n3⟩ := hN i rfl
  exact ⟨⟨s, e, n1, n2, n3⟩,
    FindBlocksDistance_of_forward C hC hbelow data length block_switch_bitcost hpos
      num_histograms histograms st h2 hnh (by omega) h64 hsz⟩

/-- Claim C28 with rational costs on three symbols and two histograms, at position 1. -/
theorem FindBlocksDistance_costs_normalised_witness :
    ∃ s, forwardPassDistance exactSplitCollab (periodInput 3) 3 1 2
        [HistogramClearDistance 0, HistogramClearDistance 0]
        ⟨List.replicate 8 0, List.replicate 2 0, List.replicate 3 0, List.replicate 3 0⟩
        (1 + 1) = some s ∧
      (∀ k, k < 2 → ∃ c, s.cost[k]? = some c ∧ 0 ≤ c ∧
        c ≤ blockSwitchCostAt exactSplitCollab 1 1) ∧
      (∃ b, s.block_id[1]? = some b ∧ b < 2 ∧ s.cost[b]? = some 0) ∧
      (∀ k, k < 2 → ∃ c sw, s.cost[k]? = some c ∧
        s.switch_signal[1 * ((2 + 7) >>> 3) + (k >>> 3)]? = some sw ∧
        (sw.testBit (k &&& 7) = true ↔ c = blockSwitchCostAt exactSplitCollab 1 1)) :=
  (FindBlocksDistance_costs_normalised exactSplitCollab (periodInput 3) 3 1 2
    [HistogramClearDistance 0, HistogramClearDistance 0]
    ⟨List.replicate 8 0, List.replicate 2 0, List.replicate 3 0, List.replicate 3 0⟩ 1
    exactSplitCollab_exact exactSplitCollab_below (by norm_num) (by decide) (by decide)
    (by decide)
    ⟨by decide, by decide, by decide, by decide, by decide,
      fun i hi => by
        show periodInput 3 i < 4
        unfold periodInput
        omega⟩
    (by decide)).1

theorem forLoop_snoc {σ : Type} (body : Nat → σ → Option σ) :
    ∀ (n lo : Nat) (s : σ),
      forLoop body lo (n + 1) s = (forLoop body lo n s).bind (body (lo + n)) := by
  intro n
  induction n with
  | zero =>
    intro lo s
    simp only [forLoop, Option.some_bind, Nat.add_zero]
    cases body lo s <;> rfl
  | succ k ih =>
    intro lo s
    rw [forLoop]
    cases hb : body lo s with
    | none => simp only [forLoop, hb, Option.none_bind]
    | some s1 =>
      simp only [Option.some_bind]
      rw [ih (lo + 1) s1]
      have e : forLoop body lo (k + 1) s = forLoop body (lo + 1) k s1 := by
        rw [forLoop, hb, Option.some_bind]
      rw [e, show lo + 1 + k = lo + (k + 1) by omega]

theorem add_step {κ : Type} (C : SplitCollab κ)
    (insert_cost cost0 : List κ) (num_histograms lc lb byte_ix ix : Nat) (bl0 : List Nat)
    (hnh : num_histograms ≤ 256) (hlc : num_histograms ≤ lc) (hlb : byte_ix < lb)
    (hic : ix + num_histograms ≤ insert_cost.length)
    (k : Nat) (st : List κ × κ × List Nat) (hk : k < num_histograms)
    (hP : AddAssigned C num_histograms lc lb cost0 insert_cost bl0 ix byte_ix k st) :
    ∃ st1, findBlocksAddStep C insert_cost ix byte_ix k st = some st1 ∧
      AddAssigned C num_histograms lc lb cost0 insert_cost bl0 ix byte_ix (k + 1) st1 := by
  obtain ⟨p1, p2, p3, p4, p5⟩ := hP
  have hkc : st.1[k]? = some st.1[k] := List.getElem?_eq_getElem (by omega)
  have hke : insert_cost[ix + k]? = some insert_cost[ix + k] :=
    List.getElem?_eq_getElem (by omega)
  have hc0 : cost0[k]? = some st.1[k] := by rw [← p4 k (Nat.le_refl _)]; exact hkc
  unfold findBlocksAddStep
  rw [hkc, Option.some_bind, hke, Option.some_bind]
  simp only
  rw [setAt_eq_some _ _ _ (by omega), Option.some_bind]
  have hu8 : u8 k = k := Nat.mod_eq_of_lt (by omega)
  have hrest : ∀ j, k + 1 ≤ j →
      (st.1.set k (C.add st.1[k] insert_cost[ix + k]))[j]? = cost0[j]? := by
    intro j hj
    rw [List.getElem?_set_ne (by omega)]
    exact p4 j (by omega)
  by_cases hlt : C.lt (C.add st.1[k] insert_cost[ix + k]) st.2.1 = true
  · rw [if_pos hlt, setAt_eq_some _ _ _ (by omega), Option.some_bind]
    refine ⟨_, rfl, ?_, ?_, ?_, hrest, ?_⟩
    · show (st.1.set k _).length = lc
      rw [List.length_set]; exact p1
    · show (st.2.2.set byte_ix _).length = lb
      rw [List.length_set]; exact p2
    · intro j hj
      show (st.2.2.set byte_ix (u8 k))[j]? = bl0[j]?
      rw [List.getElem?_set_ne (fun h => hj h.symm)]
      exact p3 j hj
    · right
      exact ⟨k, by
        show (st.2.2.set byte_ix (u8 k))[byte_ix]? = some k
        rw [hu8]
        exact List.getElem?_set_self (by omega), hk⟩
  · rw [if_neg hlt]
    refine ⟨_, rfl, ?_, p2, p3, hrest, ?_⟩
    · show (st.1.set k _).length = lc
      rw [List.length_set]; exact p1
    · rcases p5 with ⟨h1, h2, h3⟩ | h
      · left
        refine ⟨h1, h2, ?_⟩
        intro j c e hj hc he
        by_cases hjk : j = k
        · subst hjk
          rw [hc0] at hc
          rw [hke] at he
          rw [← Option.some.inj hc, ← Option.some.inj he, ← h1]
          exact hlt
        · exact h3 j c e (by omega) hc he
      · exact Or.inr h

theorem forward_step {κ : Type} (C : SplitCollab κ)
    (data : Nat → Nat) (block_switch_bitcost : κ)
    (num_histograms lic lc lb length : Nat) (bl0 : List Nat)
    (hnh : num_histograms ≤ 256)
    (hlic : C.HistogramDataSizeDistance * num_histograms ≤ lic)
    (hlc : num_histograms ≤ lc) (hlb : length ≤ lb)
    (hdata : ∀ i, i < length → data i < C.HistogramDataSizeDistance)
    (i : Nat) (st : FindBlocksState κ) (hi : i < length)
    (hok : (∃ k c e, k < num_histograms ∧ st.cost[k]? = some c ∧
        st.insert_cost[data i * num_histograms + k]? = some e ∧
        C.lt (C.add c e) C.c1e99 = true) ∨
      ∃ b, bl0[i]? = some b ∧ b < num_histograms)
    (hP : ForwardAssigned num_histograms lic lc (length * ((num_histograms + 7) >>> 3)) lb bl0
      i st) :
    ∃ st1, findBlocksForwardStep C data block_switch_bitcost num_histograms
        ((num_histograms + 7) >>> 3) i st = some st1 ∧
      ForwardAssigned num_histograms lic lc (length * ((num_histograms + 7) >>> 3)) lb bl0
        (i + 1) st1 := by
  obtain ⟨p1, p2, p3, p4, p5, p6⟩ := hP
  have hix : data i * num_histograms + num_histograms ≤ st.insert_cost.length := by
    have h : (data i + 1) * num_histograms ≤ C.HistogramDataSizeDistance * num_histograms :=
      Nat.mul_le_mul_right _ (hdata i hi)
    rw [Nat.add_mul, Nat.one_mul] at h
    omega
  obtain ⟨a, ea, ha⟩ := forLoop_inv
    (findBlocksAddStep C st.insert_cost (data i * num_histograms) i)
    (AddAssigned C num_histograms lc lb st.cost st.insert_cost st.block_id
      (data i * num_histograms) i) num_histograms 0
    (st.cost, C.c1e99, st.block_id)
    ⟨p2, p4, fun _ _ => rfl, fun _ _ => rfl,
      Or.inl ⟨rfl, rfl, fun j c e hj => absurd hj (Nat.not_lt_zero _)⟩⟩
    (fun k s _ hk hQ => add_step C st.insert_cost st.cost num_histograms lc lb i
      (data i * num_histograms) st.block_id hnh hlc (by omega) hix k s (by omega) hQ)
  rw [Nat.zero_add] at ha
  obtain ⟨a1, a2, a3, _, a5⟩ := ha
  have hrec : ∃ b, a.2.2[i]? = some b ∧ b < num_histograms := by
    rcases a5 with ⟨_, h2, h3⟩ | h
    · rcases hok with ⟨k, c, e, hk, hc, he, hlt⟩ | hentry
      · exact absurd hlt (h3 k c e hk hc he)
      · rw [h2, p6 i (Nat.le_refl _)]
        exact hentry
    · exact h
  obtain ⟨b, eb, hb⟩ := forLoop_inv
    (findBlocksCapStep C a.2.1
      (if i < 2000 then
        C.mul block_switch_bitcost (C.add C.c0_77 (C.div (C.mul C.c0_07 (C.ofNat i)) C.c2000))
      else block_switch_bitcost)
      (i * ((num_histograms + 7) >>> 3)) ((num_histograms + 7) >>> 3))
    (fun _ s => CapSized lc (length * ((num_histograms + 7) >>> 3)) s) num_histograms 0
    (a.1, st.switch_signal) ⟨a1, p3⟩
    (fun k s _ hk hQ => cap_step C _ _ num_histograms lc length i hlc hi k s (by omega) hQ)
  obtain ⟨b1, b2⟩ := hb
  unfold findBlocksForwardStep
  simp only
  rw [ea, Option.some_bind, eb, Option.some_bind]
  refine ⟨_, rfl, p1, b1, b2, a2, ?_, ?_⟩
  · intro j hj
    rcases Nat.lt_succ_iff_lt_or_eq.mp hj with hlt | heq
    · show ∃ b, a.2.2[j]? = some b ∧ b < num_histograms
      rw [a3 j (by omega)]
      exact p5 j hlt
    · rw [heq]
      exact hrec
  · intro j hj
    show a.2.2[j]? = bl0[j]?
    rw [a3 j (by omega)]
    exact p6 j (by omega)

theorem FindBlocksDistance_total {κ : Type} (C : SplitCollab κ)
    (data : Nat → Nat) (length : Nat) (block_switch_bitcost : κ) (num_histograms : Nat)
    (histograms : List (HistogramDistance κ)) (st : FindBlocksState κ)
    (hok : IdsAssignable C data length block_switch_bitcost num_histograms histograms st)
    (h1 : 1 ≤ length) (h64 : length < 2 ^ 64) (hnh : num_histograms ≤ 256)
    (hsz : FindBlocksSized C data length num_histograms histograms st) :
    ∃ n st1, FindBlocksDistance C data length block_switch_bitcost num_histograms histograms
        st = some (n, st1) ∧
      (1 ≤ num_histograms →
        ∀ j, j < length → ∃ b, st1.block_id[j]? = some b ∧ b < num_histograms) ∧
      st1.insert_cost.length = st.insert_cost.length ∧ st1.cost.length = st.cost.length ∧
      st1.switch_signal.length = st.switch_signal.length ∧
      st1.block_id.length = st.block_id.length := by
  obtain ⟨s1, s2, s3, s4, s5, s6⟩ := hsz
  unfold FindBlocksDistance
  simp only [assert, hnh, decide_True, if_true, Option.some_bind]
  by_cases hle : num_histograms ≤ 1
  · rw [if_pos hle]
    obtain ⟨bid, e, hl, hz, _⟩ := fill_spec 0 st.block_id length s4
    rw [e, Option.some_bind]
    exact ⟨_, _, rfl, fun hn j hj => ⟨0, hz j hj, by omega⟩, rfl, rfl, rfl, hl⟩
  · rw [if_neg hle]
    have hd1 : 1 ≤ C.HistogramDataSizeDistance := by
      have := s6 0 (by omega)
      omega
    have hnd : num_histograms ≤ C.HistogramDataSizeDistance * num_histograms :=
      Nat.le_mul_of_pos_left _ hd1
    obtain ⟨ic1, e1, l1, _, _⟩ := fill_spec C.zero st.insert_cost
      (C.HistogramDataSizeDistance * num_histograms) s1
    obtain ⟨ic2, e2, l2⟩ := forLoop_inv (fun i (ic : List κ) => (histograms[i]?).bind fun h =>
        setAt ic i (C.FastLog2 (u32 h.total_count_)))
      (fun _ ic => ic.length = st.insert_cost.length) num_histograms 0 ic1 l1
      (by
        intro i ic _ hi hP
        dsimp only at hP ⊢
        rw [List.getElem?_eq_getElem (by omega), Option.some_bind,
          setAt_eq_some _ _ _ (by omega)]
        exact ⟨_, rfl, by rw [List.length_set]; exact hP⟩)
    obtain ⟨ic3, e3, l3⟩ := forLoop_inv
      (fun t (ic : List κ) => insertCostRow C num_histograms histograms
        (C.HistogramDataSizeDistance - 1 - t) ic)
      (fun _ ic => ic.length = st.insert_cost.length) C.HistogramDataSizeDistance 0 ic2 l2
      (by
        intro t ic _ ht hP
        dsimp only at hP ⊢
        obtain ⟨ic4, e4, l4⟩ := insertCostRow_len C num_histograms histograms
          (C.HistogramDataSizeDistance - 1 - t) C.HistogramDataSizeDistance ic (by omega)
          (by omega) s5
        exact ⟨ic4, e4, by rw [l4]; exact hP⟩)
    obtain ⟨cost0, e4, l4, _, _⟩ := fill_spec C.zero st.cost num_histograms s2
    obtain ⟨sw0, e5, l5, _, _⟩ := fill_spec 0 st.switch_signal
      (length * ((num_histograms + 7) >>> 3)) (by omega)
    have hfw : ∀ n s, forLoop (findBlocksForwardStep C data block_switch_bitcost
        num_histograms ((num_histograms + 7) >>> 3)) 0 n
        { insert_cost := ic3, cost := cost0, switch_signal := sw0,
          block_id := st.block_id } = some s →
        forwardPassDistance C data length block_switch_bitcost num_histograms histograms st
          n = some s := by
      intro n s h
      unfold forwardPassDistance
      simp only
      rw [e1, Option.some_bind, e2, Option.some_bind, e3, Option.some_bind, e4,
        Option.some_bind, e5, Option.some_bind, h]
    obtain ⟨f, e6, hF, _⟩ := forLoop_inv
      (findBlocksForwardStep C data block_switch_bitcost num_histograms
        ((num_histograms + 7) >>> 3))
      (fun j s => ForwardAssigned num_histograms st.insert_cost.length st.cost.length
        (length * ((num_histograms + 7) >>> 3)) st.block_id.length st.block_id j s ∧
        forLoop (findBlocksForwardStep C data block_switch_bitcost num_histograms
          ((num_histograms + 7) >>> 3)) 0 j
          { insert_cost := ic3, cost := cost0, switch_signal := sw0,
            block_id := st.block_id } = some s) length 0
      { insert_cost := ic3, cost := cost0, switch_signal := sw0, block_id := st.block_id }
      ⟨⟨l3, l4, by rw [l5, s3], rfl, fun j hj => absurd hj (Nat.not_lt_zero _),
        fun _ _ => rfl⟩, rfl⟩
      (by
        intro i s _ hi hP
        obtain ⟨hA, hrun⟩ := hP
        have hi2 : i < length := by omega
        have hpos : (∃ k c e, k < num_histograms ∧ s.cost[k]? = some c ∧
            s.insert_cost[data i * num_histograms + k]? = some e ∧
            C.lt (C.add c e) C.c1e99 = true) ∨
            ∃ b, st.block_id[i]? = some b ∧ b < num_histograms := by
          rcases hok with hC | hentry
          · exact Or.inl (hC i s hi2 (hfw i s hrun))
          · exact Or.inr (hentry i hi2)
        obtain ⟨s', k1, k2⟩ := forward_step C data block_switch_bitcost num_histograms
          st.insert_cost.length st.cost.length st.block_id.length length st.block_id hnh
          s1 s2 s4 s6 i s hi2 hpos hA
        refine ⟨s', k1, k2, ?_⟩
        rw [forLoop_snoc, hrun, Option.some_bind, Nat.zero_add]
        exact k1)
    rw [Nat.zero_add] at hF
    obtain ⟨f1, f2, f3, f4, f5, _⟩ := hF
    have hby : usub length 1 = length - 1 := usub_of_le _ _ h64 h1
    obtain ⟨cur_id, hcur, hcn⟩ := f5 (length - 1) (by omega)
    obtain ⟨tr, e7, t1, t2, _⟩ := forLoop_inv
      (fun t tr => findBlocksTraceStep f.switch_signal ((num_histograms + 7) >>> 3)
        (length - 1 - 1 - t) tr)
      (fun _ tr => TraceRanged num_histograms st.block_id.length length tr) (length - 1) 0
      (f.block_id, cur_id, 1) ⟨f4, f5, hcn⟩
      (fun t s _ ht hP => trace_ranged_step f.switch_signal num_histograms
        st.block_id.length length (length - 1 - 1 - t) f3 s4 (by omega) s hP)
    rw [e1, Option.some_bind, e2, Option.some_bind, e3, Option.some_bind, e4,
      Option.some_bind, e5, Option.some_bind, e6, Option.some_bind]
    simp only [hby]
    rw [hcur, Option.some_bind, e7, Option.some_bind]
    exact ⟨_, _, rfl, fun _ => t2, f1, f2, by rw [s3]; exact f3, t1⟩

theorem below_of_finite {κ : Type} [LinearOrderedField κ] (C : SplitCollab κ)
    (hC : ExactCosts C) (hbelow : ∀ n m : Nat, C.FastLog2 n - C.BitCost m < 10 ^ 99)
    (data : Nat → Nat) (num_histograms lc lb length : Nat)
    (histograms : List (HistogramDistance κ)) (ic : List κ)
    (htab : ∀ i j, i < C.HistogramDataSizeDistance → j < num_histograms →
      InsertCostAt C num_histograms histograms ic i j)
    (hdata : ∀ i, i < length → data i < C.HistogramDataSizeDistance)
    (i : Nat) (st : FindBlocksState κ) (hi : i < length)
    (hP : ForwardFinite num_histograms ic lc lb length i st) :
    ∃ k c e, k < num_histograms ∧ st.cost[k]? = some c ∧
      st.insert_cost[data i * num_histograms + k]? = some e ∧
      c + e < 10 ^ 99 ∧ C.lt (C.add c e) C.c1e99 = true := by
  obtain ⟨p1, _, _, _, ⟨k0, c0, hk0, hc0, hle⟩, _⟩ := hP
  obtain ⟨h, _, hh⟩ := htab (data i) k0 (hdata i hi) hk0
  have x99 : C.c1e99 = 10 ^ 99 := hC.2.2.2.2.2.2.2.1
  have hlt : c0 + C.sub (C.FastLog2 (u32 h.total_count_)) (C.BitCost (h.data_ (data i))) <
      10 ^ 99 := by
    rw [hC.2.1]
    have := hbelow (u32 h.total_count_) (h.data_ (data i))
    linarith
  refine ⟨k0, c0, _, hk0, hc0, by rw [p1]; exact hh, hlt, ?_⟩
  rw [hC.1, x99]
  exact (hC.2.2.2.2.1 _ _).2 hlt

theorem forwardFinite_step {κ : Type} [LinearOrderedField κ] (C : SplitCollab κ)
    (hC : ExactCosts C) (hbelow : ∀ n m : Nat, C.FastLog2 n - C.BitCost m < 10 ^ 99)
    (data : Nat → Nat) (bsb : κ)
    (num_histograms lc lb length : Nat) (histograms : List (HistogramDistance κ))
    (ic : List κ) (hnh : num_histograms ≤ 256)
    (hlic : C.HistogramDataSizeDistance * num_histograms ≤ ic.length)
    (htab : ∀ i j, i < C.HistogramDataSizeDistance → j < num_histograms →
      InsertCostAt C num_histograms histograms ic i j)
    (hlc : num_histograms ≤ lc) (hlb : length ≤ lb)
    (hdata : ∀ i, i < length → data i < C.HistogramDataSizeDistance)
    (i : Nat) (st : FindBlocksState κ) (hi : i < length)
    (hP : ForwardFinite num_histograms ic lc lb length i st) :
    ∃ st1, findBlocksForwardStep C data bsb num_histograms
        ((num_histograms + 7) >>> 3) i st = some st1 ∧
      ForwardFinite num_histograms ic lc lb length (i + 1) st1 := by
  obtain ⟨k0, c0, e0, hk0, hc0, he0, hsum, _⟩ := below_of_finite C hC hbelow data
    num_histograms lc lb length histograms ic htab hdata i st hi hP
  obtain ⟨p1, p2, p3, p4, _, p7⟩ := hP
  have x99 : C.c1e99 = 10 ^ 99 := hC.2.2.2.2.2.2.2.1
  have hix : data i * num_histograms + num_histograms ≤ st.insert_cost.length := by
    have h : (data i + 1) * num_histograms ≤ C.HistogramDataSizeDistance * num_histograms :=
      Nat.mul_le_mul_right _ (hdata i hi)
    rw [Nat.add_mul, Nat.one_mul] at h
    rw [p1]
    omega
  obtain ⟨a, ea, ha⟩ := forLoop_inv
    (findBlocksAddStep C st.insert_cost (data i * num_histograms) i)
    (AddExact lc lb st.cost st.insert_cost st.block_id (data i * num_histograms) i)
    num_histograms 0 (st.cost, C.c1e99, st.block_id)
    ⟨p2, p4, fun _ _ => rfl, fun j hj => absurd hj (Nat.not_lt_zero _), fun _ _ => rfl,
      le_of_eq x99, fun j v hj => absurd hj (Nat.not_lt_zero _), Or.inl x99⟩
    (fun k s _ hk hQ => addExact_step C hC st.insert_cost st.cost num_histograms lc lb i
      (data i * num_histograms) st.block_id hnh hlc (by omega) hix k s (by omega) hQ)
  rw [Nat.zero_add] at ha
  obtain ⟨a1, a2, _, a4, _, _, a7, a8⟩ := ha
  obtain ⟨c, e, g1, g2, g3⟩ := a4 k0 hk0
  have hmlt : a.2.1 < 10 ^ 99 := by
    have := a7 k0 _ hk0 g3
    rw [hc0] at g1
    rw [he0] at g2
    rw [← Option.some.inj g1, ← Option.some.inj g2] at this
    exact lt_of_le_of_lt this hsum
  obtain ⟨b0, hb0, _, hb2⟩ : ∃ b, b < num_histograms ∧ a.2.2[i]? = some b ∧
      a.1[b]? = some a.2.1 := by
    rcases a8 with h | h
    · exact absurd h (ne_of_lt hmlt)
    · exact h
  obtain ⟨b, eb, hb⟩ := forLoop_inv
    (findBlocksCapStep C a.2.1 (blockSwitchCostAt C bsb i)
      (i * ((num_histograms + 7) >>> 3)) ((num_histograms + 7) >>> 3))
    (CapExact lc (length * ((num_histograms + 7) >>> 3)) a.1 st.switch_signal a.2.1
      (blockSwitchCostAt C bsb i) (i * ((num_histograms + 7) >>> 3))
      ((num_histograms + 7) >>> 3))
    num_histograms 0 (a.1, st.switch_signal)
    ⟨a1, p3, fun j hj => absurd hj (Nat.not_lt_zero _), fun _ _ => rfl, fun _ _ => rfl, by
      intro j hj
      have hidx := mul_add_lt_mul i ((num_histograms + 7) >>> 3) length (j / 8) hi hj
      refine ⟨0, p7 _ (by omega) hidx, ?_⟩
      simp⟩
    (fun k s _ hk hQ => capExact_step C hC _ _ a.1 st.switch_signal num_histograms lc length i
      hlc hi k s (by omega) hQ)
  rw [Nat.zero_add] at hb
  obtain ⟨c1, c2, c3, _, c5, _⟩ := hb
  have eb2 : forLoop (findBlocksCapStep C a.2.1
      (if i < 2000 then
        C.mul bsb (C.add C.c0_77 (C.div (C.mul C.c0_07 (C.ofNat i)) C.c2000))
      else bsb)
      (i * ((num_histograms + 7) >>> 3)) ((num_histograms + 7) >>> 3)) 0 num_histograms
      (a.1, st.switch_signal) = some b := eb
  unfold findBlocksForwardStep
  simp only
  rw [ea, Option.some_bind, eb2, Option.some_bind]
  refine ⟨_, rfl, p1, c1, c2, a2, ?_, ?_⟩
  · obtain ⟨v, hv1, hv3⟩ := c3 b0 hb0
    rw [hb2] at hv1
    rw [← Option.some.inj hv1, sub_self] at hv3
    refine ⟨b0, _, hb0, hv3, ?_⟩
    split
    · assumption
    · exact le_refl _
  · intro p hp1 hp2
    show b.2[p]? = some 0
    rw [Nat.succ_mul] at hp1
    rw [c5 p (Or.inr hp1)]
    exact p7 p (by omega) hp2

theorem forwardPassDistance_finite {κ : Type} [LinearOrderedField κ] (C : SplitCollab κ)
    (hC : ExactCosts C) (hbelow : ∀ n m : Nat, C.FastLog2 n - C.BitCost m < 10 ^ 99)
    (data : Nat → Nat) (length : Nat) (bsb : κ) (num_histograms : Nat)
    (histograms : List (HistogramDistance κ)) (st : FindBlocksState κ)
    (h2 : 1 ≤ num_histograms) (hnh : num_histograms ≤ 256) (h1 : 1 ≤ length)
    (hsz : FindBlocksSized C data length num_histograms histograms st)
    (n : Nat) (hn : n ≤ length) :
    ∃ ic s, forwardPassDistance C data length bsb num_histograms histograms st n = some s ∧
      ForwardFinite num_histograms ic st.cost.length st.block_id.length length n s ∧
      ∀ i j, i < C.HistogramDataSizeDistance → j < num_histograms →
        InsertCostAt C num_histograms histograms ic i j := by
  obtain ⟨s1, s2, s3, s4, s5, s6⟩ := hsz
  have xz : C.zero = 0 := hC.2.2.2.2.2.2.1
  have hd1 : 1 ≤ C.HistogramDataSizeDistance := by
    have := s6 0 (by omega)
    omega
  obtain ⟨ic1, ic2, ic3, e1, e2, e3, l3, htab⟩ := insertCostTable_spec C num_histograms
    histograms st.insert_cost hd1 s1 s5
  obtain ⟨cost0, e4, l4, z4, _⟩ := fill_spec C.zero st.cost num_histograms s2
  obtain ⟨sw0, e5, l5, z5, _⟩ := fill_spec 0 st.switch_signal
    (length * ((num_histograms + 7) >>> 3)) (by omega)
  obtain ⟨f, e6, hF⟩ := forLoop_inv
    (findBlocksForwardStep C data bsb num_histograms ((num_histograms + 7) >>> 3))
    (fun j s => ForwardFinite num_histograms ic3 st.cost.length st.block_id.length length j s)
    n 0
    { insert_cost := ic3, cost := cost0, switch_signal := sw0, block_id := st.block_id }
    ⟨rfl, l4, by rw [l5, s3], rfl,
        ⟨0, 0, by omega, by rw [← xz]; exact z4 0 (by omega), le_refl _⟩,
        fun p _ hp => z5 p hp⟩
    (by
      intro i s _ hi hP
      exact forwardFinite_step C hC hbelow data bsb num_histograms
        st.cost.length st.block_id.length length histograms ic3 hnh (by rw [l3]; exact s1)
        htab s2 s4 s6 i s (by omega) hP)
  rw [Nat.zero_add] at hF
  refine ⟨ic3, f, ?_, hF, htab⟩
  unfold forwardPassDistance
  simp only
  rw [e1, Option.some_bind, e2, Option.some_bind, e3, Option.some_bind, e4,
    Option.some_bind, e5, Option.some_bind, e6]

/-- Exact costs whose insert costs are below `1e99` stay below `1e99` in the forward pass of
`FindBlocksDistance`, whatever the block-switch cost. -/
theorem costsBelowHuge_of_exact {κ : Type} [LinearOrderedField κ] (C : SplitCollab κ)
    (hC : ExactCosts C) (hbelow : ∀ n m : Nat, C.FastLog2 n - C.BitCost m < 10 ^ 99)
    (data : Nat → Nat) (length : Nat) (bsb : κ) (num_histograms : Nat)
    (histograms : List (HistogramDistance κ)) (st : FindBlocksState κ)
    (h2 : 1 ≤ num_histograms) (hnh : num_histograms ≤ 256)
    (hsz : FindBlocksSized C data length num_histograms histograms st) :
    CostsBelowHuge C data length bsb num_histograms histograms st := by
  intro i s hi hs
  obtain ⟨ic, s2, e, hF, htab⟩ := forwardPassDistance_finite C hC hbelow data length bsb
    num_histograms histograms st h2 hnh (by omega) hsz i (by omega)
  rw [hs] at e
  have es := Option.some.inj e
  subst es
  obtain ⟨k, c, e2, hk, hc, he, _, hlt⟩ := below_of_finite C hC hbelow data num_histograms
    st.cost.length st.block_id.length length histograms ic htab hsz.2.2.2.2.2 i s hi hF
  exact ⟨k, c, e2, hk, hc, he, hlt⟩

/-- Claim C15.  For every `length >= 1` (a `uint`) and `1 <= num_histograms <= 256`, with
costs that stay below `1e99` (at every position some entropy code has a cost that, with its
insert cost added, compares below the start value `1e99` of `min_cost`), on arrays as
`SplitByteVectorDistance` allocates them and symbols of the alphabet, `FindBlocksDistance`
returns and assigns a block id from the range `[0, num_histograms)` to each data element:
every `block_id[i]` with `i < length` that it leaves behind is below `num_histograms`,
whatever `block_id` held at entry; and every index it reads or writes in `switch_signal`,
`byte_ix * bitmaplen + (k >> 3)` for a position `byte_ix < length` and an id
`k < num_histograms`, is inside the `length * bitmaplen` bytes of the bitmap (an access outside
them would make the call fail). -/
theorem FindBlocksDistance_ids_in_range {κ : Type} (C : SplitCollab κ)
    (data : Nat → Nat) (length : Nat) (block_switch_bitcost : κ) (num_histograms : Nat)
    (histograms : List (HistogramDistance κ)) (st : FindBlocksState κ)
    (hC : CostsBelowHuge C data length block_switch_bitcost num_histograms histograms st)
    (h1 : 1 ≤ length) (h64 : length < 2 ^ 64) (hnh1 : 1 ≤ num_histograms)
    (hnh : num_histograms ≤ 256)
    (hsz : FindBlocksSized C data length num_histograms histograms st) :
    ∃ n st1, FindBlocksDistance C data length block_switch_bitcost num_histograms histograms
        st = some (n, st1) ∧
      (∀ i, i < length → ∃ b, st1.block_id[i]? = some b ∧ b < num_histograms) ∧
      st1.switch_signal.length = length * ((num_histograms + 7) >>> 3) ∧
      ∀ byte_ix k, byte_ix < length → k < num_histograms →
        byte_ix * ((num_histograms + 7) >>> 3) + (k >>> 3) <
          length * ((num_histograms + 7) >>> 3) := by
  obtain ⟨n, st1, e, hr, _, _, hsw, _⟩ := FindBlocksDistance_total C data length
    block_switch_bitcost num_histograms histograms st (Or.inl hC) h1 h64 hnh hsz
  refine ⟨n, st1, e, hr hnh1, by rw [hsw]; exact hsz.2.2.1, ?_⟩
  intro byte_ix k hb hk
  exact mul_add_lt_mul byte_ix _ length _ hb (shift_three_lt k num_histograms hk)

/-- Claim C15 with exact rational costs on two symbols and two histograms, with the ids `9, 9`
at entry. -/
theorem FindBlocksDistance_ids_in_range_witness :
    ∃ n st1, FindBlocksDistance exactSplitCollab (fun _ => 1) 2 5 2
        [HistogramClearDistance 0, HistogramClearDistance 0]
        { insert_cost := List.replicate 8 0, cost := [0, 0], switch_signal := [0, 0],
          block_id := [9, 9] } = some (n, st1) ∧
      (∀ i, i < 2 → ∃ b, st1.block_id[i]? = some b ∧ b < 2) ∧
      st1.switch_signal.length = 2 * ((2 + 7) >>> 3) ∧
      ∀ byte_ix k, byte_ix < 2 → k < 2 →
        byte_ix * ((2 + 7) >>> 3) + (k >>> 3) < 2 * ((2 + 7) >>> 3) :=
  FindBlocksDistance_ids_in_range exactSplitCollab (fun _ => 1) 2 5 2
    [HistogramClearDistance 0, HistogramClearDistance 0]
    { insert_cost := List.replicate 8 0, cost := [0, 0], switch_signal := [0, 0],
      block_id := [9, 9] }
    (costsBelowHuge_of_exact exactSplitCollab exactSplitCollab_exact exactSplitCollab_below
      (fun _ => 1) 2 5 2 [HistogramClearDistance 0, HistogramClearDistance 0] _ (by decide)
      (by decide)
      ⟨by decide, by decide, by decide, by decide, by decide,
        fun _ _ => (by decide : (1 : Nat) < 4)⟩)
    (by decide) (by decide) (by decide) (by decide)
    ⟨by decide, by decide, by decide, by decide, by decide,
      fun _ _ => (by decide : (1 : Nat) < 4)⟩

theorem batchFill_facts {κ : Type} (C : ClusterCollab κ) (data : Nat → Nat)
    (bl : List Nat) (i n : Nat) (s s1 : ClusterState κ)
    (h : forLoop (batchFillStep C data bl i) 0 n s = some s1) :
    s1.histogram_symbols = s.histogram_symbols ∧ s1.remap = s.remap ∧
    ∀ j, j < n → s1.new_clusters[j]? = some (u32 j) ∧ s1.symbols[j]? = some (u32 j) := by
  have := forLoop_some_inv (batchFillStep C data bl i)
    (fun k (t : ClusterState κ) => t.histogram_symbols = s.histogram_symbols ∧
      t.remap = s.remap ∧
      ∀ j, j < k → t.new_clusters[j]? = some (u32 j) ∧ t.symbols[j]? = some (u32 j))
    n 0 s s1 h ⟨rfl, rfl, fun j hj => absurd hj (Nat.not_lt_zero _)⟩
    (by
      intro k t t1 _ _ hP hb
      obtain ⟨q1, q2, q3⟩ := hP
      unfold batchFillStep at hb
      simp only [Option.bind_eq_some, Option.some.injEq] at hb
      obtain ⟨len, _, hg, _, ncl, hncl, sy, hsy, sz, _, ht1⟩ := hb
      obtain ⟨a1, a2⟩ := setAt_some_iff _ _ _ _ hncl
      obtain ⟨b1, b2⟩ := setAt_some_iff _ _ _ _ hsy
      subst ht1
      refine ⟨q1, q2, ?_⟩
      intro j hj
      simp only
      rw [a2, b2]
      by_cases e : j = k
      · subst e
        exact ⟨List.getElem?_set_self a1, List.getElem?_set_self b1⟩
      · rw [List.getElem?_set_ne (fun x => e x.symm), List.getElem?_set_ne (fun x => e x.symm)]
        exact q3 j (by omega))
  rw [Nat.zero_add] at this
  exact this

theorem batchAppend_facts {κ : Type} (ret : Nat) (s2 s3 : ClusterState κ)
    (h : forLoop batchAppendStep 0 ret s2 = some s3) :
    s3.symbols = s2.symbols ∧ s3.histogram_symbols = s2.histogram_symbols ∧
    s3.num_clusters = s2.num_clusters ∧
    ∀ k c, k < ret → s2.new_clusters[k]? = some c →
      ∃ v, s3.remap[c]? = some v ∧ v < ret := by
  have := forLoop_some_inv batchAppendStep
    (fun j (t : ClusterState κ) => t.symbols = s2.symbols ∧
      t.new_clusters = s2.new_clusters ∧ t.histogram_symbols = s2.histogram_symbols ∧
      t.num_clusters = s2.num_clusters ∧
      ∀ k c, k < j → s2.new_clusters[k]? = some c → ∃ v, t.remap[c]? = some v ∧ v < ret)
    ret 0 s2 s3 h ⟨rfl, rfl, rfl, rfl, fun k c hk => absurd hk (Nat.not_lt_zero _)⟩
    (by
      intro j t t1 _ hj hP hb
      obtain ⟨q1, q2, q3, q4, q5⟩ := hP
      unfold batchAppendStep at hb
      simp only [Option.bind_eq_some, Option.some.injEq] at hb
      obtain ⟨cj, hcj, _, _, _, _, _, _, _, _, rm, hrm, ht1⟩ := hb
      obtain ⟨a1, a2⟩ := setAt_some_iff _ _ _ _ hrm
      subst ht1
      refine ⟨q1, q2, q3, q4, ?_⟩
      intro k c hk hkc
      simp only
      rw [a2]
      by_cases e : c = cj
      · subst e
        refine ⟨u32 j, List.getElem?_set_self a1, ?_⟩
        have : u32 j ≤ j := Nat.mod_le _ _
        omega
      · rw [List.getElem?_set_ne (fun x => e x.symm)]
        by_cases ek : k = j
        · exfalso
          subst ek
          rw [q2] at hcj
          rw [hcj] at hkc
          exact e (Option.some.inj hkc).symm
        · exact q5 k c (by omega) hkc)
  rw [Nat.zero_add] at this
  obtain ⟨q1, _, q3, q4, q5⟩ := this
  exact ⟨q1, q3, q4, q5⟩

theorem batchSymbol_facts {κ : Type} (i n : Nat) (s3 s4 : ClusterState κ)
    (h : forLoop (batchSymbolStep i) 0 n s3 = some s4) :
    (∀ p, p < i ∨ i + n ≤ p → s4.histogram_symbols[p]? = s3.histogram_symbols[p]?) ∧
    ∀ j, j < n → ∃ sy r, s3.symbols[j]? = some sy ∧ s3.remap[sy]? = some r ∧
      s4.histogram_symbols[i + j]? = some (u32 (u32 s3.num_clusters + r)) := by
  have := forLoop_some_inv (batchSymbolStep i)
    (fun k (t : ClusterState κ) => t.symbols = s3.symbols ∧ t.remap = s3.remap ∧
      t.num_clusters = s3.num_clusters ∧
      (∀ p, p < i ∨ i + k ≤ p → t.histogram_symbols[p]? = s3.histogram_symbols[p]?) ∧
      ∀ j, j < k → ∃ sy r, s3.symbols[j]? = some sy ∧ s3.remap[sy]? = some r ∧
        t.histogram_symbols[i + j]? = some (u32 (u32 s3.num_clusters + r)))
    n 0 s3 s4 h ⟨rfl, rfl, rfl, fun _ _ => rfl, fun j hj => absurd hj (Nat.not_lt_zero _)⟩
    (by
      intro k t t1 _ _ hP hb
      obtain ⟨q1, q2, q3, q4, q5⟩ := hP
      unfold batchSymbolStep at hb
      simp only [Option.bind_eq_some, Option.some.injEq] at hb
      obtain ⟨sy, hsy, r, hr, hs, hhs, ht1⟩ := hb
      obtain ⟨a1, a2⟩ := setAt_some_iff _ _ _ _ hhs
      subst ht1
      refine ⟨q1, q2, q3, ?_, ?_⟩
      · intro p hp
        simp only
        rw [a2, List.getElem?_set_ne (by omega)]
        exact q4 p (by omega)
      · intro j hj
        simp only
        rw [a2]
        by_cases e : j = k
        · subst e
          rw [q1] at hsy
          rw [q2] at hr
          exact ⟨sy, r, hsy, hr, by rw [List.getElem?_set_self a1, q3]⟩
        · obtain ⟨sy2, r2, g1, g2, g3⟩ := q5 j (by omega)
          exact ⟨sy2, r2, g1, g2, by rw [List.getElem?_set_ne (by omega)]; exact g3⟩)
  rw [Nat.zero_add] at this
  obtain ⟨_, _, _, q4, q5⟩ := this
  exact ⟨q4, q5⟩

theorem u32_id_lt (j n : Nat) (h : j < n) : u32 j < n :=
  Nat.lt_of_le_of_lt (Nat.mod_le _ _) h

theorem batchStep_inv {κ : Type} (C : ClusterCollab κ) (hC : CombineInRange C)
    (data : Nat → Nat) (bl : List Nat) (nb mp : Nat) (hbl : bl.length = nb)
    (b : Nat) (s : ClusterState κ) (hb : 64 * b < nb) (hs : BatchInv nb s)
    (hsym : ∀ j c, j < 64 * b → s.histogram_symbols[j]? = some c →
      c < s.num_clusters ∧ c < 2 ^ 32) :
    ∃ s', batchStep C data bl nb mp b s = some s' ∧ BatchInv nb s' ∧
      s.num_clusters + 1 ≤ s'.num_clusters ∧
      ∀ j c, j < 64 * (b + 1) → j < nb → s'.histogram_symbols[j]? = some c →
        c < s'.num_clusters ∧ c < 2 ^ 32 := by
  have hn64 : min (nb - 64 * b) 64 ≤ 64 := Nat.min_le_right _ _
  have hn1 : 1 ≤ min (nb - 64 * b) 64 := by omega
  have hin : 64 * b + min (nb - 64 * b) 64 ≤ nb := by omega
  obtain ⟨s1, hs1, hI1, hnc1⟩ := forLoop_inv (batchFillStep C data bl (64 * b))
    (fun _ t => BatchInv nb t ∧ t.num_clusters = s.num_clusters) (min (nb - 64 * b) 64) 0 s
    ⟨hs, rfl⟩
    (fun j t _ hj ht => by
      obtain ⟨t', h1, h2, h3⟩ := batchFillStep_inv C data bl nb (64 * b) _ hbl hn64 hin j t
        (by omega) ht.1
      exact ⟨t', h1, h2, h3.trans ht.2⟩)
  obtain ⟨f1, f2, f3⟩ := batchFill_facts C data bl (64 * b) _ s s1 hs1
  obtain ⟨g1, g2, g3, g4, g5, g6, g7, g8, g9, g10⟩ := hI1
  obtain ⟨c1, c2, c3, c4, c5, c6, c7, c8⟩ := hC s1.histograms s1.sizes s1.symbols
    s1.new_clusters (min (nb - 64 * b) 64) (min (nb - 64 * b) 64) HISTOGRAMS_PER_BATCH mp hn1
    (by omega) (by omega) (by omega) (by omega)
    (by
      intro j c hj hjc
      rw [(f3 j hj).1] at hjc
      rw [← Option.some.inj hjc]
      exact u32_id_lt j _ hj)
    (by
      intro j c hj hjc
      rw [(f3 j hj).2] at hjc
      rw [← Option.some.inj hjc]
      exact ⟨j, hj, (f3 j hj).1⟩)
  have hg := length_growHistograms C.zero s1.all_histograms
    (s1.all_histograms_size +
      (C.BrotliHistogramCombineDistance s1.histograms s1.sizes s1.symbols s1.new_clusters
        (min (nb - 64 * b) 64) (min (nb - 64 * b) 64) HISTOGRAMS_PER_BATCH mp).ret)
  have he := length_ensure_capacity s1.cluster_size
    (s1.cluster_size_size +
      (C.BrotliHistogramCombineDistance s1.histograms s1.sizes s1.symbols s1.new_clusters
        (min (nb - 64 * b) 64) (min (nb - 64 * b) 64) HISTOGRAMS_PER_BATCH mp).ret)
  generalize hr : C.BrotliHistogramCombineDistance s1.histograms s1.sizes s1.symbols
    s1.new_clusters (min (nb - 64 * b) 64) (min (nb - 64 * b) 64) HISTOGRAMS_PER_BATCH mp = r
    at c1 c2 c3 c4 c5 c6 c7 c8 hg he
  have c8r : ∀ k c, k < min (nb - 64 * b) 64 → r.symbols[k]? = some c →
      c < min (nb - 64 * b) 64 := by
    intro k c hk hkc
    obtain ⟨k2, hk2, hk2c⟩ := c8 k c hk hkc
    exact c7 k2 c hk2 hk2c
  obtain ⟨s3, hs3, hI3⟩ := forLoop_inv batchAppendStep
    (AppendInv nb (min (nb - 64 * b) 64) r.ret s1.num_clusters) r.ret 0
    { s1 with histograms := r.out, sizes := r.cluster_size, symbols := r.symbols,
              new_clusters := r.clusters,
              all_histograms :=
                growHistograms C.zero s1.all_histograms (s1.all_histograms_size + r.ret),
              cluster_size :=
                brotli_ensure_capacity s1.cluster_size (s1.cluster_size_size + r.ret) }
    (by
      simp only [AppendInv]
      refine ⟨by omega, by omega, by omega, by omega, g5, by omega, c7, c8r, by omega,
        by omega, by omega, by omega, trivial, g10⟩)
    (fun j t _ hj ht => batchAppendStep_inv nb _ r.ret _ hn64 c6 j t (by omega) ht)
  simp only [Nat.zero_add] at hs1 hs3 hI3
  obtain ⟨m1, m2, m3, m4⟩ := batchAppend_facts r.ret _ s3 hs3
  have m1 : s3.symbols = r.symbols := m1
  have m2 : s3.histogram_symbols = s1.histogram_symbols := m2
  have m3 : s3.num_clusters = s1.num_clusters := m3
  have m4 : ∀ k c, k < r.ret → r.clusters[k]? = some c →
      ∃ v, s3.remap[c]? = some v ∧ v < r.ret := m4
  obtain ⟨s4, hs4, hI4⟩ := forLoop_inv (batchSymbolStep (64 * b))
    (fun _ t => AppendInv nb (min (nb - 64 * b) 64) r.ret s1.num_clusters r.ret t)
    (min (nb - 64 * b) 64) 0 s3 hI3
    (fun j t _ hj ht => batchSymbolStep_inv nb _ r.ret _ (64 * b) hn64 hin j t (by omega) ht)
  obtain ⟨y1, y2⟩ := batchSymbol_facts (64 * b) _ s3 s4 hs4
  obtain ⟨k1, k2, k3, k4, k5, k5b, k6, k6b, k7, k8, k9, k10, k11, k12⟩ := hI4
  refine ⟨{ s4 with num_clusters := s4.num_clusters + r.ret }, ?_, ?_, ?_, ?_⟩
  · simp only [batchStep, HISTOGRAMS_PER_BATCH] at hr ⊢
    simp only [hs1, Option.some_bind, hr, hs3, hs4, assert]
    simp [k7, k8, k11]
  · simp only [BatchInv]
    exact ⟨k5b, k2, k3, k4, k5, by omega, by omega, by omega, by omega, k12⟩
  · simp only [k11]; omega
  · intro j c hj hjn hjc
    simp only at hjc ⊢
    by_cases hold : j < 64 * b
    · rw [y1 j (Or.inl hold), m2, f1] at hjc
      obtain ⟨o1, o2⟩ := hsym j c hold hjc
      rw [k11]
      exact ⟨by omega, o2⟩
    · have hjj : j - 64 * b < min (nb - 64 * b) 64 := by omega
      obtain ⟨sy, rr, w1, w2, w3⟩ := y2 (j - 64 * b) hjj
      rw [show 64 * b + (j - 64 * b) = j by omega, hjc] at w3
      rw [m1] at w1
      obtain ⟨k2', hk2, hk2c⟩ := c8 (j - 64 * b) sy hjj w1
      obtain ⟨v, hv1, hv2⟩ := m4 k2' sy hk2 hk2c
      rw [w2] at hv1
      have hrv : rr = v := Option.some.inj hv1
      have hc : c = u32 (u32 s3.num_clusters + rr) := Option.some.inj w3
      have h32 : u32 (u32 s3.num_clusters + rr) < 2 ^ 32 := Nat.mod_lt _ (by norm_num)
      have hle : u32 (u32 s3.num_clusters + rr) ≤ s3.num_clusters + rr :=
        Nat.le_trans (Nat.mod_le _ _) (Nat.add_le_add_right (Nat.mod_le _ _) _)
      rw [k11, hc]
      exact ⟨by omega, h32⟩

theorem batchLoop_spec {κ : Type} (C : ClusterCollab κ) (hC : CombineInRange C)
    (data : Nat → Nat) (bl : List Nat) (nb mp : Nat) (hbl : bl.length = nb)
    (s0 : ClusterState κ) (hs0 : BatchInv nb s0) :
    ∃ s, forLoop (batchStep C data bl nb mp) 0
        ((nb + HISTOGRAMS_PER_BATCH - 1) / HISTOGRAMS_PER_BATCH) s0 = some s ∧
      BatchInv nb s ∧ (1 ≤ nb → 1 ≤ s.num_clusters) ∧
      ∀ j c, j < nb → s.histogram_symbols[j]? = some c → c < s.num_clusters ∧ c < 2 ^ 32 := by
  obtain ⟨s, h1, h2, h3, h4⟩ := forLoop_inv (batchStep C data bl nb mp)
    (fun b t => BatchInv nb t ∧ b ≤ t.num_clusters ∧
      ∀ j c, j < 64 * b → j < nb → t.histogram_symbols[j]? = some c →
        c < t.num_clusters ∧ c < 2 ^ 32)
    ((nb + HISTOGRAMS_PER_BATCH - 1) / HISTOGRAMS_PER_BATCH) 0 s0
    ⟨hs0, Nat.zero_le _, fun j c hj => by omega⟩
    (by
      intro b t _ hb ht
      simp only [HISTOGRAMS_PER_BATCH] at hb
      obtain ⟨t', k1, k2, k3, k4⟩ := batchStep_inv C hC data bl nb mp hbl b t (by omega) ht.1
        (fun j c hj hjc => ht.2.2 j c hj (by omega) hjc)
      exact ⟨t', k1, k2, by have := ht.2.1; omega, k4⟩)
  refine ⟨s, h1, h2, ?_, ?_⟩
  · intro hnb
    simp only [HISTOGRAMS_PER_BATCH] at h3
    omega
  · intro j c hj hjc
    simp only [HISTOGRAMS_PER_BATCH] at h4
    exact h4 j c (by omega) hj hjc

/-- What `ClusterBlocksDistance` leaves behind when the combine collaborator answers in range
on the in-range arrays it is handed: the call returns, and the lengths of the blocks it writes
are positive and add up to `length`. -/
theorem ClusterBlocksDistance_spec {κ : Type} (C : ClusterCollab κ) (hC : CombineInRange C)
    (data : Nat → Nat) (length nb : Nat) (ids : Nat → Nat) (split : BlockSplit)
    (h1 : 1 ≤ length) (hruns : numRuns ids length = nb) :
    ∃ s, ClusterBlocksDistance C data length nb ids split = some s ∧
      1 ≤ s.num_blocks ∧ s.num_blocks ≤ nb ∧ s.num_blocks ≤ s.types.length ∧
      s.num_blocks ≤ s.lengths.length ∧
      (length < 2 ^ 32 → (∀ b, b < s.num_blocks → ∃ v, s.lengths[b]? = some v ∧ 0 < v) ∧
        (s.lengths.take s.num_blocks).sum = length) := by
  have hnb1 : 1 ≤ nb := by
    rw [← hruns]; unfold numRuns; rw [if_neg (by omega)]; omega
  obtain ⟨bl, hbl, hbllen, hblL⟩ := countBlockLengths_spec ids length nb h1 hruns
  -- the batches
  obtain ⟨s, hs, hsI, hsnc, hsym⟩ := batchLoop_spec C hC data bl nb
    (HISTOGRAMS_PER_BATCH * HISTOGRAMS_PER_BATCH / 2) hbllen
    { histograms := List.replicate (min nb HISTOGRAMS_PER_BATCH)
        { data_ := fun _ => 0, total_count_ := 0, bit_cost_ := C.zero },
      sizes := List.replicate HISTOGRAMS_PER_BATCH 0,
      new_clusters := List.replicate HISTOGRAMS_PER_BATCH 0,
      symbols := List.replicate HISTOGRAMS_PER_BATCH 0,
      remap := List.replicate HISTOGRAMS_PER_BATCH 0,
      all_histograms := List.replicate
        (CLUSTERS_PER_BATCH * (nb + HISTOGRAMS_PER_BATCH - 1) / HISTOGRAMS_PER_BATCH)
        { data_ := fun _ => 0, total_count_ := 0, bit_cost_ := C.zero },
      all_histograms_size := 0,
      cluster_size := List.replicate
        (CLUSTERS_PER_BATCH * (nb + HISTOGRAMS_PER_BATCH - 1) / HISTOGRAMS_PER_BATCH) 0,
      cluster_size_size := 0,
      histogram_symbols := List.replicate nb 0,
      num_clusters := 0,
      pos := 0 }
    (by simp [BatchInv, HISTOGRAMS_PER_BATCH])
  have hnc := hsnc hnb1
  obtain ⟨b1, b2, b3, b4, b5, b6, b7, b8, b9, b10⟩ := hsI
  -- the second combine is handed clusters and symbols in range
  have hrange : ∀ j, j < s.num_clusters →
      ((List.range s.num_clusters).map u32)[j]? = some (u32 j) := by
    intro j hj
    rw [List.getElem?_map, List.getElem?_range hj]
    rfl
  obtain ⟨c1, c2, c3, c4, c5, c6, c7, c8⟩ := hC s.all_histograms s.cluster_size
    s.histogram_symbols ((List.range s.num_clusters).map u32) s.num_clusters nb
    BROTLI_MAX_NUMBER_OF_BLOCK_TYPES
    (min (64 * s.num_clusters) ((s.num_clusters / 2) * s.num_clusters)) hnc b8 b9
    (by omega) (by simp)
    (by
      intro j c hj hjc
      rw [hrange j hj] at hjc
      rw [← Option.some.inj hjc]
      exact u32_id_lt j _ hj)
    (by
      intro j c hj hjc
      obtain ⟨o1, o2⟩ := hsym j c hj hjc
      refine ⟨c, o1, ?_⟩
      rw [hrange c o1, u32_of_lt c o2])
  generalize hr : C.BrotliHistogramCombineDistance s.all_histograms s.cluster_size
    s.histogram_symbols ((List.range s.num_clusters).map u32) s.num_clusters nb
    BROTLI_MAX_NUMBER_OF_BLOCK_TYPES
    (min (64 * s.num_clusters) ((s.num_clusters / 2) * s.num_clusters)) = r
    at c1 c2 c3 c4 c5 c6 c7 c8
  simp only [List.length_map, List.length_range] at c4
  have c8r : ∀ k c, k < nb → r.symbols[k]? = some c → c < s.num_clusters := by
    intro k c hk hkc
    obtain ⟨k2, hk2, hk2c⟩ := c8 k c hk hkc
    exact c7 k2 c hk2 hk2c
  -- the refinement
  obtain ⟨rs, hrs, ⟨r1, r2, r3, _⟩, _⟩ := refineLoop_spec C data bl r.out r.clusters
    r.symbols nb s.num_clusters r.ret False hbllen c4 c6 c7 (by omega)
    (by omega) c8r (fun h => h.elim)
  -- the emission
  obtain ⟨es, hes, ⟨t1, t2, t3, t4⟩, hesL, _⟩ := emitLoop_spec nb s.num_clusters bl
    rs.histogram_symbols rs.new_index (brotli_ensure_capacity split.types nb)
    (brotli_ensure_capacity split.lengths nb) (length < 2 ^ 32) False
    hbllen (Nat.le_of_eq r1.symm) r2 (fun j c hj hjc => r3 j c hj hjc)
    (length_ensure_capacity _ _) (length_ensure_capacity _ _)
    (fun h32 => ⟨(hblL h32).1, by rw [(hblL h32).2]; exact h32⟩)
    (fun h => h.elim)
  have hln1 := length_ensure_capacity split.types nb
  have hln2 := length_ensure_capacity split.lengths nb
  refine ⟨{ num_types := es.max_type + 1, num_blocks := es.block_idx,
            types := es.types, lengths := es.lengths }, ?_, t4 rfl hnb1, t3,
    by simp only; omega, by simp only; omega, ?_⟩
  · simp only [ClusterBlocksDistance, clusterBlocksAssigned, clusterBlocksCombined, hbl,
      Option.some_bind, hs, hr, hrs, hes]
  · intro h32
    obtain ⟨l1, l2, l3⟩ := hesL h32
    refine ⟨l2, ?_⟩
    have hcz := l3 rfl
    have htk : bl.take nb = bl := by rw [← hbllen]; exact List.take_length bl
    simp only
    rw [hcz, htk, (hblL h32).2] at l1
    omega

/-- Claim C14.  For every `length >= 1` (a `uint`), every `num_histograms` and every cost
table, the value `FindBlocksDistance` returns is one plus the number of block switches in the
`block_id` array it leaves behind, `1 + |{ i < length - 1 : block_id[i] != block_id[i+1] }|`;
it does return for `num_histograms <= 256` on arrays as `SplitByteVectorDistance` allocates
them when the costs stay below `1e99` or the ids at entry are below `num_histograms`.  Hence,
when `SplitByteVectorDistance` reaches `ClusterBlocksDistance`, the `num_blocks` it hands over
is the number of runs of the `block_ids` it hands over, and `ClusterBlocksDistance` returns
(its assertion `block_idx == num_blocks` holds) when the combine collaborator answers in
range on the in-range arrays it is handed. -/
theorem FindBlocksDistance_returns_switches_plus_one {κ : Type} (C : SplitCollab κ)
    (data : Nat → Nat) (length : Nat) (block_switch_bitcost : κ) (num_histograms : Nat)
    (histograms : List (HistogramDistance κ)) (st : FindBlocksState κ)
    (h1 : 1 ≤ length) (h64 : length < 2 ^ 64) :
    (∀ n st1, FindBlocksDistance C data length block_switch_bitcost num_histograms histograms
        st = some (n, st1) →
      n = 1 + numSwitches (fun i => st1.block_id.getD i 0) length) ∧
    (num_histograms ≤ 256 →
      IdsAssignable C data length block_switch_bitcost num_histograms histograms st →
      FindBlocksSized C data length num_histograms histograms st →
      ∃ n st1, FindBlocksDistance C data length block_switch_bitcost num_histograms histograms
        st = some (n, st1)) ∧
    (∀ (data_len literals_per_histogram max_histograms sampling_stride_length quality nh : Nat)
      (split : BlockSplit) (hs1 hs2 : List (HistogramDistance κ)) (s : SplitLoopState κ),
      1 ≤ literals_per_histogram → ¬ length < kMinLengthForBlockSplitting →
      nh = (if u64 (length / literals_per_histogram + 1) > max_histograms then max_histograms
        else u64 (length / literals_per_histogram + 1)) →
      InitialEntropyCodesDistance C data data_len length sampling_stride_length nh
        (List.replicate nh { data_ := fun _ => 0, total_count_ := 0, bit_cost_ := C.zero }) =
        some hs1 →
      RefineEntropyCodesDistance C data data_len length sampling_stride_length nh hs1 =
        some hs2 →
      forLoop (fun _ (s : SplitLoopState κ) =>
          (FindBlocksDistance C data length block_switch_bitcost s.num_histograms s.histograms
            s.work).bind fun fb =>
          (RemapBlockIdsDistance fb.2.block_id length s.new_id s.num_histograms).bind fun rm =>
          (BuildBlockHistogramsDistance C.huge data length rm.2.1 rm.1 s.histograms).bind
            fun hs =>
          some { num_blocks := fb.1, num_histograms := rm.1, histograms := hs,
                 work := { fb.2 with block_id := rm.2.1 }, new_id := rm.2.2 })
        0 (if quality < HQ_ZOPFLIFICATION_QUALITY then 3 else 10)
        { num_blocks := 0, num_histograms := nh, histograms := hs2,
          work := { insert_cost := List.replicate (C.HistogramDataSizeDistance * nh) C.zero,
                    cost := List.replicate nh C.zero,
                    switch_signal := List.replicate (length * ((nh + 7) >>> 3)) 0,
                    block_id := List.replicate length 0 },
          new_id := List.replicate nh 0 } = some s →
      SplitByteVectorDistance C data data_len length literals_per_histogram max_histograms
          sampling_stride_length block_switch_bitcost quality split =
        ClusterBlocksDistance C.toClusterCollab data length s.num_blocks
          (fun i => s.work.block_id.getD i 0) split ∧
      s.num_blocks = numRuns (fun i => s.work.block_id.getD i 0) length ∧
      (CombineInRange C.toClusterCollab →
        ∃ r, ClusterBlocksDistance C.toClusterCollab data length s.num_blocks
          (fun i => s.work.block_id.getD i 0) split = some r)) := by
  refine ⟨?_, ?_, ?_⟩
  · intro n st1 h
    exact FindBlocksDistance_switches C data length block_switch_bitcost num_histograms
      histograms st n st1 h1 h64 h
  · intro hnh hok hsz
    obtain ⟨n, st1, e, _⟩ := FindBlocksDistance_total C data length block_switch_bitcost
      num_histograms histograms st hok h1 h64 hnh hsz
    exact ⟨n, st1, e⟩
  · intro data_len lph mh ssl quality nh split hs1 hs2 s hl hmin hnh hi hr hloop
    have hruns := split_loop_runs C data length block_switch_bitcost _ _ s h1 h64
      (by split <;> omega) hloop
    refine ⟨?_, hruns, ?_⟩
    · unfold SplitByteVectorDistance
      have hu : udiv length lph = some (length / lph) := by
        unfold udiv
        rw [if_neg (by omega)]
      rw [hu, Option.some_bind]
      simp only
      rw [if_neg (by omega), if_neg hmin, ← hnh, hi, Option.some_bind, hr, Option.some_bind,
        hloop, Option.some_bind]
    · intro hC
      obtain ⟨r, hr, _⟩ := ClusterBlocksDistance_spec C.toClusterCollab hC data length
        s.num_blocks (fun i => s.work.block_id.getD i 0) split h1 hruns.symm
      exact ⟨r, hr⟩

/-- Claim C14 with exact rational costs on two symbols and two histograms: the call returns,
and what it returns is one plus the number of block switches. -/
theorem FindBlocksDistance_returns_switches_plus_one_witness :
    (∀ n st1, FindBlocksDistance exactSplitCollab (fun _ => 1) 2 5 2
        [HistogramClearDistance 0, HistogramClearDistance 0]
        { insert_cost := List.replicate 8 0, cost := [0, 0], switch_signal := [0, 0],
          block_id := [9, 9] } = some (n, st1) →
      n = 1 + numSwitches (fun i => st1.block_id.getD i 0) 2) ∧
    ∃ n st1, FindBlocksDistance exactSplitCollab (fun _ => 1) 2 5 2
        [HistogramClearDistance 0, HistogramClearDistance 0]
        { insert_cost := List.replicate 8 0, cost := [0, 0], switch_signal := [0, 0],
          block_id := [9, 9] } = some (n, st1) :=
  ⟨(FindBlocksDistance_returns_switches_plus_one exactSplitCollab (fun _ => 1) 2 5 2
      [HistogramClearDistance 0, HistogramClearDistance 0]
      { insert_cost := List.replicate 8 0, cost := [0, 0], switch_signal := [0, 0],
        block_id := [9, 9] } (by decide) (by decide)).1,
   (FindBlocksDistance_returns_switches_plus_one exactSplitCollab (fun _ => 1) 2 5 2
      [HistogramClearDistance 0, HistogramClearDistance 0]
      { insert_cost := List.replicate 8 0, cost := [0, 0], switch_signal := [0, 0],
        block_id := [9, 9] } (by decide) (by decide)).2.1 (by decide)
      (Or.inl (costsBelowHuge_of_exact exactSplitCollab exactSplitCollab_exact
        exactSplitCollab_below (fun _ => 1) 2 5 2
        [HistogramClearDistance 0, HistogramClearDistance 0] _ (by decide) (by decide)
        ⟨by decide, by decide, by decide, by decide, by decide,
          fun _ _ => (by decide : (1 : Nat) < 4)⟩))
      ⟨by decide, by decide, by decide, by decide, by decide,
        fun _ _ => (by decide : (1 : Nat) < 4)⟩⟩

theorem refineStep_facts {κ : Type} (C : ClusterCollab κ) (data : Nat → Nat) (bl : List Nat)
    (allh : List (HistogramDistance κ)) (clusters : List Nat) (nfc i : Nat)
    (rs rs1 : RefineState) (h : refineStep C data bl allh clusters nfc i rs = some rs1) :
    ∃ c b0, rs.histogram_symbols[if i = 0 then 0 else i - 1]? = some b0 ∧
      (c = b0 ∨ ∃ k, k < nfc ∧ clusters[k]? = some c) ∧
      i < rs.histogram_symbols.length ∧
      rs1.histogram_symbols = rs.histogram_symbols.set i c ∧
      c < rs.new_index.length ∧
      ((rs.new_index[c]? = some ClusterBlocksDistance_kInvalidIndex ∧
          rs1.new_index = rs.new_index.set c rs.next_index ∧
          rs1.next_index = u32 (rs.next_index + 1)) ∨
        (∃ v, rs.new_index[c]? = some v ∧ v ≠ ClusterBlocksDistance_kInvalidIndex ∧
          rs1.new_index = rs.new_index ∧ rs1.next_index = rs.next_index)) := by
  unfold refineStep at h
  simp only [Option.bind_eq_some] at h
  obtain ⟨len, _, b0, hb0, h0, _, best, hbest, hs, hhs, ni, hni, hif⟩ := h
  have hcand := forLoop_some_inv _
    (fun _ (b : Nat × κ) => b.1 = b0 ∨ ∃ k, k < nfc ∧ clusters[k]? = some b.1) nfc 0 _ best
    hbest (Or.inl rfl)
    (by
      intro j b b1 _ hj hP hb
      unfold refineCandidateStep at hb
      simp only [Option.bind_eq_some, Option.some.injEq] at hb
      obtain ⟨c, hc, hcv, _, hb1⟩ := hb
      subst hb1
      split
      · exact Or.inr ⟨j, by omega, hc⟩
      · exact hP)
  obtain ⟨a1, a2⟩ := setAt_some_iff _ _ _ _ hhs
  have hcl : best.1 < rs.new_index.length := by
    by_contra hc
    rw [List.getElem?_eq_none (by omega)] at hni
    cases hni
  refine ⟨best.1, b0, hb0, hcand, a1, ?_, hcl, ?_⟩
  · split at hif
    · simp only [Option.bind_eq_some, Option.some.injEq] at hif
      obtain ⟨_, _, e⟩ := hif
      rw [← e, a2]
    · simp only [Option.some.injEq] at hif
      rw [← hif, a2]
  · split at hif
    · rename_i hinv
      simp only [Option.bind_eq_some, Option.some.injEq] at hif
      obtain ⟨ni2, hni2, e⟩ := hif
      obtain ⟨_, b2⟩ := setAt_some_iff _ _ _ _ hni2
      left
      refine ⟨by rw [hni, hinv], ?_, ?_⟩
      · rw [← e, b2]
      · rw [← e]
    · rename_i hinv
      simp only [Option.some.injEq] at hif
      right
      exact ⟨ni, hni, hinv, by rw [← hif], by rw [← hif]⟩

theorem refine_frame {κ : Type} (C : ClusterCollab κ) (data : Nat → Nat) (bl : List Nat)
    (allh : List (HistogramDistance κ)) (clusters : List Nat) (nfc : Nat) :
    ∀ (n lo : Nat) (s rs : RefineState),
      forLoop (refineStep C data bl allh clusters nfc) lo n s = some rs →
      ∀ j, j < lo → rs.histogram_symbols[j]? = s.histogram_symbols[j]? := by
  intro n lo s rs h
  have := forLoop_some_inv (refineStep C data bl allh clusters nfc)
    (fun _ (t : RefineState) => ∀ j, j < lo → t.histogram_symbols[j]? = s.histogram_symbols[j]?)
    n lo s rs h (fun _ _ => rfl)
    (by
      intro i t t1 hi _ hP hb j hj
      obtain ⟨c, b0, _, _, _, e, _⟩ := refineStep_facts C data bl allh clusters nfc i t t1 hb
      rw [e, List.getElem?_set_ne (by omega)]
      exact hP j hj)
  exact this

theorem refineLoop_numbered {κ : Type} (C : ClusterCollab κ) (data : Nat → Nat)
    (bl : List Nat) (allh : List (HistogramDistance κ)) (clusters : List Nat)
    (nfc nb nc : Nat) (hs0 : List Nat) (rs : RefineState) (cs : List Nat)
    (h : forLoop (refineStep C data bl allh clusters nfc) 0 nb
      { histogram_symbols := hs0,
        new_index := List.replicate nc ClusterBlocksDistance_kInvalidIndex,
        next_index := 0, pos := 0 } = some rs)
    (hcs : cs.length ≤ 256)
    (hcov : ∀ j c, j < nb → rs.histogram_symbols[j]? = some c → c ∈ cs) :
    rs.new_index.length = nc ∧ nb ≤ rs.histogram_symbols.length ∧
    (∀ j c, j < nb → rs.histogram_symbols[j]? = some c → c < nc) ∧
    RefineNumbered cs.length cs nb rs := by
  have hrep : ∀ (c v : Nat),
      (List.replicate nc ClusterBlocksDistance_kInvalidIndex)[c]? = some v →
      v = ClusterBlocksDistance_kInvalidIndex := by
    intro c v h
    rw [List.getElem?_replicate] at h
    split at h
    · cases h; rfl
    · cases h
  have := forLoop_some_inv (refineStep C data bl allh clusters nfc)
    (fun i (t : RefineState) =>
      forLoop (refineStep C data bl allh clusters nfc) i (nb - i) t = some rs ∧
      t.new_index.length = nc ∧ i ≤ t.histogram_symbols.length ∧
      (∀ j c, j < i → t.histogram_symbols[j]? = some c → c < nc) ∧
      RefineNumbered cs.length cs i t)
    nb 0 _ rs h
    ⟨h, by simp, Nat.zero_le _, by intro j c hj; omega,
      fun c v h hne => absurd (hrep c v h) hne, by intro j c hj; omega,
      by intro j c v w hj; omega, by intro w hw; simp at hw, Nat.zero_le _,
      fun c c2 v h _ hne => absurd (hrep c v h) hne⟩
    (by
      intro i t t1 _ hi hP hb
      obtain ⟨hQ, q2, q3, q4, q5⟩ := hP
      have hQ1 : forLoop (refineStep C data bl allh clusters nfc) (i + 1) (nb - (i + 1)) t1 =
          some rs := by
        rw [show nb - i = (nb - (i + 1)) + 1 by omega, forLoop, hb, Option.some_bind] at hQ
        exact hQ
      obtain ⟨c, b0, _, _, f3, f4, f5, f6⟩ :=
        refineStep_facts C data bl allh clusters nfc i t t1 hb
      have hfin := refine_frame C data bl allh clusters nfc _ _ t1 rs hQ1 i (by omega)
      rw [f4, List.getElem?_set_self f3] at hfin
      have hmem := hcov i c (by omega) hfin
      obtain ⟨k, hk, hkc⟩ := List.getElem_of_mem hmem
      have hmem2 : ∃ k, k < cs.length ∧ cs[k]? = some c :=
        ⟨k, hk, by rw [List.getElem?_eq_getElem hk, hkc]⟩
      obtain ⟨hs1, ni1, N1, p1⟩ := t1
      obtain ⟨hst, nit, Nt, pt⟩ := t
      simp only at f3 f4 f5 f6 q2 q3 q4 q5 ⊢
      subst f4
      refine ⟨hQ1, ?_, by rw [List.length_set]; omega, ?_, ?_⟩
      · rcases f6 with ⟨_, e2, _⟩ | ⟨_, _, _, e2, _⟩
        · rw [e2, List.length_set]; exact q2
        · rw [e2]; exact q2
      · intro j c1 hj hjc
        rcases Nat.lt_succ_iff_lt_or_eq.mp hj with hlt | heq
        · rw [List.getElem?_set_ne (by omega)] at hjc
          exact q4 j c1 hlt hjc
        · subst heq
          rw [List.getElem?_set_self f3] at hjc
          cases hjc
          omega
      · rcases f6 with ⟨e1, e2, e3⟩ | ⟨v, e1, e2, e3, e4⟩
        · rw [e2, e3]
          exact refineNumbered_new cs.length cs hst nit Nt pt p1 i c f3 f5 e1 hmem2 hcs q5
        · rw [e3, e4]
          exact refineNumbered_old cs.length cs hst nit Nt pt p1 i c v f3 e1 e2 q5)
  rw [Nat.zero_add] at this
  obtain ⟨_, q2, q3, q4, q5⟩ := this
  exact ⟨q2, q3, q4, q5⟩

theorem refineLoop_covered {κ : Type} (C : ClusterCollab κ) (data : Nat → Nat)
    (bl : List Nat) (allh : List (HistogramDistance κ)) (clusters : List Nat)
    (nfc nb : Nat) (s0 rs : RefineState)
    (h : forLoop (refineStep C data bl allh clusters nfc) 0 nb s0 = some rs)
    (h0 : ∀ c, s0.histogram_symbols[0]? = some c → ∃ k, k < nfc ∧ clusters[k]? = some c) :
    ∀ j c, j < nb → rs.histogram_symbols[j]? = some c →
      ∃ k, k < nfc ∧ clusters[k]? = some c := by
  have := forLoop_some_inv (refineStep C data bl allh clusters nfc)
    (fun i (t : RefineState) =>
      (∀ j c, j < i → t.histogram_symbols[j]? = some c →
        ∃ k, k < nfc ∧ clusters[k]? = some c) ∧
      (∀ j, i ≤ j → t.histogram_symbols[j]? = s0.histogram_symbols[j]?))
    nb 0 s0 rs h ⟨by intro j c hj; omega, fun _ _ => rfl⟩
    (by
      intro i t t1 _ _ hP hb
      obtain ⟨q1, q2⟩ := hP
      obtain ⟨c, b0, f1, f2, f3, f4, _⟩ :=
        refineStep_facts C data bl allh clusters nfc i t t1 hb
      have hc : ∃ k, k < nfc ∧ clusters[k]? = some c := by
        rcases f2 with e | e
        · subst e
          by_cases hz : i = 0
          · subst hz
            simp only [if_true] at f1
            rw [q2 0 (Nat.le_refl _)] at f1
            exact h0 c f1
          · rw [if_neg hz] at f1
            exact q1 (i - 1) c (by omega) f1
        · exact e
      refine ⟨?_, ?_⟩
      · intro j c1 hj hjc
        rw [f4] at hjc
        rcases Nat.lt_succ_iff_lt_or_eq.mp hj with hlt | heq
        · rw [List.getElem?_set_ne (by omega)] at hjc
          exact q1 j c1 hlt hjc
        · subst heq
          rw [List.getElem?_set_self f3] at hjc
          cases hjc
          exact hc
      · intro j hj
        rw [f4, List.getElem?_set_ne (by omega)]
        exact q2 j (by omega))
  rw [Nat.zero_add] at this
  exact this.1

theorem cluster_run_parts {κ : Type} (C : ClusterCollab κ) (data : Nat → Nat)
    (length nb : Nat) (ids : Nat → Nat) (split : BlockSplit) (s : BlockSplit)
    (hrun : ClusterBlocksDistance C data length nb ids split = some s) :
    ∃ bl nc r rs es, countBlockLengths ids length nb = some bl ∧
      clusterBlocksCombined C data length nb ids = some (bl, nc, r) ∧
      forLoop (refineStep C data bl r.out r.clusters r.ret) 0 nb
        { histogram_symbols := r.symbols,
          new_index := List.replicate nc ClusterBlocksDistance_kInvalidIndex,
          next_index := 0, pos := 0 } = some rs ∧
      clusterBlocksAssigned C data length nb ids = some (bl, rs) ∧
      forLoop (emitStep nb bl rs.histogram_symbols rs.new_index) 0 nb
        { types := brotli_ensure_capacity split.types nb,
          lengths := brotli_ensure_capacity split.lengths nb,
          cur_length := 0, block_idx := 0, max_type := 0 } = some es ∧
      s = { num_types := es.max_type + 1, num_blocks := es.block_idx,
            types := es.types, lengths := es.lengths } := by
  unfold ClusterBlocksDistance at hrun
  simp only [Option.bind_eq_some, Option.some.injEq] at hrun
  obtain ⟨⟨bl, rs⟩, hA, es, hes, hs⟩ := hrun
  have hA2 := hA
  unfold clusterBlocksAssigned at hA2
  simp only [Option.bind_eq_some, Option.some.injEq, Prod.mk.injEq] at hA2
  obtain ⟨⟨bl2, nc, r⟩, hcomb, rs2, hrs, e1, e2⟩ := hA2
  simp only at hrs e1 e2
  subst e1 e2
  have hcomb2 := hcomb
  unfold clusterBlocksCombined at hcomb2
  simp only [Option.bind_eq_some, Option.some.injEq, Prod.mk.injEq] at hcomb2
  obtain ⟨bl3, hbl, _, _, e3, _⟩ := hcomb2
  subst e3
  exact ⟨_, nc, r, _, es, hbl, hcomb, hrs, hA, hes, hs.symm⟩

theorem getElem?_take_lt (l : List Nat) (n j : Nat) (h : j < n) :
    (l.take n)[j]? = l[j]? := by
  exact List.getElem?_take_of_lt h

theorem mem_take_of_getElem? (l : List Nat) (n j c : Nat) (h : j < n)
    (hc : l[j]? = some c) : c ∈ l.take n := by
  apply List.getElem?_mem (n := j)
  rw [getElem?_take_lt l n j h]
  exact hc

/-- What a returning `ClusterBlocksDistance` leaves in `split.types` when the final assignment
uses at most 256 clusters, those of the list `cs`. -/
theorem cluster_types_spec {κ : Type} (C : ClusterCollab κ) (data : Nat → Nat)
    (length nb : Nat) (ids : Nat → Nat) (split : BlockSplit) (s : BlockSplit)
    (h1 : 1 ≤ length) (hruns : numRuns ids length = nb)
    (hrun : ClusterBlocksDistance C data length nb ids split = some s)
    (cs : List Nat) (hcs : cs.length ≤ 256)
    (hcov : ∀ hs, finalAssignmentDistance C data length nb ids = some hs → ∀ c ∈ hs, c ∈ cs) :
    1 ≤ s.num_blocks ∧ s.num_blocks ≤ s.types.length ∧
    (∀ b t w : Nat, b < s.num_blocks → s.types[b]? = some t → w < t →
      ∃ b2, b2 < b ∧ s.types[b2]? = some w) ∧
    (∀ b t : Nat, b < s.num_blocks → s.types[b]? = some t → t + 1 ≤ s.num_types) ∧
    (∃ b, b < s.num_blocks ∧ s.types[b]? = some (s.num_types - 1)) ∧
    (∀ b, b + 1 < s.num_blocks → ∃ t t2, s.types[b]? = some t ∧
      s.types[b + 1]? = some t2 ∧ t ≠ t2) := by
  have hnb1 : 1 ≤ nb := by
    rw [← hruns]; unfold numRuns; rw [if_neg (by omega)]; omega
  obtain ⟨bl, nc, r, rs, es, hbl, _, hrs, hA, hes, hs⟩ :=
    cluster_run_parts C data length nb ids split s hrun
  obtain ⟨bl2, hbl2, hbllen, _⟩ := countBlockLengths_spec ids length nb h1 hruns
  rw [hbl] at hbl2
  have ebl := Option.some.inj hbl2
  subst ebl
  have hfa : finalAssignmentDistance C data length nb ids =
      some (rs.histogram_symbols.take nb) := by
    unfold finalAssignmentDistance
    rw [hA]
    rfl
  have hcov2 : ∀ j c, j < nb → rs.histogram_symbols[j]? = some c → c ∈ cs := by
    intro j c hj hjc
    exact hcov _ hfa c (mem_take_of_getElem? _ nb j c hj hjc)
  obtain ⟨r2, r1, r3, hN⟩ := refineLoop_numbered C data bl r.out r.clusters r.ret nb nc
    r.symbols rs cs hrs hcs hcov2
  obtain ⟨_, n2, n3, _, n5, n6⟩ := hN
  have hval : ∀ j c, j < nb → rs.histogram_symbols[j]? = some c →
      ∃ v, rs.new_index[c]? = some v ∧ v < 256 := by
    intro j c hj hjc
    obtain ⟨v, hv1, hv2⟩ := n2 j c hj hjc
    exact ⟨v, hv1, by omega⟩
  obtain ⟨es2, hes2, ⟨t1, t2, t3, t4⟩, _, hesT⟩ := emitLoop_spec nb nc bl
    rs.histogram_symbols rs.new_index (brotli_ensure_capacity split.types nb)
    (brotli_ensure_capacity split.lengths nb) False True
    hbllen r1 r2 r3
    (length_ensure_capacity _ _) (length_ensure_capacity _ _)
    (fun h => h.elim)
    (fun _ => ⟨hval, fun j c v w hj hjc hcv hw => n3 j c v w hj hjc hcv hw⟩)
  rw [hes] at hes2
  have ees := Option.some.inj hes2
  subst ees
  obtain ⟨es3, hes3, _, hadj⟩ := emitLoop_adjacent nb nc bl
    rs.histogram_symbols rs.new_index (brotli_ensure_capacity split.types nb)
    (brotli_ensure_capacity split.lengths nb)
    hbllen r1 r2 r3
    (length_ensure_capacity _ _) (length_ensure_capacity _ _) hval
    (fun c c2 v hcv hc2v hv => n6 c c2 v hcv hc2v (by
      unfold ClusterBlocksDistance_kInvalidIndex BROTLI_UINT32_MAX
      omega))
  rw [hes] at hes3
  have ees := Option.some.inj hes3
  subst ees
  have hln1 := length_ensure_capacity split.types nb
  obtain ⟨_, u2, u3, u4⟩ := hesT trivial
  subst hs
  refine ⟨t4 rfl hnb1, by simp only; omega, u2, fun b t hb hbt => ?_, ?_, hadj⟩
  · have := u3 b t hb hbt
    simp only; omega
  · rcases u4 with ⟨z1, _⟩ | h
    · have := t4 rfl hnb1
      omega
    · simpa using h

theorem ClusterBlocksDistance_empty {κ : Type} (C : ClusterCollab κ)
    (data : Nat → Nat) (block_ids : Nat → Nat) (split : BlockSplit) :
    ∃ s, ClusterBlocksDistance C data 0 0 block_ids split = some s ∧ s.num_blocks = 0 :=
  ⟨_, rfl, rfl⟩

theorem ClusterBlocksDistance_returns {κ : Type} (C : ClusterCollab κ) (hC : CombineInRange C)
    (data : Nat → Nat) (length nb : Nat) (ids : Nat → Nat) (split : BlockSplit)
    (hruns : numRuns ids length = nb) :
    ∃ s, ClusterBlocksDistance C data length nb ids split = some s := by
  by_cases h0 : length = 0
  · subst h0
    have hz : nb = 0 := by rw [← hruns]; rfl
    subst hz
    obtain ⟨s, hs, _⟩ := ClusterBlocksDistance_empty C data ids split
    exact ⟨s, hs⟩
  · obtain ⟨s, hs, _⟩ := ClusterBlocksDistance_spec C hC data length nb ids split (by omega)
      hruns
    exact ⟨s, hs⟩

theorem mergingCollab_inRange : CombineInRange mergingCollab := by
  intro out cs sy cl n m mc mp hn _ _ _ hcl _ _
  simp only [mergingCollab, List.length_map]
  refine ⟨trivial, trivial, trivial, trivial, Nat.le_refl _, hn, ?_, ?_⟩
  · intro j c _ h
    rw [List.getElem?_map] at h
    cases hcl : cl[j]? with
    | none => rw [hcl] at h; cases h
    | some x => rw [hcl] at h; simp at h; omega
  · intro j s _ h
    rw [List.getElem?_map] at h
    cases hsy : sy[j]? with
    | none => rw [hsy] at h; cases h
    | some x =>
      rw [hsy] at h; simp at h; subst h
      refine ⟨0, by omega, ?_⟩
      rw [List.getElem?_map, List.getElem?_eq_getElem (by omega)]
      rfl

theorem trivialSplitCollab_inRange : CombineInRange trivialSplitCollab.toClusterCollab := by
  intro out cs sy cl n m mc mp hn _ _ _ _ hcl hsy
  exact ⟨rfl, rfl, rfl, rfl, hn, Nat.le_refl _, hcl, hsy⟩

theorem keepingCollab_inRange : CombineInRange keepingCollab := by
  intro out cs sy cl n m mc mp hn _ _ _ hcl _ _
  simp only [keepingCollab, List.length_map, List.length_range]
  have hmin : min n 256 ≤ n := Nat.min_le_left _ _
  have hmin1 : 1 ≤ min n 256 := by
    rw [Nat.min_def]; split <;> omega
  refine ⟨trivial, trivial, trivial, trivial, hmin1, hmin, ?_, ?_⟩
  · intro j c hj h
    rw [List.getElem?_range (by omega)] at h
    have := Option.some.inj h
    omega
  · intro j s _ h
    rw [List.getElem?_map] at h
    cases hsy : sy[j]? with
    | none => rw [hsy] at h; cases h
    | some x =>
      rw [hsy] at h
      simp only [Option.map_some', Option.some.injEq] at h
      have := Nat.mod_lt x (by omega : 0 < min n 256)
      refine ⟨s, by omega, ?_⟩
      rw [List.getElem?_range (by omega)]

/-- Claim C1, amended.  For every `data`, every `length` with `1 <= length < 2^32` and every
`block_ids` whose first `length` entries form exactly `num_blocks` maximal runs of equal ids,
`ClusterBlocksDistance` leaves a split with `1 <= split.num_blocks <= num_blocks` in which
every `split.lengths[b]` (`b < split.num_blocks`) is positive and the sum of
`split.lengths[0 .. split.num_blocks)` equals `length`, whatever cluster indices the
histogram-combine and bit-cost collaborators return, as long as they are in range: on the
in-range arrays the function hands over, the combine collaborator returns cluster indices below
the number of clusters it was given and symbols that are among the clusters it returns. -/
theorem ClusterBlocksDistance_lengths_cover {κ : Type} (C : ClusterCollab κ)
    (data : Nat → Nat) (length num_blocks : Nat) (block_ids : Nat → Nat) (split : BlockSplit)
    (hC : CombineInRange C) (h1 : 1 ≤ length) (h32 : length < 2 ^ 32)
    (hruns : numRuns block_ids length = num_blocks) :
    ∃ s, ClusterBlocksDistance C data length num_blocks block_ids split = some s ∧
      1 ≤ s.num_blocks ∧ s.num_blocks ≤ num_blocks ∧
      (∀ b, b < s.num_blocks → ∃ v, s.lengths[b]? = some v ∧ 0 < v) ∧
      (s.lengths.take s.num_blocks).sum = length := by
  obtain ⟨s, h, k1, k2, _, _, k5⟩ :=
    ClusterBlocksDistance_spec C hC data length num_blocks block_ids split h1 hruns
  exact ⟨s, h, k1, k2, (k5 h32).1, (k5 h32).2⟩

/-- Claim C1 on five symbols in two runs, with a combine collaborator that leaves every
histogram a cluster of its own and hands the arrays back as they are. -/
theorem ClusterBlocksDistance_lengths_cover_witness :
    ∃ s, ClusterBlocksDistance trivialSplitCollab.toClusterCollab (fun i => i) 5 2
        (fun i => if i < 2 then 0 else 1) ⟨0, 0, [], []⟩ = some s ∧
      1 ≤ s.num_blocks ∧ s.num_blocks ≤ 2 ∧
      (∀ b, b < s.num_blocks → ∃ v, s.lengths[b]? = some v ∧ 0 < v) ∧
      (s.lengths.take s.num_blocks).sum = 5 :=
  ClusterBlocksDistance_lengths_cover trivialSplitCollab.toClusterCollab (fun i => i) 5 2
    (fun i => if i < 2 then 0 else 1) ⟨0, 0, [], []⟩ trivialSplitCollab_inRange (by decide)
    (by decide) (by decide)

/-- Claim C1 as stated fails at `length = 2^32`: for one run of `2^32` equal ids the counter
`block_lengths[0]`, a `uint32`, wraps around to `0`, and the split that is left has one block
of length `0`. -/
theorem ClusterBlocksDistance_lengths_counterexample :
    CombineInRange mergingCollab ∧ numRuns (fun _ => 0) (2 ^ 32) = 1 ∧
    ClusterBlocksDistance mergingCollab (fun _ => 0) (2 ^ 32) 1 (fun _ => 0) ⟨0, 0, [], []⟩ =
      some ⟨1, 1, [0], [0]⟩ := by
  refine ⟨mergingCollab_inRange, numRuns_const _ (by decide), ?_⟩
  unfold ClusterBlocksDistance clusterBlocksAssigned clusterBlocksCombined
  rw [countBlockLengths_const _ (by decide)]
  decide

/-- Claim C2, amended.  For `length >= 1` and `block_ids` forming exactly `num_blocks` runs:
after `ClusterBlocksDistance`, when the second call of the combine collaborator returned at
most 256 final clusters and mapped every histogram symbol to one of them, `split.num_types`
equals `max(split.types[0 .. split.num_blocks)) + 1`, every id in `[0, num_types)` occurs in
`split.types[0 .. split.num_blocks)`, `split.types[0] = 0` and every later type is at most one
more than the largest type before it.  The call returns when the combine collaborator answers
in range on the in-range arrays it is handed. -/
theorem ClusterBlocksDistance_types_compact {κ : Type} (C : ClusterCollab κ)
    (data : Nat → Nat) (length num_blocks : Nat) (block_ids : Nat → Nat) (split : BlockSplit)
    (h1 : 1 ≤ length) (hruns : numRuns block_ids length = num_blocks) :
    (CombineInRange C →
      ∃ s, ClusterBlocksDistance C data length num_blocks block_ids split = some s) ∧
    ∀ s, ClusterBlocksDistance C data length num_blocks block_ids split = some s →
      (∀ ret clusters symbols,
        finalCombineDistance C data length num_blocks block_ids =
          some (ret, clusters, symbols) →
        ret ≤ 256 ∧ ∀ j c, j < num_blocks → symbols[j]? = some c →
          ∃ k, k < ret ∧ clusters[k]? = some c) →
      (∀ b, b < s.num_blocks → ∃ t, s.types[b]? = some t ∧ t + 1 ≤ s.num_types) ∧
      (∃ b t, b < s.num_blocks ∧ s.types[b]? = some t ∧ t + 1 = s.num_types) ∧
      (∀ id, id < s.num_types → ∃ b, b < s.num_blocks ∧ s.types[b]? = some id) ∧
      s.types[0]? = some 0 ∧
      (∀ b, 0 < b → b < s.num_blocks →
        ∃ t b2 t2, s.types[b]? = some t ∧ b2 < b ∧ s.types[b2]? = some t2 ∧ t ≤ t2 + 1) := by
  refine ⟨fun hC => ClusterBlocksDistance_returns C hC data length num_blocks block_ids split
    hruns, ?_⟩
  intro s hrun hfin
  have hnb1 : 1 ≤ num_blocks := by
    rw [← hruns]; unfold numRuns; rw [if_neg (by omega)]; omega
  obtain ⟨bl, nc, r, rs, es, _, hcomb, hrs, hA, _, _⟩ :=
    cluster_run_parts C data length num_blocks block_ids split s hrun
  have hfc : finalCombineDistance C data length num_blocks block_ids =
      some (r.ret, r.clusters, r.symbols) := by
    unfold finalCombineDistance
    rw [hcomb]
    rfl
  obtain ⟨h256, hsym⟩ := hfin _ _ _ hfc
  have hcovered := refineLoop_covered C data bl r.out r.clusters r.ret num_blocks _ rs hrs
    (fun c hc => hsym 0 c (by omega) hc)
  have hfa : finalAssignmentDistance C data length num_blocks block_ids =
      some (rs.histogram_symbols.take num_blocks) := by
    unfold finalAssignmentDistance
    rw [hA]
    rfl
  obtain ⟨k1, k3, fa, hmax, ⟨b0, hb0, hb0t⟩, _⟩ := cluster_types_spec C data length num_blocks
    block_ids split s h1 hruns hrun (r.clusters.take r.ret)
    (by rw [List.length_take]; omega)
    (by
      intro hs hhs c hc
      rw [hfa] at hhs
      have e := Option.some.inj hhs
      subst e
      obtain ⟨j, hj, hjc⟩ := List.getElem_of_mem hc
      have hj2 : j < num_blocks := by
        rw [List.length_take] at hj
        omega
      have hget : rs.histogram_symbols[j]? = some c := by
        rw [← getElem?_take_lt _ num_blocks j hj2, List.getElem?_eq_getElem hj, hjc]
      obtain ⟨k, hk, hkc⟩ := hcovered j c hj2 hget
      exact mem_take_of_getElem? _ _ k c hk hkc)
  have hdef : ∀ b, b < s.num_blocks → ∃ t, s.types[b]? = some t := by
    intro b hb
    exact ⟨_, List.getElem?_eq_getElem (by omega)⟩
  have h0 : s.types[0]? = some 0 := by
    obtain ⟨t, hd⟩ := hdef 0 (by omega)
    by_cases hz : t = 0
    · rw [hd, hz]
    · exfalso
      obtain ⟨b2, hb2, _⟩ := fa 0 t 0 (by omega) hd (by omega)
      omega
  refine ⟨?_, ?_, ?_, h0, ?_⟩
  · intro b hb
    obtain ⟨t, hd⟩ := hdef b hb
    exact ⟨t, hd, hmax b t hb hd⟩
  · have := hmax b0 _ hb0 hb0t
    exact ⟨b0, s.num_types - 1, hb0, hb0t, by omega⟩
  · intro id hid
    by_cases he : id = s.num_types - 1
    · exact ⟨b0, hb0, by rw [he]; exact hb0t⟩
    · obtain ⟨b2, hb2, hb2t⟩ := fa b0 _ id hb0 hb0t (by omega)
      exact ⟨b2, by omega, hb2t⟩
  · intro b hb hbn
    obtain ⟨t, hd⟩ := hdef b hbn
    by_cases hz : t = 0
    · exact ⟨t, 0, 0, hd, hb, h0, by omega⟩
    · obtain ⟨b2, hb2, hb2t⟩ := fa b t (t - 1) hbn hd (by omega)
      exact ⟨t, b2, t - 1, hd, hb2, hb2t, by omega⟩

/-- Claim C2 on five symbols in two runs, with collaborators that keep the two blocks in two
clusters: the split has the two blocks of types `0` and `1`, in the order of their first
appearance. -/
theorem ClusterBlocksDistance_types_compact_witness :
    ClusterBlocksDistance keepingCollab (fun i => i) 5 2
      (fun i => if i < 2 then 0 else 1) ⟨0, 0, [], []⟩ = some ⟨2, 2, [0, 1], [2, 3]⟩ ∧
    finalCombineDistance keepingCollab (fun i => i) 5 2 (fun i => if i < 2 then 0 else 1) =
      some (2, [0, 1], [0, 1]) ∧
    (∀ b, b < (⟨2, 2, [0, 1], [2, 3]⟩ : BlockSplit).num_blocks →
      ∃ t, (⟨2, 2, [0, 1], [2, 3]⟩ : BlockSplit).types[b]? = some t ∧
        t + 1 ≤ (⟨2, 2, [0, 1], [2, 3]⟩ : BlockSplit).num_types) ∧
    (∃ b t, b < (⟨2, 2, [0, 1], [2, 3]⟩ : BlockSplit).num_blocks ∧
      (⟨2, 2, [0, 1], [2, 3]⟩ : BlockSplit).types[b]? = some t ∧
      t + 1 = (⟨2, 2, [0, 1], [2, 3]⟩ : BlockSplit).num_types) ∧
    (∀ id, id < (⟨2, 2, [0, 1], [2, 3]⟩ : BlockSplit).num_types →
      ∃ b, b < (⟨2, 2, [0, 1], [2, 3]⟩ : BlockSplit).num_blocks ∧
        (⟨2, 2, [0, 1], [2, 3]⟩ : BlockSplit).types[b]? = some id) ∧
    (⟨2, 2, [0, 1], [2, 3]⟩ : BlockSplit).types[0]? = some 0 ∧
    (∀ b, 0 < b → b < (⟨2, 2, [0, 1], [2, 3]⟩ : BlockSplit).num_blocks →
      ∃ t b2 t2, (⟨2, 2, [0, 1], [2, 3]⟩ : BlockSplit).types[b]? = some t ∧ b2 < b ∧
        (⟨2, 2, [0, 1], [2, 3]⟩ : BlockSplit).types[b2]? = some t2 ∧ t ≤ t2 + 1) :=
  have hfc : finalCombineDistance keepingCollab (fun i => i) 5 2
      (fun i => if i < 2 then 0 else 1) = some (2, [0, 1], [0, 1]) := by decide
  ⟨by decide, hfc,
    (ClusterBlocksDistance_types_compact keepingCollab (fun i => i) 5 2
      (fun i => if i < 2 then 0 else 1) ⟨0, 0, [], []⟩ (by decide) (by decide)).2
      ⟨2, 2, [0, 1], [2, 3]⟩ (by decide)
      (by
        intro ret clusters symbols h
        rw [hfc] at h
        simp only [Option.some.injEq, Prod.mk.injEq] at h
        obtain ⟨e1, e2, e3⟩ := h
        subst e1 e2 e3
        exact ⟨by decide, fun j c hj hjc => ⟨j, hj, hjc⟩⟩)⟩

/-- Claim C2 as stated fails twice.  For `length = 0`, `block_ids` forms `num_blocks = 0` runs
and the combine collaborator returns one cluster, and `ClusterBlocksDistance` leaves
`num_types = 1` and `num_blocks = 0`, so the id `0` of `[0, num_types)` occurs in no block and
there is no `split.types[0]`.  And on a split whose `types` array holds `5, 5` from an earlier
use, for five symbols in two runs that are merged into one cluster it leaves one block of type
`0` and `num_types = 1`, while `split.types[0 .. num_blocks)` for the `num_blocks = 2` runs
still holds the `5`, so that `max(split.types[0 .. num_blocks)) + 1` is `6`. -/
theorem ClusterBlocksDistance_types_counterexample :
    (numRuns (fun _ => 0) 0 = 0 ∧
      finalCombineDistance mergingCollab (fun _ => 0) 0 0 (fun _ => 0) = some (1, [], []) ∧
      ClusterBlocksDistance mergingCollab (fun _ => 0) 0 0 (fun _ => 0) ⟨0, 0, [], []⟩ =
        some ⟨1, 0, [], []⟩ ∧
      ¬ (∀ id, id < (⟨1, 0, [], []⟩ : BlockSplit).num_types →
          ∃ b, b < (⟨1, 0, [], []⟩ : BlockSplit).num_blocks ∧
            (⟨1, 0, [], []⟩ : BlockSplit).types[b]? = some id)) ∧
    (numRuns (fun i => if i < 2 then 0 else 1) 5 = 2 ∧
      finalCombineDistance mergingCollab (fun i => i) 5 2 (fun i => if i < 2 then 0 else 1) =
        some (1, [0], [0, 0]) ∧
      ClusterBlocksDistance mergingCollab (fun i => i) 5 2 (fun i => if i < 2 then 0 else 1)
        ⟨0, 0, [5, 5], [0, 0]⟩ = some ⟨1, 1, [0, 5], [5, 0]⟩ ∧
      ¬ (∀ b, b < 2 → ∃ t, (⟨1, 1, [0, 5], [5, 0]⟩ : BlockSplit).types[b]? = some t ∧
          t + 1 ≤ (⟨1, 1, [0, 5], [5, 0]⟩ : BlockSplit).num_types)) := by
  refine ⟨⟨by decide, by decide, by decide, ?_⟩, ⟨by decide, by decide, by decide, ?_⟩⟩
  · intro h
    obtain ⟨b, hb, _⟩ := h 0 (by decide)
    exact Nat.not_lt_zero _ hb
  · intro h
    obtain ⟨t, ht, hle⟩ := h 1 (by decide)
    have e : t = 5 := (Option.some.inj ht).symm
    subst e
    exact absurd hle (by decide)

/-- Claim C30.  The split written by `ClusterBlocksDistance` is a proper run-length encoding:
for `block_ids` that form exactly `num_blocks` runs, after `ClusterBlocksDistance`, provided
the final assignment `histogram_symbols[0 .. num_blocks)` uses at most 256 distinct clusters
(so that the conversion of the renumbered index to a byte does not wrap), for every `b` with
`b + 1 < split.num_blocks` the types `split.types[b]` and `split.types[b + 1]` differ.  The
call returns when the combine collaborator answers in range on the in-range arrays it is
handed. -/
theorem ClusterBlocksDistance_adjacent_types_differ {κ : Type} (C : ClusterCollab κ)
    (data : Nat → Nat) (length num_blocks : Nat) (block_ids : Nat → Nat) (split : BlockSplit)
    (hruns : numRuns block_ids length = num_blocks) :
    (CombineInRange C →
      ∃ s, ClusterBlocksDistance C data length num_blocks block_ids split = some s) ∧
    ∀ s, ClusterBlocksDistance C data length num_blocks block_ids split = some s →
      (∀ hs, finalAssignmentDistance C data length num_blocks block_ids = some hs →
        hs.dedup.length ≤ 256) →
      ∀ b, b + 1 < s.num_blocks → ∃ t t2, s.types[b]? = some t ∧
        s.types[b + 1]? = some t2 ∧ t ≠ t2 := by
  refine ⟨fun hC => ClusterBlocksDistance_returns C hC data length num_blocks block_ids split
    hruns, ?_⟩
  intro s hrun h256
  by_cases h0 : length = 0
  · subst h0
    have hz : num_blocks = 0 := by rw [← hruns]; rfl
    subst hz
    obtain ⟨s2, hs2, hn⟩ := ClusterBlocksDistance_empty C data block_ids split
    rw [hrun] at hs2
    have e := Option.some.inj hs2
    subst e
    intro b hb
    rw [hn] at hb
    omega
  · obtain ⟨bl, nc, r, rs, es, _, _, _, hA, _, _⟩ :=
      cluster_run_parts C data length num_blocks block_ids split s hrun
    have hfa : finalAssignmentDistance C data length num_blocks block_ids =
        some (rs.histogram_symbols.take num_blocks) := by
      unfold finalAssignmentDistance
      rw [hA]
      rfl
    obtain ⟨_, _, _, _, _, hadj⟩ := cluster_types_spec C data length num_blocks
      block_ids split s (by omega) hruns hrun (rs.histogram_symbols.take num_blocks).dedup
      (h256 _ hfa)
      (by
        intro hs hhs c hc
        rw [hfa] at hhs
        have e := Option.some.inj hhs
        subst e
        exact List.mem_dedup.2 hc)
    exact hadj

/-- Claim C30 on five symbols in two runs, with collaborators that keep the two blocks in
two clusters: the final assignment is `0, 1` and the split has the two blocks of types `0` and
`1`. -/
theorem ClusterBlocksDistance_adjacent_types_differ_witness :
    ClusterBlocksDistance keepingCollab (fun i => i) 5 2
      (fun i => if i < 2 then 0 else 1) ⟨0, 0, [], []⟩ = some ⟨2, 2, [0, 1], [2, 3]⟩ ∧
    finalAssignmentDistance keepingCollab (fun i => i) 5 2
      (fun i => if i < 2 then 0 else 1) = some [0, 1] ∧
    ∀ b, b + 1 < (⟨2, 2, [0, 1], [2, 3]⟩ : BlockSplit).num_blocks →
      ∃ t t2, (⟨2, 2, [0, 1], [2, 3]⟩ : BlockSplit).types[b]? = some t ∧
        (⟨2, 2, [0, 1], [2, 3]⟩ : BlockSplit).types[b + 1]? = some t2 ∧ t ≠ t2 :=
  have hfa : finalAssignmentDistance keepingCollab (fun i => i) 5 2
      (fun i => if i < 2 then 0 else 1) = some [0, 1] := by decide
  ⟨by decide, hfa,
    (ClusterBlocksDistance_adjacent_types_differ keepingCollab (fun i => i) 5 2
      (fun i => if i < 2 then 0 else 1) ⟨0, 0, [], []⟩ (by decide)).2
      ⟨2, 2, [0, 1], [2, 3]⟩ (by decide)
      (by
        intro hs h
        rw [hfa] at h
        have e := Option.some.inj h
        subst e
        decide)⟩

theorem h5BucketLoop_eq_foldl {Γ : Type} (K : HasherCollab Γ) (self : H5) (data : Nat → Nat)
    (mask cur_ix cur_ix_masked max_length max_backward base : Nat) :
    ∀ (steps i : Nat) (st : SearchStateH5),
      h5BucketLoop K self data mask cur_ix cur_ix_masked max_length max_backward base steps i st
        = (h5WalkLinks self cur_ix max_backward base steps i).foldl
            (fun st q => h5Examine K data mask cur_ix_masked max_length q (usub cur_ix q) st)
            st := by
  intro steps
  induction steps with
  | zero => intro i st; rfl
  | succ n ih =>
    intro i st
    simp only [h5BucketLoop, h5WalkLinks]
    by_cases hb : usub cur_ix (self.buckets (base + (u32 (i - 1) &&& self.block_mask_)))
        > max_backward
    · rw [if_pos hb, if_pos hb]
      rfl
    · rw [if_neg hb, if_neg hb, List.foldl_cons]
      simp only [ih]
      conv_rhs => arg 2; simp only [h5Examine]
      split <;> rfl

theorem FindLongestMatchH5_eq_examined {Γ : Type} (K : HasherCollab Γ) (self : H5)
    (common : Γ) (data : Nat → Nat) (mask : Nat) (dc : Nat → Int)
    (cur_ix max_length max_backward gap max_distance : Nat) (out : HasherSearchResult) :
    (FindLongestMatchH5 K self common data mask dc cur_ix max_length max_backward gap
        max_distance out).2.2 =
      (if out.score = ((examinedH5 K self data mask cur_ix max_backward).foldl
            (fun st q => h5Examine K data mask (cur_ix &&& mask) max_length q (usub cur_ix q)
              st)
            (cacheSearchH5 K self data mask dc cur_ix max_length max_backward out)).out.score
        then K.SearchInStaticDictionary common data (cur_ix &&& mask) max_length
          (u64 (max_backward + gap)) max_distance
          ((examinedH5 K self data mask cur_ix max_backward).foldl
            (fun st q => h5Examine K data mask (cur_ix &&& mask) max_length q (usub cur_ix q)
              st)
            (cacheSearchH5 K self data mask dc cur_ix max_length max_backward out)).out false
        else (common,
          ((examinedH5 K self data mask cur_ix max_backward).foldl
            (fun st q => h5Examine K data mask (cur_ix &&& mask) max_length q (usub cur_ix q)
              st)
            (cacheSearchH5 K self data mask dc cur_ix max_length max_backward out)).out)).2 := by
  simp only [FindLongestMatchH5, examinedH5, cacheSearchH5, h5BucketLoop_eq_foldl]

theorem examinedH5_of_ringTop {Γ : Type} (K : HasherCollab Γ) (s : H5)
    (data : Nat → Nat) (cur_ix mask max_backward n p : Nat) (hs : SizedH5 s)
    (hT : RingTop s (HashBytesH5 K data (cur_ix &&& mask) 17) n p)
    (hb : ¬ usub cur_ix p > max_backward) :
    ∃ rest, examinedH5 K s data mask cur_ix max_backward = p :: rest := by
  obtain ⟨hsh, _, _, hbs⟩ := hs
  obtain ⟨t1, t2, t3, t4⟩ := hT
  unfold examinedH5
  simp only [hsh, t1, hbs]
  have hd : n - (if n > 16 then n - 16 else 0) = (n - (if n > 16 then n - 16 else 0) - 1) + 1 := by
    split <;> omega
  rw [hd]
  simp only [h5WalkLinks]
  rw [t4, if_neg hb]
  exact ⟨_, rfl⟩


/-- Claim C13, amended.  For H5 with `bucket_bits = 15` and `block_bits = 4` and the scoring
of the Brotli reference encoder: after `PrepareH5` and `StoreH5` at positions `0, 1, 2, 3` of a
buffer whose first eight bytes are `abcdabcd` (the ring-buffer mask leaves the positions
`0 .. 7` of the buffer as they are), `FindLongestMatchH5` at `cur_ix = 4` with
`max_backward >= 4`, `max_length = 4`, any distance cache, and `out` initialised to `len = 0`
and the minimum score `2020` returns `out.distance = 4` and `out.len = 4`.  More generally,
for any scoring: after `StoreH5` at a position `p < 2^32` whose ring counted fewer than `65535`
entries, and calls for other keys, `FindLongestMatchH5` at a later `cur_ix` (a `uint`) with the
key of `p` and `cur_ix - p <= max_backward` examines `p` as a candidate: `p` is the first link
its walk down the ring reads, and the `out` it returns is the one obtained by examining `p` at
the distance `cur_ix - p` after the candidates of the distance cache, then the remaining links
of the walk, then the static dictionary when the score has not changed. -/
theorem FindLongestMatchH5_examines_latest {Γ : Type} (K : HasherCollab Γ)
    (nldc : Int) (one_shot : Bool) (input_size : Nat) (data0 data : Nat → Nat) (mask : Nat)
    (distance_cache : Nat → Int) (max_backward gap max_distance : Nat)
    (out : HasherSearchResult)
    (s : H5) (common : Γ) (data2 : Nat → Nat) (mask2 p : Nat) (calls : List HasherCall)
    (data3 : Nat → Nat) (mask3 cur_ix max_backward3 : Nat)
    (hdata : ∀ i, i < 8 → data i = abcdInput i) (hmask : ∀ i, i < 8 → i &&& mask = i)
    (hmb : 4 ≤ max_backward) (hlen : out.len = 0) (hscore : out.score = 2020)
    (hs : SizedH5 s) (hnum : s.num (HashBytesH5 K data2 (p &&& mask2) 17) < 2 ^ 16 - 1)
    (hp : p < 2 ^ 32) (hlater : p < cur_ix) (hcur : cur_ix < 2 ^ 64)
    (hback : cur_ix - p ≤ max_backward3)
    (hkey : HashBytesH5 K data3 (cur_ix &&& mask3) 17 = HashBytesH5 K data2 (p &&& mask2) 17)
    (hcalls : ∀ c ∈ calls, c.keyH5 K 17 ≠ HashBytesH5 K data2 (p &&& mask2) 17) :
    ((FindLongestMatchH5 referenceCollab
        (StoreH5 referenceCollab (StoreH5 referenceCollab (StoreH5 referenceCollab
          (StoreH5 referenceCollab
            (PrepareH5 referenceCollab (InitializeH5 15 4 nldc) one_shot input_size data0)
            data mask 0) data mask 1) data mask 2) data mask 3)
        () data mask distance_cache 4 4 max_backward gap max_distance out).2.2.distance = 4 ∧
     (FindLongestMatchH5 referenceCollab
        (StoreH5 referenceCollab (StoreH5 referenceCollab (StoreH5 referenceCollab
          (StoreH5 referenceCollab
            (PrepareH5 referenceCollab (InitializeH5 15 4 nldc) one_shot input_size data0)
            data mask 0) data mask 1) data mask 2) data mask 3)
        () data mask distance_cache 4 4 max_backward gap max_distance out).2.2.len = 4) ∧
    ∀ (distance_cache3 : Nat → Int) (max_length3 gap3 max_distance3 : Nat)
      (out3 : HasherSearchResult),
      ∃ rest,
        examinedH5 K (runH5 K (StoreH5 K s data2 mask2 p, common) calls).1.1 data3 mask3
          cur_ix max_backward3 = p :: rest ∧
        (FindLongestMatchH5 K (runH5 K (StoreH5 K s data2 mask2 p, common) calls).1.1
          (runH5 K (StoreH5 K s data2 mask2 p, common) calls).1.2 data3 mask3
          distance_cache3 cur_ix max_length3 max_backward3 gap3 max_distance3 out3).2.2 =
          (if out3.score = (rest.foldl
                (fun st q => h5Examine K data3 mask3 (cur_ix &&& mask3) max_length3 q
                  (usub cur_ix q) st)
                (h5Examine K data3 mask3 (cur_ix &&& mask3) max_length3 p (cur_ix - p)
                  (cacheSearchH5 K (runH5 K (StoreH5 K s data2 mask2 p, common) calls).1.1
                    data3 mask3 distance_cache3 cur_ix max_length3 max_backward3
                    out3))).out.score
            then K.SearchInStaticDictionary
              (runH5 K (StoreH5 K s data2 mask2 p, common) calls).1.2 data3
              (cur_ix &&& mask3) max_length3 (u64 (max_backward3 + gap3)) max_distance3
              (rest.foldl
                (fun st q => h5Examine K data3 mask3 (cur_ix &&& mask3) max_length3 q
                  (usub cur_ix q) st)
                (h5Examine K data3 mask3 (cur_ix &&& mask3) max_length3 p (cur_ix - p)
                  (cacheSearchH5 K (runH5 K (StoreH5 K s data2 mask2 p, common) calls).1.1
                    data3 mask3 distance_cache3 cur_ix max_length3 max_backward3
                    out3))).out false
            else ((runH5 K (StoreH5 K s data2 mask2 p, common) calls).1.2,
              (rest.foldl
                (fun st q => h5Examine K data3 mask3 (cur_ix &&& mask3) max_length3 q
                  (usub cur_ix q) st)
                (h5Examine K data3 mask3 (cur_ix &&& mask3) max_length3 p (cur_ix - p)
                  (cacheSearchH5 K (runH5 K (StoreH5 K s data2 mask2 p, common) calls).1.1
                    data3 mask3 distance_cache3 cur_ix max_length3 max_backward3
                    out3))).out)).2 := by
  refine ⟨?_, ?_⟩
  · obtain ⟨h1, h2⟩ := ringTop_abcd nldc one_shot input_size data0 data mask hdata hmask
    exact find_abcd _ () data mask distance_cache max_backward gap max_distance out hdata
      hmask hmb h1 h2 hlen hscore
  · intro distance_cache3 max_length3 gap3 max_distance3 out3
    have hT := ringTop_StoreH5 K s data2 mask2 p hs hnum
    rw [u32_of_lt p hp] at hT
    obtain ⟨hs2, hT2⟩ := ringTop_runH5 K _ _ p (hashH5_lt_15 K data2 _) calls
      (StoreH5 K s data2 mask2 p, common) hs hcalls hT
    rw [← hkey] at hT2
    have hsub : usub cur_ix p = cur_ix - p := by
      unfold usub
      norm_num at hcur ⊢
      omega
    obtain ⟨rest, hrest⟩ := examinedH5_of_ringTop K _ data3 cur_ix mask3 max_backward3 _ p
      hs2 hT2 (by rw [hsub]; omega)
    refine ⟨rest, hrest, ?_⟩
    rw [FindLongestMatchH5_eq_examined, hrest, List.foldl_cons, hsub]

/-- Claim C13 on `abcdabcd` with the mask `0xFFFF`: the search at 4 returns the distance 4, and
after stores at 0 and 1 the walk at 4 reads 0 first. -/
theorem FindLongestMatchH5_examines_latest_witness :
    ((FindLongestMatchH5 referenceCollab
        (StoreH5 referenceCollab (StoreH5 referenceCollab (StoreH5 referenceCollab
          (StoreH5 referenceCollab
            (PrepareH5 referenceCollab (InitializeH5 15 4 4) false 0 abcdInput)
            abcdInput 0xFFFF 0) abcdInput 0xFFFF 1) abcdInput 0xFFFF 2) abcdInput 0xFFFF 3)
        () abcdInput 0xFFFF (fun _ => 16) 4 4 4 0 0 initialSearchResult).2.2.distance = 4 ∧
     (FindLongestMatchH5 referenceCollab
        (StoreH5 referenceCollab (StoreH5 referenceCollab (StoreH5 referenceCollab
          (StoreH5 referenceCollab
            (PrepareH5 referenceCollab (InitializeH5 15 4 4) false 0 abcdInput)
            abcdInput 0xFFFF 0) abcdInput 0xFFFF 1) abcdInput 0xFFFF 2) abcdInput 0xFFFF 3)
        () abcdInput 0xFFFF (fun _ => 16) 4 4 4 0 0 initialSearchResult).2.2.len = 4) ∧
    ∃ rest, examinedH5 referenceCollab
      (runH5 referenceCollab
        (StoreH5 referenceCollab
          (PrepareH5 referenceCollab (InitializeH5 15 4 4) false 0 abcdInput) abcdInput
          0xFFFF 0, ())
        [HasherCall.store abcdInput 0xFFFF 1]).1.1 abcdInput 0xFFFF 4 4 = 0 :: rest :=
  have h := FindLongestMatchH5_examines_latest referenceCollab 4 false 0 abcdInput abcdInput
    0xFFFF (fun _ => 16) 4 0 0 initialSearchResult
    (PrepareH5 referenceCollab (InitializeH5 15 4 4) false 0 abcdInput) () abcdInput 0xFFFF 0
    [HasherCall.store abcdInput 0xFFFF 1] abcdInput 0xFFFF 4 4
    (fun _ _ => rfl) (by decide) (by decide) rfl rfl
    (sizedH5_prepare referenceCollab 4 false 0 abcdInput)
    (by rw [num_PrepareH5_InitializeH5]; decide) (by decide) (by decide) (by decide)
    (by decide) (by decide)
    (by
      intro c hc
      rw [List.mem_singleton] at hc
      subst hc
      decide)
  ⟨h.1, Exists.imp (fun _ hr => hr.1) (h.2 (fun _ => 16) 4 0 0 initialSearchResult)⟩

/-- Claim C13 as stated fails.  The position `p = 2^32` is stored as `uint32(p) = 0`: at
`cur_ix = 2^32 + 4` with `max_backward = 4`, the key of `p` and four common bytes, the walk of
`FindLongestMatchH5` finds the link `0` further away than `max_backward` and ends, it examines
no candidate, and `out` is as it was.  And a store into a ring that counts `65535` entries
wraps `num[key]` to `0`: the walk at `cur_ix = 4` after the store at `0` does not run at all,
and `out` is as it was. -/
theorem FindLongestMatchH5_examines_latest_counterexample :
    (HashBytesH5 referenceCollab abcdInput (4294967300 &&& 0xFFFF) 17 =
        HashBytesH5 referenceCollab abcdInput (4294967296 &&& 0xFFFF) 17 ∧
      FindMatchLengthWithLimit abcdInput (4294967300 &&& 0xFFFF) (4294967296 &&& 0xFFFF) 4
        = 4 ∧
      examinedH5 referenceCollab
        (StoreH5 referenceCollab
          (PrepareH5 referenceCollab (InitializeH5 15 4 4) false 0 abcdInput) abcdInput
          0xFFFF 4294967296) abcdInput 0xFFFF 4294967300 4 = [] ∧
      (FindLongestMatchH5 referenceCollab
        (StoreH5 referenceCollab
          (PrepareH5 referenceCollab (InitializeH5 15 4 4) false 0 abcdInput) abcdInput
          0xFFFF 4294967296)
        () abcdInput 0xFFFF (fun _ => 16) 4294967300 4 4 0 0 initialSearchResult).2.2 =
        { initialSearchResult with len := 0 }) ∧
    (HashBytesH5 referenceCollab abcdInput (4 &&& 0xFFFF) 17 =
        HashBytesH5 referenceCollab abcdInput (0 &&& 0xFFFF) 17 ∧
      FindMatchLengthWithLimit abcdInput (4 &&& 0xFFFF) (0 &&& 0xFFFF) 4 = 4 ∧
      examinedH5 referenceCollab
        (StoreH5 referenceCollab { InitializeH5 15 4 4 with num := fun _ => 65535 } abcdInput
          0xFFFF 0) abcdInput 0xFFFF 4 4 = [] ∧
      (FindLongestMatchH5 referenceCollab
        (StoreH5 referenceCollab { InitializeH5 15 4 4 with num := fun _ => 65535 } abcdInput
          0xFFFF 0)
        () abcdInput 0xFFFF (fun _ => 16) 4 4 4 0 0 initialSearchResult).2.2 =
        { initialSearchResult with len := 0 }) := by
  decide

theorem InitialEntropyCodesDistance_spec {κ : Type} (C : SplitCollab κ) (data : Nat → Nat)
    (data_len length stride num_histograms : Nat) (histograms : List (HistogramDistance κ))
    (h1 : 1 ≤ num_histograms) (hs : stride < length) (hlen : length < 2 ^ 62)
    (hdl : length ≤ data_len)
    (hb : num_histograms = 1 ∨ u32 (length / num_histograms) ≠ 0)
    (hsz : num_histograms ≤ histograms.length) :
    ∃ hs2, InitialEntropyCodesDistance C data data_len length stride num_histograms
        histograms = some hs2 ∧
      hs2.length = histograms.length ∧
      ∀ i, i < num_histograms → ∃ pos, pos + stride ≤ length ∧
        hs2[i]? = some (HistogramAddVectorDistance (HistogramClearDistance C.huge)
          (fun j => data (pos + j)) stride) := by
  unfold InitialEntropyCodesDistance
  have hd : udiv length num_histograms = some (length / num_histograms) := by
    unfold udiv
    rw [if_neg (by omega)]
  obtain ⟨hs0, hc, hl0, hcl⟩ := clear_spec C.huge histograms num_histograms hsz
  rw [hd, Option.some_bind, hc, Option.some_bind]
  have h := forLoop_inv (fun i (st : Nat × List (HistogramDistance κ)) =>
      (initialEntropyPos C length stride num_histograms (length / num_histograms) i
        st.1).bind fun ps =>
      (st.2[i]?).bind fun h =>
      if ps.1 + stride ≤ data_len then
        (setAt st.2 i (HistogramAddVectorDistance h (fun k => data (ps.1 + k)) stride)).bind
          fun hs => some (ps.2, hs)
      else none)
    (SeededBelow C.huge data length stride num_histograms histograms.length)
    num_histograms 0 (7, hs0)
    ⟨hl0, fun k hk => absurd hk (Nat.not_lt_zero _), fun k _ hk => hcl k hk⟩
    (by
      intro i st _ hi hP
      obtain ⟨hl, hdone, htodo⟩ := hP
      obtain ⟨ps, hps, hle⟩ := initialEntropyPos_spec C length stride num_histograms i st.1
        h1 (by omega) hs hlen hb
      have hget := htodo i (Nat.le_refl _) (by omega)
      refine ⟨(ps.2, st.2.set i (HistogramAddVectorDistance (HistogramClearDistance C.huge)
        (fun k => data (ps.1 + k)) stride)), ?_, ?_, ?_, ?_⟩
      · simp only [hps, Option.some_bind, hget]
        rw [if_pos (by omega), setAt_eq_some _ _ _ (by omega)]
        rfl
      · simp only [List.length_set]
        exact hl
      · intro k hk
        by_cases hki : k = i
        · subst hki
          refine ⟨ps.1, hle, ?_⟩
          simp only
          rw [List.getElem?_set_self (by omega)]
        · obtain ⟨pos, hp1, hp2⟩ := hdone k (by omega)
          refine ⟨pos, hp1, ?_⟩
          simp only
          rw [List.getElem?_set_ne (fun e => hki e.symm)]
          exact hp2
      · intro k hk1 hk2
        simp only
        rw [List.getElem?_set_ne (by omega)]
        exact htodo k (by omega) hk2)
  obtain ⟨st2, hrun, hl2, hdone2, _⟩ := h
  rw [hrun, Option.some_bind]
  refine ⟨st2.2, rfl, hl2, ?_⟩
  intro i hi
  exact hdone2 i (by omega)

/-- For a stride below the length the seeding stays in bounds: for `length < 2^62` inside the
slice `data`, `stride < length` and `1 <= num_histograms <= length` whose block length
`length / num_histograms` is not a multiple of `2^32` (or `num_histograms = 1`),
`InitialEntropyCodesDistance` returns, and it has added to each of the `num_histograms`
histograms exactly the `stride` symbols `data[pos .. pos + stride)` of a `pos` with
`pos + stride <= length`. -/
theorem InitialEntropyCodesDistance_below_length {κ : Type} (C : SplitCollab κ)
    (data : Nat → Nat) (data_len length stride num_histograms : Nat)
    (histograms : List (HistogramDistance κ))
    (h1 : 1 ≤ num_histograms) (_h2 : num_histograms ≤ length) (hs : stride < length)
    (hlen : length < 2 ^ 62) (hdl : length ≤ data_len)
    (hb : num_histograms = 1 ∨ u32 (length / num_histograms) ≠ 0)
    (hsz : num_histograms ≤ histograms.length) :
    ∃ hs2, InitialEntropyCodesDistance C data data_len length stride num_histograms
        histograms = some hs2 ∧
      hs2.length = histograms.length ∧
      ∀ i, i < num_histograms → ∃ pos h, hs2[i]? = some h ∧ pos + stride ≤ length ∧
        (∀ j, j < stride → pos + j < length) ∧
        h = HistogramAddVectorDistance (HistogramClearDistance C.huge)
          (fun j => data (pos + j)) stride ∧
        h.total_count_ = stride ∧
        ∀ s, h.data_ s = (List.range stride).countP (fun j => decide (data (pos + j) = s)) := by
  obtain ⟨hs2, e, hl, hall⟩ := InitialEntropyCodesDistance_spec C data data_len length stride
    num_histograms histograms h1 hs hlen hdl hb hsz
  refine ⟨hs2, e, hl, ?_⟩
  intro i hi
  obtain ⟨pos, hp, hget⟩ := hall i hi
  obtain ⟨a1, a2⟩ := addVector_spec (HistogramClearDistance C.huge) (fun j => data (pos + j))
    stride
  refine ⟨pos, _, hget, hp, fun j hj => by omega, rfl, ?_, ?_⟩
  · rw [a1]
    simp [HistogramClearDistance]
  · intro s
    rw [a2]
    simp [HistogramClearDistance]

/-- Claim C27.  `InitialEntropyCodesDistance` does not stay in bounds for `stride >= length`:
with `length = 4`, `stride = 4`, one histogram and a slice `data` of four symbols,
`pos + stride >= length` holds at `pos = 0`, the clamp `pos = length - stride - 1` of lines
20-22 wraps around to `2^64 - 1`, and the slice expression `data[pos:]` of line 24 is out of
range: the call does not return.  `RandomSampleDistance` (lines 30-32) tests
`stride >= length` before the same computation and adds the four symbols `data[0 .. 4)`. -/
theorem InitialEntropyCodesDistance_stride_not_below_length :
    (1 ≤ 1 ∧ 1 ≤ 4) ∧
    initialEntropyPos trivialSplitCollab 4 4 1 (4 / 1) 0 7 = some (2 ^ 64 - 1, 7) ∧
    ¬ (2 ^ 64 - 1 + 4 ≤ 4) ∧
    (InitialEntropyCodesDistance trivialSplitCollab onesInsideFour 4 4 4 1
      [HistogramClearDistance 0]).isNone = true ∧
    (RandomSampleDistance trivialSplitCollab 7 onesInsideFour 4 4 4
      (HistogramClearDistance 0)).map (fun r => (r.2.total_count_, r.2.data_ 1)) =
      some (4, 4) := by
  decide

end Brotli
